import Mathlib

/-!
This Space Of Mine: server core.

A shallow embedding of the server core of the repository (tick driver, player
pool, session handshake, voxel chunks, chunk deformation, chunk entity manager)
together with the properties proved about it.

Conventions of the embedding.

* `unsigned int` and `Nz::UInt16` are natural numbers reduced modulo `2^32`
  and `2^16` after every arithmetic operation.
* `Nz::Time` is a signed 64-bit count of nanoseconds: an integer reduced to
  the range of `Nz::Int64` (`i64`) after every arithmetic operation.
* A finite `float` is the rational number it denotes; every `float` operation
  is the exact operation followed by a rounding function, a parameter of the
  embedding (`FloatArith`) whose instance `binary32` is IEEE 754 single
  precision with an unbounded exponent range, faithful as long as no result
  leaves the normal range of the format.
* A C++ operation whose behaviour is undefined (indexing a vector out of its
  bounds, retrieving a freed pool slot) returns `none`.
* Calls made on objects that live outside the embedded sources
  (`NetworkSession`, `RigidBody3DComponent`) are recorded, in program order,
  in a trace carried by the state.
* Console logging (`fmt::print`) is not embedded.
-/

set_option autoImplicit false

namespace tsom

/-! ## Basic types -/

/-- Reduction of an integer to the range of `Nz::Int64` (two's complement):
the value stored by a 64-bit signed computation whose exact result is the
argument. The C++ language leaves signed overflow undefined; the compiled code
wraps, which is what is embedded. -/
def i64 (x : Int) : Int :=
  (x + 9223372036854775808) % 18446744073709551616 - 9223372036854775808

/-- The constant `Nz::Time::Zero()`; a `Nz::Time` is a signed 64-bit count of
nanoseconds. -/
def Time.Zero : Int := 0

/-- The constructor `Nz::Time::Milliseconds(ms)`. -/
def Time.Milliseconds (ms : Int) : Int := i64 (ms * 1000000)

/-- Index of a player in the player pool (`PlayerIndex.hpp` is outside the
embedded sources; `Nz::SafeCast<PlayerIndex>` is the identity on every value
that fits the type). -/
abbrev PlayerIndex := Nat

/-- Identity of a `NetworkSession` object (a pointer in the source). -/
abbrev SessionId := Nat

/-- Error codes of `AuthResponse`, as `enum class AuthError`. -/
inductive AuthError
  | ProtocolError
  | ServerIsOutdated
  | UpgradeRequired
  deriving DecidableEq, Repr

/-- The type `Nz::Result<void, AuthError>`. -/
inductive AuthResult
  | Ok
  | Err (err : AuthError)
  deriving DecidableEq, Repr

/-- Server-to-client packets sent by the embedded code. The field
`ownPlayerIndex` of `AuthResponse` is `none` when the source leaves it
unassigned. -/
inductive Packet
  | AuthResponse (authResult : AuthResult) (ownPlayerIndex : Option PlayerIndex)
  | PlayerLeave (index : PlayerIndex)
  | PlayerJoin (index : PlayerIndex) (nickname : String)
  | GameData (tickIndex : Nat) (players : List (PlayerIndex × String))
  deriving DecidableEq, Repr

/-- Severity of a disconnection: the enumerators of `DisconnectionType` used
by the embedded sources (`Kick` closes at once, `Later` closes once the queued
packets are sent). -/
inductive DisconnectionType
  | Kick
  | Later
  deriving DecidableEq, Repr

/-- A call made on a `NetworkSession` object. -/
inductive SessionCall
  | SendPacket (packet : Packet)
  | Disconnect (type : DisconnectionType)
  | SetProtocolVersion (version : Nat)
  | SetupPlayerSessionHandler (player : PlayerIndex)
  deriving DecidableEq, Repr

/-! ## Nz::Bitset -/

/-- Dynamic bitset `Nz::Bitset<>` of the Nazara library: bit `i` is the `i`-th
entry, absent entries are unset. -/
abbrev Bitset := List Bool

/-- Test of a bit that may lie beyond the size: `Bitset::UnboundedTest`. -/
def Bitset.UnboundedTest (b : Bitset) (i : Nat) : Bool :=
  b.getD i false

/-- Set a bit, growing the bitset when needed: `Bitset::UnboundedSet`. -/
def Bitset.UnboundedSet (b : Bitset) (i : Nat) : Bitset :=
  (b ++ List.replicate (i + 1 - b.length) false).set i true

/-- Reset a bit when it lies within the size: `Bitset::UnboundedReset`. -/
def Bitset.UnboundedReset (b : Bitset) (i : Nat) : Bitset :=
  b.set i false

/-- The empty bitset left by `Bitset::Clear`. -/
def Bitset.Clear : Bitset := []

/-- Indices of the set bits in increasing order: `Bitset::IterBits`. -/
def Bitset.IterBits (b : Bitset) : List Nat :=
  (List.range b.length).filter (fun i => b.getD i false)

/-! ## Nz::MemoryPool -/

/-- Slot-reusing pool `Nz::MemoryPool<T>` of the Nazara library: slot `i`
holds an object or is free. Slots beyond the list are free. -/
abbrev MemoryPool (α : Type) := List (Option α)

/-- Index of the first free slot (the length when every slot is occupied). -/
def MemoryPool.firstFree {α : Type} : MemoryPool α → Nat
  | [] => 0
  | none :: _ => 0
  | some _ :: rest => MemoryPool.firstFree rest + 1

/-- Deferred allocation followed by construction: the first free slot is
reserved and the object built from its index is stored there. -/
def MemoryPool.Allocate {α : Type} (pool : MemoryPool α) (construct : Nat → α) :
    MemoryPool α × Nat :=
  let index := MemoryPool.firstFree pool
  (if index < pool.length then pool.set index (some (construct index))
   else pool ++ [some (construct index)], index)

/-- Object stored at an index; `none` when the slot is free. -/
def MemoryPool.RetrieveFromIndex {α : Type} (pool : MemoryPool α) (i : Nat) : Option α :=
  pool.getD i none

/-- Release of a slot: `MemoryPool::Free`. -/
def MemoryPool.Free {α : Type} (pool : MemoryPool α) (i : Nat) : MemoryPool α :=
  pool.set i none

/-- Live objects in index order, as visited by the pool iterator. -/
def MemoryPool.entries {α : Type} (pool : MemoryPool α) : List α :=
  pool.filterMap id

/-! ## ServerPlayer and ServerInstance -/

/-- The fields of `ServerPlayer` set by its constructor. The visibility
handler, input queue and environments belong to sources outside the
embedding. -/
structure ServerPlayer where
  m_nickname : String
  m_session : Option SessionId
  m_playerIndex : PlayerIndex
  deriving DecidableEq, Repr

/-- Accessor `ServerPlayer::GetNickname`. -/
def ServerPlayer.GetNickname (p : ServerPlayer) : String := p.m_nickname

/-- Accessor `ServerPlayer::GetPlayerIndex`. -/
def ServerPlayer.GetPlayerIndex (p : ServerPlayer) : PlayerIndex := p.m_playerIndex

/-- Accessor `ServerPlayer::GetSession`. -/
def ServerPlayer.GetSession (p : ServerPlayer) : Option SessionId := p.m_session

/-- State of `ServerInstance`: the player pool, the two per-tick bitsets, the
tick accumulator, duration and index, the pause flag, and the trace of the
calls made on network sessions. -/
structure ServerInstance where
  m_disconnectedPlayers : Bitset
  m_newPlayers : Bitset
  m_players : MemoryPool ServerPlayer
  m_tickAccumulator : Int
  m_tickDuration : Int
  m_tickIndex : Nat
  m_pauseWhenEmpty : Bool
  sessionCalls : List (SessionId × SessionCall)
  deriving DecidableEq, Repr

/-- Send a packet to every live player that has a session (the body shared by
the `ForEachPlayer` loops that broadcast). -/
def broadcast (players : List ServerPlayer) (keep : ServerPlayer → Bool) (packet : Packet) :
    List (SessionId × SessionCall) :=
  (players.filter keep).filterMap
    (fun p => (p.GetSession).map (fun session => (session, SessionCall.SendPacket packet)))

/-- Creation of a player: `ServerInstance::CreatePlayer`. Returns the new
state and the created player. The chunk visibility set-up acts on the
visibility handler only. -/
def ServerInstance.CreatePlayer (s : ServerInstance) (session : Option SessionId)
    (nickname : String) : ServerInstance × ServerPlayer :=
  let alloc := MemoryPool.Allocate s.m_players
    (fun playerIndex => ({ m_nickname := nickname, m_session := session,
                           m_playerIndex := playerIndex } : ServerPlayer))
  let playerIndex := alloc.2
  ({ s with m_players := alloc.1,
            m_newPlayers := Bitset.UnboundedSet s.m_newPlayers playerIndex },
   { m_nickname := nickname, m_session := session, m_playerIndex := playerIndex })

/-- Destruction of a player: `ServerInstance::DestroyPlayer`; `none` when the
slot retrieved is free. -/
def ServerInstance.DestroyPlayer (s : ServerInstance) (playerIndex : PlayerIndex) :
    Option ServerInstance :=
  match MemoryPool.RetrieveFromIndex s.m_players playerIndex with
  | none => none
  | some _ =>
    some { s with
      m_disconnectedPlayers := Bitset.UnboundedSet s.m_disconnectedPlayers playerIndex,
      m_newPlayers := Bitset.UnboundedReset s.m_newPlayers playerIndex,
      m_players := MemoryPool.Free s.m_players playerIndex }

/-- First loop of `OnNetworkTick`: one `PlayerLeave` per disconnected index,
sent to every live player with a session. -/
def ServerInstance.handleDisconnected (s : ServerInstance) : ServerInstance :=
  { s with
    sessionCalls := s.sessionCalls ++
      (Bitset.IterBits s.m_disconnectedPlayers).flatMap
        (fun playerIndex => broadcast (MemoryPool.entries s.m_players) (fun _ => true)
          (Packet.PlayerLeave playerIndex)),
    m_disconnectedPlayers := Bitset.Clear }

/-- Body of the second loop of `OnNetworkTick` for one newly connected index:
`PlayerJoin` to the players that are not themselves new, then `GameData` to
the new player when it has a session. -/
def ServerInstance.handleNewPlayer (s : ServerInstance) (playerIndex : Nat) :
    Option ServerInstance :=
  match MemoryPool.RetrieveFromIndex s.m_players playerIndex with
  | none => none
  | some player =>
    let joins := broadcast (MemoryPool.entries s.m_players)
      (fun p => !(Bitset.UnboundedTest s.m_newPlayers p.GetPlayerIndex))
      (Packet.PlayerJoin playerIndex player.GetNickname)
    let gameData : List (SessionId × SessionCall) :=
      match player.GetSession with
      | none => []
      | some session =>
        [(session, SessionCall.SendPacket (Packet.GameData s.m_tickIndex
          ((MemoryPool.entries s.m_players).map
            (fun p => (p.GetPlayerIndex, p.GetNickname)))))]
    some { s with sessionCalls := s.sessionCalls ++ joins ++ gameData }

/-- The network-dispatch phase: `ServerInstance::OnNetworkTick`. The final
visibility dispatch acts on the visibility handlers only. -/
def ServerInstance.OnNetworkTick (s : ServerInstance) : Option ServerInstance :=
  let s1 := s.handleDisconnected
  match (Bitset.IterBits s1.m_newPlayers).foldlM ServerInstance.handleNewPlayer s1 with
  | none => none
  | some s2 => some { s2 with m_newPlayers := Bitset.Clear }

/-- One simulation tick: `ServerInstance::OnTick`. The tick index is a
`Nz::UInt16`. Player and environment ticks act on state outside the
embedding. -/
def ServerInstance.OnTick (s : ServerInstance) (_elapsedTime : Int) : Option ServerInstance :=
  ServerInstance.OnNetworkTick { s with m_tickIndex := (s.m_tickIndex + 1) % 65536 }

/-- Result of `Update`: the returned scheduling hint, the state left behind,
and the number of calls of `OnTick` that were made. -/
structure UpdateResult where
  hint : Int
  state : ServerInstance
  ticks : Nat
  deriving DecidableEq, Repr

/-- The loop `while (m_tickAccumulator >= m_tickDuration)` of `Update`, with
the number of iterations it may still start. Returns `none` when an iteration
fails or when the iterations run out. -/
def ServerInstance.tickLoop : Nat → ServerInstance → Option (ServerInstance × Nat)
  | fuel, s =>
    if s.m_tickAccumulator ≥ s.m_tickDuration then
      match fuel with
      | 0 => none
      | fuel + 1 =>
        match s.OnTick s.m_tickDuration with
        | none => none
        | some s1 =>
          match ServerInstance.tickLoop fuel
              { s1 with
                m_tickAccumulator := i64 (s1.m_tickAccumulator - s1.m_tickDuration) } with
          | none => none
          | some (s2, n) => some (s2, n + 1)
    else some (s, 0)

/-- The tick driver `ServerInstance::Update`, after the save clock and the
session managers have been polled. -/
def ServerInstance.Update (fuel : Nat) (s : ServerInstance) (elapsedTime : Int) :
    Option UpdateResult :=
  if s.m_pauseWhenEmpty && (MemoryPool.entries s.m_players).isEmpty then
    some { hint := Time.Milliseconds 100, state := s, ticks := 0 }
  else
    match ServerInstance.tickLoop fuel
        { s with m_tickAccumulator := i64 (s.m_tickAccumulator + elapsedTime) } with
    | none => none
    | some (s1, n) =>
      some { hint := i64 (s1.m_tickDuration - s1.m_tickAccumulator), state := s1,
             ticks := n }

/-- Every index of the newly-connected set refers to an occupied pool slot. -/
def ServerInstance.NewPlayersLive (s : ServerInstance) : Prop :=
  ∀ i ∈ Bitset.IterBits s.m_newPlayers, (MemoryPool.RetrieveFromIndex s.m_players i).isSome

/-- A server without players that does not pause, with a tick of 10 ns. -/
def exampleServer (acc : Int) : ServerInstance :=
  { m_disconnectedPlayers := [], m_newPlayers := [], m_players := [],
    m_tickAccumulator := acc, m_tickDuration := 10, m_tickIndex := 0,
    m_pauseWhenEmpty := false, sessionCalls := [] }

/-- A server without players that does not pause, with a tick of 2^62 ns and
2^62 - 1 ns accumulated. -/
def longTickServer : ServerInstance :=
  { exampleServer 4611686018427387903 with m_tickDuration := 4611686018427387904 }

/-! ## Chunk -/

/-- Content of a voxel, as `enum class VoxelBlock` (an integer-backed
enumeration declared outside the embedded sources; `Empty` is its value for
an absent block). -/
structure VoxelBlock where
  id : Nat
  deriving DecidableEq, Repr

/-- The enumerator `VoxelBlock::Empty`. -/
def VoxelBlock.Empty : VoxelBlock := ⟨0⟩

/-- Three unsigned coordinates, as `Nz::Vector3ui`; every component is below
`2^32`. -/
structure Vector3ui where
  x : Nat
  y : Nat
  z : Nat
  deriving DecidableEq, Repr

/-- Three signed coordinates, as `Nz::Vector3i`. -/
structure Vector3i where
  x : Int
  y : Int
  z : Int
  deriving DecidableEq, Repr

/-- Reduction of a natural number to an `unsigned int`. -/
def u32 (n : Nat) : Nat := n % 4294967296

/-- State of a `Chunk`: the linear cell grid, the chunk indices, the size, the
block size, and the emissions of the `OnBlockUpdated` signal in order. -/
structure Chunk where
  m_cells : List VoxelBlock
  m_indices : Vector3ui
  m_size : Vector3ui
  m_blockSize : Rat
  OnBlockUpdated : List (Vector3ui × VoxelBlock)
  deriving DecidableEq, Repr

/-- The constructor `Chunk::Chunk`: `size.x * size.y * size.z` cells (an
`unsigned int` product), all `Empty`. -/
def Chunk.new (indices size : Vector3ui) (cellSize : Rat) : Chunk :=
  { m_cells := List.replicate (u32 (u32 (size.x * size.y) * size.z)) VoxelBlock.Empty,
    m_indices := indices, m_size := size, m_blockSize := cellSize, OnBlockUpdated := [] }

/-- Linear index of a cell: `Chunk::GetBlockIndex`, in `unsigned int`
arithmetic. -/
def Chunk.GetBlockIndex (c : Chunk) (indices : Vector3ui) : Nat :=
  u32 (u32 (c.m_size.x * u32 (u32 (c.m_size.y * indices.z) + indices.y)) + indices.x)

/-- Read of a cell: `Chunk::GetBlockContent`; `none` when the linear index is
outside the vector. -/
def Chunk.GetBlockContent (c : Chunk) (indices : Vector3ui) : Option VoxelBlock :=
  c.m_cells[c.GetBlockIndex indices]?

/-- Accessor `Chunk::GetIndices`. -/
def Chunk.GetIndices (c : Chunk) : Vector3ui := c.m_indices

/-- Accessor `Chunk::GetSize`. -/
def Chunk.GetSize (c : Chunk) : Vector3ui := c.m_size

/-- Accessor `Chunk::GetBlockSize`. -/
def Chunk.GetBlockSize (c : Chunk) : Rat := c.m_blockSize

/-- One axis of `Chunk::GetNeighborBlock`: the moved coordinate, or `none`
where the source returns an empty optional. The absolute value of an `int`
fits an `unsigned int`; the sum of the other branch is reduced. -/
def Chunk.neighborAxis (index : Nat) (offset : Int) (size : Nat) : Option Nat :=
  if offset < 0 then
    if offset.natAbs > index then none else some (index - offset.natAbs)
  else
    if u32 (index + offset.toNat) ≥ size then none else some (u32 (index + offset.toNat))

/-- Block at an offset from a cell: `Chunk::GetNeighborBlock`. The outer
option is `none` when the final read is outside the vector, the inner one when
the source returns an empty optional. -/
def Chunk.GetNeighborBlock (c : Chunk) (indices : Vector3ui) (offsets : Vector3i) :
    Option (Option VoxelBlock) :=
  match Chunk.neighborAxis indices.x offsets.x c.m_size.x with
  | none => some none
  | some x =>
    match Chunk.neighborAxis indices.y offsets.y c.m_size.y with
    | none => some none
    | some y =>
      match Chunk.neighborAxis indices.z offsets.z c.m_size.z with
      | none => some none
      | some z =>
        match c.GetBlockContent ⟨x, y, z⟩ with
        | none => none
        | some block => some (some block)

/-- Write of a cell: `Chunk::UpdateBlock`; `none` when the linear index is
outside the vector. The signal `OnBlockUpdated` is emitted after the write. -/
def Chunk.UpdateBlock (c : Chunk) (indices : Vector3ui) (newBlock : VoxelBlock) :
    Option Chunk :=
  let blockIndex := c.GetBlockIndex indices
  if blockIndex < c.m_cells.length then
    some { c with m_cells := c.m_cells.set blockIndex newBlock,
                  OnBlockUpdated := c.OnBlockUpdated ++ [(indices, newBlock)] }
  else none

/-- Coordinates inside the chunk: every component below the size on its
axis. -/
def Chunk.ValidCoordinates (c : Chunk) (v : Vector3ui) : Prop :=
  v.x < c.m_size.x ∧ v.y < c.m_size.y ∧ v.z < c.m_size.z

/-- The invariant of the data model: the grid holds one cell per voxel. -/
def Chunk.GridInvariant (c : Chunk) : Prop :=
  c.m_cells.length = c.m_size.x * c.m_size.y * c.m_size.z

/-- A chunk of size 2 x 2 x 1 whose four cells hold the blocks 1, 2, 3, 4. -/
def exampleChunk : Chunk :=
  { m_cells := [⟨1⟩, ⟨2⟩, ⟨3⟩, ⟨4⟩], m_indices := ⟨0, 0, 0⟩, m_size := ⟨2, 2, 1⟩,
    m_blockSize := 1, OnBlockUpdated := [] }

/-- A freshly constructed chunk of size (2^32 - 1) x 1 x 1. -/
def wideChunk : Chunk :=
  Chunk.new ⟨0, 0, 0⟩ ⟨4294967295, 1, 1⟩ 1

/-- A freshly constructed chunk of size (2^31 + 1) x 2 x 1: the 32-bit product
of its sizes wraps to 2, so its grid holds 2 cells. -/
def wrappedChunk : Chunk :=
  Chunk.new ⟨0, 0, 0⟩ ⟨2147483649, 2, 1⟩ 1

/-! ## InitialSessionHandler -/

/-- The packet `Packets::AuthRequest`. -/
structure AuthRequest where
  gameVersion : Nat
  nickname : String
  deriving DecidableEq, Repr

/-- What `InitialSessionHandler` uses from headers outside the embedded
sources: the constants `Constants::ProtocolRequiredClientVersion` and
`GameVersion`, and the library function `Nz::Trim` (Unicode aware). -/
structure HandshakeEnv where
  ProtocolRequiredClientVersion : Nat
  GameVersion : Nat
  Trim : String → String

/-- The local lambda `FailAuth` of the handler: an `AuthResponse` carrying
the error is sent, then the session is disconnected with `Later`. -/
def InitialSessionHandler.FailAuth (s : ServerInstance) (session : SessionId)
    (err : AuthError) : ServerInstance :=
  { s with sessionCalls := s.sessionCalls ++
      [(session, SessionCall.SendPacket (Packet.AuthResponse (AuthResult.Err err) none)),
       (session, SessionCall.Disconnect DisconnectionType.Later)] }

/-- The handler `InitialSessionHandler::HandlePacket(AuthRequest)` of the
session `session`. The final respawn of the player acts on state outside the
embedding. -/
def InitialSessionHandler.HandlePacket (env : HandshakeEnv) (s : ServerInstance)
    (session : SessionId) (authRequest : AuthRequest) : ServerInstance :=
  if authRequest.gameVersion < env.ProtocolRequiredClientVersion then
    InitialSessionHandler.FailAuth s session AuthError.UpgradeRequired
  else if authRequest.gameVersion > env.GameVersion then
    InitialSessionHandler.FailAuth s session AuthError.ServerIsOutdated
  else
    let s1 := { s with sessionCalls := s.sessionCalls ++
      [(session, SessionCall.SetProtocolVersion authRequest.gameVersion)] }
    let login := env.Trim authRequest.nickname
    if login.isEmpty || login != authRequest.nickname then
      InitialSessionHandler.FailAuth s1 session AuthError.ProtocolError
    else
      let created := s1.CreatePlayer (some session) authRequest.nickname
      { created.1 with sessionCalls := created.1.sessionCalls ++
          [(session, SessionCall.SendPacket
              (Packet.AuthResponse AuthResult.Ok (some created.2.GetPlayerIndex))),
           (session, SessionCall.SetupPlayerSessionHandler created.2.GetPlayerIndex)] }

/-- Removal of the whitespace characters at both ends of a list. -/
def trimChars (cs : List Char) : List Char :=
  ((cs.dropWhile Char.isWhitespace).reverse.dropWhile Char.isWhitespace).reverse

/-- Modelled from the spec: `Nz::Trim` is declared outside the embedded
sources; the spec describes it as removing the surrounding whitespace of the
nickname. -/
def Trim (str : String) : String := ⟨trimChars str.data⟩

/-- A handshake environment accepting the versions 3 to 7. -/
def exampleEnv : HandshakeEnv :=
  { ProtocolRequiredClientVersion := 3, GameVersion := 7, Trim := Trim }

/-! ## ChunkEntities -/

/-- Key of a chunk in its container, as `ChunkIndices`. -/
abbrev ChunkIndices := Vector3ui

/-! Shared `UpdateJob` objects (`std::shared_ptr` in the source), proxy
entities (`entt::handle`) and `Chunk` objects (`Chunk*`) are identified by
natural numbers: the order of creation of the job or entity, the address of
the chunk. -/

/-- Lookup in a hash map kept as an association list: `find`. -/
def Map.find {κ ν : Type} [DecidableEq κ] (m : List (κ × ν)) (key : κ) : Option ν :=
  match m with
  | [] => none
  | e :: rest => if e.1 = key then some e.2 else Map.find rest key

/-- Removal of a key from a hash map: `erase`. -/
def Map.erase {κ ν : Type} [DecidableEq κ] (m : List (κ × ν)) (key : κ) : List (κ × ν) :=
  m.filter (fun e => decide (e.1 ≠ key))

/-- Insertion or replacement of the value of a key: `insert_or_assign`. -/
def Map.insert_or_assign {κ ν : Type} [DecidableEq κ] (m : List (κ × ν)) (key : κ)
    (value : ν) : List (κ × ν) :=
  Map.erase m key ++ [(key, value)]

/-- Membership of a key in a hash map: `contains`. -/
def Map.contains {κ ν : Type} [DecidableEq κ] (m : List (κ × ν)) (key : κ) : Bool :=
  (Map.find m key).isSome

/-- Modelled from the spec: the geometry builder behind `Chunk::BuildCollider`
is outside the embedded sources; the spec treats it as an opaque function of
the block grid. A collider is represented by the grid it was built from. -/
structure Collider where
  builtFrom : List VoxelBlock
  deriving DecidableEq, Repr

/-- Modelled from the spec: `Chunk::BuildCollider`, the collider of the
current grid. -/
def Chunk.BuildCollider (c : Chunk) : Collider := ⟨c.m_cells⟩

/-- The shared object `ColliderUpdateJob`: cancellation flag, completion
counter, number of tasks, and the collider once built. -/
structure UpdateJob where
  cancelled : Bool
  executionCounter : Nat
  taskCount : Nat
  collider : Option Collider
  deriving DecidableEq, Repr

/-- A task handed to the task scheduler by `HandleChunkUpdate`: the captured
chunk pointer and job, and whether the task has passed its cancellation test
and is building the collider. -/
structure BuildTask where
  chunk : Nat
  job : Nat
  building : Bool
  deriving DecidableEq, Repr

/-- One call of `SetGeom` made by the `applyFunc` of a job: the chunk index
and job it was called for, the proxy entity, and the collider passed. -/
structure AppliedCollider where
  chunkIndices : ChunkIndices
  job : Nat
  entity : Nat
  collider : Option Collider
  deriving DecidableEq, Repr

/-- State of `ChunkEntities` and of what it refers to: the chunk objects of
the container by address (`none` once destroyed), the proxy entities, the
registered jobs, the invalidated indices, the shared job objects and the next
fresh job, the scheduler queue, the next fresh entity, and the trace of the
colliders applied. -/
structure ChunkEntities where
  chunks : List (Option Chunk)
  m_chunkEntities : List (ChunkIndices × Nat)
  m_updateJobs : List (ChunkIndices × Nat)
  m_invalidatedChunks : List ChunkIndices
  jobs : Nat → UpdateJob
  nextJob : Nat
  tasks : List BuildTask
  nextEntity : Nat
  applied : List AppliedCollider

/-- Replacement of one shared job object. -/
def setJob (jobs : Nat → UpdateJob) (j : Nat) (job : UpdateJob) : Nat → UpdateJob :=
  fun k => if k = j then job else jobs k

/-- The manager right after construction over an empty container. -/
def ChunkEntities.initial : ChunkEntities :=
  { chunks := [], m_chunkEntities := [], m_updateJobs := [], m_invalidatedChunks := [],
    jobs := fun _ => { cancelled := false, executionCounter := 0, taskCount := 0,
                       collider := none },
    nextJob := 0, tasks := [], nextEntity := 0, applied := [] }

/-- Address of the live chunk stored under an index: `ChunkContainer::GetChunk`
(`none` for a null pointer). -/
def ChunkEntities.GetChunk (s : ChunkEntities) (chunkIndices : ChunkIndices) :
    Option Nat :=
  let i := s.chunks.findIdx (fun c =>
    match c with
    | some chunk => decide (chunk.GetIndices = chunkIndices)
    | none => false)
  if i < s.chunks.length then some i else none

/-- A rebuild request: `ChunkEntities::HandleChunkUpdate`. The job registered
for the index, if any, is flagged cancelled; a fresh job with one task is
created, its task is queued, and it becomes the registered job. -/
def ChunkEntities.HandleChunkUpdate (s : ChunkEntities) (chunkIndices : ChunkIndices)
    (chunk : Nat) : ChunkEntities :=
  let jobs1 : Nat → UpdateJob :=
    match Map.find s.m_updateJobs chunkIndices with
    | some j => setJob s.jobs j { s.jobs j with cancelled := true }
    | none => s.jobs
  { s with
    jobs := setJob jobs1 s.nextJob
      { cancelled := false, executionCounter := 0, taskCount := 1, collider := none },
    nextJob := s.nextJob + 1,
    tasks := s.tasks ++ [{ chunk := chunk, job := s.nextJob, building := false }],
    m_updateJobs := Map.insert_or_assign s.m_updateJobs chunkIndices s.nextJob }

/-- The `applyFunc` installed by `HandleChunkUpdate`: the proxy entity of the
index is retrieved (`none` when absent) and the collider of the job is moved
into its rigid body. -/
def ChunkEntities.applyFunc (s : ChunkEntities) (chunkIndices : ChunkIndices) (job : Nat) :
    Option ChunkEntities :=
  match Map.find s.m_chunkEntities chunkIndices with
  | none => none
  | some chunkEntity =>
    some { s with
      applied := s.applied ++ [{ chunkIndices := chunkIndices, job := job,
                                 entity := chunkEntity, collider := (s.jobs job).collider }],
      jobs := setJob s.jobs job { s.jobs job with collider := none } }

/-- First loop of `ChunkEntities::Update` over the entries still to visit: a
job whose counter differs from its task count is skipped, a completed job is
applied and its entry erased. -/
def ChunkEntities.applyLoop :
    List (ChunkIndices × Nat) → ChunkEntities → Option ChunkEntities
  | [], s => some s
  | entry :: rest, s =>
    if (s.jobs entry.2).executionCounter ≠ (s.jobs entry.2).taskCount then
      ChunkEntities.applyLoop rest s
    else
      match s.applyFunc entry.1 entry.2 with
      | none => none
      | some s1 =>
        ChunkEntities.applyLoop rest
          { s1 with m_updateJobs := Map.erase s1.m_updateJobs entry.1 }

/-- The function `ChunkEntities::UpdateChunkEntity`; a failed assertion gives
`none`. -/
def ChunkEntities.UpdateChunkEntity (s : ChunkEntities) (chunkIndices : ChunkIndices) :
    Option ChunkEntities :=
  if Map.contains s.m_chunkEntities chunkIndices then
    match s.GetChunk chunkIndices with
    | none => none
    | some chunk => some (s.HandleChunkUpdate chunkIndices chunk)
  else none

/-- The function `ChunkEntities::CreateChunkEntity`: a fresh proxy entity is
registered for the index and the initial rebuild is requested; a failed
assertion gives `none`. -/
def ChunkEntities.CreateChunkEntity (s : ChunkEntities) (chunkIndices : ChunkIndices)
    (chunk : Nat) : Option ChunkEntities :=
  if Map.contains s.m_chunkEntities chunkIndices then none
  else
    some (ChunkEntities.HandleChunkUpdate
      { s with nextEntity := s.nextEntity + 1,
               m_chunkEntities :=
                 Map.insert_or_assign s.m_chunkEntities chunkIndices s.nextEntity }
      chunkIndices chunk)

/-- The function `ChunkEntities::DestroyChunkEntity`. -/
def ChunkEntities.DestroyChunkEntity (s : ChunkEntities) (chunkIndices : ChunkIndices) :
    ChunkEntities :=
  let s1 : ChunkEntities :=
    match Map.find s.m_updateJobs chunkIndices with
    | some j =>
      { s with jobs := setJob s.jobs j { s.jobs j with cancelled := true },
               m_updateJobs := Map.erase s.m_updateJobs chunkIndices }
    | none => s
  { s1 with m_chunkEntities := Map.erase s1.m_chunkEntities chunkIndices,
            m_invalidatedChunks :=
              s1.m_invalidatedChunks.filter (fun i => decide (i ≠ chunkIndices)) }

/-- Slot connected to `OnChunkUpdated`: the index joins the invalidated set. -/
def ChunkEntities.InvalidateChunk (s : ChunkEntities) (chunkIndices : ChunkIndices) :
    ChunkEntities :=
  if chunkIndices ∈ s.m_invalidatedChunks then s
  else { s with m_invalidatedChunks := s.m_invalidatedChunks ++ [chunkIndices] }

/-- First part of the task lambda of `HandleChunkUpdate`, run by the
scheduler for the queued task of a job: a cancelled job ends the task, any
other lets it start building. -/
def ChunkEntities.TaskBegin (s : ChunkEntities) (job : Nat) : Option ChunkEntities :=
  match s.tasks.find? (fun t => decide (t.job = job)) with
  | none => none
  | some task =>
    if task.building then none
    else if (s.jobs job).cancelled then
      some { s with tasks := s.tasks.filter (fun t => decide (t.job ≠ job)) }
    else
      some { s with
        tasks := s.tasks.map (fun t => if t.job = job then { t with building := true } else t) }

/-- Second part of the task lambda: the collider is built from the grid of the
captured chunk (`none` when the chunk no longer exists), stored in the job,
and the completion counter is incremented. -/
def ChunkEntities.TaskEnd (s : ChunkEntities) (job : Nat) : Option ChunkEntities :=
  match s.tasks.find? (fun t => decide (t.job = job)) with
  | none => none
  | some task =>
    if task.building then
      match s.chunks.getD task.chunk none with
      | none => none
      | some chunk =>
        some { s with
          jobs := setJob s.jobs job
            { s.jobs job with collider := some chunk.BuildCollider,
                              executionCounter := (s.jobs job).executionCounter + 1 },
          tasks := s.tasks.filter (fun t => decide (t.job ≠ job)) }
    else none

/-- The operations that act on a `ChunkEntities` and its surroundings: the
pieces of `Update`, the slots connected to the container signals, the two
parts of a background task, and, modelled from the spec, the storage of the
container (a chunk object is stored, freed, or has one block written). -/
inductive Op
  | ApplyJobs
  | UpdateChunkEntity (chunkIndices : ChunkIndices)
  | ClearInvalidated
  | CreateChunkEntity (chunkIndices : ChunkIndices) (chunk : Nat)
  | DestroyChunkEntity (chunkIndices : ChunkIndices)
  | InvalidateChunk (chunkIndices : ChunkIndices)
  | TaskBegin (job : Nat)
  | TaskEnd (job : Nat)
  | ContainerStore (chunk : Chunk)
  | ContainerFree (chunk : Nat)
  | ContainerWrite (chunk : Nat) (indices : Vector3ui) (newBlock : VoxelBlock)
  deriving DecidableEq, Repr

/-- Effect of one operation; `none` when it is not enabled or undefined. -/
def ChunkEntities.exec (s : ChunkEntities) : Op → Option ChunkEntities
  | Op.ApplyJobs => ChunkEntities.applyLoop s.m_updateJobs s
  | Op.UpdateChunkEntity chunkIndices => s.UpdateChunkEntity chunkIndices
  | Op.ClearInvalidated => some { s with m_invalidatedChunks := [] }
  | Op.CreateChunkEntity chunkIndices chunk => s.CreateChunkEntity chunkIndices chunk
  | Op.DestroyChunkEntity chunkIndices => some (s.DestroyChunkEntity chunkIndices)
  | Op.InvalidateChunk chunkIndices => some (s.InvalidateChunk chunkIndices)
  | Op.TaskBegin job => s.TaskBegin job
  | Op.TaskEnd job => s.TaskEnd job
  | Op.ContainerStore chunk => some { s with chunks := s.chunks ++ [some chunk] }
  | Op.ContainerFree chunk => some { s with chunks := s.chunks.set chunk none }
  | Op.ContainerWrite chunk indices newBlock =>
    match s.chunks.getD chunk none with
    | none => none
    | some c =>
      match c.UpdateBlock indices newBlock with
      | none => none
      | some c1 => some { s with chunks := s.chunks.set chunk (some c1) }

/-- Effect of a sequence of operations. -/
def ChunkEntities.run (s : ChunkEntities) : List Op → Option ChunkEntities
  | [] => some s
  | op :: rest =>
    match s.exec op with
    | none => none
    | some s1 => s1.run rest

/-- The function `ChunkEntities::Update`: the completed jobs are applied, every
invalidated index gets a rebuild request, and the invalidated set is
cleared. -/
def ChunkEntities.Update (s : ChunkEntities) : Option ChunkEntities :=
  s.run (Op.ApplyJobs :: s.m_invalidatedChunks.map Op.UpdateChunkEntity
    ++ [Op.ClearInvalidated])

/-- Modelled from the spec: a chunk is added to the container, which stores it
and emits `OnChunkAdded`. -/
def ChunkEntities.AddChunk (s : ChunkEntities) (chunk : Chunk) : Option ChunkEntities :=
  s.run [Op.ContainerStore chunk, Op.CreateChunkEntity chunk.GetIndices s.chunks.length]

/-- Modelled from the spec: a chunk is removed from the container, which emits
`OnChunkRemove` and frees it. -/
def ChunkEntities.RemoveChunk (s : ChunkEntities) (chunkIndices : ChunkIndices) :
    Option ChunkEntities :=
  match s.GetChunk chunkIndices with
  | none => none
  | some chunk => s.run [Op.DestroyChunkEntity chunkIndices, Op.ContainerFree chunk]

/-- Modelled from the spec: a block of a chunk of the container is written;
the signal of the chunk is relayed as `OnChunkUpdated`. -/
def ChunkEntities.UpdateBlock (s : ChunkEntities) (chunkIndices : ChunkIndices)
    (indices : Vector3ui) (newBlock : VoxelBlock) : Option ChunkEntities :=
  match s.GetChunk chunkIndices with
  | none => none
  | some chunk =>
    s.run [Op.ContainerWrite chunk indices newBlock, Op.InvalidateChunk chunkIndices]

/-- A chunk of one cell, at index (0, 0, 0). -/
def unitChunk : Chunk := Chunk.new ⟨0, 0, 0⟩ ⟨1, 1, 1⟩ 1

/-- The execution used against C10: a chunk is added (first request), a block
is written and `Update` issues the second request, the block is written again,
the task of the second job runs, and `Update` applies its result. The first
component is the state right after the second request. -/
def supersedeScenario : Option (ChunkEntities × ChunkEntities) :=
  match (ChunkEntities.initial.AddChunk unitChunk).bind
      (fun s => (s.UpdateBlock ⟨0, 0, 0⟩ ⟨0, 0, 0⟩ ⟨1⟩).bind ChunkEntities.Update) with
  | none => none
  | some s2 =>
    match (s2.UpdateBlock ⟨0, 0, 0⟩ ⟨0, 0, 0⟩ ⟨2⟩).bind
        (fun s => (s.TaskBegin 1).bind
          (fun s => (s.TaskEnd 1).bind ChunkEntities.Update)) with
    | none => none
    | some s3 => some (s2, s3)

/-- A manager holding the one-cell chunk at address 0 and its proxy entity 0,
before any rebuild request. -/
def exampleManager : ChunkEntities :=
  { ChunkEntities.initial with
    chunks := [some unitChunk], m_chunkEntities := [(⟨0, 0, 0⟩, 0)], nextEntity := 1 }

/-- After two requests: a block is written, the task of the second job (job
1) runs, and the completed jobs are applied. -/
def exampleLater : List Op :=
  [Op.ContainerWrite 0 ⟨0, 0, 0⟩ ⟨2⟩, Op.TaskBegin 1, Op.TaskEnd 1, Op.ApplyJobs]

/-- Invariant of the job bookkeeping of a `ChunkEntities`: registered jobs,
applied jobs and queued tasks were all created before the next fresh job; the
map of registered jobs has distinct keys and distinct jobs; a job is applied at
most once and is no longer registered afterwards; a job that is neither
registered nor applied has been flagged cancelled. -/
structure ChunkEntities.Inv (s : ChunkEntities) : Prop where
  jobs_lt : ∀ e ∈ s.m_updateJobs, e.2 < s.nextJob
  keys_nodup : (s.m_updateJobs.map Prod.fst).Nodup
  values_nodup : (s.m_updateJobs.map Prod.snd).Nodup
  applied_lt : ∀ a ∈ s.applied, a.job < s.nextJob
  applied_nodup : (s.applied.map AppliedCollider.job).Nodup
  applied_unregistered : ∀ a ∈ s.applied, ∀ e ∈ s.m_updateJobs, e.2 ≠ a.job
  cancelled_of_dropped : ∀ j, j < s.nextJob → (∀ e ∈ s.m_updateJobs, e.2 ≠ j) →
    (∀ a ∈ s.applied, a.job ≠ j) → (s.jobs j).cancelled = true
  tasks_lt : ∀ t ∈ s.tasks, t.job < s.nextJob

/-- What an operation leaves of a job created before it: its completion
counter, its collider unless moved out when the job is applied and
unregistered, and no task other than those it already had. -/
def JobKept (s s1 : ChunkEntities) (j : Nat) : Prop :=
  (s1.jobs j).executionCounter = (s.jobs j).executionCounter ∧
  ((s1.jobs j).collider = (s.jobs j).collider ∨
    ((s1.jobs j).collider = none ∧ ∀ e ∈ s1.m_updateJobs, e.2 ≠ j)) ∧
  (∀ t ∈ s1.tasks, t.job = j → ∃ t0 ∈ s.tasks, t0.job = j ∧ t0.chunk = t.chunk)

/-- What the end of the task of a job does: the collider of the grid of the
captured chunk is stored, the counter incremented, the task removed. -/
def JobBuilt (s s1 : ChunkEntities) (j : Nat) : Prop :=
  ∃ t chunk, t ∈ s.tasks ∧ t.job = j ∧ s.chunks.getD t.chunk none = some chunk ∧
    (s1.jobs j).collider = some chunk.BuildCollider ∧
    (s1.jobs j).executionCounter = (s.jobs j).executionCounter + 1 ∧
    (∀ t1 ∈ s1.tasks, t1.job ≠ j) ∧ s1.applied = s.applied ∧
    s1.m_updateJobs = s.m_updateJobs

/-- Relation between the states before and after one operation, restricted
to what the job bookkeeping needs. -/
structure StepRel (op : Option Op) (s s1 : ChunkEntities) : Prop where
  nextJob_le : s.nextJob ≤ s1.nextJob
  old_entries : ∀ e ∈ s1.m_updateJobs, e.2 < s.nextJob → e ∈ s.m_updateJobs
  old_applied : ∀ a ∈ s.applied, a ∈ s1.applied
  new_applied : ∀ a ∈ s1.applied, a ∈ s.applied ∨
    ((a.chunkIndices, a.job) ∈ s.m_updateJobs ∧ a.collider = (s.jobs a.job).collider ∧
      (s.jobs a.job).executionCounter = (s.jobs a.job).taskCount)
  cancelled_mono : ∀ j, j < s.nextJob → (s.jobs j).cancelled = true →
    (s1.jobs j).cancelled = true
  job_change : ∀ j, j < s.nextJob →
    (s1.jobs j).taskCount = (s.jobs j).taskCount ∧
    (JobKept s s1 j ∨ (op = some (Op.TaskEnd j) ∧ JobBuilt s s1 j))

/-- In the execution `later` started in `s2`, the collider `c` is the one
built at the end of the task of job `j`, from the grid that the chunk at
address `p` has in the state `t` in which that task ends. -/
def BuiltFrom (s2 : ChunkEntities) (j p : Nat) (later : List Op) (c : Collider) : Prop :=
  ∃ pre post t chunk, later = pre ++ Op.TaskEnd j :: post ∧ s2.run pre = some t ∧
    t.chunks.getD p none = some chunk ∧ c = chunk.BuildCollider

/-- Progress of the job `j`, whose task captured the chunk address `p`, after
the execution `later` started in `s2`: either its task has not ended and
nothing was applied for it, or its task has ended, having built a collider
that the job holds while registered and that every application of the job
carries. -/
def Phase (s2 : ChunkEntities) (j p : Nat) (later : List Op) (s3 : ChunkEntities) : Prop :=
  (s3.jobs j).taskCount = 1 ∧ (∀ t ∈ s3.tasks, t.job = j → t.chunk = p) ∧
  (((s3.jobs j).executionCounter = 0 ∧ ∀ a ∈ s3.applied, a.job ≠ j) ∨
   (∃ c, BuiltFrom s2 j p later c ∧ (s3.jobs j).executionCounter = 1 ∧
      (∀ t ∈ s3.tasks, t.job ≠ j) ∧
      ((∃ e ∈ s3.m_updateJobs, e.2 = j) → (s3.jobs j).collider = some c) ∧
      ∀ a ∈ s3.applied, a.job = j → a.collider = some c))
/-! ## DeformedChunk -/

/-- Arithmetic of the C++ type `float`. A finite `float` is embedded as the
rational number it denotes; an arithmetic operation returns the exact result
passed through the rounding function `fl`, and `sqrt` is `std::sqrt`.
Infinities, NaN and the sign of zero are not represented. -/
structure FloatArith where
  fl : ℚ → ℚ
  sqrt : ℚ → ℚ

/-- Addition of two `float` values. -/
def FloatArith.add (A : FloatArith) (a b : ℚ) : ℚ := A.fl (a + b)

/-- Subtraction of two `float` values. -/
def FloatArith.sub (A : FloatArith) (a b : ℚ) : ℚ := A.fl (a - b)

/-- Product of two `float` values. -/
def FloatArith.mul (A : FloatArith) (a b : ℚ) : ℚ := A.fl (a * b)

/-- Quotient of two `float` values. -/
def FloatArith.div (A : FloatArith) (a b : ℚ) : ℚ := A.fl (a / b)

/-- The power `2^e` of an integer exponent. -/
def pow2 (e : Int) : ℚ :=
  if 0 ≤ e then ((2 ^ e.toNat : Nat) : ℚ) else 1 / ((2 ^ (-e).toNat : Nat) : ℚ)

/-- Loop of `floorLog2`. -/
def log2Loop : Nat → Nat → Nat
  | 0, _ => 0
  | fuel + 1, n => if n ≤ 1 then 0 else log2Loop fuel (n / 2) + 1

/-- Position of the highest set bit of a positive natural number. -/
def floorLog2 (n : Nat) : Nat := log2Loop n n

/-- Exponent of a non-zero rational: the integer `k` with `2^k ≤ |q| < 2^(k+1)`. -/
def ilog2 (q : ℚ) : Int :=
  let k : Int := (floorLog2 q.num.natAbs : Int) - (floorLog2 q.den : Int)
  if pow2 k ≤ |q| then k else k - 1

/-- Nearest integer, a tie going to the even neighbour. -/
def roundHalfEven (x : ℚ) : Int :=
  let f := Rat.floor x
  let r := x - f
  if r < 1 / 2 then f else if 1 / 2 < r then f + 1 else if f % 2 = 0 then f else f + 1

/-- Rounding to the IEEE 754 binary32 format (significand of 24 bits), to
nearest with ties to even, the default rounding of `float` arithmetic, for
results in the normal range of the format (2^-126 <= |x| < 2^128). The
exponent range is taken unbounded: a result below the normal range is rounded
to 24 significant bits where the format keeps fewer (subnormal numbers), and a
result beyond it is rounded where the format gives an infinity. -/
def fl32 (q : ℚ) : ℚ :=
  if q = 0 then 0
  else (roundHalfEven (q / pow2 (ilog2 q - 23)) : ℚ) * pow2 (ilog2 q - 23)

/-- Loop of `isqrt`: the bits of the root are fixed from the highest down. -/
def sqrtLoop : Nat → Nat → Nat → Nat
  | 0, _, r => r
  | b + 1, n, r =>
    if (r + 2 ^ b) * (r + 2 ^ b) ≤ n then sqrtLoop b n (r + 2 ^ b) else sqrtLoop b n r

/-- Integer square root: the largest `r` with `r * r ≤ n`. -/
def isqrt (n : Nat) : Nat := sqrtLoop (floorLog2 n / 2 + 1) n 0

/-- Correctly rounded binary32 square root, as `std::sqrt` on `float`: the
argument is scaled by a power of four to an integer part of about sixty bits,
whose integer root `s` brackets the real root in `[s, s + 1)`; an exact root is
rounded as it is, an inexact one as the midpoint `s + 1/2`, which no value
distinguished by the rounding separates from the real root. -/
def sqrt32 (q : ℚ) : ℚ :=
  if q ≤ 0 then 0
  else
    let k : Int := 30 - ilog2 q / 2
    let s : Nat := isqrt (Rat.floor (q * pow2 (2 * k))).toNat
    if ((s * s : Nat) : ℚ) = q * pow2 (2 * k) then fl32 ((s : ℚ) / pow2 k)
    else fl32 (((2 * s + 1 : Nat) : ℚ) / pow2 (k + 1))

/-- The arithmetic of IEEE 754 binary32, the format of `float`. -/
def binary32 : FloatArith := { fl := fl32, sqrt := sqrt32 }

/-- The type `Nz::Vector3f` of the Nazara library: three `float` components. -/
structure Vector3f where
  x : ℚ
  y : ℚ
  z : ℚ
  deriving DecidableEq

/-- The constructor `Nz::Vector3f(float)`: every component is the value. -/
def Vector3f.splat (v : ℚ) : Vector3f := ⟨v, v, v⟩

/-- Componentwise sum: `Vector3f::operator+`. -/
def Vector3f.add (A : FloatArith) (a b : Vector3f) : Vector3f :=
  ⟨A.add a.x b.x, A.add a.y b.y, A.add a.z b.z⟩

/-- Componentwise difference: `Vector3f::operator-`. -/
def Vector3f.sub (A : FloatArith) (a b : Vector3f) : Vector3f :=
  ⟨A.sub a.x b.x, A.sub a.y b.y, A.sub a.z b.z⟩

/-- Product by a scalar: `Vector3f::operator*(float)`. -/
def Vector3f.scale (A : FloatArith) (v : Vector3f) (k : ℚ) : Vector3f :=
  ⟨A.mul v.x k, A.mul v.y k, A.mul v.z k⟩

/-- Clamp of a scalar, `Nz::Clamp`: `std::max(std::min(value, max), min)`. -/
def Nz.Clamp (value lo hi : ℚ) : ℚ := max (min value hi) lo

/-- Componentwise clamp: `Vector3f::Clamp`. -/
def Vector3f.Clamp (vec lo hi : Vector3f) : Vector3f :=
  ⟨Nz.Clamp vec.x lo.x hi.x, Nz.Clamp vec.y lo.y hi.y, Nz.Clamp vec.z lo.z hi.z⟩

/-- Squared Euclidean length: `Vector3f::GetSquaredLength`. -/
def Vector3f.GetSquaredLength (A : FloatArith) (v : Vector3f) : ℚ :=
  A.add (A.add (A.mul v.x v.x) (A.mul v.y v.y)) (A.mul v.z v.z)

/-- Euclidean length: `Vector3f::GetLength`. -/
def Vector3f.GetLength (A : FloatArith) (v : Vector3f) : ℚ :=
  A.sqrt (v.GetSquaredLength A)

/-- Unit vector of the same direction: `Vector3f::Normalize`. A vector whose
length is not positive is returned unchanged. -/
def Vector3f.Normalize (A : FloatArith) (v : Vector3f) : Vector3f :=
  if 0 < v.GetLength A then v.scale A (A.div 1 (v.GetLength A)) else v

/-- The type `Nz::Boxf` of the Nazara library: a corner and three lengths. -/
structure Boxf where
  x : ℚ
  y : ℚ
  z : ℚ
  width : ℚ
  height : ℚ
  depth : ℚ
  deriving DecidableEq

/-- The constructor `Nz::Boxf(pos, lengths)`. -/
def Boxf.new (pos lengths : Vector3f) : Boxf :=
  ⟨pos.x, pos.y, pos.z, lengths.x, lengths.y, lengths.z⟩

/-- Corner of least coordinates: `Boxf::GetMinimum`, the position. -/
def Boxf.GetMinimum (b : Boxf) : Vector3f := ⟨b.x, b.y, b.z⟩

/-- Corner of greatest coordinates: `Boxf::GetMaximum`, position plus lengths. -/
def Boxf.GetMaximum (A : FloatArith) (b : Boxf) : Vector3f :=
  Vector3f.add A ⟨b.x, b.y, b.z⟩ ⟨b.width, b.height, b.depth⟩

/-- Distance of a position to the deformation center in the maximum norm:
the local `distToCenter` of `DeformPosition`. -/
def DeformedChunk.distToCenter (A : FloatArith) (position deformationCenter : Vector3f) : ℚ :=
  max (max |A.sub position.x deformationCenter.x| |A.sub position.y deformationCenter.y|)
    |A.sub position.z deformationCenter.z|

/-- The local `innerBox` of `DeformPosition`. -/
def DeformedChunk.innerBox (A : FloatArith) (position deformationCenter : Vector3f)
    (deformationRadius : ℚ) : Boxf :=
  let innerReductionSize : ℚ :=
    max (A.sub (DeformedChunk.distToCenter A position deformationCenter) deformationRadius) 0
  Boxf.new (Vector3f.sub A deformationCenter (Vector3f.splat innerReductionSize))
    (Vector3f.splat (A.mul innerReductionSize 2))

/-- The local `innerPos` of `DeformPosition`. -/
def DeformedChunk.innerPos (A : FloatArith) (position deformationCenter : Vector3f)
    (deformationRadius : ℚ) : Vector3f :=
  Vector3f.Clamp position
    (DeformedChunk.innerBox A position deformationCenter deformationRadius).GetMinimum
    ((DeformedChunk.innerBox A position deformationCenter deformationRadius).GetMaximum A)

/-- The static function `DeformedChunk::DeformPosition`. -/
def DeformedChunk.DeformPosition (A : FloatArith) (position deformationCenter : Vector3f)
    (deformationRadius : ℚ) : Vector3f :=
  Vector3f.add A (DeformedChunk.innerPos A position deformationCenter deformationRadius)
    (Vector3f.scale A
      (Vector3f.Normalize A
        (Vector3f.sub A position
          (DeformedChunk.innerPos A position deformationCenter deformationRadius)))
      (min deformationRadius (DeformedChunk.distToCenter A position deformationCenter)))
/-! ## InitialSessionHandler: failures -/

/-- The handler `InitialSessionHandler::OnDeserializationError` of the session
`session`. The constant `PacketIndex<Packets::AuthRequest>` is declared
outside the embedded sources and is the parameter `authRequestIndex`. -/
def InitialSessionHandler.OnDeserializationError (authRequestIndex : Nat)
    (s : ServerInstance) (session : SessionId) (packetIndex : Nat) : ServerInstance :=
  if packetIndex = authRequestIndex then
    { s with sessionCalls := s.sessionCalls ++
        [(session, SessionCall.SendPacket
            (Packet.AuthResponse (AuthResult.Err AuthError.ProtocolError) none)),
         (session, SessionCall.Disconnect DisconnectionType.Later)] }
  else
    { s with sessionCalls := s.sessionCalls ++
        [(session, SessionCall.Disconnect DisconnectionType.Kick)] }

/-- The handler `InitialSessionHandler::OnUnexpectedPacket`. -/
def InitialSessionHandler.OnUnexpectedPacket (s : ServerInstance) (session : SessionId)
    (_packetIndex : Nat) : ServerInstance :=
  { s with sessionCalls := s.sessionCalls ++
      [(session, SessionCall.Disconnect DisconnectionType.Kick)] }

/-- The handler `InitialSessionHandler::OnUnknownOpcode`. -/
def InitialSessionHandler.OnUnknownOpcode (s : ServerInstance) (session : SessionId)
    (_opcode : Nat) : ServerInstance :=
  { s with sessionCalls := s.sessionCalls ++
      [(session, SessionCall.Disconnect DisconnectionType.Kick)] }

/-! ## Observations on the session trace -/

/-- Whether a call on a session sends a packet. -/
def SessionCall.isSendPacket : SessionCall → Bool
  | SessionCall.SendPacket _ => true
  | _ => false

/-- Whether a call on a session sends a `PlayerLeave`. -/
def SessionCall.isPlayerLeave : SessionCall → Bool
  | SessionCall.SendPacket (Packet.PlayerLeave _) => true
  | _ => false

/-- Whether a call on a session sends a `PlayerJoin`. -/
def SessionCall.isPlayerJoin : SessionCall → Bool
  | SessionCall.SendPacket (Packet.PlayerJoin _ _) => true
  | _ => false

/-- Whether a call on a session sends a `GameData`. -/
def SessionCall.isGameData : SessionCall → Bool
  | SessionCall.SendPacket (Packet.GameData _ _) => true
  | _ => false

/-- The calls added to the session trace between two states. -/
def ServerInstance.callsSince (s1 s : ServerInstance) : List (SessionId × SessionCall) :=
  s1.sessionCalls.drop s.sessionCalls.length

/-- Sessions of the live players that have one, in pool order. -/
def ServerInstance.liveSessions (s : ServerInstance) : List SessionId :=
  (MemoryPool.entries s.m_players).filterMap ServerPlayer.GetSession

/-- Every live player whose index is in the just-disconnected set is also in
the newly-connected set. -/
def ServerInstance.DisconnectedLiveAreNew (s : ServerInstance) : Prop :=
  ∀ i, Bitset.UnboundedTest s.m_disconnectedPlayers i = true →
    (MemoryPool.RetrieveFromIndex s.m_players i).isSome = true →
    Bitset.UnboundedTest s.m_newPlayers i = true

/-- A server that pauses when empty, without players, with 3 ns accumulated,
a tick of 10 ns and the tick index 7. -/
def pausedServer : ServerInstance :=
  { m_disconnectedPlayers := [], m_newPlayers := [], m_players := [],
    m_tickAccumulator := 3, m_tickDuration := 10, m_tickIndex := 7,
    m_pauseWhenEmpty := true, sessionCalls := [] }

/-- A server at tick 7 whose pool holds Ann (slot 0, session 10), a free slot
1, Bob (slot 2, session 12) and Cid (slot 3, no session); Bob is newly
connected, and the players of the indices 1 and 4 have just disconnected. -/
def lobbyServer : ServerInstance :=
  { m_disconnectedPlayers := [false, true, false, false, true],
    m_newPlayers := [false, false, true],
    m_players := [some ⟨"Ann", some 10, 0⟩, none, some ⟨"Bob", some 12, 2⟩,
                  some ⟨"Cid", none, 3⟩],
    m_tickAccumulator := 0, m_tickDuration := 10, m_tickIndex := 7,
    m_pauseWhenEmpty := false, sessionCalls := [] }

/-- The execution used against C20: a player is created and announced by a
network-dispatch phase, then destroyed, and a second player is created before
the next phase. The result is the final state and the second player. -/
def reuseScenario : Option (ServerInstance × ServerPlayer) :=
  (((exampleServer 0).CreatePlayer (some 10) "Ann").1.OnNetworkTick.bind
    (fun s => s.DestroyPlayer 0)).map (fun s => s.CreatePlayer (some 11) "Bob")

/-- The calls made by one iteration of the second loop of `OnNetworkTick`,
for the newly connected player `player` of index `playerIndex`: the
`PlayerJoin` broadcast, then the `GameData` for the player. -/
def ServerInstance.newPlayerCalls (s : ServerInstance) (playerIndex : Nat)
    (player : ServerPlayer) : List (SessionId × SessionCall) :=
  broadcast (MemoryPool.entries s.m_players)
    (fun p => !(Bitset.UnboundedTest s.m_newPlayers p.GetPlayerIndex))
    (Packet.PlayerJoin playerIndex player.GetNickname) ++
  (match player.GetSession with
   | none => []
   | some session =>
     [(session, SessionCall.SendPacket (Packet.GameData s.m_tickIndex
       ((MemoryPool.entries s.m_players).map
         (fun p => (p.GetPlayerIndex, p.GetNickname)))))])

/-- The calls made by the first loop of `OnNetworkTick`. -/
def ServerInstance.leaveCalls (s : ServerInstance) : List (SessionId × SessionCall) :=
  (Bitset.IterBits s.m_disconnectedPlayers).flatMap
    (fun playerIndex => broadcast (MemoryPool.entries s.m_players) (fun _ => true)
      (Packet.PlayerLeave playerIndex))

/-- The calls made by the second loop of `OnNetworkTick` over the indices `l`
whose slots are occupied. -/
def ServerInstance.newPlayersCalls (s : ServerInstance) (l : List Nat) :
    List (SessionId × SessionCall) :=
  l.flatMap (fun i =>
    match MemoryPool.RetrieveFromIndex s.m_players i with
    | none => []
    | some player => s.newPlayerCalls i player)
/-! ## ServerInstance: construction and operations -/

/-- The field of `ServerInstance::Config` that the embedded state could hold;
the save directory, save interval, planet seed and chunk count configure
objects outside the embedding. -/
structure ServerInstance.Config where
  pauseWhenEmpty : Bool
  deriving DecidableEq, Repr

/-- The constructor `ServerInstance::ServerInstance`. Its initialiser list
sets the pool, the accumulator, the tick duration (`Constants::TickDuration`,
declared outside the embedded sources: the parameter `tickDuration`) and the
tick index, and never mentions `m_pauseWhenEmpty`, which has no default
initialiser either: the member keeps an indeterminate value, the parameter
`indeterminate`; `config.pauseWhenEmpty` is not read. -/
def ServerInstance.new (tickDuration : Int) (_config : ServerInstance.Config)
    (indeterminate : Bool) : ServerInstance :=
  { m_disconnectedPlayers := [], m_newPlayers := [], m_players := [],
    m_tickAccumulator := Time.Zero, m_tickDuration := tickDuration, m_tickIndex := 0,
    m_pauseWhenEmpty := indeterminate, sessionCalls := [] }

/-- The operations on the player bookkeeping of a `ServerInstance`. -/
inductive ServerOp
  | CreatePlayer (session : Option SessionId) (nickname : String)
  | DestroyPlayer (playerIndex : PlayerIndex)
  | OnNetworkTick
  deriving DecidableEq, Repr

/-- Effect of one operation; `none` when it is undefined. -/
def ServerInstance.step (s : ServerInstance) : ServerOp → Option ServerInstance
  | ServerOp.CreatePlayer session nickname => some (s.CreatePlayer session nickname).1
  | ServerOp.DestroyPlayer playerIndex => s.DestroyPlayer playerIndex
  | ServerOp.OnNetworkTick => s.OnNetworkTick

/-- Effect of a sequence of operations. -/
def ServerInstance.steps (s : ServerInstance) : List ServerOp → Option ServerInstance
  | [] => some s
  | op :: rest =>
    match s.step op with
    | none => none
    | some s1 => s1.steps rest

/-- Every live player carries the index of its pool slot. -/
def ServerInstance.IndexOk (s : ServerInstance) : Prop :=
  ∀ i player, MemoryPool.RetrieveFromIndex s.m_players i = some player →
    player.GetPlayerIndex = i

/-- The live players that the `PlayerJoin` loop of `OnNetworkTick` does not
skip: those whose index is not in the newly-connected set. -/
def ServerInstance.joinRecipients (s : ServerInstance) : List ServerPlayer :=
  (MemoryPool.entries s.m_players).filter
    (fun p => !(Bitset.UnboundedTest s.m_newPlayers p.GetPlayerIndex))

/-- The example server about to leave the last value of a 16-bit tick index. -/
def lastTickServer : ServerInstance :=
  { exampleServer 0 with m_tickIndex := 65535 }

/-! ## DeformedChunk: the object -/

/-- State of a `DeformedChunk`: the base `Chunk`, the deformation center and
the deformation radius (a `float`; the members are stored, no arithmetic is
done on them here). -/
structure DeformedChunk where
  chunk : Chunk
  m_deformationCenter : Vector3f
  m_deformationRadius : ℚ
  deriving DecidableEq

/-- The constructor `DeformedChunk::DeformedChunk`. -/
def DeformedChunk.new (indices size : Vector3ui) (cellSize : Rat)
    (deformationCenter : Vector3f) (deformationRadius : ℚ) : DeformedChunk :=
  { chunk := Chunk.new indices size cellSize, m_deformationCenter := deformationCenter,
    m_deformationRadius := deformationRadius }

/-- The function `DeformedChunk::UpdateDeformationRadius`. -/
def DeformedChunk.UpdateDeformationRadius (c : DeformedChunk) (deformationRadius : ℚ) :
    DeformedChunk :=
  { c with m_deformationRadius := deformationRadius }

/-! ## ClientSessionHandler: the roster -/

/-- An entry of the client roster: `ClientSessionHandler::PlayerInfo`. -/
structure PlayerInfo where
  nickname : String
  deriving DecidableEq, Repr

/-- The signals emitted by the roster handlers, with their arguments. The
nickname of `OnChatMessage` is empty for a message without sender. -/
inductive ClientSignal
  | OnChatMessage (message : String) (nickname : String)
  | OnPlayerLeave (nickname : String)
  | OnPlayerJoined (nickname : String)
  deriving DecidableEq, Repr

/-- The packets handled by the roster handlers. -/
inductive RosterPacket
  | GameData (tickIndex : Nat) (players : List (PlayerIndex × String))
  | PlayerJoin (index : PlayerIndex) (nickname : String)
  | PlayerLeave (index : PlayerIndex)
  | ChatMessage (playerIndex : Option PlayerIndex) (message : String)
  deriving DecidableEq, Repr

/-- The part of the state of `ClientSessionHandler` used by the roster
handlers: the roster `m_players` (a vector of optional entries), the last tick
index, and the signals emitted, in order. -/
structure ClientSessionHandler where
  m_players : List (Option PlayerInfo)
  m_lastTickIndex : Nat
  signals : List ClientSignal
  deriving DecidableEq, Repr

/-- The roster right after construction. -/
def ClientSessionHandler.initial : ClientSessionHandler :=
  { m_players := [], m_lastTickIndex := 0, signals := [] }

/-- The statements `if (index >= m_players.size()) m_players.resize(index + 1);
m_players[index].emplace()` followed by the assignment of the nickname. -/
def ClientSessionHandler.emplace (players : List (Option PlayerInfo)) (index : PlayerIndex)
    (nickname : String) : List (Option PlayerInfo) :=
  (if index ≥ players.length then players ++ List.replicate (index + 1 - players.length) none
   else players).set index (some { nickname := nickname })

/-- The handler `HandlePacket(Packets::GameData&&)`. -/
def ClientSessionHandler.HandleGameData (s : ClientSessionHandler) (tickIndex : Nat)
    (players : List (PlayerIndex × String)) : ClientSessionHandler :=
  { s with
    m_lastTickIndex := tickIndex,
    m_players := players.foldl
      (fun roster playerData => ClientSessionHandler.emplace roster playerData.1 playerData.2)
      s.m_players }

/-- The handler `HandlePacket(Packets::PlayerJoin&&)`. -/
def ClientSessionHandler.HandlePlayerJoin (s : ClientSessionHandler) (index : PlayerIndex)
    (nickname : String) : ClientSessionHandler :=
  { s with
    m_players := ClientSessionHandler.emplace s.m_players index nickname,
    signals := s.signals ++ [ClientSignal.OnPlayerJoined nickname] }

/-- The handler `HandlePacket(Packets::PlayerLeave&&)`: an index beyond the
roster is logged and ignored; otherwise the slot is dereferenced, which is
undefined (`none`) when the optional is empty. -/
def ClientSessionHandler.HandlePlayerLeave (s : ClientSessionHandler) (index : PlayerIndex) :
    Option ClientSessionHandler :=
  if index ≥ s.m_players.length then some s
  else
    match s.m_players.getD index none with
    | none => none
    | some playerInfo =>
      some { s with
        signals := s.signals ++ [ClientSignal.OnPlayerLeave playerInfo.nickname],
        m_players := s.m_players.set index none }

/-- The handler `HandlePacket(Packets::ChatMessage&&)`: with a sender index
beyond the roster the message is logged and ignored; with one inside, the slot
is dereferenced, which is undefined (`none`) when the optional is empty. -/
def ClientSessionHandler.HandleChatMessage (s : ClientSessionHandler)
    (playerIndex : Option PlayerIndex) (message : String) : Option ClientSessionHandler :=
  match playerIndex with
  | some index =>
    if index ≥ s.m_players.length then some s
    else
      match s.m_players.getD index none with
      | none => none
      | some playerInfo =>
        some { s with
          signals := s.signals ++ [ClientSignal.OnChatMessage message playerInfo.nickname] }
  | none => some { s with signals := s.signals ++ [ClientSignal.OnChatMessage message ""] }

/-- Dispatch of a packet to its handler. -/
def ClientSessionHandler.HandlePacket (s : ClientSessionHandler) :
    RosterPacket → Option ClientSessionHandler
  | RosterPacket.GameData tickIndex players => some (s.HandleGameData tickIndex players)
  | RosterPacket.PlayerJoin index nickname => some (s.HandlePlayerJoin index nickname)
  | RosterPacket.PlayerLeave index => s.HandlePlayerLeave index
  | RosterPacket.ChatMessage playerIndex message => s.HandleChatMessage playerIndex message

/-- The handling of a sequence of packets, in order of arrival. -/
def ClientSessionHandler.HandlePackets (s : ClientSessionHandler) :
    List RosterPacket → Option ClientSessionHandler
  | [] => some s
  | packet :: rest =>
    match s.HandlePacket packet with
    | none => none
    | some s1 => s1.HandlePackets rest

/-- The packets that a `ServerInstance` sends to one session, as the roster
packets the client of that session handles. -/
def rosterPacketsOf (session : SessionId) (calls : List (SessionId × SessionCall)) :
    List RosterPacket :=
  calls.filterMap (fun c =>
    if c.1 = session then
      match c.2 with
      | SessionCall.SendPacket (Packet.PlayerLeave index) =>
        some (RosterPacket.PlayerLeave index)
      | SessionCall.SendPacket (Packet.PlayerJoin index nickname) =>
        some (RosterPacket.PlayerJoin index nickname)
      | SessionCall.SendPacket (Packet.GameData tickIndex players) =>
        some (RosterPacket.GameData tickIndex players)
      | _ => none
    else none)

/-- The execution used for C30, on the server side: Ann and Fay connect and
are announced; Ann leaves and is announced as gone; Zed connects, receives
the freed index 0, and leaves before the next network-dispatch phase, which
then announces the departure of index 0 once more. -/
def ghostLeaveScenario : Option ServerInstance :=
  let s1 := ((exampleServer 0).CreatePlayer (some 10) "Ann").1
  let s2 := (s1.CreatePlayer (some 11) "Fay").1
  (((s2.OnNetworkTick.bind (fun s => s.DestroyPlayer 0)).bind
    ServerInstance.OnNetworkTick).bind
      (fun s => ((s.CreatePlayer (some 12) "Zed").1).DestroyPlayer 0)).bind
    ServerInstance.OnNetworkTick

/-- The execution used against C24: in the example manager a rebuild is
requested (job 0) and its task passes its cancellation test and starts
building; a second request for the same index flags job 0 cancelled; then the
task of job 0 ends. The first component is the state before the task ends. -/
def cancelledWhileBuilding : Option (ChunkEntities × ChunkEntities) :=
  match (exampleManager.HandleChunkUpdate ⟨0, 0, 0⟩ 0).TaskBegin 0 with
  | none => none
  | some s1 =>
    match (s1.HandleChunkUpdate ⟨0, 0, 0⟩ 0).TaskEnd 0 with
    | none => none
    | some s2 => some (s1.HandleChunkUpdate ⟨0, 0, 0⟩ 0, s2)

/-! ## ChunkEntities under the notifications of its container -/

/-- The function `ChunkEntities::FillChunks`: `ForEachChunk` visits the chunks
of the container, stored from `address` on, and the proxy entity of each is
created. -/
def ChunkEntities.FillChunks (s : ChunkEntities) : List Chunk → Nat → Option ChunkEntities
  | [], _ => some s
  | chunk :: rest, address =>
    match s.CreateChunkEntity chunk.GetIndices address with
    | none => none
    | some s1 => s1.FillChunks rest (address + 1)

/-- The public constructor of `ChunkEntities` over a container that holds the
given chunks: the slots are connected and `FillChunks` is called. -/
def ChunkEntities.new (container : List Chunk) : Option ChunkEntities :=
  ChunkEntities.FillChunks { ChunkEntities.initial with chunks := container.map some }
    container 0

/-- What happens to a `ChunkEntities` after its construction: a notification
of the container about one of its chunks (added, removed, block updated), a
call of `Update`, or one of the two parts of a background task. -/
inductive Event
  | ChunkAdded (chunk : Chunk)
  | ChunkRemoved (chunkIndices : ChunkIndices)
  | ChunkUpdated (chunkIndices : ChunkIndices) (indices : Vector3ui) (newBlock : VoxelBlock)
  | Update
  | TaskBegin (job : Nat)
  | TaskEnd (job : Nat)
  deriving DecidableEq, Repr

/-- Effect of one event; `none` when it is not enabled (no chunk with the
index is in the container, the task is not queued) or an assertion fails. -/
def ChunkEntities.handle (s : ChunkEntities) : Event → Option ChunkEntities
  | Event.ChunkAdded chunk => s.AddChunk chunk
  | Event.ChunkRemoved chunkIndices => s.RemoveChunk chunkIndices
  | Event.ChunkUpdated chunkIndices indices newBlock =>
    s.UpdateBlock chunkIndices indices newBlock
  | Event.Update => s.Update
  | Event.TaskBegin job => s.TaskBegin job
  | Event.TaskEnd job => s.TaskEnd job

/-- Effect of a sequence of events. -/
def ChunkEntities.play (s : ChunkEntities) : List Event → Option ChunkEntities
  | [] => some s
  | event :: rest =>
    match s.handle event with
    | none => none
    | some s1 => s1.play rest

/-- The container currently holds a chunk with the given index. -/
def ChunkEntities.Live (s : ChunkEntities) (chunkIndices : ChunkIndices) : Prop :=
  ∃ (address : Nat) (chunk : Chunk), s.chunks[address]? = some (some chunk) ∧ chunk.GetIndices = chunkIndices

/-- Soundness of the registered and applied jobs: every index with a
registered job has a proxy entity, no registered job is flagged cancelled, and
no applied job is flagged cancelled. -/
structure ChunkEntities.JobsSound (s : ChunkEntities) : Prop where
  registered_proxy : ∀ e ∈ s.m_updateJobs, Map.contains s.m_chunkEntities e.1 = true
  registered_active : ∀ e ∈ s.m_updateJobs, (s.jobs e.2).cancelled = false
  applied_active : ∀ a ∈ s.applied, (s.jobs a.job).cancelled = false

/-- Agreement of a `ChunkEntities` with its container: every invalidated
index is the index of a chunk of the container, every chunk of the container
has a proxy entity, and the chunks of the container have distinct indices. -/
structure ChunkEntities.ContainerSound (s : ChunkEntities) : Prop where
  invalidated_live : ∀ i ∈ s.m_invalidatedChunks, s.Live i
  live_proxy : ∀ (address : Nat) (chunk : Chunk), s.chunks[address]? = some (some chunk) →
    Map.contains s.m_chunkEntities chunk.GetIndices = true
  live_distinct : ∀ (a b : Nat) (chunk chunk1 : Chunk), s.chunks[a]? = some (some chunk) →
    s.chunks[b]? = some (some chunk1) → chunk.GetIndices = chunk1.GetIndices → a = b

/-- An execution after the public constructor over a container of one chunk:
a block is written, `Update` issues the rebuild request, the tasks of both
jobs run, a block is written again. -/
def notifiedEvents : List Event :=
  [Event.ChunkUpdated ⟨0, 0, 0⟩ ⟨0, 0, 0⟩ ⟨1⟩, Event.Update, Event.TaskBegin 0,
   Event.TaskBegin 1, Event.TaskEnd 1, Event.ChunkUpdated ⟨0, 0, 0⟩ ⟨0, 0, 0⟩ ⟨2⟩]

/-- A session of a server started with a tick of 10 ns: Ann and Bob connect,
a network-dispatch phase runs, Ann leaves, Cid and Dan connect. -/
def lifecycleOps : List ServerOp :=
  [ServerOp.CreatePlayer (some 10) "Ann", ServerOp.CreatePlayer (some 11) "Bob",
   ServerOp.OnNetworkTick, ServerOp.DestroyPlayer 0,
   ServerOp.CreatePlayer (some 12) "Cid", ServerOp.CreatePlayer (some 13) "Dan"]

/-- A session of a server started with a tick of 10 ns: Ann and Fay connect
and a network-dispatch phase announces them. -/
def announcedOps : List ServerOp :=
  [ServerOp.CreatePlayer (some 10) "Ann", ServerOp.CreatePlayer (some 11) "Fay",
   ServerOp.OnNetworkTick]

/-! ## Properties -/

theorem handleNewPlayer_some (s : ServerInstance) (i : Nat)
    (h : (MemoryPool.RetrieveFromIndex s.m_players i).isSome) :
    ∃ calls, s.handleNewPlayer i = some { s with sessionCalls := calls } := by
  unfold ServerInstance.handleNewPlayer
  cases hp : MemoryPool.RetrieveFromIndex s.m_players i with
  | none => simp [hp] at h
  | some player => exact ⟨_, rfl⟩

theorem foldlM_handleNewPlayer_some (l : List Nat) :
    ∀ s : ServerInstance, (∀ i ∈ l, (MemoryPool.RetrieveFromIndex s.m_players i).isSome) →
      ∃ calls, l.foldlM ServerInstance.handleNewPlayer s = some { s with sessionCalls := calls } := by
  induction l with
  | nil => intro s _; exact ⟨s.sessionCalls, rfl⟩
  | cons i l ih =>
    intro s h
    obtain ⟨c1, h1⟩ := handleNewPlayer_some s i (h i (List.mem_cons_self _ _))
    obtain ⟨c2, h2⟩ := ih { s with sessionCalls := c1 } (fun j hj => h j (List.mem_cons_of_mem _ hj))
    exact ⟨c2, by simp [List.foldlM, h1, h2]⟩

theorem OnTick_some (s : ServerInstance) (t : Int) (h : s.NewPlayersLive) :
    ∃ s1, s.OnTick t = some s1 ∧ s1.m_tickAccumulator = s.m_tickAccumulator ∧
      s1.m_tickDuration = s.m_tickDuration ∧ s1.m_newPlayers = [] ∧
      s1.m_players = s.m_players ∧ s1.m_tickIndex = (s.m_tickIndex + 1) % 65536 := by
  unfold ServerInstance.OnTick ServerInstance.OnNetworkTick
  obtain ⟨c, hc⟩ := foldlM_handleNewPlayer_some
    (Bitset.IterBits s.m_newPlayers)
    (ServerInstance.handleDisconnected { s with m_tickIndex := (s.m_tickIndex + 1) % 65536 })
    (by intro i hi; exact h i hi)
  simp only [ServerInstance.handleDisconnected] at hc ⊢
  rw [hc]
  exact ⟨_, rfl, rfl, rfl, rfl, rfl, rfl⟩

theorem NewPlayersLive_of_nil (s : ServerInstance) (h : s.m_newPlayers = []) :
    s.NewPlayersLive := by
  intro i hi
  simp [h, Bitset.IterBits] at hi

theorem i64_of_range (x : Int) (h1 : -9223372036854775808 ≤ x)
    (h2 : x < 9223372036854775808) : i64 x = x := by
  unfold i64
  omega

theorem tickLoop_spec (fuel : Nat) :
    ∀ (s : ServerInstance) (a d : Int) (i : Nat), s.m_tickAccumulator = a →
      s.m_tickDuration = d → s.m_tickIndex = i → s.NewPlayersLive → i < 65536 →
      0 < d → 0 ≤ a → a < 9223372036854775808 → (a / d).toNat ≤ fuel →
      ∃ s1, s.tickLoop fuel = some (s1, (a / d).toNat) ∧
        s1.m_tickAccumulator = a % d ∧ s1.m_tickDuration = d ∧
        s1.m_tickIndex = (i + (a / d).toNat) % 65536 := by
  induction fuel with
  | zero =>
    intro s a d i hsa hsd hsi _ hi hd ha _ hf
    have hlt : a < d := by
      by_contra hge
      have : 1 ≤ a / d := (Int.le_ediv_iff_mul_le hd).2 (by omega)
      omega
    refine ⟨s, ?_, by rw [hsa, Int.emod_eq_of_lt ha hlt], hsd, ?_⟩
    · unfold ServerInstance.tickLoop
      rw [Int.ediv_eq_zero_of_lt ha hlt, hsa, hsd]
      simp [not_le.2 hlt]
    · rw [Int.ediv_eq_zero_of_lt ha hlt, hsi]
      simp only [Int.toNat_zero, Nat.add_zero]
      omega
  | succ fuel ih =>
    intro s a d i hsa hsd hsi hl hi hd ha hfit hf
    by_cases hge : a ≥ d
    · obtain ⟨s1, h1, hacc, hdur, hnew, _, hidx⟩ := OnTick_some s s.m_tickDuration hl
      have hq : (a - d) / d = a / d - 1 := by
        have := Int.add_mul_ediv_right a (-1) (ne_of_gt hd)
        simpa [sub_eq_add_neg] using this
      have hr : (a - d) % d = a % d := by
        have := Int.add_mul_emod_self (a := a) (b := -1) (c := d)
        simp only [neg_mul, one_mul] at this
        rw [sub_eq_add_neg]
        exact this
      have hpos : 1 ≤ a / d := (Int.le_ediv_iff_mul_le hd).2 (by omega)
      have hwrap : i64 (s1.m_tickAccumulator - s1.m_tickDuration) = a - d := by
        rw [hacc, hdur, hsa, hsd]
        exact i64_of_range _ (by omega) (by omega)
      obtain ⟨s2, h2, hacc2, hdur2, hidx2⟩ := ih
        { s1 with m_tickAccumulator := i64 (s1.m_tickAccumulator - s1.m_tickDuration) }
        (a - d) d ((i + 1) % 65536) hwrap
        (by simp only [hdur, hsd]) (by simp only [hidx, hsi])
        (NewPlayersLive_of_nil _ hnew) (Nat.mod_lt _ (by decide)) hd (by omega) (by omega)
        (by rw [hq]; omega)
      have hn : (a / d).toNat = ((a - d) / d).toNat + 1 := by rw [hq]; omega
      refine ⟨s2, ?_, by rw [hacc2, hr], hdur2, ?_⟩
      · rw [ServerInstance.tickLoop]
        simp only [hsa, hsd, hge, if_true]
        rw [← hsd, h1]
        simp only [h2]
        rw [hsd, hn]
      · rw [hidx2, hn]
        omega
    · have hlt : a < d := not_le.1 hge
      refine ⟨s, ?_, by rw [hsa, Int.emod_eq_of_lt ha hlt], hsd, ?_⟩
      · rw [ServerInstance.tickLoop, Int.ediv_eq_zero_of_lt ha hlt, hsa, hsd]
        simp [hge]
      · rw [Int.ediv_eq_zero_of_lt ha hlt, hsi]
        simp only [Int.toNat_zero, Nat.add_zero]
        omega

/-- C1 fails as stated: times are 64-bit signed counts of nanoseconds. With
the tick duration d = 2^62, the accumulator a = 2^62 - 1 (so 0 <= a < d) and
the elapsed time e = 2^62 + 2^61, the sum a + e exceeds 2^63 - 1 and wraps to
a negative value: `Update` runs no tick, although floor((a + e) / d) = 2, and
leaves the accumulator negative. -/
theorem ServerInstance.Update_overflow_counterexample :
    (0 : Int) < longTickServer.m_tickDuration ∧
    0 ≤ longTickServer.m_tickAccumulator ∧
    longTickServer.m_tickAccumulator < longTickServer.m_tickDuration ∧
    (longTickServer.m_tickAccumulator + 6917529027641081856)
      / longTickServer.m_tickDuration = 2 ∧
    (longTickServer.Update 2 6917529027641081856).map
      (fun r => (r.ticks, r.state.m_tickAccumulator)) =
      some (0, -6917529027641081857) := by
  refine ⟨by decide, by decide, by decide, by decide, ?_⟩
  decide

/-- C1, amended. For a tick duration d > 0, an accumulator a ≥ 0 (in
particular 0 ≤ a < d) and an elapsed time e ≥ 0 whose sum a + e is a 64-bit
signed value (a + e < 2^63), a non-paused Update(e) started with enough
iterations returns, having run exactly floor((a + e) / d) ticks (the tick
index advanced as many times modulo 2^16) and leaving the accumulator at
(a + e) mod d; from an empty accumulator with N*d ≤ e < (N+1)*d exactly N
ticks run. The state is one in which every newly connected index refers to a
live player. -/
theorem ServerInstance.Update_runs_floor_ticks (s : ServerInstance) (e : Int) (fuel : Nat)
    (hlive : s.NewPlayersLive) (hidx : s.m_tickIndex < 65536)
    (hrun : (s.m_pauseWhenEmpty && (MemoryPool.entries s.m_players).isEmpty) = false)
    (hd : 0 < s.m_tickDuration)
    (ha : 0 ≤ s.m_tickAccumulator) (he : 0 ≤ e)
    (hfit : s.m_tickAccumulator + e < 9223372036854775808)
    (hfuel : ((s.m_tickAccumulator + e) / s.m_tickDuration).toNat ≤ fuel) :
    ∃ r, s.Update fuel e = some r ∧
      r.ticks = ((s.m_tickAccumulator + e) / s.m_tickDuration).toNat ∧
      r.state.m_tickAccumulator = (s.m_tickAccumulator + e) % s.m_tickDuration ∧
      r.state.m_tickIndex = (s.m_tickIndex + r.ticks) % 65536 ∧
      (∀ N : Nat, s.m_tickAccumulator = 0 → N * s.m_tickDuration ≤ e →
        e < (N + 1) * s.m_tickDuration → r.ticks = N) := by
  have hsum : i64 (s.m_tickAccumulator + e) = s.m_tickAccumulator + e :=
    i64_of_range _ (by omega) hfit
  obtain ⟨s1, h1, hacc, hdur, hix⟩ := tickLoop_spec fuel
    { s with m_tickAccumulator := i64 (s.m_tickAccumulator + e) }
    (s.m_tickAccumulator + e) s.m_tickDuration s.m_tickIndex hsum rfl rfl hlive hidx hd
    (add_nonneg ha he) hfit hfuel
  refine ⟨⟨i64 (s1.m_tickDuration - s1.m_tickAccumulator), s1,
    ((s.m_tickAccumulator + e) / s.m_tickDuration).toNat⟩, ?_, rfl, hacc, hix, ?_⟩
  · unfold ServerInstance.Update
    rw [hrun]
    simp only [Bool.false_eq_true, if_false]
    rw [h1]
  · intro N h0 hlo hhi
    show ((s.m_tickAccumulator + e) / s.m_tickDuration).toNat = N
    rw [h0, zero_add]
    have hq : e / s.m_tickDuration = (N : Int) := by
      apply le_antisymm
      · exact Int.lt_add_one_iff.1 ((Int.ediv_lt_iff_lt_mul hd).2 hhi)
      · exact (Int.le_ediv_iff_mul_le hd).2 hlo
    rw [hq]
    exact Int.toNat_ofNat N

/-- Witness of the amended C1: tick 10, accumulator 3, elapsed 25: two ticks,
8 left. -/
theorem ServerInstance.Update_runs_floor_ticks_witness :
    ∃ r, (exampleServer 3).Update 2 25 = some r ∧ r.ticks = 2 ∧
      r.state.m_tickAccumulator = 8 := by
  obtain ⟨r, h, ht, ha, _, _⟩ := ServerInstance.Update_runs_floor_ticks (exampleServer 3) 25 2
    (NewPlayersLive_of_nil _ rfl) (by decide) (by decide) (by decide) (by decide) (by decide)
    (by decide) (by decide)
  exact ⟨r, h, ht, ha⟩

/-- C2 fails as stated: with tick 10, an empty accumulator and 10 elapsed, one
tick runs and the returned hint is 10, which is not below the tick duration.
Beyond the 64-bit range the hint is not even positive: with the tick 2^62,
the accumulator 2^62 - 1 and 2^62 + 2^61 elapsed, the sum wraps and the hint
returned is negative. -/
theorem ServerInstance.Update_hint_counterexample :
    ((exampleServer 0).Update 1 10).map (fun r => (r.hint, r.ticks)) = some (10, 1) ∧
      ¬ ((10 : Int) < (exampleServer 0).m_tickDuration) ∧
      (longTickServer.Update 2 6917529027641081856).map (fun r => r.hint) =
        some (-6917529027641081855) := by
  decide

/-- C2, amended. For a tick duration d > 0 and an accumulator a and elapsed
time e with 0 ≤ a + e, all 64-bit signed values (d < 2^63, a + e < 2^63), a
non-paused Update started with enough iterations returns a hint in the
half-open interval (0, d]: 0 < hint ≤ d, the hint is d minus the accumulator
left, and hint = d exactly when the accumulator is left at 0. -/
theorem ServerInstance.Update_hint_bounds (s : ServerInstance) (e : Int) (fuel : Nat)
    (hlive : s.NewPlayersLive) (hidx : s.m_tickIndex < 65536)
    (hrun : (s.m_pauseWhenEmpty && (MemoryPool.entries s.m_players).isEmpty) = false)
    (hd : 0 < s.m_tickDuration) (hdfit : s.m_tickDuration < 9223372036854775808)
    (hae : 0 ≤ s.m_tickAccumulator + e)
    (hfit : s.m_tickAccumulator + e < 9223372036854775808)
    (hfuel : ((s.m_tickAccumulator + e) / s.m_tickDuration).toNat ≤ fuel) :
    ∃ r, s.Update fuel e = some r ∧ 0 < r.hint ∧ r.hint ≤ s.m_tickDuration ∧
      r.hint = s.m_tickDuration - r.state.m_tickAccumulator ∧
      (r.hint = s.m_tickDuration ↔ r.state.m_tickAccumulator = 0) := by
  have hsum : i64 (s.m_tickAccumulator + e) = s.m_tickAccumulator + e :=
    i64_of_range _ (by omega) hfit
  obtain ⟨s1, h1, hacc, hdur, _⟩ := tickLoop_spec fuel
    { s with m_tickAccumulator := i64 (s.m_tickAccumulator + e) }
    (s.m_tickAccumulator + e) s.m_tickDuration s.m_tickIndex hsum rfl rfl hlive hidx hd
    hae hfit hfuel
  have hlo := Int.emod_nonneg (s.m_tickAccumulator + e) (ne_of_gt hd)
  have hhi := Int.emod_lt_of_pos (s.m_tickAccumulator + e) hd
  have hhint : i64 (s1.m_tickDuration - s1.m_tickAccumulator) =
      s1.m_tickDuration - s1.m_tickAccumulator :=
    i64_of_range _ (by omega) (by omega)
  refine ⟨⟨i64 (s1.m_tickDuration - s1.m_tickAccumulator), s1,
    ((s.m_tickAccumulator + e) / s.m_tickDuration).toNat⟩, ?_, ?_, ?_, ?_, ?_⟩
  · unfold ServerInstance.Update
    rw [hrun]
    simp only [Bool.false_eq_true, if_false]
    rw [h1]
  all_goals clear h1
  · show 0 < i64 (s1.m_tickDuration - s1.m_tickAccumulator)
    rw [hhint]; omega
  · show i64 (s1.m_tickDuration - s1.m_tickAccumulator) ≤ s.m_tickDuration
    rw [hhint]; omega
  · show i64 (s1.m_tickDuration - s1.m_tickAccumulator) =
      s.m_tickDuration - s1.m_tickAccumulator
    rw [hhint]; omega
  · show i64 (s1.m_tickDuration - s1.m_tickAccumulator) = s.m_tickDuration ↔
      s1.m_tickAccumulator = 0
    rw [hhint]; omega

/-- Witness of the amended C2: tick 10, accumulator 3, elapsed 25. -/
theorem ServerInstance.Update_hint_bounds_witness :
    ∃ r, (exampleServer 3).Update 2 25 = some r ∧ 0 < r.hint ∧ r.hint ≤ 10 := by
  obtain ⟨r, h, h0, h1, _⟩ := ServerInstance.Update_hint_bounds (exampleServer 3) 25 2
    (NewPlayersLive_of_nil _ rfl) (by decide) (by decide) (by decide) (by decide) (by decide)
    (by decide) (by decide)
  exact ⟨r, h, h0, h1⟩

theorem linear_index_lt {w h d x y z : Nat} (hx : x < w) (hy : y < h) (hz : z < d) :
    x + w * (y + h * z) < w * h * d := by
  have h1 : y + h * z + 1 ≤ h * d := by
    calc y + h * z + 1 ≤ h + h * z := by omega
      _ = h * (z + 1) := by ring
      _ ≤ h * d := Nat.mul_le_mul_left h hz
  calc x + w * (y + h * z) < w + w * (y + h * z) := by omega
    _ = w * (y + h * z + 1) := by ring
    _ ≤ w * (h * d) := Nat.mul_le_mul_left w h1
    _ = w * h * d := by ring

theorem GetBlockIndex_mod (c : Chunk) (v : Vector3ui) :
    c.GetBlockIndex v = (v.x + c.m_size.x * (v.y + c.m_size.y * v.z)) % 4294967296 := by
  unfold Chunk.GetBlockIndex u32
  have e : v.x + c.m_size.x * (v.y + c.m_size.y * v.z)
      = c.m_size.x * (c.m_size.y * v.z + v.y) + v.x := by ring
  rw [e]
  have h1 : Nat.ModEq 4294967296 ((c.m_size.y * v.z % 4294967296 + v.y) % 4294967296)
      (c.m_size.y * v.z + v.y) :=
    (Nat.mod_modEq _ _).trans ((Nat.mod_modEq _ _).add_right _)
  have h2 : Nat.ModEq 4294967296
      (c.m_size.x * ((c.m_size.y * v.z % 4294967296 + v.y) % 4294967296) % 4294967296)
      (c.m_size.x * (c.m_size.y * v.z + v.y)) :=
    (Nat.mod_modEq _ _).trans (h1.mul_left _)
  exact h2.add_right v.x

theorem GetBlockIndex_exact (c : Chunk) (v : Vector3ui)
    (h : v.x + c.m_size.x * (v.y + c.m_size.y * v.z) < 4294967296) :
    c.GetBlockIndex v = v.x + c.m_size.x * (v.y + c.m_size.y * v.z) := by
  rw [GetBlockIndex_mod, Nat.mod_eq_of_lt h]

theorem GetBlockIndex_le (c : Chunk) (v : Vector3ui) :
    c.GetBlockIndex v ≤ v.x + c.m_size.x * (v.y + c.m_size.y * v.z) := by
  rw [GetBlockIndex_mod]
  exact Nat.mod_le _ _

theorem GetBlockIndex_lt_of_valid (c : Chunk) (v : Vector3ui) (hv : c.ValidCoordinates v) :
    c.GetBlockIndex v < c.m_size.x * c.m_size.y * c.m_size.z :=
  lt_of_le_of_lt (GetBlockIndex_le c v) (linear_index_lt hv.1 hv.2.1 hv.2.2)

theorem linear_index_inj {w h x y z x1 y1 z1 : Nat} (hx : x < w) (hy : y < h)
    (hx1 : x1 < w) (hy1 : y1 < h)
    (e : x + w * (y + h * z) = x1 + w * (y1 + h * z1)) : x = x1 ∧ y = y1 ∧ z = z1 := by
  have hxx : x = x1 := by
    have := congrArg (· % w) e
    simpa [Nat.add_mul_mod_self_left, Nat.mod_eq_of_lt hx, Nat.mod_eq_of_lt hx1] using this
  subst hxx
  have e2 : y + h * z = y1 + h * z1 :=
    Nat.eq_of_mul_eq_mul_left (by omega : 0 < w) (Nat.add_left_cancel e)
  have hyy : y = y1 := by
    have := congrArg (· % h) e2
    simpa [Nat.add_mul_mod_self_left, Nat.mod_eq_of_lt hy, Nat.mod_eq_of_lt hy1] using this
  subst hyy
  exact ⟨rfl, rfl, Nat.eq_of_mul_eq_mul_left (by omega : 0 < h) (Nat.add_left_cancel e2)⟩

theorem linear_index_surj {w h d i : Nat} (hi : i < w * h * d) :
    i % w < w ∧ i / w % h < h ∧ i / w / h < d ∧
      i % w + w * (i / w % h + h * (i / w / h)) = i := by
  have hw : 0 < w := by
    rcases Nat.eq_zero_or_pos w with h0 | h0
    · subst h0; simp at hi
    · exact h0
  have hh : 0 < h := by
    rcases Nat.eq_zero_or_pos h with h0 | h0
    · subst h0; simp at hi
    · exact h0
  refine ⟨Nat.mod_lt _ hw, Nat.mod_lt _ hh, ?_, ?_⟩
  · rw [Nat.div_div_eq_div_mul]
    exact Nat.div_lt_of_lt_mul hi
  · rw [Nat.mod_add_div (i / w) h, Nat.mod_add_div i w]

theorem UpdateBlock_of_lt (c : Chunk) (v : Vector3ui) (b : VoxelBlock)
    (h : c.GetBlockIndex v < c.m_cells.length) :
    c.UpdateBlock v b = some { c with m_cells := c.m_cells.set (c.GetBlockIndex v) b,
                                      OnBlockUpdated := c.OnBlockUpdated ++ [(v, b)] } := by
  unfold Chunk.UpdateBlock
  simp [h]

/-- C4 fails as stated: the constructed chunk of size (2^31 + 1) x 2 x 1 holds
2 cells (the 32-bit product of the sizes wraps); the coordinate (2, 0, 0) is
valid, its linear index 2 is outside the grid, so UpdateBlock writes no cell
of the grid (the write is outside the vector) and GetBlockContent reads none. -/
theorem Chunk.UpdateBlock_wrapped_counterexample :
    wrappedChunk.m_cells.length = 2 ∧ wrappedChunk.ValidCoordinates ⟨2, 0, 0⟩ ∧
    wrappedChunk.GetBlockIndex ⟨2, 0, 0⟩ = 2 ∧
    wrappedChunk.UpdateBlock ⟨2, 0, 0⟩ ⟨9⟩ = none ∧
    wrappedChunk.GetBlockContent ⟨2, 0, 0⟩ = none :=
  ⟨by decide, ⟨by decide, by decide, by decide⟩, by decide, by decide, by decide⟩

/-- C4, amended. For every chunk whose grid holds one cell per voxel
(width*height*depth cells), every valid coordinate C and every block value v,
UpdateBlock(C, v) succeeds and a following GetBlockContent(C) returns v. -/
theorem Chunk.UpdateBlock_then_GetBlockContent (c : Chunk) (v : Vector3ui) (b : VoxelBlock)
    (hinv : c.GridInvariant) (hv : c.ValidCoordinates v) :
    ∃ c1, c.UpdateBlock v b = some c1 ∧ c1.GetBlockContent v = some b := by
  have hlt : c.GetBlockIndex v < c.m_cells.length := by
    rw [hinv]; exact GetBlockIndex_lt_of_valid c v hv
  refine ⟨_, UpdateBlock_of_lt c v b hlt, ?_⟩
  show (c.m_cells.set (c.GetBlockIndex v) b)[c.GetBlockIndex v]? = some b
  rw [List.getElem?_set_self hlt]

/-- Witness of the amended C4 on the 2 x 2 x 1 chunk, writing block 9 at
(1, 0, 0). -/
theorem Chunk.UpdateBlock_then_GetBlockContent_witness :
    ∃ c1, exampleChunk.UpdateBlock ⟨1, 0, 0⟩ ⟨9⟩ = some c1 ∧
      c1.GetBlockContent ⟨1, 0, 0⟩ = some ⟨9⟩ :=
  Chunk.UpdateBlock_then_GetBlockContent exampleChunk ⟨1, 0, 0⟩ ⟨9⟩ rfl
    ⟨by decide, by decide, by decide⟩

/-- C5 fails as stated: in the 2 x 2 x 1 chunk the coordinate (2, 0, 0) has
x equal to the width, yet GetBlockContent returns the block of the cell
(0, 1, 0) and UpdateBlock overwrites that cell. -/
theorem Chunk.unchecked_access_counterexample :
    exampleChunk.m_size.x ≤ 2 ∧
      exampleChunk.GetBlockContent ⟨2, 0, 0⟩ = some ⟨3⟩ ∧
      exampleChunk.GetBlockContent ⟨0, 1, 0⟩ = some ⟨3⟩ ∧
      (exampleChunk.UpdateBlock ⟨2, 0, 0⟩ ⟨9⟩).map (fun c => c.m_cells)
        = some [⟨1⟩, ⟨2⟩, ⟨9⟩, ⟨4⟩] := by
  decide

/-- C5, amended. GetBlockContent and UpdateBlock do not compare the
coordinates with the size: for every coordinate triple, valid or not, they
access the cell at the linear index GetBlockIndex(C). When that index is below
the grid length it is the index of a valid coordinate, whose cell is the one
read and written; only when it is at or beyond the grid length is no cell of
the grid accessed (the access is then outside the vector). -/
theorem Chunk.unchecked_access (c : Chunk) (v : Vector3ui)
    (hinv : c.GridInvariant)
    (hsize : c.m_size.x * c.m_size.y * c.m_size.z < 4294967296) :
    (c.GetBlockIndex v < c.m_cells.length →
      ∃ v1, c.ValidCoordinates v1 ∧ c.GetBlockIndex v1 = c.GetBlockIndex v ∧
        (c.GetBlockContent v).isSome ∧ c.GetBlockContent v = c.GetBlockContent v1 ∧
        ∀ b, ∃ c1, c.UpdateBlock v b = some c1 ∧ c1.GetBlockContent v1 = some b) ∧
    (c.m_cells.length ≤ c.GetBlockIndex v →
      c.GetBlockContent v = none ∧ ∀ b, c.UpdateBlock v b = none) := by
  constructor
  · intro hlt
    have hlt1 := hlt
    rw [hinv] at hlt1
    obtain ⟨h1, h2, h3, h4⟩ := linear_index_surj hlt1
    let v1 : Vector3ui := ⟨c.GetBlockIndex v % c.m_size.x,
      c.GetBlockIndex v / c.m_size.x % c.m_size.y, c.GetBlockIndex v / c.m_size.x / c.m_size.y⟩
    have hv1 : c.ValidCoordinates v1 := ⟨h1, h2, h3⟩
    have he : c.GetBlockIndex v1 = c.GetBlockIndex v := by
      rw [GetBlockIndex_exact c v1 (lt_trans (linear_index_lt h1 h2 h3) hsize)]
      exact h4
    refine ⟨v1, hv1, he, ?_, ?_, ?_⟩
    · simp only [Chunk.GetBlockContent]
      rw [List.getElem?_eq_getElem hlt]
      rfl
    · simp only [Chunk.GetBlockContent, he]
    · intro b
      refine ⟨_, UpdateBlock_of_lt c v b hlt, ?_⟩
      show (c.m_cells.set (c.GetBlockIndex v) b)[c.GetBlockIndex v1]? = some b
      rw [he, List.getElem?_set_self hlt]
  · intro hge
    constructor
    · simp only [Chunk.GetBlockContent]
      exact List.getElem?_eq_none hge
    · intro b
      unfold Chunk.UpdateBlock
      simp [not_lt.2 hge]

/-- Witness of the amended C5 on the 2 x 2 x 1 chunk at (2, 0, 0). -/
theorem Chunk.unchecked_access_witness :
    ∃ v1, exampleChunk.ValidCoordinates v1 ∧
      exampleChunk.GetBlockIndex v1 = exampleChunk.GetBlockIndex ⟨2, 0, 0⟩ ∧
      (exampleChunk.GetBlockContent ⟨2, 0, 0⟩).isSome := by
  obtain ⟨v1, h1, h2, h3, _⟩ :=
    (Chunk.unchecked_access exampleChunk ⟨2, 0, 0⟩ rfl (by decide)).1 (by decide)
  exact ⟨v1, h1, h2, h3⟩

theorem neighborAxis_spec (i : Nat) (o : Int) (size : Nat) (hi : i < size)
    (hno : (i : Int) + o < 4294967296) :
    (((i : Int) + o < 0 ∨ (size : Int) ≤ (i : Int) + o) →
        Chunk.neighborAxis i o size = none) ∧
    (¬ ((i : Int) + o < 0 ∨ (size : Int) ≤ (i : Int) + o) →
        Chunk.neighborAxis i o size = some ((i : Int) + o).toNat ∧
        ((i : Int) + o).toNat < size) := by
  unfold Chunk.neighborAxis u32
  by_cases h1 : o < 0
  · simp only [h1, if_true]
    by_cases h2 : o.natAbs > i
    · simp only [h2, if_true]
      exact ⟨fun _ => trivial, fun hin => absurd hin (by omega)⟩
    · simp only [h2, if_false]
      refine ⟨fun hout => absurd hout (by omega), fun _ => ⟨?_, by omega⟩⟩
      congr 1; omega
  · simp only [h1, if_false]
    have hm : (i + o.toNat) % 4294967296 = i + o.toNat := Nat.mod_eq_of_lt (by omega)
    rw [hm]
    by_cases h3 : i + o.toNat ≥ size
    · simp only [h3, if_true]
      exact ⟨fun _ => trivial, fun hin => absurd hin (by omega)⟩
    · simp only [h3, if_false]
      refine ⟨fun hout => absurd hout (by omega), fun _ => ⟨?_, by omega⟩⟩
      congr 1; omega

theorem GetBlockContent_new (indices size v : Vector3ui) (cellSize : Rat)
    (h : (Chunk.new indices size cellSize).GetBlockIndex v
      < u32 (u32 (size.x * size.y) * size.z)) :
    (Chunk.new indices size cellSize).GetBlockContent v = some VoxelBlock.Empty := by
  show (List.replicate (u32 (u32 (size.x * size.y) * size.z)) VoxelBlock.Empty)[
    (Chunk.new indices size cellSize).GetBlockIndex v]? = some VoxelBlock.Empty
  rw [List.getElem?_replicate, if_pos h]

theorem GetNeighborBlock_of_axes (c : Chunk) (v : Vector3ui) (o : Vector3i) (x y z : Nat)
    (b : VoxelBlock)
    (hx : Chunk.neighborAxis v.x o.x c.m_size.x = some x)
    (hy : Chunk.neighborAxis v.y o.y c.m_size.y = some y)
    (hz : Chunk.neighborAxis v.z o.z c.m_size.z = some z)
    (hb : c.GetBlockContent ⟨x, y, z⟩ = some b) :
    c.GetNeighborBlock v o = some (some b) := by
  unfold Chunk.GetNeighborBlock
  simp only [hx, hy, hz, hb]

theorem wideChunk_GridInvariant : wideChunk.GridInvariant := by
  show (List.replicate (u32 (u32 (4294967295 * 1) * 1)) VoxelBlock.Empty).length
      = 4294967295 * 1 * 1
  rw [List.length_replicate]
  norm_num [u32]

/-- C6, the divergence of the code: the branch for an offset that is not
negative adds the offset to the index in 32-bit unsigned arithmetic and only
then compares with the size. In a fresh chunk of width 2^32 - 1, moving by +2
from the valid cell x = 2^32 - 2 leaves the chunk (2^32 is not below the
width), yet the sum wraps to 0, passes the comparison, and the block of the
cell (0, 0, 0) is returned instead of no value. The branch for a negative
offset compares before it subtracts and has no such wrap: moving by -1 from
x = 0 returns no value. -/
theorem Chunk.GetNeighborBlock_sum_wraps :
    wideChunk.GridInvariant ∧ wideChunk.ValidCoordinates ⟨4294967294, 0, 0⟩ ∧
      wideChunk.m_size.x ≤ 4294967294 + 2 ∧
      wideChunk.GetNeighborBlock ⟨4294967294, 0, 0⟩ ⟨2, 0, 0⟩ = some (some VoxelBlock.Empty) ∧
      wideChunk.GetNeighborBlock ⟨0, 0, 0⟩ ⟨-1, 0, 0⟩ = some none :=
  ⟨wideChunk_GridInvariant, ⟨by decide, by decide, by decide⟩, by decide,
    GetNeighborBlock_of_axes wideChunk _ _ 0 0 0 _ (by decide) (by decide) (by decide)
      (GetBlockContent_new _ _ _ _ (by decide)), by decide⟩

/-- Where no sum wraps, `GetNeighborBlock` is as intended: for every chunk
whose grid holds one cell per voxel, every valid start coordinate and every
signed offset such that start + offset stays below 2^32 on each axis (always
so when no size exceeds 2^31), it returns no value exactly when start + offset
has a component below 0 or at least the size on that axis, and otherwise
returns the content of the cell at start + offset of this same chunk. -/
theorem Chunk.GetNeighborBlock_spec (c : Chunk) (v : Vector3ui) (o : Vector3i)
    (hinv : c.GridInvariant) (hv : c.ValidCoordinates v)
    (hx : (v.x : Int) + o.x < 4294967296) (hy : (v.y : Int) + o.y < 4294967296)
    (hz : (v.z : Int) + o.z < 4294967296) :
    ((((v.x : Int) + o.x < 0 ∨ (c.m_size.x : Int) ≤ (v.x : Int) + o.x) ∨
      ((v.y : Int) + o.y < 0 ∨ (c.m_size.y : Int) ≤ (v.y : Int) + o.y) ∨
      ((v.z : Int) + o.z < 0 ∨ (c.m_size.z : Int) ≤ (v.z : Int) + o.z)) →
        c.GetNeighborBlock v o = some none) ∧
    (¬ (((v.x : Int) + o.x < 0 ∨ (c.m_size.x : Int) ≤ (v.x : Int) + o.x) ∨
      ((v.y : Int) + o.y < 0 ∨ (c.m_size.y : Int) ≤ (v.y : Int) + o.y) ∨
      ((v.z : Int) + o.z < 0 ∨ (c.m_size.z : Int) ≤ (v.z : Int) + o.z)) →
        ∃ b, c.GetBlockContent
              ⟨((v.x : Int) + o.x).toNat, ((v.y : Int) + o.y).toNat, ((v.z : Int) + o.z).toNat⟩
            = some b ∧
          c.GetNeighborBlock v o = some (some b)) := by
  obtain ⟨ax1, ax2⟩ := neighborAxis_spec v.x o.x c.m_size.x hv.1 hx
  obtain ⟨ay1, ay2⟩ := neighborAxis_spec v.y o.y c.m_size.y hv.2.1 hy
  obtain ⟨az1, az2⟩ := neighborAxis_spec v.z o.z c.m_size.z hv.2.2 hz
  constructor
  · intro hout
    unfold Chunk.GetNeighborBlock
    by_cases bx : (v.x : Int) + o.x < 0 ∨ (c.m_size.x : Int) ≤ (v.x : Int) + o.x
    · rw [ax1 bx]
    · rw [(ax2 bx).1]
      by_cases by1 : (v.y : Int) + o.y < 0 ∨ (c.m_size.y : Int) ≤ (v.y : Int) + o.y
      · simp only [ay1 by1]
      · simp only [(ay2 by1).1]
        have bz : (v.z : Int) + o.z < 0 ∨ (c.m_size.z : Int) ≤ (v.z : Int) + o.z :=
          (hout.resolve_left bx).resolve_left by1
        simp only [az1 bz]
  · intro hin
    have bx : ¬ ((v.x : Int) + o.x < 0 ∨ (c.m_size.x : Int) ≤ (v.x : Int) + o.x) :=
      fun h => hin (Or.inl h)
    have by1 : ¬ ((v.y : Int) + o.y < 0 ∨ (c.m_size.y : Int) ≤ (v.y : Int) + o.y) :=
      fun h => hin (Or.inr (Or.inl h))
    have bz : ¬ ((v.z : Int) + o.z < 0 ∨ (c.m_size.z : Int) ≤ (v.z : Int) + o.z) :=
      fun h => hin (Or.inr (Or.inr h))
    have hvalid : c.ValidCoordinates
        ⟨((v.x : Int) + o.x).toNat, ((v.y : Int) + o.y).toNat, ((v.z : Int) + o.z).toNat⟩ :=
      ⟨(ax2 bx).2, (ay2 by1).2, (az2 bz).2⟩
    have hlt := GetBlockIndex_lt_of_valid c _ hvalid
    rw [← hinv] at hlt
    refine ⟨c.m_cells[c.GetBlockIndex
      ⟨((v.x : Int) + o.x).toNat, ((v.y : Int) + o.y).toNat, ((v.z : Int) + o.z).toNat⟩], ?_, ?_⟩
    · simp only [Chunk.GetBlockContent]
      exact List.getElem?_eq_getElem hlt
    · unfold Chunk.GetNeighborBlock
      simp only [(ax2 bx).1, (ay2 by1).1, (az2 bz).1, Chunk.GetBlockContent,
        List.getElem?_eq_getElem hlt]

/-- An instance on the 2 x 2 x 1 chunk: from (0, 0, 0) the
offset (1, 1, 0) reaches the cell (1, 1, 0), which holds block 4. -/
theorem Chunk.GetNeighborBlock_spec_witness :
    ∃ b, exampleChunk.GetBlockContent ⟨1, 1, 0⟩ = some b ∧
      exampleChunk.GetNeighborBlock ⟨0, 0, 0⟩ ⟨1, 1, 0⟩ = some (some b) :=
  (Chunk.GetNeighborBlock_spec exampleChunk ⟨0, 0, 0⟩ ⟨1, 1, 0⟩ rfl
    ⟨by decide, by decide, by decide⟩ (by decide) (by decide) (by decide)).2 (by decide)

/-- C7. With a minimum client version not above the server version, an
AuthRequest handled in the Initial state, whatever its nickname, whose
gameVersion is below the minimum is answered by AuthResponse UpgradeRequired,
and one whose gameVersion is above the server version by AuthResponse
ServerIsOutdated; in both cases the only effects are that reply followed by
Disconnect(Later) on the session: the player pool and the rest of the state
are unchanged and no handler is installed. -/
theorem InitialSessionHandler.HandlePacket_version_mismatch (env : HandshakeEnv)
    (s : ServerInstance) (session : SessionId) (req : AuthRequest)
    (hver : env.ProtocolRequiredClientVersion ≤ env.GameVersion) :
    (req.gameVersion < env.ProtocolRequiredClientVersion →
      InitialSessionHandler.HandlePacket env s session req =
        { s with sessionCalls := s.sessionCalls ++
          [(session, SessionCall.SendPacket
              (Packet.AuthResponse (AuthResult.Err AuthError.UpgradeRequired) none)),
           (session, SessionCall.Disconnect DisconnectionType.Later)] }) ∧
    (req.gameVersion > env.GameVersion →
      InitialSessionHandler.HandlePacket env s session req =
        { s with sessionCalls := s.sessionCalls ++
          [(session, SessionCall.SendPacket
              (Packet.AuthResponse (AuthResult.Err AuthError.ServerIsOutdated) none)),
           (session, SessionCall.Disconnect DisconnectionType.Later)] }) := by
  constructor
  · intro h
    simp [InitialSessionHandler.HandlePacket, InitialSessionHandler.FailAuth, h]
  · intro h
    have h1 : ¬ req.gameVersion < env.ProtocolRequiredClientVersion := by omega
    simp [InitialSessionHandler.HandlePacket, InitialSessionHandler.FailAuth, h, h1]

/-- Witness of C7: version 2 is below the minimum 3 of the example
environment. -/
theorem InitialSessionHandler.HandlePacket_version_mismatch_witness :
    InitialSessionHandler.HandlePacket exampleEnv (exampleServer 0) 5 ⟨2, "Bob"⟩ =
      { exampleServer 0 with sessionCalls :=
        [(5, SessionCall.SendPacket
            (Packet.AuthResponse (AuthResult.Err AuthError.UpgradeRequired) none)),
         (5, SessionCall.Disconnect DisconnectionType.Later)] } :=
  (InitialSessionHandler.HandlePacket_version_mismatch exampleEnv (exampleServer 0) 5
    ⟨2, "Bob"⟩ (by decide)).1 (by decide)

/-- C8. An AuthRequest whose version is in the accepted range and whose
nickname differs from its trimmed form is answered by AuthResponse
ProtocolError followed by Disconnect(Later); apart from the protocol version
recorded on the session, nothing else changes: no player is created. -/
theorem InitialSessionHandler.HandlePacket_untrimmed (env : HandshakeEnv)
    (s : ServerInstance) (session : SessionId) (req : AuthRequest)
    (hmin : env.ProtocolRequiredClientVersion ≤ req.gameVersion)
    (hmax : req.gameVersion ≤ env.GameVersion)
    (hnick : env.Trim req.nickname ≠ req.nickname) :
    InitialSessionHandler.HandlePacket env s session req =
      { s with sessionCalls := s.sessionCalls ++
        [(session, SessionCall.SetProtocolVersion req.gameVersion),
         (session, SessionCall.SendPacket
            (Packet.AuthResponse (AuthResult.Err AuthError.ProtocolError) none)),
         (session, SessionCall.Disconnect DisconnectionType.Later)] } := by
  have h1 : ¬ req.gameVersion < env.ProtocolRequiredClientVersion := by omega
  have h2 : ¬ req.gameVersion > env.GameVersion := by omega
  simp [InitialSessionHandler.HandlePacket, InitialSessionHandler.FailAuth, h1, h2, hnick]

/-- Witness of C8: the nickname "  Bob" with an accepted version. -/
theorem InitialSessionHandler.HandlePacket_untrimmed_witness :
    InitialSessionHandler.HandlePacket exampleEnv (exampleServer 0) 5 ⟨4, "  Bob"⟩ =
      { exampleServer 0 with sessionCalls :=
        [(5, SessionCall.SetProtocolVersion 4),
         (5, SessionCall.SendPacket
            (Packet.AuthResponse (AuthResult.Err AuthError.ProtocolError) none)),
         (5, SessionCall.Disconnect DisconnectionType.Later)] } :=
  InitialSessionHandler.HandlePacket_untrimmed exampleEnv (exampleServer 0) 5 ⟨4, "  Bob"⟩
    (by decide) (by decide) (by decide)

theorem firstFree_free {α : Type} (pool : MemoryPool α) :
    MemoryPool.RetrieveFromIndex pool (MemoryPool.firstFree pool) = none := by
  induction pool with
  | nil => rfl
  | cons a rest ih =>
    cases a with
    | none => rfl
    | some x => simpa [MemoryPool.RetrieveFromIndex, MemoryPool.firstFree] using ih

theorem firstFree_le {α : Type} (pool : MemoryPool α) :
    MemoryPool.firstFree pool ≤ pool.length := by
  induction pool with
  | nil => exact Nat.le_refl _
  | cons a rest ih =>
    cases a with
    | none => exact Nat.zero_le _
    | some x => simpa [MemoryPool.firstFree] using ih

theorem Allocate_retrieve {α : Type} (pool : MemoryPool α) (construct : Nat → α) (i : Nat) :
    MemoryPool.RetrieveFromIndex (MemoryPool.Allocate pool construct).1 i =
      if i = MemoryPool.firstFree pool then some (construct (MemoryPool.firstFree pool))
      else MemoryPool.RetrieveFromIndex pool i := by
  have hle := firstFree_le pool
  simp only [MemoryPool.Allocate, MemoryPool.RetrieveFromIndex]
  by_cases hlt : MemoryPool.firstFree pool < pool.length
  · simp only [hlt, if_true, List.getD_eq_getElem?_getD, List.getElem?_set]
    by_cases hi : i = MemoryPool.firstFree pool
    · subst hi; simp [hlt]
    · simp [hi, Ne.symm hi]
  · have heq : MemoryPool.firstFree pool = pool.length := by omega
    simp only [hlt, if_false, List.getD_eq_getElem?_getD]
    by_cases hi : i = MemoryPool.firstFree pool
    · subst hi; simp [heq]
    · simp only [hi, if_false]
      rcases Nat.lt_or_ge i pool.length with h | h
      · rw [List.getElem?_append_left h]
      · rw [List.getElem?_append_right h, List.getElem?_eq_none h]
        have : i - pool.length ≠ 0 := by omega
        cases hk : i - pool.length with
        | zero => exact absurd hk this
        | succ k => simp

/-- C9. An AuthRequest is accepted exactly when minimum version ≤ gameVersion
≤ server version and the nickname is non-empty and equal to its trimmed form.
On acceptance the first free pool slot, and no other, receives a player with
that session and nickname whose index is the slot index, the index is marked
newly connected, and the calls made on the session are SetProtocolVersion, a
successful AuthResponse carrying that index, and the installation of the
Player-state handler bound to that player. Otherwise the player pool is
unchanged and the calls end with an error AuthResponse and Disconnect(Later). -/
theorem InitialSessionHandler.HandlePacket_accepts_iff (env : HandshakeEnv)
    (s : ServerInstance) (session : SessionId) (req : AuthRequest) :
    ((env.ProtocolRequiredClientVersion ≤ req.gameVersion ∧
        req.gameVersion ≤ env.GameVersion ∧ req.nickname ≠ "" ∧
        env.Trim req.nickname = req.nickname) →
      MemoryPool.RetrieveFromIndex s.m_players (MemoryPool.firstFree s.m_players) = none ∧
      (∀ i, MemoryPool.RetrieveFromIndex
          (InitialSessionHandler.HandlePacket env s session req).m_players i =
        if i = MemoryPool.firstFree s.m_players then
          some { m_nickname := req.nickname, m_session := some session,
                 m_playerIndex := MemoryPool.firstFree s.m_players }
        else MemoryPool.RetrieveFromIndex s.m_players i) ∧
      (InitialSessionHandler.HandlePacket env s session req).m_newPlayers =
        Bitset.UnboundedSet s.m_newPlayers (MemoryPool.firstFree s.m_players) ∧
      (InitialSessionHandler.HandlePacket env s session req).sessionCalls =
        s.sessionCalls ++
          [(session, SessionCall.SetProtocolVersion req.gameVersion),
           (session, SessionCall.SendPacket (Packet.AuthResponse AuthResult.Ok
              (some (MemoryPool.firstFree s.m_players)))),
           (session, SessionCall.SetupPlayerSessionHandler
              (MemoryPool.firstFree s.m_players))]) ∧
    (¬ (env.ProtocolRequiredClientVersion ≤ req.gameVersion ∧
        req.gameVersion ≤ env.GameVersion ∧ req.nickname ≠ "" ∧
        env.Trim req.nickname = req.nickname) →
      (InitialSessionHandler.HandlePacket env s session req).m_players = s.m_players ∧
      (InitialSessionHandler.HandlePacket env s session req).m_newPlayers = s.m_newPlayers ∧
      ∃ pre err,
        (pre = [] ∨ pre = [(session, SessionCall.SetProtocolVersion req.gameVersion)]) ∧
        (InitialSessionHandler.HandlePacket env s session req).sessionCalls =
          s.sessionCalls ++ pre ++
            [(session, SessionCall.SendPacket (Packet.AuthResponse (AuthResult.Err err) none)),
             (session, SessionCall.Disconnect DisconnectionType.Later)]) := by
  constructor
  · rintro ⟨hmin, hmax, hne, htrim⟩
    have h1 : ¬ req.gameVersion < env.ProtocolRequiredClientVersion := by omega
    have h2 : ¬ req.gameVersion > env.GameVersion := by omega
    have h3 : req.nickname.isEmpty = false := by
      cases h : req.nickname.isEmpty with
      | false => rfl
      | true => exact absurd ((String.isEmpty_iff _).1 h) hne
    refine ⟨firstFree_free _, ?_, ?_, ?_⟩
    · intro i
      simp only [InitialSessionHandler.HandlePacket, h1, h2, htrim, h3, if_false,
        ServerInstance.CreatePlayer, bne_self_eq_false, Bool.or_self, Bool.false_eq_true]
      exact Allocate_retrieve _ _ i
    · simp [InitialSessionHandler.HandlePacket, h1, h2, h3, htrim, ServerInstance.CreatePlayer,
        MemoryPool.Allocate]
    · simp [InitialSessionHandler.HandlePacket, h1, h2, h3, htrim, ServerInstance.CreatePlayer,
        MemoryPool.Allocate, ServerPlayer.GetPlayerIndex]
  · intro hnot
    by_cases h1 : req.gameVersion < env.ProtocolRequiredClientVersion
    · refine ⟨?_, ?_, [], AuthError.UpgradeRequired, Or.inl rfl, ?_⟩ <;>
        simp [InitialSessionHandler.HandlePacket, InitialSessionHandler.FailAuth, h1]
    · by_cases h2 : req.gameVersion > env.GameVersion
      · refine ⟨?_, ?_, [], AuthError.ServerIsOutdated, Or.inl rfl, ?_⟩ <;>
          simp [InitialSessionHandler.HandlePacket, InitialSessionHandler.FailAuth, h1, h2]
      · have h3 : ((env.Trim req.nickname).isEmpty || env.Trim req.nickname != req.nickname)
            = true := by
          by_cases ht : env.Trim req.nickname = req.nickname
          · have hempty : req.nickname = "" := by
              by_contra hne
              exact hnot ⟨by omega, by omega, hne, ht⟩
            rw [ht, hempty]
            rfl
          · simp [ht]
        refine ⟨?_, ?_, [(session, SessionCall.SetProtocolVersion req.gameVersion)],
          AuthError.ProtocolError, Or.inr rfl, ?_⟩ <;>
          simp [InitialSessionHandler.HandlePacket, InitialSessionHandler.FailAuth, h1, h2, h3]

/-- Witness of C9: the request (version 4, nickname "Bob") on a server whose
only slot is occupied is accepted and the new player gets index 1. -/
theorem InitialSessionHandler.HandlePacket_accepts_iff_witness :
    (InitialSessionHandler.HandlePacket exampleEnv
        { exampleServer 0 with m_players := [some ⟨"Ann", some 1, 0⟩] } 5 ⟨4, "Bob"⟩).sessionCalls =
      [(5, SessionCall.SetProtocolVersion 4),
       (5, SessionCall.SendPacket (Packet.AuthResponse AuthResult.Ok (some 1))),
       (5, SessionCall.SetupPlayerSessionHandler 1)] :=
  ((InitialSessionHandler.HandlePacket_accepts_iff exampleEnv
    { exampleServer 0 with m_players := [some ⟨"Ann", some 1, 0⟩] } 5 ⟨4, "Bob"⟩).1
    ⟨by decide, by decide, by decide, by decide⟩).2.2.2

theorem Map.mem_erase {κ ν : Type} [DecidableEq κ] (m : List (κ × ν)) (key : κ) (e : κ × ν) :
    e ∈ Map.erase m key ↔ e ∈ m ∧ e.1 ≠ key := by
  simp [Map.erase, List.mem_filter]

theorem Map.mem_insert_or_assign {κ ν : Type} [DecidableEq κ] (m : List (κ × ν)) (key : κ)
    (value : ν) (e : κ × ν) :
    e ∈ Map.insert_or_assign m key value ↔ (e ∈ m ∧ e.1 ≠ key) ∨ e = (key, value) := by
  simp [Map.insert_or_assign, Map.mem_erase]

theorem Map.find_mem {κ ν : Type} [DecidableEq κ] (m : List (κ × ν)) (key : κ) (value : ν)
    (h : Map.find m key = some value) : (key, value) ∈ m := by
  induction m with
  | nil => simp [Map.find] at h
  | cons e rest ih =>
    unfold Map.find at h
    by_cases he : e.1 = key
    · simp only [he, if_true, Option.some.injEq] at h
      have : e = (key, value) := by
        cases e; simp only at he h; subst he h; rfl
      rw [this]; exact List.mem_cons_self _ _
    · simp only [he, if_false] at h
      exact List.mem_cons_of_mem _ (ih h)

theorem Map.find_none {κ ν : Type} [DecidableEq κ] (m : List (κ × ν)) (key : κ)
    (h : ∀ e ∈ m, e.1 ≠ key) : Map.find m key = none := by
  induction m with
  | nil => rfl
  | cons e rest ih =>
    unfold Map.find
    have he : e.1 ≠ key := h e (List.mem_cons_self _ _)
    simp only [he, if_false]
    exact ih (fun e1 h1 => h e1 (List.mem_cons_of_mem _ h1))

theorem Map.find_cons_ne {κ ν : Type} [DecidableEq κ] (e : κ × ν) (m : List (κ × ν)) (key : κ)
    (h : e.1 ≠ key) : Map.find (e :: m) key = Map.find m key := by
  rw [Map.find]
  simp only [h, if_false]

theorem Map.find_append {κ ν : Type} [DecidableEq κ] (m m1 : List (κ × ν)) (key : κ)
    (h : ∀ e ∈ m, e.1 ≠ key) : Map.find (m ++ m1) key = Map.find m1 key := by
  induction m with
  | nil => rfl
  | cons e rest ih =>
    have he : e.1 ≠ key := h e (List.mem_cons_self _ _)
    show Map.find (e :: (rest ++ m1)) key = _
    rw [Map.find_cons_ne _ _ _ he]
    exact ih (fun e1 h1 => h e1 (List.mem_cons_of_mem _ h1))

theorem Map.find_insert_or_assign_self {κ ν : Type} [DecidableEq κ] (m : List (κ × ν))
    (key : κ) (value : ν) : Map.find (Map.insert_or_assign m key value) key = some value := by
  unfold Map.insert_or_assign
  rw [Map.find_append _ _ _ (fun e he => ((Map.mem_erase m key e).1 he).2)]
  simp [Map.find]

theorem Map.find_of_mem {κ ν : Type} [DecidableEq κ] (m : List (κ × ν)) (key : κ) (value : ν)
    (hk : (m.map Prod.fst).Nodup) (h : (key, value) ∈ m) : Map.find m key = some value := by
  induction m with
  | nil => simp at h
  | cons e rest ih =>
    simp only [List.map_cons, List.nodup_cons] at hk
    unfold Map.find
    rcases List.mem_cons.1 h with h1 | h1
    · subst h1; simp
    · have : e.1 ≠ key := by
        intro he
        apply hk.1
        rw [he]
        exact List.mem_map_of_mem Prod.fst h1
      simp only [this, if_false]
      exact ih hk.2 h1

theorem Map.keys_nodup_erase {κ ν : Type} [DecidableEq κ] (m : List (κ × ν)) (key : κ)
    (hk : (m.map Prod.fst).Nodup) : ((Map.erase m key).map Prod.fst).Nodup :=
  hk.sublist ((List.filter_sublist m).map Prod.fst)

theorem Map.values_nodup_erase {κ ν : Type} [DecidableEq κ] (m : List (κ × ν)) (key : κ)
    (hv : (m.map Prod.snd).Nodup) : ((Map.erase m key).map Prod.snd).Nodup :=
  hv.sublist ((List.filter_sublist m).map Prod.snd)

theorem Map.keys_nodup_insert {κ ν : Type} [DecidableEq κ] (m : List (κ × ν)) (key : κ)
    (value : ν) (hk : (m.map Prod.fst).Nodup) :
    ((Map.insert_or_assign m key value).map Prod.fst).Nodup := by
  unfold Map.insert_or_assign
  rw [List.map_append, List.nodup_append]
  refine ⟨Map.keys_nodup_erase m key hk, by simp, ?_⟩
  intro k hk1 hk2
  simp only [List.map_cons, List.map_nil, List.mem_singleton] at hk2
  obtain ⟨e, he, rfl⟩ := List.mem_map.1 hk1
  exact ((Map.mem_erase m key e).1 he).2 hk2

theorem Map.values_nodup_insert {κ ν : Type} [DecidableEq κ] (m : List (κ × ν)) (key : κ)
    (value : ν) (hv : (m.map Prod.snd).Nodup) (hfresh : ∀ e ∈ m, e.2 ≠ value) :
    ((Map.insert_or_assign m key value).map Prod.snd).Nodup := by
  unfold Map.insert_or_assign
  rw [List.map_append, List.nodup_append]
  refine ⟨Map.values_nodup_erase m key hv, by simp, ?_⟩
  intro v hv1 hv2
  simp only [List.map_cons, List.map_nil, List.mem_singleton] at hv2
  obtain ⟨e, he, rfl⟩ := List.mem_map.1 hv1
  exact hfresh e ((Map.mem_erase m key e).1 he).1 hv2

theorem Map.eq_of_value_eq {κ ν : Type} (m : List (κ × ν)) (hv : (m.map Prod.snd).Nodup)
    (e e1 : κ × ν) (he : e ∈ m) (he1 : e1 ∈ m) (h : e.2 = e1.2) : e = e1 :=
  List.inj_on_of_nodup_map hv he he1 h

theorem Map.eq_of_key_eq {κ ν : Type} (m : List (κ × ν)) (hk : (m.map Prod.fst).Nodup)
    (e e1 : κ × ν) (he : e ∈ m) (he1 : e1 ∈ m) (h : e.1 = e1.1) : e = e1 :=
  List.inj_on_of_nodup_map hk he he1 h

theorem Map.not_mem_of_find_none {κ ν : Type} [DecidableEq κ] (m : List (κ × ν)) (key : κ)
    (h : Map.find m key = none) : ∀ e ∈ m, e.1 ≠ key := by
  induction m with
  | nil => intro e he; simp at he
  | cons e1 rest ih =>
    rw [Map.find] at h
    by_cases h1 : e1.1 = key
    · simp [h1] at h
    · simp only [h1, if_false] at h
      intro e he
      rcases List.mem_cons.1 he with g | g
      · rw [g]; exact h1
      · exact ih h e g

theorem Map.erase_of_find_none {κ ν : Type} [DecidableEq κ] (m : List (κ × ν)) (key : κ)
    (h : Map.find m key = none) : Map.erase m key = m := by
  unfold Map.erase
  rw [List.filter_eq_self]
  intro e he
  simpa using Map.not_mem_of_find_none m key h e he

theorem HandleChunkUpdate_jobs_old (s : ChunkEntities) (idx : ChunkIndices) (p : Nat)
    (j : Nat) (hj : j ≠ s.nextJob) :
    ((s.HandleChunkUpdate idx p).jobs j).executionCounter = (s.jobs j).executionCounter ∧
    ((s.HandleChunkUpdate idx p).jobs j).taskCount = (s.jobs j).taskCount ∧
    ((s.HandleChunkUpdate idx p).jobs j).collider = (s.jobs j).collider ∧
    ((s.jobs j).cancelled = true → ((s.HandleChunkUpdate idx p).jobs j).cancelled = true) ∧
    (Map.find s.m_updateJobs idx = some j →
      ((s.HandleChunkUpdate idx p).jobs j).cancelled = true) := by
  unfold ChunkEntities.HandleChunkUpdate
  cases hf : Map.find s.m_updateJobs idx with
  | none => simp [setJob, hj]
  | some j0 =>
    by_cases h0 : j = j0
    · subst h0; simp [setJob, hj]
    · have h1 : j0 ≠ j := fun h => h0 h.symm
      simp [setJob, hj, h0, h1]

theorem HandleChunkUpdate_jobs_new (s : ChunkEntities) (idx : ChunkIndices) (p : Nat) :
    (s.HandleChunkUpdate idx p).jobs s.nextJob =
      { cancelled := false, executionCounter := 0, taskCount := 1, collider := none } := by
  simp [ChunkEntities.HandleChunkUpdate, setJob]

theorem HandleChunkUpdate_Inv (s : ChunkEntities) (idx : ChunkIndices) (p : Nat)
    (h : s.Inv) : (s.HandleChunkUpdate idx p).Inv := by
  have hm : (s.HandleChunkUpdate idx p).m_updateJobs
      = Map.insert_or_assign s.m_updateJobs idx s.nextJob := rfl
  have hn : (s.HandleChunkUpdate idx p).nextJob = s.nextJob + 1 := rfl
  have ha : (s.HandleChunkUpdate idx p).applied = s.applied := rfl
  have ht : (s.HandleChunkUpdate idx p).tasks
      = s.tasks ++ [{ chunk := p, job := s.nextJob, building := false }] := rfl
  refine ⟨?_, ?_, ?_, ?_, ?_, ?_, ?_, ?_⟩
  · intro e he
    rw [hm, Map.mem_insert_or_assign] at he
    rw [hn]
    rcases he with ⟨he, _⟩ | rfl
    · have := h.jobs_lt e he; omega
    · exact Nat.lt_succ_self _
  · rw [hm]; exact Map.keys_nodup_insert _ _ _ h.keys_nodup
  · rw [hm]
    exact Map.values_nodup_insert _ _ _ h.values_nodup
      (fun e he => Nat.ne_of_lt (h.jobs_lt e he))
  · intro a ha1
    rw [ha] at ha1; rw [hn]
    have := h.applied_lt a ha1; omega
  · rw [ha]; exact h.applied_nodup
  · intro a ha1 e he
    rw [ha] at ha1
    rw [hm, Map.mem_insert_or_assign] at he
    rcases he with ⟨he, _⟩ | rfl
    · exact h.applied_unregistered a ha1 e he
    · exact Nat.ne_of_gt (h.applied_lt a ha1)
  · intro j hj hreg happ
    rw [hn] at hj
    rw [ha] at happ
    rw [hm] at hreg
    have hne : j ≠ s.nextJob := by
      intro heq
      exact hreg (idx, s.nextJob) ((Map.mem_insert_or_assign _ _ _ _).2 (Or.inr rfl)) heq.symm
    obtain ⟨_, _, _, hc1, hc2⟩ := HandleChunkUpdate_jobs_old s idx p j hne
    by_cases hold : ∀ e ∈ s.m_updateJobs, e.2 ≠ j
    · exact hc1 (h.cancelled_of_dropped j (by omega) hold happ)
    · push_neg at hold
      obtain ⟨e, he, hej⟩ := hold
      have hkey : e.1 = idx := by
        by_contra hk
        exact hreg e ((Map.mem_insert_or_assign _ _ _ _).2 (Or.inl ⟨he, hk⟩)) hej
      apply hc2
      apply Map.find_of_mem _ _ _ h.keys_nodup
      have : e = (idx, j) := by cases e; simp only at hkey hej; subst hkey hej; rfl
      rw [← this]; exact he
  · intro t ht1
    rw [ht] at ht1; rw [hn]
    rcases List.mem_append.1 ht1 with h1 | h1
    · have := h.tasks_lt t h1; omega
    · simp only [List.mem_singleton] at h1
      subst h1
      exact Nat.lt_succ_self _

theorem HandleChunkUpdate_StepRel (s : ChunkEntities) (idx : ChunkIndices) (p : Nat)
    (op : Option Op) : StepRel op s (s.HandleChunkUpdate idx p) := by
  have hm : (s.HandleChunkUpdate idx p).m_updateJobs
      = Map.insert_or_assign s.m_updateJobs idx s.nextJob := rfl
  have hn : (s.HandleChunkUpdate idx p).nextJob = s.nextJob + 1 := rfl
  have ha : (s.HandleChunkUpdate idx p).applied = s.applied := rfl
  have ht : (s.HandleChunkUpdate idx p).tasks
      = s.tasks ++ [{ chunk := p, job := s.nextJob, building := false }] := rfl
  refine ⟨by rw [hn]; omega, ?_, ?_, ?_, ?_, ?_⟩
  · intro e he hlt
    rw [hm, Map.mem_insert_or_assign] at he
    rcases he with ⟨he, _⟩ | rfl
    · exact he
    · exact absurd hlt (Nat.lt_irrefl _)
  · intro a ha1; rw [ha]; exact ha1
  · intro a ha1; rw [ha] at ha1; exact Or.inl ha1
  · intro j hj hc
    exact (HandleChunkUpdate_jobs_old s idx p j (Nat.ne_of_lt hj)).2.2.2.1 hc
  · intro j hj
    obtain ⟨h1, h2, h3, _, _⟩ := HandleChunkUpdate_jobs_old s idx p j (Nat.ne_of_lt hj)
    refine ⟨h2, Or.inl ⟨h1, Or.inl h3, ?_⟩⟩
    intro t ht1 htj
    rw [ht] at ht1
    rcases List.mem_append.1 ht1 with h4 | h4
    · exact ⟨t, h4, htj, rfl⟩
    · simp only [List.mem_singleton] at h4
      subst h4
      exact absurd htj.symm (Nat.ne_of_lt hj)

theorem applyFunc_eq (s s1 : ChunkEntities) (idx : ChunkIndices) (j : Nat)
    (h : s.applyFunc idx j = some s1) :
    ∃ ent, s1 = { s with
      applied := s.applied ++ [{ chunkIndices := idx, job := j, entity := ent,
                                 collider := (s.jobs j).collider }],
      jobs := setJob s.jobs j { s.jobs j with collider := none } } := by
  unfold ChunkEntities.applyFunc at h
  cases hf : Map.find s.m_chunkEntities idx with
  | none => simp [hf] at h
  | some ent =>
    simp only [hf, Option.some.injEq] at h
    exact ⟨ent, h.symm⟩

theorem applyLoop_spec (rest : List (ChunkIndices × Nat)) :
    ∀ s s1 : ChunkEntities, ChunkEntities.applyLoop rest s = some s1 →
      (∀ e ∈ rest, e ∈ s.m_updateJobs) → (rest.map Prod.fst).Nodup →
      (rest.map Prod.snd).Nodup → (s.m_updateJobs.map Prod.snd).Nodup →
      (s.m_updateJobs.map Prod.fst).Nodup →
      s1.nextJob = s.nextJob ∧ s1.tasks = s.tasks ∧
      s1.m_updateJobs.Sublist s.m_updateJobs ∧
      (∃ apps, s1.applied = s.applied ++ apps ∧ (apps.map AppliedCollider.job).Nodup ∧
        (∀ e ∈ s.m_updateJobs, e ∈ s1.m_updateJobs ∨ ∃ a ∈ apps, a.job = e.2) ∧
        ∀ a ∈ apps, (a.chunkIndices, a.job) ∈ rest ∧
          a.collider = (s.jobs a.job).collider ∧
          (s.jobs a.job).executionCounter = (s.jobs a.job).taskCount ∧
          (∀ e ∈ s1.m_updateJobs, e.2 ≠ a.job)) ∧
      (∀ j, (s1.jobs j).cancelled = (s.jobs j).cancelled ∧
        (s1.jobs j).executionCounter = (s.jobs j).executionCounter ∧
        (s1.jobs j).taskCount = (s.jobs j).taskCount ∧
        ((s1.jobs j).collider = (s.jobs j).collider ∨
          ((s1.jobs j).collider = none ∧ ∀ e ∈ s1.m_updateJobs, e.2 ≠ j))) := by
  induction rest with
  | nil =>
    intro s s1 h _ _ _ _ _
    simp only [ChunkEntities.applyLoop, Option.some.injEq] at h
    subst h
    exact ⟨rfl, rfl, List.Sublist.refl _,
      ⟨[], by simp, by simp, fun e he => Or.inl he, by simp⟩,
      fun j => ⟨rfl, rfl, rfl, Or.inl rfl⟩⟩
  | cons entry rest ih =>
    intro s s1 h hsub hk hv hmv hmk
    simp only [List.map_cons, List.nodup_cons] at hk hv
    have hsub1 : ∀ e ∈ rest, e ∈ s.m_updateJobs :=
      fun e he => hsub e (List.mem_cons_of_mem _ he)
    rw [ChunkEntities.applyLoop] at h
    by_cases hc : (s.jobs entry.2).executionCounter ≠ (s.jobs entry.2).taskCount
    · rw [if_pos hc] at h
      obtain ⟨h1, h2, h3, ⟨apps, h4, h5, h8, h6⟩, h7⟩ := ih s s1 h hsub1 hk.2 hv.2 hmv hmk
      refine ⟨h1, h2, h3, ⟨apps, h4, h5, h8, ?_⟩, h7⟩
      intro a ha
      obtain ⟨g1, g2, g3, g4⟩ := h6 a ha
      exact ⟨List.mem_cons_of_mem _ g1, g2, g3, g4⟩
    · rw [if_neg hc] at h
      have hdone : (s.jobs entry.2).executionCounter = (s.jobs entry.2).taskCount :=
        not_not.1 hc
      cases hap : s.applyFunc entry.1 entry.2 with
      | none => simp [hap] at h
      | some s2 =>
        simp only [hap] at h
        obtain ⟨ent, hs2⟩ := applyFunc_eq s s2 _ _ hap
        subst hs2
        have hrest_keys : ∀ e ∈ rest, e.1 ≠ entry.1 := by
          intro e he heq
          exact hk.1 (heq ▸ List.mem_map_of_mem Prod.fst he)
        have hrest_vals : ∀ e ∈ rest, e.2 ≠ entry.2 := by
          intro e he heq
          exact hv.1 (heq ▸ List.mem_map_of_mem Prod.snd he)
        obtain ⟨h1, h2, h3, ⟨apps, h4, h5, h8, h6⟩, h7⟩ := ih _ s1 h
          (fun e he => (Map.mem_erase _ _ _).2 ⟨hsub1 e he, hrest_keys e he⟩)
          hk.2 hv.2 (Map.values_nodup_erase _ _ hmv) (Map.keys_nodup_erase _ _ hmk)
        simp only at h1 h2 h3 h4 h6 h7 h8
        have hsubl : s1.m_updateJobs.Sublist s.m_updateJobs :=
          h3.trans (List.filter_sublist _)
        have hunreg : ∀ e ∈ s1.m_updateJobs, e.2 ≠ entry.2 := by
          intro e he heq
          have he1 := (Map.mem_erase _ _ _).1 (h3.subset he)
          have := Map.eq_of_value_eq _ hmv e entry he1.1 (hsub entry (List.mem_cons_self _ _)) heq
          exact he1.2 (by rw [this])
        refine ⟨h1, h2, hsubl,
          ⟨{ chunkIndices := entry.1, job := entry.2, entity := ent,
             collider := (s.jobs entry.2).collider } :: apps,
            by rw [h4, List.append_assoc]; rfl, ?_, ?_, ?_⟩, ?_⟩
        · simp only [List.map_cons, List.nodup_cons]
          refine ⟨?_, h5⟩
          intro hmem
          obtain ⟨a, ha, haj⟩ := List.mem_map.1 hmem
          exact hrest_vals _ (h6 a ha).1 haj
        · intro e he
          by_cases hkey : e.1 = entry.1
          · right
            refine ⟨_, List.mem_cons_self _ _, ?_⟩
            have := Map.eq_of_key_eq _ hmk e entry he (hsub entry (List.mem_cons_self _ _)) hkey
            rw [this]
          · rcases h8 e ((Map.mem_erase _ _ _).2 ⟨he, hkey⟩) with g | ⟨a, ga, gb⟩
            · exact Or.inl g
            · exact Or.inr ⟨a, List.mem_cons_of_mem _ ga, gb⟩
        · intro a ha
          rcases List.mem_cons.1 ha with rfl | ha1
          · exact ⟨List.mem_cons_self _ _, rfl, hdone, hunreg⟩
          · obtain ⟨g1, g2, g3, g4⟩ := h6 a ha1
            have hne : a.job ≠ entry.2 := hrest_vals _ g1
            simp only [setJob, hne, if_false] at g2 g3
            exact ⟨List.mem_cons_of_mem _ g1, g2, g3, g4⟩
        · intro j
          obtain ⟨g1, g2, g3, g4⟩ := h7 j
          by_cases hj : j = entry.2
          · subst hj
            simp only [setJob, if_true] at g1 g2 g3 g4
            refine ⟨g1, g2, g3, Or.inr ⟨?_, hunreg⟩⟩
            rcases g4 with g | g
            · exact g
            · exact g.1
          · simp only [setJob, hj, if_false] at g1 g2 g3 g4
            exact ⟨g1, g2, g3, g4⟩

theorem Inv_of_eq (s s1 : ChunkEntities) (hm : s1.m_updateJobs = s.m_updateJobs)
    (hj : s1.jobs = s.jobs) (hn : s1.nextJob = s.nextJob) (ht : s1.tasks = s.tasks)
    (ha : s1.applied = s.applied) (h : s.Inv) : s1.Inv := by
  refine ⟨?_, ?_, ?_, ?_, ?_, ?_, ?_, ?_⟩
  · rw [hm, hn]; exact h.jobs_lt
  · rw [hm]; exact h.keys_nodup
  · rw [hm]; exact h.values_nodup
  · rw [ha, hn]; exact h.applied_lt
  · rw [ha]; exact h.applied_nodup
  · rw [ha, hm]; exact h.applied_unregistered
  · rw [ha, hm, hn, hj]; exact h.cancelled_of_dropped
  · rw [ht, hn]; exact h.tasks_lt

theorem JobKept_of_eq (s s1 : ChunkEntities) (j : Nat) (hj : s1.jobs = s.jobs)
    (ht : s1.tasks = s.tasks) : JobKept s s1 j := by
  refine ⟨by rw [hj], Or.inl (by rw [hj]), ?_⟩
  intro t ht1 htj
  rw [ht] at ht1
  exact ⟨t, ht1, htj, rfl⟩

theorem StepRel_of_eq (op : Option Op) (s s1 : ChunkEntities)
    (hm : s1.m_updateJobs = s.m_updateJobs)
    (hj : s1.jobs = s.jobs) (hn : s1.nextJob = s.nextJob) (ht : s1.tasks = s.tasks)
    (ha : s1.applied = s.applied) : StepRel op s s1 := by
  refine ⟨by rw [hn], ?_, ?_, ?_, ?_, ?_⟩
  · intro e he _; rw [hm] at he; exact he
  · intro a h1; rw [ha]; exact h1
  · intro a h1; rw [ha] at h1; exact Or.inl h1
  · intro j _ hc; rw [hj]; exact hc
  · intro j _
    exact ⟨by rw [hj], Or.inl (JobKept_of_eq s s1 j hj ht)⟩

theorem StepRel_of_left_eq (op : Option Op) (s s0 s1 : ChunkEntities)
    (hm : s0.m_updateJobs = s.m_updateJobs)
    (hj : s0.jobs = s.jobs) (hn : s0.nextJob = s.nextJob) (ht : s0.tasks = s.tasks)
    (ha : s0.applied = s.applied) (hc : s0.chunks = s.chunks)
    (h : StepRel op s0 s1) : StepRel op s s1 := by
  obtain ⟨h1, h2, h3, h4, h5, h6⟩ := h
  rw [hn] at h1 h2 h5 h6
  rw [hm] at h2 h4
  rw [ha] at h3 h4
  rw [hj] at h4 h5 h6
  refine ⟨h1, h2, h3, h4, h5, ?_⟩
  intro j hlt
  obtain ⟨g1, g2⟩ := h6 j hlt
  refine ⟨g1, ?_⟩
  rcases g2 with g | ⟨g, t, chunk, k1, k2, k3, k4, k5, k6, k7, k8⟩
  · left
    obtain ⟨a1, a2, a3⟩ := g
    rw [hj] at a1 a2
    rw [ht] at a3
    exact ⟨a1, a2, a3⟩
  · right
    rw [ht] at k1
    rw [hc] at k3
    rw [hj] at k5
    rw [ha] at k7
    rw [hm] at k8
    exact ⟨g, t, chunk, k1, k2, k3, k4, k5, k6, k7, k8⟩

theorem ApplyJobs_Inv (s s1 : ChunkEntities)
    (hex : ChunkEntities.applyLoop s.m_updateJobs s = some s1) (h : s.Inv) : s1.Inv := by
  obtain ⟨h1, h2, h3, ⟨apps, h4, h5, h8, h6⟩, h7⟩ := applyLoop_spec _ s s1 hex
    (fun e he => he) h.keys_nodup h.values_nodup h.values_nodup h.keys_nodup
  refine ⟨?_, ?_, ?_, ?_, ?_, ?_, ?_, ?_⟩
  · intro e he; rw [h1]; exact h.jobs_lt e (h3.subset he)
  · exact h.keys_nodup.sublist (h3.map Prod.fst)
  · exact h.values_nodup.sublist (h3.map Prod.snd)
  · intro a ha
    rw [h1]
    rw [h4] at ha
    rcases List.mem_append.1 ha with g | g
    · exact h.applied_lt a g
    · exact h.jobs_lt _ (h6 a g).1
  · rw [h4, List.map_append, List.nodup_append]
    refine ⟨h.applied_nodup, h5, ?_⟩
    intro j hj1 hj2
    obtain ⟨a, ha, rfl⟩ := List.mem_map.1 hj1
    obtain ⟨a1, ha1, hj⟩ := List.mem_map.1 hj2
    exact h.applied_unregistered a ha _ (h6 a1 ha1).1 hj
  · intro a ha e he
    rw [h4] at ha
    rcases List.mem_append.1 ha with g | g
    · exact h.applied_unregistered a g e (h3.subset he)
    · exact (h6 a g).2.2.2 e he
  · intro j hj hreg happ
    rw [h1] at hj
    rw [(h7 j).1]
    apply h.cancelled_of_dropped j hj
    · intro e he hej
      rcases h8 e he with g | ⟨a, ga, gb⟩
      · exact hreg e g hej
      · exact happ a (by rw [h4]; exact List.mem_append_right _ ga) (by rw [gb, hej])
    · intro a ha
      exact happ a (by rw [h4]; exact List.mem_append_left _ ha)
  · intro t ht; rw [h1]; rw [h2] at ht; exact h.tasks_lt t ht

theorem ApplyJobs_StepRel (op : Option Op) (s s1 : ChunkEntities)
    (hex : ChunkEntities.applyLoop s.m_updateJobs s = some s1) (h : s.Inv) :
    StepRel op s s1 := by
  obtain ⟨h1, h2, h3, ⟨apps, h4, _, _, h6⟩, h7⟩ := applyLoop_spec _ s s1 hex
    (fun e he => he) h.keys_nodup h.values_nodup h.values_nodup h.keys_nodup
  refine ⟨by rw [h1], ?_, ?_, ?_, ?_, ?_⟩
  · intro e he _; exact h3.subset he
  · intro a ha; rw [h4]; exact List.mem_append_left _ ha
  · intro a ha
    rw [h4] at ha
    rcases List.mem_append.1 ha with g | g
    · exact Or.inl g
    · exact Or.inr ⟨(h6 a g).1, (h6 a g).2.1, (h6 a g).2.2.1⟩
  · intro j _ hc; rw [(h7 j).1]; exact hc
  · intro j _
    refine ⟨(h7 j).2.2.1, Or.inl ⟨(h7 j).2.1, (h7 j).2.2.2, ?_⟩⟩
    intro t ht htj
    rw [h2] at ht
    exact ⟨t, ht, htj, rfl⟩

theorem DestroyChunkEntity_fields (s : ChunkEntities) (idx : ChunkIndices) :
    (s.DestroyChunkEntity idx).nextJob = s.nextJob ∧
    (s.DestroyChunkEntity idx).tasks = s.tasks ∧
    (s.DestroyChunkEntity idx).applied = s.applied ∧
    (s.DestroyChunkEntity idx).m_updateJobs = Map.erase s.m_updateJobs idx ∧
    (∀ j, ((s.DestroyChunkEntity idx).jobs j).executionCounter = (s.jobs j).executionCounter ∧
      ((s.DestroyChunkEntity idx).jobs j).taskCount = (s.jobs j).taskCount ∧
      ((s.DestroyChunkEntity idx).jobs j).collider = (s.jobs j).collider ∧
      ((s.jobs j).cancelled = true → ((s.DestroyChunkEntity idx).jobs j).cancelled = true) ∧
      (Map.find s.m_updateJobs idx = some j →
        ((s.DestroyChunkEntity idx).jobs j).cancelled = true)) := by
  unfold ChunkEntities.DestroyChunkEntity
  cases hf : Map.find s.m_updateJobs idx with
  | none =>
    refine ⟨rfl, rfl, rfl, ?_, ?_⟩
    · exact (Map.erase_of_find_none _ _ hf).symm
    · intro j
      exact ⟨rfl, rfl, rfl, fun h => h, fun h => by simp at h⟩
  | some j0 =>
    refine ⟨rfl, rfl, rfl, rfl, ?_⟩
    intro j
    by_cases hj : j = j0
    · subst hj; simp [setJob]
    · have h1 : j0 ≠ j := fun h => hj h.symm
      simp [setJob, hj, h1]

theorem DestroyChunkEntity_Inv (s : ChunkEntities) (idx : ChunkIndices) (h : s.Inv) :
    (s.DestroyChunkEntity idx).Inv := by
  obtain ⟨hn, ht, ha, hm, hjobs⟩ := DestroyChunkEntity_fields s idx
  refine ⟨?_, ?_, ?_, ?_, ?_, ?_, ?_, ?_⟩
  · intro e he; rw [hn]; rw [hm] at he
    exact h.jobs_lt e ((Map.mem_erase _ _ _).1 he).1
  · rw [hm]; exact Map.keys_nodup_erase _ _ h.keys_nodup
  · rw [hm]; exact Map.values_nodup_erase _ _ h.values_nodup
  · rw [ha, hn]; exact h.applied_lt
  · rw [ha]; exact h.applied_nodup
  · intro a ha1 e he
    rw [ha] at ha1; rw [hm] at he
    exact h.applied_unregistered a ha1 e ((Map.mem_erase _ _ _).1 he).1
  · intro j hj hreg happ
    rw [hn] at hj; rw [ha] at happ; rw [hm] at hreg
    by_cases hold : ∀ e ∈ s.m_updateJobs, e.2 ≠ j
    · exact (hjobs j).2.2.2.1 (h.cancelled_of_dropped j hj hold happ)
    · push_neg at hold
      obtain ⟨e, he, hej⟩ := hold
      have hkey : e.1 = idx := by
        by_contra hk
        exact hreg e ((Map.mem_erase _ _ _).2 ⟨he, hk⟩) hej
      apply (hjobs j).2.2.2.2
      apply Map.find_of_mem _ _ _ h.keys_nodup
      have : e = (idx, j) := by cases e; simp only at hkey hej; subst hkey hej; rfl
      rw [← this]; exact he
  · rw [ht, hn]; exact h.tasks_lt

theorem DestroyChunkEntity_StepRel (op : Option Op) (s : ChunkEntities) (idx : ChunkIndices) :
    StepRel op s (s.DestroyChunkEntity idx) := by
  obtain ⟨hn, ht, ha, hm, hjobs⟩ := DestroyChunkEntity_fields s idx
  refine ⟨by rw [hn], ?_, ?_, ?_, ?_, ?_⟩
  · intro e he _; rw [hm] at he; exact ((Map.mem_erase _ _ _).1 he).1
  · intro a h1; rw [ha]; exact h1
  · intro a h1; rw [ha] at h1; exact Or.inl h1
  · intro j _ hc; exact (hjobs j).2.2.2.1 hc
  · intro j _
    refine ⟨(hjobs j).2.1, Or.inl ⟨(hjobs j).1, Or.inl (hjobs j).2.2.1, ?_⟩⟩
    intro t ht1 htj
    rw [ht] at ht1
    exact ⟨t, ht1, htj, rfl⟩

theorem TaskBegin_fields (s s1 : ChunkEntities) (j : Nat) (hex : s.TaskBegin j = some s1) :
    s1.m_updateJobs = s.m_updateJobs ∧ s1.jobs = s.jobs ∧ s1.nextJob = s.nextJob ∧
    s1.applied = s.applied ∧
    (∀ t ∈ s1.tasks, ∃ t0 ∈ s.tasks, t0.job = t.job ∧ t0.chunk = t.chunk) := by
  unfold ChunkEntities.TaskBegin at hex
  cases hf : s.tasks.find? (fun t => decide (t.job = j)) with
  | none => simp [hf] at hex
  | some task =>
    simp only [hf] at hex
    by_cases hb : task.building = true
    · simp [hb] at hex
    · simp only [hb, Bool.false_eq_true, if_false] at hex
      by_cases hc : (s.jobs j).cancelled = true
      · simp only [hc, if_true, Option.some.injEq] at hex
        subst hex
        refine ⟨rfl, rfl, rfl, rfl, ?_⟩
        intro t ht
        exact ⟨t, (List.mem_filter.1 ht).1, rfl, rfl⟩
      · simp only [hc, Bool.false_eq_true, if_false, Option.some.injEq] at hex
        subst hex
        refine ⟨rfl, rfl, rfl, rfl, ?_⟩
        intro t ht
        obtain ⟨t0, ht0, rfl⟩ := List.mem_map.1 ht
        refine ⟨t0, ht0, ?_, ?_⟩ <;> split_ifs <;> rfl

theorem TaskEnd_fields (s s1 : ChunkEntities) (j : Nat) (hex : s.TaskEnd j = some s1) :
    s1.m_updateJobs = s.m_updateJobs ∧ s1.nextJob = s.nextJob ∧ s1.applied = s.applied ∧
    s1.tasks = s.tasks.filter (fun t => decide (t.job ≠ j)) ∧
    (∀ k, k ≠ j → s1.jobs k = s.jobs k) ∧
    (s1.jobs j).cancelled = (s.jobs j).cancelled ∧
    (s1.jobs j).taskCount = (s.jobs j).taskCount ∧
    (s1.jobs j).executionCounter = (s.jobs j).executionCounter + 1 ∧
    ∃ t chunk, t ∈ s.tasks ∧ t.job = j ∧
      s.tasks.find? (fun t => decide (t.job = j)) = some t ∧ t.building = true ∧
      s.chunks.getD t.chunk none = some chunk ∧
      (s1.jobs j).collider = some chunk.BuildCollider := by
  unfold ChunkEntities.TaskEnd at hex
  cases hf : s.tasks.find? (fun t => decide (t.job = j)) with
  | none => simp [hf] at hex
  | some task =>
    simp only [hf] at hex
    by_cases hb : task.building = true
    · simp only [hb, if_true] at hex
      cases hc : s.chunks.getD task.chunk none with
      | none =>
        simp only [hc] at hex
        exact absurd hex (by simp)
      | some chunk =>
        simp only [hc, Option.some.injEq] at hex
        subst hex
        refine ⟨rfl, rfl, rfl, rfl, ?_, ?_, ?_, ?_, task, chunk, List.mem_of_find?_eq_some hf,
          ?_, rfl, hb, hc, ?_⟩
        · intro k hk; simp [setJob, hk]
        · simp [setJob]
        · simp [setJob]
        · simp [setJob]
        · have := List.find?_some hf
          simpa using this
        · simp [setJob]
    · simp [hb] at hex

theorem TaskEnd_Inv (s s1 : ChunkEntities) (j : Nat) (hex : s.TaskEnd j = some s1)
    (h : s.Inv) : s1.Inv := by
  obtain ⟨hm, hn, ha, ht, hother, hc, _, _, _⟩ := TaskEnd_fields s s1 j hex
  refine ⟨?_, ?_, ?_, ?_, ?_, ?_, ?_, ?_⟩
  · rw [hm, hn]; exact h.jobs_lt
  · rw [hm]; exact h.keys_nodup
  · rw [hm]; exact h.values_nodup
  · rw [ha, hn]; exact h.applied_lt
  · rw [ha]; exact h.applied_nodup
  · rw [ha, hm]; exact h.applied_unregistered
  · intro k hk hreg happ
    rw [hn] at hk; rw [hm] at hreg; rw [ha] at happ
    have := h.cancelled_of_dropped k hk hreg happ
    by_cases hkj : k = j
    · subst hkj; rw [hc]; exact this
    · rw [hother k hkj]; exact this
  · intro t ht1
    rw [ht] at ht1; rw [hn]
    exact h.tasks_lt t (List.mem_filter.1 ht1).1

theorem TaskEnd_StepRel (s s1 : ChunkEntities) (j : Nat) (hex : s.TaskEnd j = some s1) :
    StepRel (some (Op.TaskEnd j)) s s1 := by
  obtain ⟨hm, hn, ha, ht, hother, hc, htc, hec, t, chunk, k1, k2, _, _, k5, k6⟩ :=
    TaskEnd_fields s s1 j hex
  refine ⟨by rw [hn], ?_, ?_, ?_, ?_, ?_⟩
  · intro e he _; rw [hm] at he; exact he
  · intro a h1; rw [ha]; exact h1
  · intro a h1; rw [ha] at h1; exact Or.inl h1
  · intro k _ hck
    by_cases hkj : k = j
    · subst hkj; rw [hc]; exact hck
    · rw [hother k hkj]; exact hck
  · intro k _
    by_cases hkj : k = j
    · subst hkj
      refine ⟨htc, Or.inr ⟨rfl, t, chunk, k1, k2, k5, k6, hec, ?_, ha, hm⟩⟩
      intro t1 ht1
      rw [ht] at ht1
      simpa using (List.mem_filter.1 ht1).2
    · refine ⟨by rw [hother k hkj], Or.inl ⟨by rw [hother k hkj],
        Or.inl (by rw [hother k hkj]), ?_⟩⟩
      intro t1 ht1 _
      rw [ht] at ht1
      exact ⟨t1, (List.mem_filter.1 ht1).1, by assumption, rfl⟩

theorem TaskBegin_Inv (s s1 : ChunkEntities) (j : Nat) (hex : s.TaskBegin j = some s1)
    (h : s.Inv) : s1.Inv := by
  obtain ⟨hm, hj, hn, ha, ht⟩ := TaskBegin_fields s s1 j hex
  refine ⟨?_, ?_, ?_, ?_, ?_, ?_, ?_, ?_⟩
  · rw [hm, hn]; exact h.jobs_lt
  · rw [hm]; exact h.keys_nodup
  · rw [hm]; exact h.values_nodup
  · rw [ha, hn]; exact h.applied_lt
  · rw [ha]; exact h.applied_nodup
  · rw [ha, hm]; exact h.applied_unregistered
  · rw [ha, hm, hn, hj]; exact h.cancelled_of_dropped
  · intro t ht1
    obtain ⟨t0, g1, g2, _⟩ := ht t ht1
    rw [hn, ← g2]
    exact h.tasks_lt t0 g1

theorem TaskBegin_StepRel (op : Option Op) (s s1 : ChunkEntities) (j : Nat)
    (hex : s.TaskBegin j = some s1) : StepRel op s s1 := by
  obtain ⟨hm, hj, hn, ha, ht⟩ := TaskBegin_fields s s1 j hex
  refine ⟨by rw [hn], ?_, ?_, ?_, ?_, ?_⟩
  · intro e he _; rw [hm] at he; exact he
  · intro a h1; rw [ha]; exact h1
  · intro a h1; rw [ha] at h1; exact Or.inl h1
  · intro k _ hck; rw [hj]; exact hck
  · intro k _
    refine ⟨by rw [hj], Or.inl ⟨by rw [hj], Or.inl (by rw [hj]), ?_⟩⟩
    intro t1 ht1 htk
    obtain ⟨t0, g1, g2, g3⟩ := ht t1 ht1
    exact ⟨t0, g1, by rw [g2, htk], g3⟩

theorem exec_Inv_StepRel (s s1 : ChunkEntities) (op : Op) (hex : s.exec op = some s1)
    (h : s.Inv) : s1.Inv ∧ StepRel (some op) s s1 := by
  cases op with
  | ApplyJobs => exact ⟨ApplyJobs_Inv s s1 hex h, ApplyJobs_StepRel _ s s1 hex h⟩
  | UpdateChunkEntity idx =>
    simp only [ChunkEntities.exec, ChunkEntities.UpdateChunkEntity] at hex
    by_cases hc : Map.contains s.m_chunkEntities idx = true
    · simp only [hc, if_true] at hex
      cases hg : s.GetChunk idx with
      | none => simp [hg] at hex
      | some p =>
        simp only [hg, Option.some.injEq] at hex
        subst hex
        exact ⟨HandleChunkUpdate_Inv s idx p h, HandleChunkUpdate_StepRel s idx p _⟩
    · simp [hc] at hex
  | ClearInvalidated =>
    simp only [ChunkEntities.exec, Option.some.injEq] at hex
    subst hex
    exact ⟨Inv_of_eq s _ rfl rfl rfl rfl rfl h, StepRel_of_eq _ s _ rfl rfl rfl rfl rfl⟩
  | CreateChunkEntity idx p =>
    simp only [ChunkEntities.exec, ChunkEntities.CreateChunkEntity] at hex
    by_cases hc : Map.contains s.m_chunkEntities idx = true
    · simp [hc] at hex
    · simp only [hc, Bool.false_eq_true, if_false, Option.some.injEq] at hex
      subst hex
      exact ⟨HandleChunkUpdate_Inv _ idx p (Inv_of_eq s _ rfl rfl rfl rfl rfl h),
        StepRel_of_left_eq _ s
          { s with nextEntity := s.nextEntity + 1,
                   m_chunkEntities := Map.insert_or_assign s.m_chunkEntities idx s.nextEntity }
          _ rfl rfl rfl rfl rfl rfl (HandleChunkUpdate_StepRel _ idx p _)⟩
  | DestroyChunkEntity idx =>
    simp only [ChunkEntities.exec, Option.some.injEq] at hex
    subst hex
    exact ⟨DestroyChunkEntity_Inv s idx h, DestroyChunkEntity_StepRel _ s idx⟩
  | InvalidateChunk idx =>
    simp only [ChunkEntities.exec, ChunkEntities.InvalidateChunk, Option.some.injEq] at hex
    subst hex
    by_cases hc : idx ∈ s.m_invalidatedChunks
    · simp only [hc, if_true]
      exact ⟨h, StepRel_of_eq _ s _ rfl rfl rfl rfl rfl⟩
    · simp only [hc, if_false]
      exact ⟨Inv_of_eq s _ rfl rfl rfl rfl rfl h, StepRel_of_eq _ s _ rfl rfl rfl rfl rfl⟩
  | TaskBegin j => exact ⟨TaskBegin_Inv s s1 j hex h, TaskBegin_StepRel _ s s1 j hex⟩
  | TaskEnd j => exact ⟨TaskEnd_Inv s s1 j hex h, TaskEnd_StepRel s s1 j hex⟩
  | ContainerStore chunk =>
    simp only [ChunkEntities.exec, Option.some.injEq] at hex
    subst hex
    exact ⟨Inv_of_eq s _ rfl rfl rfl rfl rfl h, StepRel_of_eq _ s _ rfl rfl rfl rfl rfl⟩
  | ContainerFree p =>
    simp only [ChunkEntities.exec, Option.some.injEq] at hex
    subst hex
    exact ⟨Inv_of_eq s _ rfl rfl rfl rfl rfl h, StepRel_of_eq _ s _ rfl rfl rfl rfl rfl⟩
  | ContainerWrite p indices newBlock =>
    simp only [ChunkEntities.exec] at hex
    cases hc : s.chunks.getD p none with
    | none =>
      simp only [hc] at hex
      exact absurd hex (by simp)
    | some c =>
      simp only [hc] at hex
      cases hu : c.UpdateBlock indices newBlock with
      | none =>
        simp only [hu] at hex
        exact absurd hex (by simp)
      | some c1 =>
        simp only [hu, Option.some.injEq] at hex
        subst hex
        exact ⟨Inv_of_eq s _ rfl rfl rfl rfl rfl h, StepRel_of_eq _ s _ rfl rfl rfl rfl rfl⟩

theorem run_cons (s s1 : ChunkEntities) (op : Op) (ops : List Op)
    (h : s.run (op :: ops) = some s1) : ∃ t, s.exec op = some t ∧ t.run ops = some s1 := by
  rw [ChunkEntities.run] at h
  cases he : s.exec op with
  | none => simp [he] at h
  | some t => exact ⟨t, rfl, by simpa [he] using h⟩

theorem run_snoc (ops : List Op) : ∀ (s s1 : ChunkEntities) (op : Op),
    s.run (ops ++ [op]) = some s1 → ∃ t, s.run ops = some t ∧ t.exec op = some s1 := by
  induction ops with
  | nil =>
    intro s s1 op h
    obtain ⟨t, h1, h2⟩ := run_cons s s1 op [] h
    simp only [ChunkEntities.run, Option.some.injEq] at h2
    subst h2
    exact ⟨s, rfl, h1⟩
  | cons op1 ops ih =>
    intro s s1 op h
    obtain ⟨t, h1, h2⟩ := run_cons s s1 op1 (ops ++ [op]) h
    obtain ⟨t1, h3, h4⟩ := ih t s1 op h2
    refine ⟨t1, ?_, h4⟩
    rw [ChunkEntities.run, h1]
    exact h3

theorem run_Inv (ops : List Op) : ∀ (s s1 : ChunkEntities), s.run ops = some s1 → s.Inv →
    s1.Inv ∧ s.nextJob ≤ s1.nextJob := by
  induction ops with
  | nil =>
    intro s s1 h hi
    simp only [ChunkEntities.run, Option.some.injEq] at h
    subst h
    exact ⟨hi, Nat.le_refl _⟩
  | cons op ops ih =>
    intro s s1 h hi
    obtain ⟨t, h1, h2⟩ := run_cons s s1 op ops h
    obtain ⟨g1, g2⟩ := exec_Inv_StepRel s t op h1 hi
    obtain ⟨g3, g4⟩ := ih t s1 h2 g1
    exact ⟨g3, Nat.le_trans g2.nextJob_le g4⟩

theorem Inv_initial : ChunkEntities.initial.Inv := by
  refine ⟨?_, ?_, ?_, ?_, ?_, ?_, ?_, ?_⟩ <;> simp [ChunkEntities.initial]

theorem run_dropped (ops : List Op) : ∀ (s s1 : ChunkEntities) (j : Nat),
    s.run ops = some s1 → s.Inv → j < s.nextJob → (∀ e ∈ s.m_updateJobs, e.2 ≠ j) →
    (∀ a ∈ s.applied, a.job ≠ j) →
    (∀ e ∈ s1.m_updateJobs, e.2 ≠ j) ∧ (∀ a ∈ s1.applied, a.job ≠ j) := by
  induction ops with
  | nil =>
    intro s s1 j h _ _ hreg happ
    simp only [ChunkEntities.run, Option.some.injEq] at h
    subst h
    exact ⟨hreg, happ⟩
  | cons op ops ih =>
    intro s s1 j h hi hj hreg happ
    obtain ⟨t, h1, h2⟩ := run_cons s s1 op ops h
    obtain ⟨g1, g2⟩ := exec_Inv_StepRel s t op h1 hi
    apply ih t s1 j h2 g1 (Nat.lt_of_lt_of_le hj g2.nextJob_le)
    · intro e he hej
      exact hreg e (g2.old_entries e he (by rw [hej]; exact hj)) hej
    · intro a ha haj
      rcases g2.new_applied a ha with g | ⟨g, _, _⟩
      · exact happ a g haj
      · exact hreg _ g haj

theorem run_key (ops : List Op) : ∀ (s s1 : ChunkEntities) (j : Nat) (idx : ChunkIndices),
    s.run ops = some s1 → s.Inv → j < s.nextJob →
    (∀ e ∈ s.m_updateJobs, e.2 = j → e.1 = idx) →
    (∀ a ∈ s.applied, a.job = j → a.chunkIndices = idx) →
    (∀ e ∈ s1.m_updateJobs, e.2 = j → e.1 = idx) ∧
      (∀ a ∈ s1.applied, a.job = j → a.chunkIndices = idx) := by
  induction ops with
  | nil =>
    intro s s1 j idx h _ _ hreg happ
    simp only [ChunkEntities.run, Option.some.injEq] at h
    subst h
    exact ⟨hreg, happ⟩
  | cons op ops ih =>
    intro s s1 j idx h hi hj hreg happ
    obtain ⟨t, h1, h2⟩ := run_cons s s1 op ops h
    obtain ⟨g1, g2⟩ := exec_Inv_StepRel s t op h1 hi
    apply ih t s1 j idx h2 g1 (Nat.lt_of_lt_of_le hj g2.nextJob_le)
    · intro e he hej
      exact hreg e (g2.old_entries e he (by rw [hej]; exact hj)) hej
    · intro a ha haj
      rcases g2.new_applied a ha with g | ⟨g, _, _⟩
      · exact happ a g haj
      · exact hreg _ g haj

theorem BuiltFrom_snoc (s2 : ChunkEntities) (j p : Nat) (later : List Op) (op : Op)
    (c : Collider) (h : BuiltFrom s2 j p later c) : BuiltFrom s2 j p (later ++ [op]) c := by
  obtain ⟨pre, post, t, chunk, h1, h2, h3, h4⟩ := h
  exact ⟨pre, post ++ [op], t, chunk, by rw [h1]; simp, h2, h3, h4⟩

theorem Phase_step (s2 t s3 : ChunkEntities) (j p : Nat) (l : List Op) (op : Op)
    (hrun : s2.run l = some t) (hex : t.exec op = some s3) (hinv : t.Inv)
    (hj : j < t.nextJob) (hp : Phase s2 j p l t) : Phase s2 j p (l ++ [op]) s3 := by
  obtain ⟨_, hrel⟩ := exec_Inv_StepRel t s3 op hex hinv
  obtain ⟨htc, htasks, hphase⟩ := hp
  obtain ⟨hcount, hchange⟩ := hrel.job_change j hj
  rcases hchange with ⟨hcnt, hcol, htk⟩ | ⟨hop, task, chunk, k1, k2, k3, k4, k5, k6, k7, k8⟩
  · refine ⟨by rw [hcount]; exact htc, ?_, ?_⟩
    · intro t1 ht1 htj
      obtain ⟨t0, g1, g2, g3⟩ := htk t1 ht1 htj
      rw [← g3]; exact htasks t0 g1 g2
    · rcases hphase with ⟨hzero, hnone⟩ | ⟨c, hb, hone, hnt, hreg, happ⟩
      · left
        refine ⟨by rw [hcnt]; exact hzero, ?_⟩
        intro a ha haj
        rcases hrel.new_applied a ha with g | ⟨_, _, g⟩
        · exact hnone a g haj
        · rw [haj, hzero, htc] at g
          exact absurd g (by decide)
      · right
        refine ⟨c, BuiltFrom_snoc _ _ _ _ _ _ hb, by rw [hcnt]; exact hone, ?_, ?_, ?_⟩
        · intro t1 ht1 htj
          obtain ⟨t0, g1, g2, _⟩ := htk t1 ht1 htj
          exact hnt t0 g1 g2
        · rintro ⟨e, he, hej⟩
          rcases hcol with g | ⟨_, g⟩
          · rw [g]
            exact hreg ⟨e, hrel.old_entries e he (by rw [hej]; exact hj), hej⟩
          · exact absurd hej (g e he)
        · intro a ha haj
          rcases hrel.new_applied a ha with g | ⟨g1, g2, _⟩
          · exact happ a g haj
          · rw [g2, haj]
            exact hreg ⟨_, g1, haj⟩
  · rcases hphase with ⟨hzero, hnone⟩ | ⟨c, _, _, hnt, _, _⟩
    · have hpc : task.chunk = p := htasks task k1 k2
      rw [hpc] at k3
      have hop1 : op = Op.TaskEnd j := Option.some.inj hop
      subst hop1
      refine ⟨by rw [hcount]; exact htc, ?_, Or.inr ⟨chunk.BuildCollider,
        ⟨l, [], t, chunk, rfl, hrun, k3, rfl⟩, by rw [k5, hzero], k6, fun _ => k4, ?_⟩⟩
      · intro t1 ht1 htj
        exact absurd htj (k6 t1 ht1)
      · intro a ha haj
        rw [k7] at ha
        exact absurd haj (hnone a ha)
    · exact absurd k2 (hnt task k1)

theorem run_Phase (s2 : ChunkEntities) (j p : Nat) (hinv : s2.Inv) (hj : j < s2.nextJob)
    (h0 : Phase s2 j p [] s2) :
    ∀ (later : List Op) (s3 : ChunkEntities), s2.run later = some s3 →
      Phase s2 j p later s3 := by
  intro later
  induction later using List.reverseRecOn with
  | nil =>
    intro s3 h
    simp only [ChunkEntities.run, Option.some.injEq] at h
    subst h
    exact h0
  | append_singleton l op ih =>
    intro s3 h
    obtain ⟨t, h1, h2⟩ := run_snoc l s2 s3 op h
    obtain ⟨g1, g2⟩ := run_Inv l s2 t h1 hinv
    exact Phase_step s2 t s3 j p l op h1 h2 g1 (Nat.lt_of_lt_of_le hj g2) (ih t h1)

theorem filter_length_le_one {α β : Type} [DecidableEq β] (f : α → β) (x : β) (l : List α)
    (h : (l.map f).Nodup) : (l.filter (fun a => decide (f a = x))).length ≤ 1 := by
  induction l with
  | nil => simp
  | cons a rest ih =>
    simp only [List.map_cons, List.nodup_cons] at h
    by_cases ha : f a = x
    · have hnone : rest.filter (fun b => decide (f b = x)) = [] := by
        rw [List.filter_eq_nil_iff]
        intro b hb
        simp only [decide_eq_true_eq]
        intro hbx
        exact h.1 (by rw [ha, ← hbx]; exact List.mem_map_of_mem f hb)
      simp [List.filter_cons, ha, hnone]
    · simp only [List.filter_cons, ha, decide_False, Bool.false_eq_true, if_false]
      exact ih h.2

/-- C10 fails as stated: a chunk is added (first request), a block is written
and Update issues the second request while the grid is [1]; the block is
written again before the task of the second job runs; Update then applies the
second job's collider, which is built from the grid [2] and not from the grid
as it was at the second request. The first job is cancelled and never
applied. -/
theorem ChunkEntities.second_request_counterexample :
    supersedeScenario.map (fun r => r.1.m_updateJobs) = some [(⟨0, 0, 0⟩, 1)] ∧
    supersedeScenario.map (fun r => (r.1.jobs 0).cancelled) = some true ∧
    supersedeScenario.map (fun r => (r.1.chunks.getD 0 none).map Chunk.BuildCollider)
      = some (some ⟨[⟨1⟩]⟩) ∧
    supersedeScenario.map (fun r => r.2.applied)
      = some [⟨⟨0, 0, 0⟩, 1, 0, some ⟨[⟨2⟩]⟩⟩] := by
  decide

/-- C10, amended. In a manager satisfying the bookkeeping invariant, let a
rebuild request be issued for a chunk index (job j1) and, after any operations
that have not applied j1, a second request for the same index (job j2). Then
right after the second request j1 is flagged cancelled, is registered under no
index, and j2 is the job registered for the index; and after any later
operations j1 is still unregistered and was never applied, at most one
collider was applied for j2, and a collider applied for j2 was applied to that
index and is the one built at the end of j2's task from the grid that the
chunk captured by the second request has when that task ends (not the grid at
the time of the request). -/
theorem ChunkEntities.second_request_supersedes (s0 s1 s3 : ChunkEntities)
    (idx : ChunkIndices) (p1 p2 : Nat) (mid later : List Op)
    (hinv : s0.Inv)
    (hmid : (s0.HandleChunkUpdate idx p1).run mid = some s1)
    (hfirst : ∀ a ∈ s1.applied, a.job ≠ s0.nextJob)
    (hlater : (s1.HandleChunkUpdate idx p2).run later = some s3) :
    ((s1.HandleChunkUpdate idx p2).jobs s0.nextJob).cancelled = true ∧
    (∀ e ∈ (s1.HandleChunkUpdate idx p2).m_updateJobs, e.2 ≠ s0.nextJob) ∧
    Map.find (s1.HandleChunkUpdate idx p2).m_updateJobs idx = some s1.nextJob ∧
    s0.nextJob ≠ s1.nextJob ∧
    (∀ e ∈ s3.m_updateJobs, e.2 ≠ s0.nextJob) ∧
    (∀ a ∈ s3.applied, a.job ≠ s0.nextJob) ∧
    (s3.applied.filter (fun a => decide (a.job = s1.nextJob))).length ≤ 1 ∧
    (∀ a ∈ s3.applied, a.job = s1.nextJob →
      a.chunkIndices = idx ∧
      ∃ c, a.collider = some c ∧
        BuiltFrom (s1.HandleChunkUpdate idx p2) s1.nextJob p2 later c) := by
  have hinv01 := HandleChunkUpdate_Inv s0 idx p1 hinv
  have hn01 : (s0.HandleChunkUpdate idx p1).nextJob = s0.nextJob + 1 := rfl
  obtain ⟨hinv1, hle1⟩ := run_Inv mid _ s1 hmid hinv01
  rw [hn01] at hle1
  have hlt : s0.nextJob < s1.nextJob := by omega
  have hkey1 := (run_key mid _ s1 s0.nextJob idx hmid hinv01 (by rw [hn01]; omega)
    (by
      intro e he hej
      rcases (Map.mem_insert_or_assign _ _ _ _).1 he with ⟨g, _⟩ | g
      · exact absurd hej (Nat.ne_of_lt (hinv.jobs_lt e g))
      · rw [g])
    (by
      intro a ha haj
      exact absurd haj (Nat.ne_of_lt (hinv.applied_lt a ha)))).1
  have hinv2 := HandleChunkUpdate_Inv s1 idx p2 hinv1
  have hn2 : (s1.HandleChunkUpdate idx p2).nextJob = s1.nextJob + 1 := rfl
  have ha2 : (s1.HandleChunkUpdate idx p2).applied = s1.applied := rfl
  have hunreg2 : ∀ e ∈ (s1.HandleChunkUpdate idx p2).m_updateJobs, e.2 ≠ s0.nextJob := by
    intro e he hej
    rcases (Map.mem_insert_or_assign _ _ _ _).1 he with ⟨g, gk⟩ | g
    · exact gk (hkey1 e g hej)
    · rw [g] at hej
      exact absurd hej.symm (Nat.ne_of_lt hlt)
  have hdrop := run_dropped later _ s3 s0.nextJob hlater hinv2 (by rw [hn2]; omega) hunreg2
    (by rw [ha2]; exact hfirst)
  obtain ⟨hinv3, _⟩ := run_Inv later _ s3 hlater hinv2
  have hkey2 := (run_key later _ s3 s1.nextJob idx hlater hinv2 (by rw [hn2]; omega)
    (by
      intro e he hej
      rcases (Map.mem_insert_or_assign _ _ _ _).1 he with ⟨g, _⟩ | g
      · exact absurd hej (Nat.ne_of_lt (hinv1.jobs_lt e g))
      · rw [g])
    (by
      intro a ha haj
      exact absurd haj (Nat.ne_of_lt (hinv1.applied_lt a ha)))).2
  have hphase0 : Phase (s1.HandleChunkUpdate idx p2) s1.nextJob p2 []
      (s1.HandleChunkUpdate idx p2) := by
    refine ⟨by rw [HandleChunkUpdate_jobs_new], ?_, Or.inl
      ⟨by rw [HandleChunkUpdate_jobs_new], ?_⟩⟩
    · intro t ht htj
      have ht1 : t ∈ s1.tasks ++ [{ chunk := p2, job := s1.nextJob, building := false }] := ht
      rcases List.mem_append.1 ht1 with g | g
      · exact absurd htj (Nat.ne_of_lt (hinv1.tasks_lt t g))
      · simp only [List.mem_singleton] at g
        rw [g]
    · intro a ha haj
      exact absurd haj (Nat.ne_of_lt (hinv1.applied_lt a ha))
  have hphase := run_Phase _ s1.nextJob p2 hinv2 (by rw [hn2]; omega) hphase0 later s3 hlater
  refine ⟨?_, hunreg2, Map.find_insert_or_assign_self _ _ _, Nat.ne_of_lt hlt, hdrop.1,
    hdrop.2, filter_length_le_one _ _ _ hinv3.applied_nodup, ?_⟩
  · exact hinv2.cancelled_of_dropped s0.nextJob (by rw [hn2]; omega) hunreg2
      (by rw [ha2]; exact hfirst)
  · intro a ha haj
    refine ⟨hkey2 a ha haj, ?_⟩
    rcases hphase.2.2 with ⟨_, hnone⟩ | ⟨c, hb, _, _, _, happ⟩
    · exact absurd haj (hnone a ha)
    · exact ⟨c, happ a ha haj, hb⟩

theorem exampleManager_Inv : exampleManager.Inv :=
  Inv_of_eq ChunkEntities.initial exampleManager rfl rfl rfl rfl rfl Inv_initial

/-- Witness of the amended C10: two requests for the index (0, 0, 0) of the
example manager, followed by a block write, the task of the second job and the
application of the completed jobs; exactly the second job is applied. -/
theorem ChunkEntities.second_request_supersedes_witness :
    ∃ s3, ((exampleManager.HandleChunkUpdate ⟨0, 0, 0⟩ 0).HandleChunkUpdate
        ⟨0, 0, 0⟩ 0).run exampleLater = some s3 ∧
      s3.applied.map AppliedCollider.job = [1] ∧
      (∀ a ∈ s3.applied, a.job ≠ 0) ∧
      (s3.applied.filter (fun a => decide (a.job = 1))).length ≤ 1 := by
  have happ : (((exampleManager.HandleChunkUpdate ⟨0, 0, 0⟩ 0).HandleChunkUpdate
      ⟨0, 0, 0⟩ 0).run exampleLater).map (fun s => s.applied.map AppliedCollider.job)
      = some [1] := by decide
  cases hr : ((exampleManager.HandleChunkUpdate ⟨0, 0, 0⟩ 0).HandleChunkUpdate
      ⟨0, 0, 0⟩ 0).run exampleLater with
  | none => rw [hr] at happ; exact absurd happ (by simp)
  | some s3 =>
    rw [hr] at happ
    have h := ChunkEntities.second_request_supersedes exampleManager
      (exampleManager.HandleChunkUpdate ⟨0, 0, 0⟩ 0) s3 ⟨0, 0, 0⟩ 0 0 [] exampleLater
      exampleManager_Inv rfl (by decide) hr
    exact ⟨s3, rfl, Option.some.inj happ, h.2.2.2.2.2.1, h.2.2.2.2.2.2.1⟩

theorem Map.find_erase_self {κ ν : Type} [DecidableEq κ] (m : List (κ × ν)) (key : κ) :
    Map.find (Map.erase m key) key = none :=
  Map.find_none _ _ (fun e he => ((Map.mem_erase m key e).1 he).2)

theorem applyLoop_frame (rest : List (ChunkIndices × Nat)) :
    ∀ s s1 : ChunkEntities, ChunkEntities.applyLoop rest s = some s1 →
      s1.m_chunkEntities = s.m_chunkEntities ∧ s1.chunks = s.chunks ∧
      s1.m_invalidatedChunks = s.m_invalidatedChunks ∧ s1.nextEntity = s.nextEntity ∧
      s1.nextJob = s.nextJob ∧ s1.tasks = s.tasks ∧
      (∀ e ∈ s1.m_updateJobs, e ∈ s.m_updateJobs) ∧
      (∀ a ∈ s1.applied, a ∈ s.applied ∨ ∃ e ∈ rest, e.1 = a.chunkIndices) := by
  induction rest with
  | nil =>
    intro s s1 h
    simp only [ChunkEntities.applyLoop, Option.some.injEq] at h
    subst h
    exact ⟨rfl, rfl, rfl, rfl, rfl, rfl, fun e he => he, fun a ha => Or.inl ha⟩
  | cons entry rest ih =>
    intro s s1 h
    rw [ChunkEntities.applyLoop] at h
    by_cases hc : (s.jobs entry.2).executionCounter ≠ (s.jobs entry.2).taskCount
    · rw [if_pos hc] at h
      obtain ⟨h1, h2, h3, h4, h5, h6, h7, h8⟩ := ih s s1 h
      refine ⟨h1, h2, h3, h4, h5, h6, h7, ?_⟩
      intro a ha
      rcases h8 a ha with g | ⟨e, he, hea⟩
      · exact Or.inl g
      · exact Or.inr ⟨e, List.mem_cons_of_mem _ he, hea⟩
    · rw [if_neg hc] at h
      cases hap : s.applyFunc entry.1 entry.2 with
      | none => simp [hap] at h
      | some s2 =>
        simp only [hap] at h
        obtain ⟨ent, hs2⟩ := applyFunc_eq s s2 _ _ hap
        subst hs2
        obtain ⟨h1, h2, h3, h4, h5, h6, h7, h8⟩ := ih _ s1 h
        simp only at h1 h2 h3 h4 h5 h6 h7 h8
        refine ⟨h1, h2, h3, h4, h5, h6, ?_, ?_⟩
        · intro e he
          exact ((Map.mem_erase _ _ _).1 (h7 e he)).1
        · intro a ha
          rcases h8 a ha with g | ⟨e, he, hea⟩
          · rcases List.mem_append.1 g with g1 | g1
            · exact Or.inl g1
            · simp only [List.mem_singleton] at g1
              exact Or.inr ⟨entry, List.mem_cons_self _ _, by rw [g1]⟩
          · exact Or.inr ⟨e, List.mem_cons_of_mem _ he, hea⟩

theorem TaskBegin_frame (s s1 : ChunkEntities) (j : Nat) (hex : s.TaskBegin j = some s1) :
    s1.m_chunkEntities = s.m_chunkEntities ∧ s1.chunks = s.chunks ∧
    s1.m_invalidatedChunks = s.m_invalidatedChunks := by
  unfold ChunkEntities.TaskBegin at hex
  cases hf : s.tasks.find? (fun t => decide (t.job = j)) with
  | none => simp [hf] at hex
  | some task =>
    simp only [hf] at hex
    by_cases hb : task.building = true
    · simp [hb] at hex
    · simp only [hb, Bool.false_eq_true, if_false] at hex
      by_cases hc : (s.jobs j).cancelled = true
      · simp only [hc, if_true, Option.some.injEq] at hex
        subst hex
        exact ⟨rfl, rfl, rfl⟩
      · simp only [hc, Bool.false_eq_true, if_false, Option.some.injEq] at hex
        subst hex
        exact ⟨rfl, rfl, rfl⟩

theorem TaskEnd_frame (s s1 : ChunkEntities) (j : Nat) (hex : s.TaskEnd j = some s1) :
    s1.m_chunkEntities = s.m_chunkEntities ∧ s1.chunks = s.chunks ∧
    s1.m_invalidatedChunks = s.m_invalidatedChunks := by
  unfold ChunkEntities.TaskEnd at hex
  cases hf : s.tasks.find? (fun t => decide (t.job = j)) with
  | none => simp [hf] at hex
  | some task =>
    simp only [hf] at hex
    by_cases hb : task.building = true
    · simp only [hb, if_true] at hex
      cases hc : s.chunks.getD task.chunk none with
      | none =>
        simp only [hc] at hex
        exact absurd hex (by simp)
      | some chunk =>
        simp only [hc, Option.some.injEq] at hex
        subst hex
        exact ⟨rfl, rfl, rfl⟩
    · simp [hb] at hex

theorem DestroyChunkEntity_entities (s : ChunkEntities) (idx : ChunkIndices) :
    (s.DestroyChunkEntity idx).m_chunkEntities = Map.erase s.m_chunkEntities idx ∧
    (s.DestroyChunkEntity idx).m_invalidatedChunks =
      s.m_invalidatedChunks.filter (fun i => decide (i ≠ idx)) := by
  unfold ChunkEntities.DestroyChunkEntity
  cases hf : Map.find s.m_updateJobs idx with
  | none => exact ⟨rfl, rfl⟩
  | some j0 => exact ⟨rfl, rfl⟩

theorem HandleChunkUpdate_keys (s : ChunkEntities) (idx key : ChunkIndices) (p : Nat)
    (hne : key ≠ idx) (h : ∀ e ∈ s.m_updateJobs, e.1 ≠ idx) :
    ∀ e ∈ (s.HandleChunkUpdate key p).m_updateJobs, e.1 ≠ idx := by
  intro e he
  have he1 : e ∈ Map.insert_or_assign s.m_updateJobs key s.nextJob := he
  rcases (Map.mem_insert_or_assign _ _ _ _).1 he1 with ⟨g, _⟩ | g
  · exact h e g
  · rw [g]; exact hne

theorem applyLoop_none (rest : List (ChunkIndices × Nat)) :
    ∀ s : ChunkEntities, ChunkEntities.applyLoop rest s = none →
      ∃ e ∈ rest, Map.find s.m_chunkEntities e.1 = none := by
  induction rest with
  | nil =>
    intro s h
    simp [ChunkEntities.applyLoop] at h
  | cons entry rest ih =>
    intro s h
    rw [ChunkEntities.applyLoop] at h
    by_cases hc : (s.jobs entry.2).executionCounter ≠ (s.jobs entry.2).taskCount
    · rw [if_pos hc] at h
      obtain ⟨e, he, hf⟩ := ih s h
      exact ⟨e, List.mem_cons_of_mem _ he, hf⟩
    · rw [if_neg hc] at h
      cases hap : s.applyFunc entry.1 entry.2 with
      | none =>
        refine ⟨entry, List.mem_cons_self _ _, ?_⟩
        unfold ChunkEntities.applyFunc at hap
        cases hf : Map.find s.m_chunkEntities entry.1 with
        | none => rfl
        | some ent => rw [hf] at hap; exact absurd hap (by simp)
      | some s2 =>
        simp only [hap] at h
        obtain ⟨ent, hs2⟩ := applyFunc_eq s s2 _ _ hap
        subst hs2
        obtain ⟨e, he, hf⟩ := ih _ h
        exact ⟨e, List.mem_cons_of_mem _ he, hf⟩

/-- One operation other than the creation of a proxy entity for `idx` keeps
the index unknown to the manager: no proxy entity, no registered job, and no
collider newly applied for it. -/
theorem exec_absent (s s1 : ChunkEntities) (op : Op) (idx : ChunkIndices)
    (hex : s.exec op = some s1) (hop : ∀ p, op ≠ Op.CreateChunkEntity idx p)
    (hent : Map.find s.m_chunkEntities idx = none)
    (hjob : ∀ e ∈ s.m_updateJobs, e.1 ≠ idx) :
    Map.find s1.m_chunkEntities idx = none ∧ (∀ e ∈ s1.m_updateJobs, e.1 ≠ idx) ∧
    ∀ a ∈ s1.applied, a.chunkIndices = idx → a ∈ s.applied := by
  cases op with
  | ApplyJobs =>
    obtain ⟨h1, _, _, _, _, _, h7, h8⟩ := applyLoop_frame _ s s1 hex
    refine ⟨by rw [h1]; exact hent, fun e he => hjob e (h7 e he), ?_⟩
    intro a ha hai
    rcases h8 a ha with g | ⟨e, he, hea⟩
    · exact g
    · exact absurd (hea.trans hai) (hjob e he)
  | UpdateChunkEntity key =>
    simp only [ChunkEntities.exec, ChunkEntities.UpdateChunkEntity] at hex
    by_cases hc : Map.contains s.m_chunkEntities key = true
    · simp only [hc, if_true] at hex
      cases hg : s.GetChunk key with
      | none => simp [hg] at hex
      | some p =>
        simp only [hg, Option.some.injEq] at hex
        subst hex
        have hne : key ≠ idx := by
          intro hk
          rw [hk, Map.contains, hent] at hc
          exact absurd hc (by simp)
        exact ⟨hent, HandleChunkUpdate_keys s idx key p hne hjob, fun a ha _ => ha⟩
    · simp [hc] at hex
  | ClearInvalidated =>
    simp only [ChunkEntities.exec, Option.some.injEq] at hex
    subst hex
    exact ⟨hent, hjob, fun a ha _ => ha⟩
  | CreateChunkEntity key p =>
    simp only [ChunkEntities.exec, ChunkEntities.CreateChunkEntity] at hex
    by_cases hc : Map.contains s.m_chunkEntities key = true
    · simp [hc] at hex
    · simp only [hc, Bool.false_eq_true, if_false, Option.some.injEq] at hex
      subst hex
      have hne : key ≠ idx := fun hk => hop p (by rw [hk])
      refine ⟨?_, HandleChunkUpdate_keys _ idx key p hne hjob, fun a ha _ => ha⟩
      apply Map.find_none
      intro e he
      have he1 : e ∈ Map.insert_or_assign s.m_chunkEntities key s.nextEntity := he
      rcases (Map.mem_insert_or_assign _ _ _ _).1 he1 with ⟨g, _⟩ | g
      · exact Map.not_mem_of_find_none _ _ hent e g
      · rw [g]; exact hne
  | DestroyChunkEntity key =>
    simp only [ChunkEntities.exec, Option.some.injEq] at hex
    subst hex
    obtain ⟨_, _, ha, hm, _⟩ := DestroyChunkEntity_fields s key
    refine ⟨?_, ?_, ?_⟩
    · rw [(DestroyChunkEntity_entities s key).1]
      apply Map.find_none
      intro e he
      exact Map.not_mem_of_find_none _ _ hent e ((Map.mem_erase _ _ _).1 he).1
    · intro e he
      rw [hm] at he
      exact hjob e ((Map.mem_erase _ _ _).1 he).1
    · intro a h1 _
      rw [ha] at h1
      exact h1
  | InvalidateChunk key =>
    simp only [ChunkEntities.exec, ChunkEntities.InvalidateChunk, Option.some.injEq] at hex
    subst hex
    by_cases hc : key ∈ s.m_invalidatedChunks
    · simp only [hc, if_true]
      exact ⟨hent, hjob, fun a ha _ => ha⟩
    · simp only [hc, if_false]
      exact ⟨hent, hjob, fun a ha _ => ha⟩
  | TaskBegin j =>
    obtain ⟨h1, _, _⟩ := TaskBegin_frame s s1 j hex
    obtain ⟨h2, _, _, h4, _⟩ := TaskBegin_fields s s1 j hex
    exact ⟨by rw [h1]; exact hent, by rw [h2]; exact hjob, fun a ha _ => by rw [← h4]; exact ha⟩
  | TaskEnd j =>
    obtain ⟨h1, _, _⟩ := TaskEnd_frame s s1 j hex
    obtain ⟨h2, _, h4, _⟩ := TaskEnd_fields s s1 j hex
    exact ⟨by rw [h1]; exact hent, by rw [h2]; exact hjob, fun a ha _ => by rw [← h4]; exact ha⟩
  | ContainerStore chunk =>
    simp only [ChunkEntities.exec, Option.some.injEq] at hex
    subst hex
    exact ⟨hent, hjob, fun a ha _ => ha⟩
  | ContainerFree p =>
    simp only [ChunkEntities.exec, Option.some.injEq] at hex
    subst hex
    exact ⟨hent, hjob, fun a ha _ => ha⟩
  | ContainerWrite p indices newBlock =>
    simp only [ChunkEntities.exec] at hex
    cases hc : s.chunks.getD p none with
    | none =>
      simp only [hc] at hex
      exact absurd hex (by simp)
    | some c =>
      simp only [hc] at hex
      cases hu : c.UpdateBlock indices newBlock with
      | none =>
        simp only [hu] at hex
        exact absurd hex (by simp)
      | some c1 =>
        simp only [hu, Option.some.injEq] at hex
        subst hex
        exact ⟨hent, hjob, fun a ha _ => ha⟩

theorem run_absent (ops : List Op) (idx : ChunkIndices) :
    ∀ s s1 : ChunkEntities, s.run ops = some s1 →
      (∀ p, Op.CreateChunkEntity idx p ∉ ops) →
      Map.find s.m_chunkEntities idx = none → (∀ e ∈ s.m_updateJobs, e.1 ≠ idx) →
      Map.find s1.m_chunkEntities idx = none ∧ (∀ e ∈ s1.m_updateJobs, e.1 ≠ idx) ∧
      ∀ a ∈ s1.applied, a.chunkIndices = idx → a ∈ s.applied := by
  induction ops with
  | nil =>
    intro s s1 h _ hent hjob
    simp only [ChunkEntities.run, Option.some.injEq] at h
    subst h
    exact ⟨hent, hjob, fun a ha _ => ha⟩
  | cons op rest ih =>
    intro s s1 h hno hent hjob
    rw [ChunkEntities.run] at h
    cases hex : s.exec op with
    | none => simp [hex] at h
    | some t =>
      simp only [hex] at h
      obtain ⟨g1, g2, g3⟩ := exec_absent s t op idx hex
        (fun p hp => hno p (by rw [hp]; exact List.mem_cons_self _ _)) hent hjob
      obtain ⟨k1, k2, k3⟩ := ih t s1 h
        (fun p hp => hno p (List.mem_cons_of_mem _ hp)) g1 g2
      exact ⟨k1, k2, fun a ha hai => g3 a (k3 a ha hai) hai⟩

theorem DestroyChunkEntity_absent (s : ChunkEntities) (idx : ChunkIndices) :
    Map.find (s.DestroyChunkEntity idx).m_chunkEntities idx = none ∧
    Map.find (s.DestroyChunkEntity idx).m_updateJobs idx = none ∧
    idx ∉ (s.DestroyChunkEntity idx).m_invalidatedChunks := by
  obtain ⟨_, _, _, hm, _⟩ := DestroyChunkEntity_fields s idx
  refine ⟨?_, by rw [hm]; exact Map.find_erase_self _ _, ?_⟩
  · rw [(DestroyChunkEntity_entities s idx).1]
    exact Map.find_erase_self _ _
  · rw [(DestroyChunkEntity_entities s idx).2]
    simp [List.mem_filter]

/-- C11: when `DestroyChunkEntity` runs for an index whose rebuild job `j` is
registered, `j` is flagged cancelled and the manager is left with no proxy
entity, no registered job and no invalidation record for the index; and after
any later operations (Update passes, task steps, chunk events) that include
no creation of a proxy entity for that index, the manager still has no proxy
entity and no registered job for it, every collider applied for the index had
already been applied before the removal, and if the apply pass of an Update
fails in the state reached, the proxy entity it failed to find is that of
another index. -/
theorem ChunkEntities.DestroyChunkEntity_forgets (s s3 : ChunkEntities)
    (idx : ChunkIndices) (j : Nat) (later : List Op)
    (hreg : Map.find s.m_updateJobs idx = some j)
    (hnoadd : ∀ p, Op.CreateChunkEntity idx p ∉ later)
    (hlater : (s.DestroyChunkEntity idx).run later = some s3) :
    ((s.DestroyChunkEntity idx).jobs j).cancelled = true ∧
    Map.find (s.DestroyChunkEntity idx).m_chunkEntities idx = none ∧
    Map.find (s.DestroyChunkEntity idx).m_updateJobs idx = none ∧
    idx ∉ (s.DestroyChunkEntity idx).m_invalidatedChunks ∧
    Map.find s3.m_chunkEntities idx = none ∧
    Map.find s3.m_updateJobs idx = none ∧
    (∀ a ∈ s3.applied, a.chunkIndices = idx → a ∈ s.applied) ∧
    (s3.exec Op.ApplyJobs = none →
      ∃ e ∈ s3.m_updateJobs, e.1 ≠ idx ∧ Map.find s3.m_chunkEntities e.1 = none) := by
  obtain ⟨_, _, ha, _, hjobs⟩ := DestroyChunkEntity_fields s idx
  obtain ⟨h1, h2, h3⟩ := DestroyChunkEntity_absent s idx
  obtain ⟨g1, g2, g3⟩ := run_absent later idx _ s3 hlater hnoadd h1
    (Map.not_mem_of_find_none _ _ h2)
  refine ⟨(hjobs j).2.2.2.2 hreg, h1, h2, h3, g1, Map.find_none _ _ g2, ?_, ?_⟩
  · intro a h4 hai
    rw [← ha]
    exact g3 a h4 hai
  · intro hfail
    obtain ⟨e, he, hf⟩ := applyLoop_none _ s3 hfail
    exact ⟨e, he, g2 e he, hf⟩

/-- Witness of C11: the example manager with the registered job 0 of its first
rebuild request; the chunk entity is destroyed, then the queued task of job 0
runs and a whole Update pass follows. Nothing is applied. -/
theorem ChunkEntities.DestroyChunkEntity_forgets_witness :
    ∃ s3, ((exampleManager.HandleChunkUpdate ⟨0, 0, 0⟩ 0).DestroyChunkEntity ⟨0, 0, 0⟩).run
        [Op.TaskBegin 0, Op.ApplyJobs, Op.ClearInvalidated] = some s3 ∧
      (((exampleManager.HandleChunkUpdate ⟨0, 0, 0⟩ 0).DestroyChunkEntity ⟨0, 0, 0⟩).jobs
        0).cancelled = true ∧
      Map.find s3.m_chunkEntities ⟨0, 0, 0⟩ = none ∧
      Map.find s3.m_updateJobs ⟨0, 0, 0⟩ = none ∧
      (∀ a ∈ s3.applied, a.chunkIndices = ⟨0, 0, 0⟩ →
        a ∈ (exampleManager.HandleChunkUpdate ⟨0, 0, 0⟩ 0).applied) := by
  have hsome : (((exampleManager.HandleChunkUpdate ⟨0, 0, 0⟩ 0).DestroyChunkEntity
      ⟨0, 0, 0⟩).run [Op.TaskBegin 0, Op.ApplyJobs, Op.ClearInvalidated]).isSome = true := by
    decide
  cases hr : ((exampleManager.HandleChunkUpdate ⟨0, 0, 0⟩ 0).DestroyChunkEntity
      ⟨0, 0, 0⟩).run [Op.TaskBegin 0, Op.ApplyJobs, Op.ClearInvalidated] with
  | none => rw [hr] at hsome; exact absurd hsome (by simp)
  | some s3 =>
    have h := ChunkEntities.DestroyChunkEntity_forgets
      (exampleManager.HandleChunkUpdate ⟨0, 0, 0⟩ 0) s3 ⟨0, 0, 0⟩ 0
      [Op.TaskBegin 0, Op.ApplyJobs, Op.ClearInvalidated] (by decide)
      (by intro p hp; simp at hp) hr
    exact ⟨s3, rfl, h.1, h.2.2.2.2.1, h.2.2.2.2.2.1, h.2.2.2.2.2.2.1⟩

theorem applyLoop_isSome (rest : List (ChunkIndices × Nat)) :
    ∀ s : ChunkEntities, (∀ e ∈ rest, Map.contains s.m_chunkEntities e.1 = true) →
      ∃ s1, ChunkEntities.applyLoop rest s = some s1 := by
  induction rest with
  | nil => intro s _; exact ⟨s, rfl⟩
  | cons entry rest ih =>
    intro s h
    rw [ChunkEntities.applyLoop]
    by_cases hc : (s.jobs entry.2).executionCounter ≠ (s.jobs entry.2).taskCount
    · rw [if_pos hc]
      exact ih s (fun e he => h e (List.mem_cons_of_mem _ he))
    · rw [if_neg hc]
      have hent := h entry (List.mem_cons_self _ _)
      unfold Map.contains at hent
      obtain ⟨ent, hfind⟩ := Option.isSome_iff_exists.1 hent
      have hap : s.applyFunc entry.1 entry.2 = some { s with
          applied := s.applied ++ [{ chunkIndices := entry.1, job := entry.2, entity := ent,
                                     collider := (s.jobs entry.2).collider }],
          jobs := setJob s.jobs entry.2 { s.jobs entry.2 with collider := none } } := by
        unfold ChunkEntities.applyFunc
        rw [hfind]
      rw [hap]
      exact ih _ (fun e he => h e (List.mem_cons_of_mem _ he))

theorem pow2_pos (e : Int) : 0 < pow2 e := by
  unfold pow2
  split_ifs
  · positivity
  · positivity

theorem roundHalfEven_nonpos (x : ℚ) (hx : x ≤ 0) : roundHalfEven x ≤ 0 := by
  have hf : Rat.floor x ≤ 0 := by
    have h1 : ((Rat.floor x : Int) : ℚ) ≤ x := Rat.le_floor.1 (le_refl _)
    have h2 : ((Rat.floor x : Int) : ℚ) ≤ 0 := le_trans h1 hx
    exact_mod_cast h2
  have hstep : ¬ (x - (Rat.floor x : ℚ) < 1 / 2) → Rat.floor x + 1 ≤ 0 := by
    intro hr
    have h1 : (Rat.floor x : ℚ) ≤ x - 1 / 2 := by linarith [not_lt.1 hr]
    have h2 : ((Rat.floor x : Int) : ℚ) < 0 := by linarith
    have h3 : Rat.floor x < 0 := by exact_mod_cast h2
    omega
  unfold roundHalfEven
  simp only
  split_ifs with h1 h2 h3
  · exact hf
  · exact hstep h1
  · exact hf
  · exact hstep h1

theorem fl32_nonpos (x : ℚ) (hx : x ≤ 0) : fl32 x ≤ 0 := by
  unfold fl32
  split_ifs with h
  · exact le_refl 0
  · have hp := pow2_pos (ilog2 x - 23)
    have hq : x / pow2 (ilog2 x - 23) ≤ 0 := div_nonpos_of_nonpos_of_nonneg hx hp.le
    have hr : ((roundHalfEven (x / pow2 (ilog2 x - 23)) : Int) : ℚ) ≤ 0 := by
      exact_mod_cast roundHalfEven_nonpos _ hq
    exact mul_nonpos_of_nonpos_of_nonneg hr hp.le

theorem distToCenter_nonneg (A : FloatArith) (p c : Vector3f) :
    0 ≤ DeformedChunk.distToCenter A p c :=
  le_max_of_le_right (abs_nonneg _)

theorem Clamp_same (v b : ℚ) : Nz.Clamp v b b = b :=
  max_eq_right (min_le_right _ _)

theorem Clamp_of_mem (v lo hi : ℚ) (h1 : lo ≤ v) (h2 : v ≤ hi) : Nz.Clamp v lo hi = v := by
  unfold Nz.Clamp
  rw [min_eq_left h2, max_eq_left h1]

/-- With radius 0 the result is the inner position, each component rounded
once more by the final addition of a zero vector. -/
theorem radius_zero_result (A : FloatArith) (p c : Vector3f) (h0 : A.fl 0 = 0) :
    DeformedChunk.DeformPosition A p c 0 =
      ⟨A.fl (DeformedChunk.innerPos A p c 0).x, A.fl (DeformedChunk.innerPos A p c 0).y,
        A.fl (DeformedChunk.innerPos A p c 0).z⟩ := by
  unfold DeformedChunk.DeformPosition
  rw [min_eq_left (distToCenter_nonneg A p c)]
  simp only [Vector3f.scale, Vector3f.add, FloatArith.mul, FloatArith.add, mul_zero, h0,
    add_zero]

/-- C13 fails as stated in `float` arithmetic: for the position (0.1f, 0, 0),
a representable value (13421773 / 2^27), and the center (1, 0, 0), the
difference 0.1f - 1 rounds to -0.9f, so the distance is 0.9f and the lower
bound 1 - 0.9f of the inner box is 838861 / 2^23, above 0.1f; the position is
clamped to it and `DeformPosition` with radius 0 returns that bound, not the
position. -/
theorem DeformedChunk.DeformPosition_zero_counterexample :
    binary32.fl (13421773 / 134217728) = 13421773 / 134217728 ∧
    DeformedChunk.DeformPosition binary32 ⟨13421773 / 134217728, 0, 0⟩ ⟨1, 0, 0⟩ 0
      = ⟨838861 / 8388608, 0, 0⟩ ∧
    DeformedChunk.DeformPosition binary32 ⟨13421773 / 134217728, 0, 0⟩ ⟨1, 0, 0⟩ 0
      ≠ ⟨13421773 / 134217728, 0, 0⟩ := by
  decide!

/-- C14 fails as stated: the position (3, 4, 0) is at maximum per-axis
distance 4 from the center (0, 0, 0), within the radius 10; the inner box is
the center alone, the normal is about (0.6, 0.8, 0), and `DeformPosition`
returns about (2.4, 3.2, 0), at Euclidean distance 4 from the center, not the
position. -/
theorem DeformedChunk.DeformPosition_inside_counterexample :
    DeformedChunk.distToCenter binary32 ⟨3, 4, 0⟩ ⟨0, 0, 0⟩ = 4 ∧
    DeformedChunk.DeformPosition binary32 ⟨3, 4, 0⟩ ⟨0, 0, 0⟩ 10
      = ⟨5033165 / 2097152, 13421773 / 4194304, 0⟩ ∧
    DeformedChunk.DeformPosition binary32 ⟨3, 4, 0⟩ ⟨0, 0, 0⟩ 10 ≠ ⟨3, 4, 0⟩ := by
  decide!

/-- C14, amended: for every rounding function that leaves 0 unchanged and
rounds no value that is at most 0 to a positive one, every representable
center c, every radius r and every position p whose computed maximum per-axis
absolute distance d to c is at most r, `DeformPosition(p, c, r)` is
`c + Normalize(p - c) * d`: the inner position is the center itself, and the
position is moved along the direction from c to p to the distance d measured
by `Normalize`, the Euclidean one. -/
theorem DeformedChunk.DeformPosition_inside (A : FloatArith) (p c : Vector3f) (r : ℚ)
    (h0 : A.fl 0 = 0) (hsign : ∀ x, x ≤ 0 → A.fl x ≤ 0)
    (hc : A.fl c.x = c.x ∧ A.fl c.y = c.y ∧ A.fl c.z = c.z)
    (hd : DeformedChunk.distToCenter A p c ≤ r) :
    DeformedChunk.innerPos A p c r = c ∧
    DeformedChunk.DeformPosition A p c r =
      Vector3f.add A c
        (Vector3f.scale A (Vector3f.Normalize A (Vector3f.sub A p c))
          (DeformedChunk.distToCenter A p c)) := by
  have hred : max (A.fl (DeformedChunk.distToCenter A p c - r)) 0 = 0 :=
    max_eq_right (hsign _ (by linarith))
  have hin : DeformedChunk.innerPos A p c r = c := by
    unfold DeformedChunk.innerPos DeformedChunk.innerBox
    simp only [Boxf.new, Boxf.GetMinimum, Boxf.GetMaximum, Vector3f.sub, Vector3f.add,
      Vector3f.splat, Vector3f.Clamp, FloatArith.sub, FloatArith.add, FloatArith.mul, hred,
      sub_zero, zero_mul, add_zero, h0, hc.1, hc.2.1, hc.2.2, Clamp_same]
  refine ⟨hin, ?_⟩
  unfold DeformedChunk.DeformPosition
  rw [hin, min_eq_right hd]

/-- Witness of the amended C14 in binary32 arithmetic: the position (3, 4, 0),
the center (0, 0, 0) and the radius 10. -/
theorem DeformedChunk.DeformPosition_inside_witness :
    DeformedChunk.distToCenter binary32 ⟨3, 4, 0⟩ ⟨0, 0, 0⟩ ≤ 10 ∧
    DeformedChunk.innerPos binary32 ⟨3, 4, 0⟩ ⟨0, 0, 0⟩ 10 = ⟨0, 0, 0⟩ ∧
    DeformedChunk.DeformPosition binary32 ⟨3, 4, 0⟩ ⟨0, 0, 0⟩ 10 =
      Vector3f.add binary32 ⟨0, 0, 0⟩
        (Vector3f.scale binary32
          (Vector3f.Normalize binary32 (Vector3f.sub binary32 ⟨3, 4, 0⟩ ⟨0, 0, 0⟩))
          (DeformedChunk.distToCenter binary32 ⟨3, 4, 0⟩ ⟨0, 0, 0⟩)) :=
  ⟨by decide!,
    DeformedChunk.DeformPosition_inside binary32 ⟨3, 4, 0⟩ ⟨0, 0, 0⟩ 10 (by decide!)
      fl32_nonpos (by decide!) (by decide!)⟩

theorem u32_mul_assoc_of_lt (a b c : Nat) (h : a * b * c < 4294967296) :
    u32 (u32 (a * b) * c) = a * b * c := by
  unfold u32
  rw [Nat.mod_mul_mod, Nat.mod_eq_of_lt h]

/-- C15: a chunk constructed with a size whose product fits in 32 bits holds
exactly width*height*depth cells, every one `Empty`; and on a chunk that holds
width*height*depth cells, `UpdateBlock` on valid coordinates succeeds and
leaves a chunk of the same size that still holds width*height*depth cells. -/
theorem Chunk.GridInvariant_preserved (indices size : Vector3ui) (cellSize : Rat)
    (c : Chunk) (v : Vector3ui) (newBlock : VoxelBlock)
    (hfit : size.x * size.y * size.z < 4294967296)
    (hinv : c.GridInvariant) (hv : c.ValidCoordinates v) :
    (Chunk.new indices size cellSize).GridInvariant ∧
    (Chunk.new indices size cellSize).m_cells.length = size.x * size.y * size.z ∧
    (∀ b ∈ (Chunk.new indices size cellSize).m_cells, b = VoxelBlock.Empty) ∧
    ∃ c1, c.UpdateBlock v newBlock = some c1 ∧ c1.m_size = c.m_size ∧ c1.GridInvariant ∧
      c1.m_cells.length = c.m_size.x * c.m_size.y * c.m_size.z := by
  have hlen : (Chunk.new indices size cellSize).m_cells.length = size.x * size.y * size.z := by
    show (List.replicate (u32 (u32 (size.x * size.y) * size.z)) VoxelBlock.Empty).length = _
    rw [List.length_replicate, u32_mul_assoc_of_lt _ _ _ hfit]
  have hlt : c.GetBlockIndex v < c.m_cells.length := by
    rw [hinv]; exact GetBlockIndex_lt_of_valid c v hv
  have hset : (c.m_cells.set (c.GetBlockIndex v) newBlock).length
      = c.m_size.x * c.m_size.y * c.m_size.z := by
    rw [List.length_set]; exact hinv
  refine ⟨hlen, hlen, ?_, _, UpdateBlock_of_lt c v newBlock hlt, rfl, hset, hset⟩
  intro b hb
  exact List.eq_of_mem_replicate hb

/-- Witness of C15: a fresh 2 x 3 x 4 chunk has 24 cells, and a write into the
2 x 2 x 1 example chunk keeps its 4 cells. -/
theorem Chunk.GridInvariant_preserved_witness :
    (Chunk.new ⟨0, 0, 0⟩ ⟨2, 3, 4⟩ 1).m_cells.length = 2 * 3 * 4 ∧
    ∃ c1, exampleChunk.UpdateBlock ⟨1, 1, 0⟩ ⟨9⟩ = some c1 ∧ c1.m_cells.length = 2 * 2 * 1 := by
  obtain ⟨_, h2, _, c1, h4, _, _, h7⟩ := Chunk.GridInvariant_preserved ⟨0, 0, 0⟩ ⟨2, 3, 4⟩ 1
    exampleChunk ⟨1, 1, 0⟩ ⟨9⟩ (by decide) rfl ⟨by decide, by decide, by decide⟩
  exact ⟨h2, c1, h4, h7⟩

/-- C16: when the pause flag is set and the pool holds no player, `Update`
returns at once, for every elapsed time: no tick runs, the state (tick index
and tick accumulator included) is unchanged, and the hint is 100 ms. -/
theorem ServerInstance.Update_paused (s : ServerInstance) (elapsedTime : Int) (fuel : Nat)
    (hpause : s.m_pauseWhenEmpty = true) (hempty : MemoryPool.entries s.m_players = []) :
    ∃ r, s.Update fuel elapsedTime = some r ∧ r.ticks = 0 ∧ r.state = s ∧
      r.state.m_tickIndex = s.m_tickIndex ∧
      r.state.m_tickAccumulator = s.m_tickAccumulator ∧
      r.hint = Time.Milliseconds 100 ∧ r.hint = 100000000 := by
  refine ⟨{ hint := Time.Milliseconds 100, state := s, ticks := 0 }, ?_, rfl, rfl, rfl, rfl,
    rfl, rfl⟩
  unfold ServerInstance.Update
  rw [hpause, hempty]
  rfl

/-- Witness of C16: the paused example server, 25 ns elapsed. -/
theorem ServerInstance.Update_paused_witness :
    ∃ r, pausedServer.Update 0 25 = some r ∧ r.ticks = 0 ∧ r.state.m_tickIndex = 7 ∧
      r.state.m_tickAccumulator = 3 ∧ r.hint = 100000000 := by
  obtain ⟨r, h1, h2, h3, _, _, _, h7⟩ := ServerInstance.Update_paused pausedServer 25 0 rfl rfl
  exact ⟨r, h1, h2, by rw [h3]; rfl, by rw [h3]; rfl, h7⟩

/-- C17: in the Initial state, a deserialization failure of an AuthRequest
makes exactly two calls on the session, an AuthResponse with the error
ProtocolError and Disconnect(Later); a deserialization failure of any other
packet, an unexpected packet and an unknown opcode each make the single call
Disconnect(Kick), hence send no packet; and each of the four paths leaves the
player pool and the two player sets as they were. -/
theorem InitialSessionHandler.failure_paths (authRequestIndex : Nat) (s : ServerInstance)
    (session : SessionId) (packetIndex opcode : Nat) :
    InitialSessionHandler.OnDeserializationError authRequestIndex s session authRequestIndex
      = { s with sessionCalls := s.sessionCalls ++
          [(session, SessionCall.SendPacket
              (Packet.AuthResponse (AuthResult.Err AuthError.ProtocolError) none)),
           (session, SessionCall.Disconnect DisconnectionType.Later)] } ∧
    (packetIndex ≠ authRequestIndex →
      InitialSessionHandler.OnDeserializationError authRequestIndex s session packetIndex
        = { s with sessionCalls := s.sessionCalls ++
            [(session, SessionCall.Disconnect DisconnectionType.Kick)] }) ∧
    InitialSessionHandler.OnUnexpectedPacket s session packetIndex
      = { s with sessionCalls := s.sessionCalls ++
          [(session, SessionCall.Disconnect DisconnectionType.Kick)] } ∧
    InitialSessionHandler.OnUnknownOpcode s session opcode
      = { s with sessionCalls := s.sessionCalls ++
          [(session, SessionCall.Disconnect DisconnectionType.Kick)] } ∧
    (∀ s1, (s1 = InitialSessionHandler.OnDeserializationError authRequestIndex s session
              packetIndex ∨
            s1 = InitialSessionHandler.OnUnexpectedPacket s session packetIndex ∨
            s1 = InitialSessionHandler.OnUnknownOpcode s session opcode) →
      s1.m_players = s.m_players ∧ s1.m_newPlayers = s.m_newPlayers ∧
      s1.m_disconnectedPlayers = s.m_disconnectedPlayers ∧
      ((s1.callsSince s).filter (fun c => c.2.isSendPacket) ≠ [] →
        packetIndex = authRequestIndex ∧
        s1 = InitialSessionHandler.OnDeserializationError authRequestIndex s session
          packetIndex)) := by
  refine ⟨?_, ?_, rfl, rfl, ?_⟩
  · unfold InitialSessionHandler.OnDeserializationError
    rw [if_pos rfl]
  · intro hne
    unfold InitialSessionHandler.OnDeserializationError
    rw [if_neg hne]
  · intro s1 h
    have hkick : ∀ t : ServerInstance,
        t = { s with sessionCalls := s.sessionCalls ++
          [(session, SessionCall.Disconnect DisconnectionType.Kick)] } →
        (t.callsSince s).filter (fun c => c.2.isSendPacket) = [] := by
      intro t ht
      subst ht
      simp [ServerInstance.callsSince, SessionCall.isSendPacket]
    rcases h with h | h | h
    · by_cases hp : packetIndex = authRequestIndex
      · subst h
        unfold InitialSessionHandler.OnDeserializationError
        rw [if_pos hp]
        exact ⟨rfl, rfl, rfl, fun _ => ⟨hp, rfl⟩⟩
      · have h1 : s1 = { s with sessionCalls := s.sessionCalls ++
            [(session, SessionCall.Disconnect DisconnectionType.Kick)] } := by
          rw [h]
          unfold InitialSessionHandler.OnDeserializationError
          rw [if_neg hp]
        refine ⟨by rw [h1], by rw [h1], by rw [h1], fun hn => absurd (hkick s1 h1) hn⟩
    · have h1 : s1 = { s with sessionCalls := s.sessionCalls ++
          [(session, SessionCall.Disconnect DisconnectionType.Kick)] } := h
      refine ⟨by rw [h1], by rw [h1], by rw [h1], fun hn => absurd (hkick s1 h1) hn⟩
    · have h1 : s1 = { s with sessionCalls := s.sessionCalls ++
          [(session, SessionCall.Disconnect DisconnectionType.Kick)] } := h
      refine ⟨by rw [h1], by rw [h1], by rw [h1], fun hn => absurd (hkick s1 h1) hn⟩

/-- Witness of C17: a deserialization failure of the packet of index 5 when
AuthRequest has the index 0 kicks the session 9 of the example server. -/
theorem InitialSessionHandler.failure_paths_witness :
    InitialSessionHandler.OnDeserializationError 0 (exampleServer 0) 9 5
      = { exampleServer 0 with sessionCalls :=
          [(9, SessionCall.Disconnect DisconnectionType.Kick)] } :=
  (InitialSessionHandler.failure_paths 0 (exampleServer 0) 9 5 0).2.1 (by decide)

theorem mem_IterBits (b : Bitset) (i : Nat) :
    i ∈ Bitset.IterBits b ↔ Bitset.UnboundedTest b i = true := by
  unfold Bitset.IterBits Bitset.UnboundedTest
  rw [List.mem_filter, List.mem_range]
  constructor
  · intro h; exact h.2
  · intro h
    refine ⟨?_, h⟩
    by_contra hge
    rw [List.getD_eq_default _ _ (not_lt.1 hge)] at h
    exact absurd h (by simp)

theorem IterBits_nodup (b : Bitset) : (Bitset.IterBits b).Nodup :=
  (List.nodup_range _).filter _

theorem UnboundedTest_UnboundedSet (b : Bitset) (i j : Nat) :
    Bitset.UnboundedTest (Bitset.UnboundedSet b i) j =
      if j = i then true else Bitset.UnboundedTest b j := by
  unfold Bitset.UnboundedTest Bitset.UnboundedSet
  simp only [List.getD_eq_getElem?_getD, List.getElem?_set, List.length_append,
    List.length_replicate]
  by_cases hji : j = i
  · subst hji
    have hlt : j < b.length + (j + 1 - b.length) := by omega
    simp [hlt]
  · have hij : i ≠ j := fun h => hji h.symm
    simp only [hij, hji, if_false]
    rcases Nat.lt_or_ge j b.length with h | h
    · rw [List.getElem?_append_left h]
    · rw [List.getElem?_append_right h, List.getElem?_eq_none h, List.getElem?_replicate]
      split_ifs <;> rfl

theorem UnboundedTest_UnboundedReset (b : Bitset) (i j : Nat) :
    Bitset.UnboundedTest (Bitset.UnboundedReset b i) j =
      if j = i then false else Bitset.UnboundedTest b j := by
  unfold Bitset.UnboundedTest Bitset.UnboundedReset
  simp only [List.getD_eq_getElem?_getD, List.getElem?_set]
  by_cases hji : j = i
  · subst hji
    by_cases hlt : j < b.length
    · simp [hlt]
    · simp [hlt]
  · have hij : i ≠ j := fun h => hji h.symm
    simp only [hij, hji, if_false]

theorem Retrieve_Free {α : Type} (pool : MemoryPool α) (i j : Nat) :
    MemoryPool.RetrieveFromIndex (MemoryPool.Free pool i) j =
      if j = i then none else MemoryPool.RetrieveFromIndex pool j := by
  unfold MemoryPool.RetrieveFromIndex MemoryPool.Free
  simp only [List.getD_eq_getElem?_getD, List.getElem?_set]
  by_cases hji : j = i
  · subst hji
    by_cases hlt : j < pool.length
    · simp [hlt]
    · simp [hlt]
  · have hij : i ≠ j := fun h => hji h.symm
    simp only [hij, hji, if_false]

theorem Retrieve_mem_entries {α : Type} (pool : MemoryPool α) (i : Nat) (a : α)
    (h : MemoryPool.RetrieveFromIndex pool i = some a) : a ∈ MemoryPool.entries pool := by
  unfold MemoryPool.RetrieveFromIndex at h
  unfold MemoryPool.entries
  rw [List.mem_filterMap]
  refine ⟨some a, ?_, rfl⟩
  rw [List.getD_eq_getElem?_getD] at h
  cases hg : pool[i]? with
  | none => rw [hg] at h; exact absurd h (by simp)
  | some v =>
    rw [hg] at h
    have hv : v = some a := h
    rw [← hv]
    obtain ⟨hlt, hget⟩ := List.getElem?_eq_some.1 hg
    rw [← hget]
    exact List.getElem_mem hlt

theorem firstFree_min {α : Type} (pool : MemoryPool α) :
    ∀ k, k < MemoryPool.firstFree pool → (MemoryPool.RetrieveFromIndex pool k).isSome = true := by
  induction pool with
  | nil => intro k hk; exact absurd hk (Nat.not_lt_zero _)
  | cons a rest ih =>
    intro k hk
    cases a with
    | none => exact absurd hk (Nat.not_lt_zero _)
    | some x =>
      cases k with
      | zero => rfl
      | succ k =>
        have hk1 : k < MemoryPool.firstFree rest := by
          simpa [MemoryPool.firstFree] using hk
        simpa [MemoryPool.RetrieveFromIndex] using ih k hk1

theorem firstFree_eq {α : Type} (pool : MemoryPool α) (i : Nat)
    (hfree : MemoryPool.RetrieveFromIndex pool i = none)
    (hlow : ∀ k, k < i → (MemoryPool.RetrieveFromIndex pool k).isSome = true) :
    MemoryPool.firstFree pool = i := by
  rcases Nat.lt_trichotomy (MemoryPool.firstFree pool) i with h | h | h
  · have := hlow _ h
    rw [firstFree_free] at this
    exact absurd this (by simp)
  · exact h
  · have := firstFree_min pool i h
    rw [hfree] at this
    exact absurd this (by simp)

theorem broadcast_all (players : List ServerPlayer) (packet : Packet) :
    broadcast players (fun _ => true) packet =
      (players.filterMap ServerPlayer.GetSession).map
        (fun session => (session, SessionCall.SendPacket packet)) := by
  unfold broadcast
  rw [List.filter_true, List.map_filterMap]

theorem broadcast_filter (players : List ServerPlayer) (keep : ServerPlayer → Bool)
    (packet : Packet) (f : SessionCall → Bool) :
    (broadcast players keep packet).filter (fun c => f c.2) =
      if f (SessionCall.SendPacket packet) then broadcast players keep packet else [] := by
  have hall : ∀ c ∈ broadcast players keep packet, c.2 = SessionCall.SendPacket packet := by
    intro c hc
    unfold broadcast at hc
    obtain ⟨p, _, hp⟩ := List.mem_filterMap.1 hc
    cases hs : p.GetSession with
    | none => rw [hs] at hp; exact absurd hp (by simp)
    | some session =>
      rw [hs] at hp
      simp only [Option.map_some', Option.some.injEq] at hp
      rw [← hp]
  by_cases hf : f (SessionCall.SendPacket packet) = true
  · rw [if_pos hf, List.filter_eq_self]
    intro c hc
    rw [hall c hc]; exact hf
  · rw [if_neg hf, List.filter_eq_nil_iff]
    intro c hc
    rw [hall c hc]; exact hf

theorem handleNewPlayer_eq (s : ServerInstance) (i : Nat) (player : ServerPlayer)
    (h : MemoryPool.RetrieveFromIndex s.m_players i = some player) :
    s.handleNewPlayer i =
      some { s with sessionCalls := s.sessionCalls ++ s.newPlayerCalls i player } := by
  unfold ServerInstance.handleNewPlayer ServerInstance.newPlayerCalls
  rw [h]
  simp only [List.append_assoc]

/-- The calls of the second loop of `OnNetworkTick` over a list of indices. -/
theorem foldlM_handleNewPlayer_eq (l : List Nat) :
    ∀ s : ServerInstance, (∀ i ∈ l, (MemoryPool.RetrieveFromIndex s.m_players i).isSome) →
      l.foldlM ServerInstance.handleNewPlayer s =
        some { s with sessionCalls := s.sessionCalls ++ s.newPlayersCalls l } := by
  induction l with
  | nil =>
    intro s _
    simp [List.foldlM, ServerInstance.newPlayersCalls]
  | cons i l ih =>
    intro s h
    have hi := h i (List.mem_cons_self _ _)
    obtain ⟨player, hp⟩ := Option.isSome_iff_exists.1 hi
    rw [List.foldlM_cons, handleNewPlayer_eq s i player hp]
    simp only [Option.bind_eq_bind, Option.some_bind]
    rw [ih { s with sessionCalls := s.sessionCalls ++ s.newPlayerCalls i player }
      (fun j hj => h j (List.mem_cons_of_mem _ hj))]
    simp only [ServerInstance.newPlayersCalls, List.flatMap_cons, hp, List.append_assoc]
    rfl

/-- The network-dispatch phase in closed form: the `PlayerLeave` broadcasts of
the first loop, then the calls of the second loop, and both sets cleared. -/
theorem OnNetworkTick_eq (s : ServerInstance) (hlive : s.NewPlayersLive) :
    s.OnNetworkTick = some { s with
      sessionCalls := s.sessionCalls ++
        (s.leaveCalls ++ s.newPlayersCalls (Bitset.IterBits s.m_newPlayers)),
      m_disconnectedPlayers := [],
      m_newPlayers := [] } := by
  unfold ServerInstance.OnNetworkTick
  have h := foldlM_handleNewPlayer_eq (Bitset.IterBits s.m_newPlayers) s.handleDisconnected
    (fun i hi => hlive i hi)
  have hn : s.handleDisconnected.m_newPlayers = s.m_newPlayers := rfl
  simp only [hn]
  rw [h]
  simp only [ServerInstance.handleDisconnected, ServerInstance.leaveCalls, Bitset.Clear,
    List.append_assoc]
  rfl

theorem callsSince_append (s s1 : ServerInstance) (calls : List (SessionId × SessionCall))
    (h : s1.sessionCalls = s.sessionCalls ++ calls) : s1.callsSince s = calls := by
  unfold ServerInstance.callsSince
  rw [h, List.drop_left]

theorem filter_flatMap {α β : Type} (l : List α) (g : α → List β) (f : β → Bool) :
    (l.flatMap g).filter f = l.flatMap (fun a => (g a).filter f) := by
  induction l with
  | nil => rfl
  | cons a l ih => simp only [List.flatMap_cons, List.filter_append, ih]

theorem newPlayerCalls_filter_leave (s : ServerInstance) (i : Nat) (player : ServerPlayer) :
    (s.newPlayerCalls i player).filter (fun c => c.2.isPlayerLeave) = [] := by
  unfold ServerInstance.newPlayerCalls
  rw [List.filter_append, broadcast_filter _ _ _ SessionCall.isPlayerLeave]
  cases player.GetSession <;> simp [SessionCall.isPlayerLeave]

theorem newPlayerCalls_filter_gameData (s : ServerInstance) (i : Nat) (player : ServerPlayer) :
    (s.newPlayerCalls i player).filter (fun c => c.2.isGameData) =
      (player.GetSession.map (fun session =>
        (session, SessionCall.SendPacket (Packet.GameData s.m_tickIndex
          ((MemoryPool.entries s.m_players).map
            (fun p => (p.GetPlayerIndex, p.GetNickname))))))).toList := by
  unfold ServerInstance.newPlayerCalls
  rw [List.filter_append, broadcast_filter _ _ _ SessionCall.isGameData]
  cases player.GetSession <;> simp [SessionCall.isGameData]

theorem leaveCalls_eq (s : ServerInstance) :
    s.leaveCalls = (Bitset.IterBits s.m_disconnectedPlayers).flatMap
      (fun i => s.liveSessions.map
        (fun session => (session, SessionCall.SendPacket (Packet.PlayerLeave i)))) := by
  unfold ServerInstance.leaveCalls ServerInstance.liveSessions
  simp only [broadcast_all]

theorem leaveCalls_filter (s : ServerInstance) (f : SessionCall → Bool) :
    s.leaveCalls.filter (fun c => f c.2) =
      (Bitset.IterBits s.m_disconnectedPlayers).flatMap (fun i =>
        if f (SessionCall.SendPacket (Packet.PlayerLeave i)) then
          broadcast (MemoryPool.entries s.m_players) (fun _ => true) (Packet.PlayerLeave i)
        else []) := by
  unfold ServerInstance.leaveCalls
  rw [filter_flatMap]
  simp only [broadcast_filter]

theorem newPlayersCalls_filter_leave (s : ServerInstance) (l : List Nat) :
    (s.newPlayersCalls l).filter (fun c => c.2.isPlayerLeave) = [] := by
  unfold ServerInstance.newPlayersCalls
  rw [filter_flatMap, List.flatMap_eq_nil_iff]
  intro i _
  cases MemoryPool.RetrieveFromIndex s.m_players i with
  | none => rfl
  | some player => exact newPlayerCalls_filter_leave s i player

theorem newPlayersCalls_filter_gameData (s : ServerInstance) (l : List Nat) :
    (s.newPlayersCalls l).filter (fun c => c.2.isGameData) =
      l.filterMap (fun i =>
        (MemoryPool.RetrieveFromIndex s.m_players i).bind (fun player =>
          player.GetSession.map (fun session =>
            (session, SessionCall.SendPacket (Packet.GameData s.m_tickIndex
              ((MemoryPool.entries s.m_players).map
                (fun p => (p.GetPlayerIndex, p.GetNickname)))))))) := by
  unfold ServerInstance.newPlayersCalls
  rw [filter_flatMap]
  induction l with
  | nil => rfl
  | cons i l ih =>
    rw [List.flatMap_cons, ih, List.filterMap_cons]
    cases hp : MemoryPool.RetrieveFromIndex s.m_players i with
    | none => rfl
    | some player =>
      simp only [Option.some_bind]
      rw [newPlayerCalls_filter_gameData]
      cases player.GetSession with
      | none => rfl
      | some session => rfl

/-- C18: `CreatePlayer` and `DestroyPlayer` make no call on any session;
`CreatePlayer` sets the bit of the new index in the newly-connected set and
leaves the just-disconnected set alone; `DestroyPlayer`, for every index and
whenever it is defined, sets the bit of the index in the just-disconnected
set. One network-dispatch phase, run in a state whose newly connected indices
are live, succeeds, leaves both sets empty, and the `PlayerLeave` packets it
sends are, for each set bit of the just-disconnected set in increasing order
(each index once), one packet per live player that has a session. -/
theorem ServerInstance.leave_broadcast_batched (s : ServerInstance)
    (session : Option SessionId) (nickname : String) (hlive : s.NewPlayersLive) :
    (s.CreatePlayer session nickname).1.sessionCalls = s.sessionCalls ∧
    (s.CreatePlayer session nickname).1.m_newPlayers =
      Bitset.UnboundedSet s.m_newPlayers (s.CreatePlayer session nickname).2.GetPlayerIndex ∧
    Bitset.UnboundedTest (s.CreatePlayer session nickname).1.m_newPlayers
      (s.CreatePlayer session nickname).2.GetPlayerIndex = true ∧
    (s.CreatePlayer session nickname).1.m_disconnectedPlayers = s.m_disconnectedPlayers ∧
    (∀ playerIndex sd, s.DestroyPlayer playerIndex = some sd →
      sd.sessionCalls = s.sessionCalls ∧
      sd.m_disconnectedPlayers = Bitset.UnboundedSet s.m_disconnectedPlayers playerIndex ∧
      Bitset.UnboundedTest sd.m_disconnectedPlayers playerIndex = true) ∧
    (∀ playerIndex, (s.DestroyPlayer playerIndex).isSome =
      (MemoryPool.RetrieveFromIndex s.m_players playerIndex).isSome) ∧
    ∃ s1, s.OnNetworkTick = some s1 ∧
      s1.m_disconnectedPlayers = [] ∧ s1.m_newPlayers = [] ∧
      (s1.callsSince s).filter (fun c => c.2.isPlayerLeave) =
        (Bitset.IterBits s.m_disconnectedPlayers).flatMap
          (fun i => s.liveSessions.map
            (fun session => (session, SessionCall.SendPacket (Packet.PlayerLeave i)))) ∧
      (Bitset.IterBits s.m_disconnectedPlayers).Nodup ∧
      ∀ i, i ∈ Bitset.IterBits s.m_disconnectedPlayers ↔
        Bitset.UnboundedTest s.m_disconnectedPlayers i = true := by
  refine ⟨rfl, rfl, ?_, rfl, ?_, ?_, _, OnNetworkTick_eq s hlive, rfl,
    rfl, ?_, IterBits_nodup _, mem_IterBits _⟩
  · exact (UnboundedTest_UnboundedSet _ _ _).trans (if_pos rfl)
  · intro playerIndex sd hdestroy
    have hsd : sd = { s with
        m_disconnectedPlayers := Bitset.UnboundedSet s.m_disconnectedPlayers playerIndex,
        m_newPlayers := Bitset.UnboundedReset s.m_newPlayers playerIndex,
        m_players := MemoryPool.Free s.m_players playerIndex } := by
      unfold ServerInstance.DestroyPlayer at hdestroy
      cases hp : MemoryPool.RetrieveFromIndex s.m_players playerIndex with
      | none => rw [hp] at hdestroy; exact absurd hdestroy (by simp)
      | some p =>
        rw [hp] at hdestroy
        exact (Option.some.inj hdestroy).symm
    refine ⟨by rw [hsd], by rw [hsd], ?_⟩
    rw [hsd]
    exact (UnboundedTest_UnboundedSet _ _ _).trans (if_pos rfl)
  · intro playerIndex
    unfold ServerInstance.DestroyPlayer
    cases MemoryPool.RetrieveFromIndex s.m_players playerIndex <;> rfl
  · rw [callsSince_append s _ _ rfl, List.filter_append, newPlayersCalls_filter_leave,
      List.append_nil, leaveCalls_filter s SessionCall.isPlayerLeave]
    simp only [SessionCall.isPlayerLeave, if_true, broadcast_all, ServerInstance.liveSessions]

theorem lobbyServer_NewPlayersLive : lobbyServer.NewPlayersLive := by
  unfold ServerInstance.NewPlayersLive
  decide

/-- Witness of C18: in the lobby (Ann and Bob have sessions, Cid has none;
the indices 1 and 4 have just disconnected), a dispatch phase sends the two
`PlayerLeave` packets to Ann and to Bob; in the example server, which holds
no player, a dispatch phase sends nothing. -/
theorem ServerInstance.leave_broadcast_batched_witness :
    (∃ s1, lobbyServer.OnNetworkTick = some s1 ∧
      s1.m_disconnectedPlayers = [] ∧ s1.m_newPlayers = [] ∧
      (s1.callsSince lobbyServer).filter (fun c => c.2.isPlayerLeave) =
        [(10, SessionCall.SendPacket (Packet.PlayerLeave 1)),
         (12, SessionCall.SendPacket (Packet.PlayerLeave 1)),
         (10, SessionCall.SendPacket (Packet.PlayerLeave 4)),
         (12, SessionCall.SendPacket (Packet.PlayerLeave 4))]) ∧
    (∃ s1, (exampleServer 0).OnNetworkTick = some s1 ∧
      (s1.callsSince (exampleServer 0)).filter (fun c => c.2.isPlayerLeave) = []) := by
  obtain ⟨_, _, _, _, _, _, s1, h1, h2, h3, h4, _⟩ :=
    ServerInstance.leave_broadcast_batched lobbyServer (some 13) "Dan"
      lobbyServer_NewPlayersLive
  obtain ⟨_, _, _, _, _, _, t1, g1, _, _, g4, _⟩ :=
    ServerInstance.leave_broadcast_batched (exampleServer 0) (some 13) "Dan"
      (NewPlayersLive_of_nil _ rfl)
  exact ⟨⟨s1, h1, h2, h3, h4.trans (by decide)⟩, ⟨t1, g1, g4.trans (by decide)⟩⟩

/-- C19: a network-dispatch phase, run in a state whose newly connected
indices are live, succeeds, and the `GameData` packets it sends are, for each
set bit of the newly-connected set in increasing order (each index once), one
packet to the session of the player of that index when it has one, carrying
the tick index of the state and the list of (index, nickname) of the live
players in pool order, one entry per live player; the new player itself is in
that list. -/
theorem ServerInstance.GameData_to_new_players (s : ServerInstance)
    (hlive : s.NewPlayersLive) :
    ∃ s1, s.OnNetworkTick = some s1 ∧
      (s1.callsSince s).filter (fun c => c.2.isGameData) =
        (Bitset.IterBits s.m_newPlayers).filterMap (fun i =>
          (MemoryPool.RetrieveFromIndex s.m_players i).bind (fun player =>
            player.GetSession.map (fun session =>
              (session, SessionCall.SendPacket (Packet.GameData s.m_tickIndex
                ((MemoryPool.entries s.m_players).map
                  (fun p => (p.GetPlayerIndex, p.GetNickname)))))))) ∧
      (Bitset.IterBits s.m_newPlayers).Nodup ∧
      (∀ i, i ∈ Bitset.IterBits s.m_newPlayers ↔
        Bitset.UnboundedTest s.m_newPlayers i = true) ∧
      ((MemoryPool.entries s.m_players).map
        (fun p => (p.GetPlayerIndex, p.GetNickname))).length
        = (MemoryPool.entries s.m_players).length ∧
      (∀ i player, MemoryPool.RetrieveFromIndex s.m_players i = some player →
        (player.GetPlayerIndex, player.GetNickname) ∈
          (MemoryPool.entries s.m_players).map (fun p => (p.GetPlayerIndex, p.GetNickname))) := by
  refine ⟨_, OnNetworkTick_eq s hlive, ?_, IterBits_nodup _, mem_IterBits _,
    List.length_map _ _, ?_⟩
  · rw [callsSince_append s _ _ rfl, List.filter_append,
      leaveCalls_filter s SessionCall.isGameData, newPlayersCalls_filter_gameData]
    simp [SessionCall.isGameData]
  · intro i player hp
    exact List.mem_map_of_mem _ (Retrieve_mem_entries _ _ _ hp)

/-- Witness of C19: in the lobby, where Bob (index 2, session 12) is the
newly connected player, the dispatch phase of tick 7 sends one `GameData`, to
the session 12, listing Ann, Bob and Cid. -/
theorem ServerInstance.GameData_to_new_players_witness :
    ∃ s1, lobbyServer.OnNetworkTick = some s1 ∧
      (s1.callsSince lobbyServer).filter (fun c => c.2.isGameData) =
        [(12, SessionCall.SendPacket
          (Packet.GameData 7 [(0, "Ann"), (2, "Bob"), (3, "Cid")]))] := by
  obtain ⟨s1, h1, h2, _⟩ := ServerInstance.GameData_to_new_players lobbyServer
    lobbyServer_NewPlayersLive
  exact ⟨s1, h1, h2.trans (by decide)⟩

theorem CreatePlayer_retrieve (s : ServerInstance) (session : Option SessionId)
    (nickname : String) (k : Nat) :
    MemoryPool.RetrieveFromIndex (s.CreatePlayer session nickname).1.m_players k =
      if k = MemoryPool.firstFree s.m_players then some (s.CreatePlayer session nickname).2
      else MemoryPool.RetrieveFromIndex s.m_players k :=
  Allocate_retrieve _ _ k

theorem DestroyPlayer_eq (s sd : ServerInstance) (playerIndex : PlayerIndex)
    (hdestroy : s.DestroyPlayer playerIndex = some sd) :
    (MemoryPool.RetrieveFromIndex s.m_players playerIndex).isSome = true ∧
    sd = { s with
      m_disconnectedPlayers := Bitset.UnboundedSet s.m_disconnectedPlayers playerIndex,
      m_newPlayers := Bitset.UnboundedReset s.m_newPlayers playerIndex,
      m_players := MemoryPool.Free s.m_players playerIndex } := by
  unfold ServerInstance.DestroyPlayer at hdestroy
  cases hp : MemoryPool.RetrieveFromIndex s.m_players playerIndex with
  | none => rw [hp] at hdestroy; exact absurd hdestroy (by simp)
  | some p =>
    rw [hp] at hdestroy
    exact ⟨rfl, (Option.some.inj hdestroy).symm⟩

/-- C20 fails as stated: Ann is created in an empty server (index 0) and
announced by a network-dispatch phase; she is destroyed, and Bob is created
before the next phase. Bob receives the index 0, so the index of a live player
is a member of the just-disconnected set (and of the newly-connected set). -/
theorem ServerInstance.index_reuse_counterexample :
    reuseScenario.map (fun r => (r.2, r.1.m_players, r.1.m_disconnectedPlayers,
        r.1.m_newPlayers)) =
      some (⟨"Bob", some 11, 0⟩, [some ⟨"Bob", some 11, 0⟩], [true], [true]) ∧
    reuseScenario.map (fun r =>
        (MemoryPool.RetrieveFromIndex r.1.m_players r.2.GetPlayerIndex,
         Bitset.UnboundedTest r.1.m_disconnectedPlayers r.2.GetPlayerIndex)) =
      some (some ⟨"Bob", some 11, 0⟩, true) := by
  decide

/-- C21 fails as stated: the tick index is a 16-bit unsigned integer; from
the index 65535 one tick leads to the index 0, which is not greater. -/
theorem ServerInstance.OnTick_index_counterexample :
    lastTickServer.m_tickIndex = 65535 ∧
    (lastTickServer.OnTick 10).map (fun s => s.m_tickIndex) = some 0 := by
  decide

/-- C21, amended: in a state whose newly connected indices are live and whose
tick index is a 16-bit value, one tick succeeds and leaves the tick index at
(old + 1) mod 2^16: one more than before, hence strictly greater, whenever the
old index is below 65535, and 0 when the old index is 65535. -/
theorem ServerInstance.OnTick_index (s : ServerInstance) (elapsedTime : Int)
    (hlive : s.NewPlayersLive) (hidx : s.m_tickIndex < 65536) :
    ∃ s1, s.OnTick elapsedTime = some s1 ∧
      s1.m_tickIndex = (s.m_tickIndex + 1) % 65536 ∧
      (s.m_tickIndex < 65535 →
        s1.m_tickIndex = s.m_tickIndex + 1 ∧ s.m_tickIndex < s1.m_tickIndex) ∧
      (s.m_tickIndex = 65535 → s1.m_tickIndex = 0) := by
  obtain ⟨s1, h1, _, _, _, _, h6⟩ := OnTick_some s elapsedTime hlive
  refine ⟨s1, h1, h6, ?_, ?_⟩
  · intro hlt
    rw [h6, Nat.mod_eq_of_lt (by omega)]
    exact ⟨rfl, Nat.lt_succ_self _⟩
  · intro heq
    rw [h6, heq]

/-- Witness of the amended C21: a tick of the example server at index 0. -/
theorem ServerInstance.OnTick_index_witness :
    ∃ s1, (exampleServer 0).OnTick 10 = some s1 ∧ s1.m_tickIndex = 1 := by
  obtain ⟨s1, h1, _, h3, _⟩ := ServerInstance.OnTick_index (exampleServer 0) 10
    (NewPlayersLive_of_nil _ rfl) (by decide)
  exact ⟨s1, h1, (h3 (by decide)).1⟩

/-- C22 fails as stated: a chunk constructed with the radius -1 has the
radius -1, and `UpdateDeformationRadius(-1)` on a chunk of radius 2 leaves the
radius -1. -/
theorem DeformedChunk.radius_counterexample :
    (DeformedChunk.new ⟨0, 0, 0⟩ ⟨1, 1, 1⟩ 1 ⟨0, 0, 0⟩ (-1)).m_deformationRadius < 0 ∧
    ((DeformedChunk.new ⟨0, 0, 0⟩ ⟨1, 1, 1⟩ 1 ⟨0, 0, 0⟩ 2).UpdateDeformationRadius
      (-1)).m_deformationRadius < 0 := by
  constructor
  · show (-1 : ℚ) < 0
    norm_num
  · show (-1 : ℚ) < 0
    norm_num

/-- C22, amended: the deformation radius is the value last passed, to the
constructor or to `UpdateDeformationRadius`, whatever it is, negative values
included; hence it is not negative exactly when the argument passed was not
negative. Neither function changes anything else: the constructor builds the
base chunk and stores the center, `UpdateDeformationRadius` leaves the base
chunk and the center as they were. -/
theorem DeformedChunk.radius_is_last_argument (indices size : Vector3ui) (cellSize : Rat)
    (center : Vector3f) (radius r : ℚ) (c : DeformedChunk) :
    (DeformedChunk.new indices size cellSize center radius).m_deformationRadius = radius ∧
    (c.UpdateDeformationRadius r).m_deformationRadius = r ∧
    (0 ≤ (DeformedChunk.new indices size cellSize center radius).m_deformationRadius ↔
      0 ≤ radius) ∧
    (0 ≤ (c.UpdateDeformationRadius r).m_deformationRadius ↔ 0 ≤ r) ∧
    ((c.UpdateDeformationRadius r).m_deformationRadius < 0 ↔ r < 0) ∧
    (DeformedChunk.new indices size cellSize center radius).chunk =
      Chunk.new indices size cellSize ∧
    (DeformedChunk.new indices size cellSize center radius).m_deformationCenter = center ∧
    (c.UpdateDeformationRadius r).chunk = c.chunk ∧
    (c.UpdateDeformationRadius r).m_deformationCenter = c.m_deformationCenter :=
  ⟨rfl, rfl, Iff.rfl, Iff.rfl, Iff.rfl, rfl, rfl, rfl, rfl⟩

/-- Witness of the amended C22: the radius 2 at construction, then the
arguments 0 and -3. -/
theorem DeformedChunk.radius_is_last_argument_witness :
    (DeformedChunk.new ⟨0, 0, 0⟩ ⟨1, 1, 1⟩ 1 ⟨0, 0, 0⟩ 2).m_deformationRadius = 2 ∧
    ((DeformedChunk.new ⟨0, 0, 0⟩ ⟨1, 1, 1⟩ 1 ⟨0, 0, 0⟩ 2).UpdateDeformationRadius
      0).m_deformationRadius = 0 ∧
    ((DeformedChunk.new ⟨0, 0, 0⟩ ⟨1, 1, 1⟩ 1 ⟨0, 0, 0⟩ 2).UpdateDeformationRadius
      (-3)).m_deformationRadius = -3 :=
  ⟨(DeformedChunk.radius_is_last_argument ⟨0, 0, 0⟩ ⟨1, 1, 1⟩ 1 ⟨0, 0, 0⟩ 2 0
      (DeformedChunk.new ⟨0, 0, 0⟩ ⟨1, 1, 1⟩ 1 ⟨0, 0, 0⟩ 2)).1,
    (DeformedChunk.radius_is_last_argument ⟨0, 0, 0⟩ ⟨1, 1, 1⟩ 1 ⟨0, 0, 0⟩ 2 0
      (DeformedChunk.new ⟨0, 0, 0⟩ ⟨1, 1, 1⟩ 1 ⟨0, 0, 0⟩ 2)).2.1,
    (DeformedChunk.radius_is_last_argument ⟨0, 0, 0⟩ ⟨1, 1, 1⟩ 1 ⟨0, 0, 0⟩ 2 (-3)
      (DeformedChunk.new ⟨0, 0, 0⟩ ⟨1, 1, 1⟩ 1 ⟨0, 0, 0⟩ 2)).2.1⟩

/-- C23, the divergence of the code: the pause flag of a constructed instance
is the indeterminate value of the uninitialised member, whatever the
configuration says; with `pauseWhenEmpty = false` in the configuration and an
indeterminate value that happens to be true, `Update` on the instance without
players takes the pause path: no tick, the elapsed time is not accumulated,
and the hint is 100 ms. -/
theorem ServerInstance.new_ignores_pauseWhenEmpty (tickDuration : Int)
    (config : ServerInstance.Config) (indeterminate : Bool) (elapsedTime : Int) (fuel : Nat) :
    (ServerInstance.new tickDuration config indeterminate).m_pauseWhenEmpty = indeterminate ∧
    ServerInstance.new tickDuration config indeterminate =
      ServerInstance.new tickDuration { pauseWhenEmpty := !config.pauseWhenEmpty }
        indeterminate ∧
    (ServerInstance.new tickDuration { pauseWhenEmpty := false } true).Update fuel elapsedTime =
      some { hint := Time.Milliseconds 100,
             state := ServerInstance.new tickDuration { pauseWhenEmpty := false } true,
             ticks := 0 } :=
  ⟨rfl, rfl, rfl⟩

/-- C24 fails as stated: job 0 is flagged cancelled while its task is
building (it holds no collider and its counter is 0 at that point); when the
task ends, job 0 holds a collider and its counter is 1. -/
theorem ChunkEntities.cancel_while_building_counterexample :
    cancelledWhileBuilding.map (fun r =>
        ((r.1.jobs 0).cancelled, (r.1.jobs 0).collider, (r.1.jobs 0).executionCounter,
         r.1.tasks)) =
      some (true, none, 0, [{ chunk := 0, job := 0, building := true },
                            { chunk := 0, job := 1, building := false }]) ∧
    cancelledWhileBuilding.map (fun r =>
        ((r.2.jobs 0).cancelled, (r.2.jobs 0).collider.isSome, (r.2.jobs 0).executionCounter)) =
      some (true, true, 1) := by
  decide

theorem TaskBegin_cancelled (s sb : ChunkEntities) (j : Nat)
    (hc : (s.jobs j).cancelled = true) (hbegin : s.TaskBegin j = some sb) :
    sb = { s with tasks := s.tasks.filter (fun t => decide (t.job ≠ j)) } := by
  unfold ChunkEntities.TaskBegin at hbegin
  cases hf : s.tasks.find? (fun t => decide (t.job = j)) with
  | none => simp [hf] at hbegin
  | some task =>
    simp only [hf] at hbegin
    by_cases hb : task.building = true
    · simp [hb] at hbegin
    · simp only [hb, Bool.false_eq_true, if_false, hc, if_true, Option.some.injEq] at hbegin
      exact hbegin.symm

theorem TaskEnd_without_task (s : ChunkEntities) (j : Nat)
    (h : ∀ t ∈ s.tasks, t.job ≠ j) : s.TaskEnd j = none := by
  unfold ChunkEntities.TaskEnd
  have hf : s.tasks.find? (fun t => decide (t.job = j)) = none := by
    rw [List.find?_eq_none]
    intro t ht
    simpa using h t ht
  rw [hf]

/-- C24, amended: the task tests the cancelled flag once, before it builds.
When the task of a job `j` that is already flagged cancelled starts (state
`sa`), it ends at once: every job object is left as it was, no task of `j`
remains, and no build can follow. When `j` is flagged cancelled while its task
is building (state `s`, in which `j` was created by the manager, is registered
under no index and was not applied, as after a newer request for its index or
the removal of its chunk), the end of the task stores a collider in `j` and
increments its completion counter, leaving the flag set; after any later
operations `j` is still registered under no index and was never applied, so
the collider is dropped. -/
theorem ChunkEntities.cancel_tested_before_build (sa sb s se s3 : ChunkEntities) (j : Nat)
    (later : List Op)
    (hca : (sa.jobs j).cancelled = true) (hbegin : sa.TaskBegin j = some sb)
    (hinv : s.Inv) (hj : j < s.nextJob) (hc : (s.jobs j).cancelled = true)
    (hunreg : ∀ e ∈ s.m_updateJobs, e.2 ≠ j) (hunapp : ∀ a ∈ s.applied, a.job ≠ j)
    (hend : s.TaskEnd j = some se) (hlater : se.run later = some s3) :
    (sb.jobs = sa.jobs ∧ sb.applied = sa.applied ∧ sb.m_updateJobs = sa.m_updateJobs ∧
      (∀ t ∈ sb.tasks, t.job ≠ j) ∧ sb.TaskEnd j = none) ∧
    ((se.jobs j).collider.isSome = true ∧
      (se.jobs j).executionCounter = (s.jobs j).executionCounter + 1 ∧
      (se.jobs j).cancelled = true) ∧
    (∀ e ∈ s3.m_updateJobs, e.2 ≠ j) ∧ (∀ a ∈ s3.applied, a.job ≠ j) := by
  have hsb := TaskBegin_cancelled sa sb j hca hbegin
  have hnotask : ∀ t ∈ sb.tasks, t.job ≠ j := by
    intro t ht
    rw [hsb] at ht
    simpa using (List.mem_filter.1 ht).2
  obtain ⟨h1, h2, h3, _, _, h6, _, h8, t, chunk, _, _, _, _, _, h9⟩ := TaskEnd_fields s se j hend
  have hinv1 := TaskEnd_Inv s se j hend hinv
  have hdrop := run_dropped later se s3 j hlater hinv1 (by rw [h2]; exact hj)
    (by rw [h1]; exact hunreg) (by rw [h3]; exact hunapp)
  refine ⟨⟨by rw [hsb], by rw [hsb], by rw [hsb], hnotask, TaskEnd_without_task sb j hnotask⟩,
    ⟨by rw [h9]; rfl, h8, by rw [h6]; exact hc⟩, hdrop.1, hdrop.2⟩

theorem startedManager_TaskBegin :
    (exampleManager.HandleChunkUpdate ⟨0, 0, 0⟩ 0).TaskBegin 0 =
      some { exampleManager.HandleChunkUpdate ⟨0, 0, 0⟩ 0 with
        tasks := [{ chunk := 0, job := 0, building := true }] } :=
  rfl

theorem startedManager_Inv :
    ChunkEntities.Inv { exampleManager.HandleChunkUpdate ⟨0, 0, 0⟩ 0 with
      tasks := [{ chunk := 0, job := 0, building := true }] } :=
  TaskBegin_Inv _ _ 0 startedManager_TaskBegin
    (HandleChunkUpdate_Inv _ _ _ exampleManager_Inv)

/-- Witness of the amended C24 in the example manager after two requests for
its chunk (job 0 superseded by job 1). The task of job 0 starts after the
second request: it ends at once and job 0 holds no collider. In the other
order (the task of job 0 is building when the second request is made), the
end of the task stores a collider in job 0, which is never applied. -/
theorem ChunkEntities.cancel_tested_before_build_witness :
    (∃ sb, ((exampleManager.HandleChunkUpdate ⟨0, 0, 0⟩ 0).HandleChunkUpdate
        ⟨0, 0, 0⟩ 0).TaskBegin 0 = some sb ∧ (sb.jobs 0).collider = none ∧
        sb.TaskEnd 0 = none) ∧
    (∃ s se s3, cancelledWhileBuilding = some (s, se) ∧
        se.run [Op.ApplyJobs, Op.TaskBegin 1, Op.TaskEnd 1, Op.ApplyJobs] = some s3 ∧
        (se.jobs 0).collider.isSome = true ∧ (∀ a ∈ s3.applied, a.job ≠ 0)) := by
  have hsome1 : (((exampleManager.HandleChunkUpdate ⟨0, 0, 0⟩ 0).HandleChunkUpdate
      ⟨0, 0, 0⟩ 0).TaskBegin 0).isSome = true := by decide
  have hsome2 : (cancelledWhileBuilding.bind (fun r =>
      r.2.run [Op.ApplyJobs, Op.TaskBegin 1, Op.TaskEnd 1, Op.ApplyJobs])).isSome = true := by
    decide
  cases hb : ((exampleManager.HandleChunkUpdate ⟨0, 0, 0⟩ 0).HandleChunkUpdate
      ⟨0, 0, 0⟩ 0).TaskBegin 0 with
  | none => rw [hb] at hsome1; exact absurd hsome1 (by simp)
  | some sb =>
    cases hcw : cancelledWhileBuilding with
    | none => rw [hcw] at hsome2; exact absurd hsome2 (by simp)
    | some r =>
      rw [hcw] at hsome2
      cases hl : r.2.run [Op.ApplyJobs, Op.TaskBegin 1, Op.TaskEnd 1, Op.ApplyJobs] with
      | none =>
        simp only [Option.some_bind, hl] at hsome2
        exact absurd hsome2 (by simp)
      | some s3 =>
        have hr : r.1 = ChunkEntities.HandleChunkUpdate
            { exampleManager.HandleChunkUpdate ⟨0, 0, 0⟩ 0 with
              tasks := [{ chunk := 0, job := 0, building := true }] } ⟨0, 0, 0⟩ 0 ∧
            r.1.TaskEnd 0 = some r.2 := by
          unfold cancelledWhileBuilding at hcw
          rw [startedManager_TaskBegin] at hcw
          simp only at hcw
          cases he : (ChunkEntities.HandleChunkUpdate
              { exampleManager.HandleChunkUpdate ⟨0, 0, 0⟩ 0 with
                tasks := [{ chunk := 0, job := 0, building := true }] }
              ⟨0, 0, 0⟩ 0).TaskEnd 0 with
          | none => rw [he] at hcw; exact absurd hcw (by simp)
          | some se =>
            rw [he] at hcw
            simp only [Option.some.injEq] at hcw
            rw [← hcw]
            exact ⟨rfl, he⟩
        have h := ChunkEntities.cancel_tested_before_build
          ((exampleManager.HandleChunkUpdate ⟨0, 0, 0⟩ 0).HandleChunkUpdate ⟨0, 0, 0⟩ 0)
          sb r.1 r.2 s3 0 [Op.ApplyJobs, Op.TaskBegin 1, Op.TaskEnd 1, Op.ApplyJobs]
          (by decide) hb
          (by rw [hr.1]; exact HandleChunkUpdate_Inv _ _ _ startedManager_Inv)
          (by rw [hr.1]; decide) (by rw [hr.1]; decide)
          (by rw [hr.1]; decide) (by rw [hr.1]; decide) hr.2 hl
        refine ⟨⟨sb, rfl, ?_, h.1.2.2.2.2⟩, r.1, r.2, s3, rfl, hl, h.2.1.1, h.2.2.2⟩
        rw [h.1.1]
        decide

theorem Map.contains_iff {κ ν : Type} [DecidableEq κ] (m : List (κ × ν)) (key : κ) :
    Map.contains m key = true ↔ ∃ e ∈ m, e.1 = key := by
  unfold Map.contains
  constructor
  · intro h
    obtain ⟨v, hv⟩ := Option.isSome_iff_exists.1 h
    exact ⟨(key, v), Map.find_mem m key v hv, rfl⟩
  · intro h
    obtain ⟨e, he, hk⟩ := h
    cases hf : Map.find m key with
    | none => exact absurd hk (Map.not_mem_of_find_none m key hf e he)
    | some v => rfl

theorem Map.contains_erase {κ ν : Type} [DecidableEq κ] (m : List (κ × ν)) (key k : κ)
    (hne : k ≠ key) (h : Map.contains m k = true) : Map.contains (Map.erase m key) k = true := by
  obtain ⟨e, he, hk⟩ := (Map.contains_iff m k).1 h
  exact (Map.contains_iff _ k).2 ⟨e, (Map.mem_erase m key e).2 ⟨he, by rw [hk]; exact hne⟩, hk⟩

theorem Map.contains_insert_or_assign {κ ν : Type} [DecidableEq κ] (m : List (κ × ν))
    (key k : κ) (value : ν) (h : k = key ∨ Map.contains m k = true) :
    Map.contains (Map.insert_or_assign m key value) k = true := by
  by_cases hk : k = key
  · subst hk
    unfold Map.contains
    rw [Map.find_insert_or_assign_self]
    rfl
  · rcases h with h | h
    · exact absurd h hk
    · obtain ⟨e, he, hek⟩ := (Map.contains_iff m k).1 h
      exact (Map.contains_iff _ k).2
        ⟨e, (Map.mem_insert_or_assign m key value e).2 (Or.inl ⟨he, by rw [hek]; exact hk⟩), hek⟩

theorem HandleChunkUpdate_JobsSound (s : ChunkEntities) (idx : ChunkIndices) (p : Nat)
    (hinv : s.Inv) (h : s.JobsSound) (hc : Map.contains s.m_chunkEntities idx = true) :
    (s.HandleChunkUpdate idx p).JobsSound := by
  have hm : (s.HandleChunkUpdate idx p).m_updateJobs
      = Map.insert_or_assign s.m_updateJobs idx s.nextJob := rfl
  have he : (s.HandleChunkUpdate idx p).m_chunkEntities = s.m_chunkEntities := rfl
  have ha : (s.HandleChunkUpdate idx p).applied = s.applied := rfl
  have hold : ∀ j, j < s.nextJob → Map.find s.m_updateJobs idx ≠ some j →
      ((s.HandleChunkUpdate idx p).jobs j).cancelled = (s.jobs j).cancelled := by
    intro j hj hf
    have hne : j ≠ s.nextJob := Nat.ne_of_lt hj
    unfold ChunkEntities.HandleChunkUpdate
    cases hf0 : Map.find s.m_updateJobs idx with
    | none => simp [setJob, hne]
    | some j0 =>
      have h0 : j ≠ j0 := fun g => hf (by rw [hf0, g])
      simp [setJob, hne, h0]
  refine ⟨?_, ?_, ?_⟩
  · intro e hmem
    rw [hm] at hmem
    rw [he]
    rcases (Map.mem_insert_or_assign _ _ _ _).1 hmem with ⟨g, _⟩ | g
    · exact h.registered_proxy e g
    · rw [g]; exact hc
  · intro e hmem
    rw [hm] at hmem
    rcases (Map.mem_insert_or_assign _ _ _ _).1 hmem with ⟨g, gne⟩ | g
    · rw [hold e.2 (hinv.jobs_lt e g)]
      · exact h.registered_active e g
      · intro hf
        have hmem0 := Map.find_mem _ _ _ hf
        have := Map.eq_of_value_eq _ hinv.values_nodup e (idx, e.2) g hmem0 rfl
        exact gne (by rw [this])
    · rw [g, HandleChunkUpdate_jobs_new]
  · intro a hmem
    rw [ha] at hmem
    rw [hold a.job (hinv.applied_lt a hmem)]
    · exact h.applied_active a hmem
    · intro hf
      exact hinv.applied_unregistered a hmem _ (Map.find_mem _ _ _ hf) rfl

theorem DestroyChunkEntity_JobsSound (s : ChunkEntities) (idx : ChunkIndices)
    (hinv : s.Inv) (h : s.JobsSound) : (s.DestroyChunkEntity idx).JobsSound := by
  obtain ⟨_, _, ha, hm, _⟩ := DestroyChunkEntity_fields s idx
  obtain ⟨he, _⟩ := DestroyChunkEntity_entities s idx
  have hold : ∀ j, Map.find s.m_updateJobs idx ≠ some j →
      ((s.DestroyChunkEntity idx).jobs j).cancelled = (s.jobs j).cancelled := by
    intro j hf
    unfold ChunkEntities.DestroyChunkEntity
    cases hf0 : Map.find s.m_updateJobs idx with
    | none => rfl
    | some j0 =>
      have h0 : j ≠ j0 := fun g => hf (by rw [hf0, g])
      simp [setJob, h0]
  refine ⟨?_, ?_, ?_⟩
  · intro e hmem
    rw [hm] at hmem
    rw [he]
    obtain ⟨g, gne⟩ := (Map.mem_erase _ _ _).1 hmem
    exact Map.contains_erase _ _ _ gne (h.registered_proxy e g)
  · intro e hmem
    rw [hm] at hmem
    obtain ⟨g, gne⟩ := (Map.mem_erase _ _ _).1 hmem
    rw [hold e.2]
    · exact h.registered_active e g
    · intro hf
      have hmem0 := Map.find_mem _ _ _ hf
      have := Map.eq_of_value_eq _ hinv.values_nodup e (idx, e.2) g hmem0 rfl
      exact gne (by rw [this])
  · intro a hmem
    rw [ha] at hmem
    rw [hold a.job]
    · exact h.applied_active a hmem
    · intro hf
      exact hinv.applied_unregistered a hmem _ (Map.find_mem _ _ _ hf) rfl

theorem JobsSound_of_eq (s s1 : ChunkEntities) (hm : s1.m_updateJobs = s.m_updateJobs)
    (he : s1.m_chunkEntities = s.m_chunkEntities) (ha : s1.applied = s.applied)
    (hj : ∀ j, (s1.jobs j).cancelled = (s.jobs j).cancelled) (h : s.JobsSound) :
    s1.JobsSound := by
  refine ⟨?_, ?_, ?_⟩
  · intro e hmem; rw [hm] at hmem; rw [he]; exact h.registered_proxy e hmem
  · intro e hmem; rw [hm] at hmem; rw [hj]; exact h.registered_active e hmem
  · intro a hmem; rw [ha] at hmem; rw [hj]; exact h.applied_active a hmem

theorem ApplyJobs_JobsSound (s s1 : ChunkEntities)
    (hex : ChunkEntities.applyLoop s.m_updateJobs s = some s1) (hinv : s.Inv)
    (h : s.JobsSound) :
    s1.JobsSound ∧ ∀ a ∈ s1.applied, (s.jobs a.job).cancelled = false := by
  obtain ⟨_, _, h3, ⟨apps, h4, _, _, h6⟩, h7⟩ := applyLoop_spec _ s s1 hex
    (fun e he => he) hinv.keys_nodup hinv.values_nodup hinv.values_nodup hinv.keys_nodup
  obtain ⟨he, _⟩ := applyLoop_frame _ s s1 hex
  have hall : ∀ a ∈ s1.applied, (s.jobs a.job).cancelled = false := by
    intro a hmem
    rw [h4] at hmem
    rcases List.mem_append.1 hmem with g | g
    · exact h.applied_active a g
    · exact h.registered_active _ (h6 a g).1
  refine ⟨⟨?_, ?_, ?_⟩, hall⟩
  · intro e hmem; rw [he]; exact h.registered_proxy e (h3.subset hmem)
  · intro e hmem; rw [(h7 e.2).1]; exact h.registered_active e (h3.subset hmem)
  · intro a hmem; rw [(h7 a.job).1]; exact hall a hmem

theorem exec_JobsSound (s s1 : ChunkEntities) (op : Op) (hex : s.exec op = some s1)
    (hinv : s.Inv) (h : s.JobsSound) : s1.JobsSound := by
  cases op with
  | ApplyJobs => exact (ApplyJobs_JobsSound s s1 hex hinv h).1
  | UpdateChunkEntity idx =>
    simp only [ChunkEntities.exec, ChunkEntities.UpdateChunkEntity] at hex
    by_cases hc : Map.contains s.m_chunkEntities idx = true
    · simp only [hc, if_true] at hex
      cases hg : s.GetChunk idx with
      | none => simp [hg] at hex
      | some p =>
        simp only [hg, Option.some.injEq] at hex
        subst hex
        exact HandleChunkUpdate_JobsSound s idx p hinv h hc
    · simp [hc] at hex
  | ClearInvalidated =>
    simp only [ChunkEntities.exec, Option.some.injEq] at hex
    subst hex
    exact JobsSound_of_eq s _ rfl rfl rfl (fun _ => rfl) h
  | CreateChunkEntity idx p =>
    simp only [ChunkEntities.exec, ChunkEntities.CreateChunkEntity] at hex
    by_cases hc : Map.contains s.m_chunkEntities idx = true
    · simp [hc] at hex
    · simp only [hc, Bool.false_eq_true, if_false, Option.some.injEq] at hex
      subst hex
      refine HandleChunkUpdate_JobsSound _ idx p (Inv_of_eq s _ rfl rfl rfl rfl rfl hinv) ?_
        (Map.contains_insert_or_assign _ _ _ _ (Or.inl rfl))
      refine ⟨?_, h.registered_active, h.applied_active⟩
      intro e hmem
      exact Map.contains_insert_or_assign _ _ _ _ (Or.inr (h.registered_proxy e hmem))
  | DestroyChunkEntity idx =>
    simp only [ChunkEntities.exec, Option.some.injEq] at hex
    subst hex
    exact DestroyChunkEntity_JobsSound s idx hinv h
  | InvalidateChunk idx =>
    simp only [ChunkEntities.exec, ChunkEntities.InvalidateChunk, Option.some.injEq] at hex
    subst hex
    by_cases hc : idx ∈ s.m_invalidatedChunks
    · simp only [hc, if_true]
      exact h
    · simp only [hc, if_false]
      exact JobsSound_of_eq s _ rfl rfl rfl (fun _ => rfl) h
  | TaskBegin j =>
    obtain ⟨h1, h2, _, h4, _⟩ := TaskBegin_fields s s1 j hex
    obtain ⟨h5, _⟩ := TaskBegin_frame s s1 j hex
    exact JobsSound_of_eq s s1 h1 h5 h4 (fun k => by rw [h2]) h
  | TaskEnd j =>
    obtain ⟨h1, _, h3, _, h5, h6, _⟩ := TaskEnd_fields s s1 j hex
    obtain ⟨h7, _⟩ := TaskEnd_frame s s1 j hex
    refine JobsSound_of_eq s s1 h1 h7 h3 ?_ h
    intro k
    by_cases hk : k = j
    · rw [hk]; exact h6
    · rw [h5 k hk]
  | ContainerStore chunk =>
    simp only [ChunkEntities.exec, Option.some.injEq] at hex
    subst hex
    exact JobsSound_of_eq s _ rfl rfl rfl (fun _ => rfl) h
  | ContainerFree p =>
    simp only [ChunkEntities.exec, Option.some.injEq] at hex
    subst hex
    exact JobsSound_of_eq s _ rfl rfl rfl (fun _ => rfl) h
  | ContainerWrite p indices newBlock =>
    simp only [ChunkEntities.exec] at hex
    cases hc : s.chunks.getD p none with
    | none =>
      simp only [hc] at hex
      exact absurd hex (by simp)
    | some c =>
      simp only [hc] at hex
      cases hu : c.UpdateBlock indices newBlock with
      | none =>
        simp only [hu] at hex
        exact absurd hex (by simp)
      | some c1 =>
        simp only [hu, Option.some.injEq] at hex
        subst hex
        exact JobsSound_of_eq s _ rfl rfl rfl (fun _ => rfl) h

theorem run_JobsSound (ops : List Op) : ∀ (s s1 : ChunkEntities), s.run ops = some s1 →
    s.Inv → s.JobsSound → s1.Inv ∧ s1.JobsSound := by
  induction ops with
  | nil =>
    intro s s1 h hi hs
    simp only [ChunkEntities.run, Option.some.injEq] at h
    subst h
    exact ⟨hi, hs⟩
  | cons op ops ih =>
    intro s s1 h hi hs
    obtain ⟨t, h1, h2⟩ := run_cons s s1 op ops h
    exact ih t s1 h2 (exec_Inv_StepRel s t op h1 hi).1 (exec_JobsSound s t op h1 hi hs)

theorem handle_JobsSound (s s1 : ChunkEntities) (event : Event)
    (hex : s.handle event = some s1) (hinv : s.Inv) (h : s.JobsSound) :
    s1.Inv ∧ s1.JobsSound := by
  cases event with
  | ChunkAdded chunk => exact run_JobsSound _ s s1 hex hinv h
  | ChunkRemoved idx =>
    simp only [ChunkEntities.handle, ChunkEntities.RemoveChunk] at hex
    cases hg : s.GetChunk idx with
    | none => simp [hg] at hex
    | some p =>
      simp only [hg] at hex
      exact run_JobsSound _ s s1 hex hinv h
  | ChunkUpdated idx indices newBlock =>
    simp only [ChunkEntities.handle, ChunkEntities.UpdateBlock] at hex
    cases hg : s.GetChunk idx with
    | none => simp [hg] at hex
    | some p =>
      simp only [hg] at hex
      exact run_JobsSound _ s s1 hex hinv h
  | Update => exact run_JobsSound _ s s1 hex hinv h
  | TaskBegin j =>
    exact ⟨TaskBegin_Inv s s1 j hex hinv, exec_JobsSound s s1 (Op.TaskBegin j) hex hinv h⟩
  | TaskEnd j =>
    exact ⟨TaskEnd_Inv s s1 j hex hinv, exec_JobsSound s s1 (Op.TaskEnd j) hex hinv h⟩

theorem GetChunk_some (s : ChunkEntities) (idx : ChunkIndices) (p : Nat)
    (h : s.GetChunk idx = some p) :
    ∃ chunk, s.chunks[p]? = some (some chunk) ∧ chunk.GetIndices = idx := by
  unfold ChunkEntities.GetChunk at h
  simp only at h
  split_ifs at h with hlt
  simp only [Option.some.injEq] at h
  subst h
  have hp := List.findIdx_getElem (w := hlt)
  rw [List.getElem?_eq_getElem hlt]
  cases hx : s.chunks[List.findIdx (fun c =>
      match c with
      | some chunk => decide (chunk.GetIndices = idx)
      | none => false) s.chunks] with
  | none => rw [hx] at hp; simp at hp
  | some chunk =>
    rw [hx] at hp
    exact ⟨chunk, rfl, by simpa using hp⟩

theorem GetChunk_of_Live (s : ChunkEntities) (idx : ChunkIndices) (h : s.Live idx) :
    ∃ p, s.GetChunk idx = some p := by
  obtain ⟨a, chunk, ha, hidx⟩ := h
  unfold ChunkEntities.GetChunk
  simp only
  have hlt : List.findIdx (fun c =>
      match c with
      | some chunk => decide (chunk.GetIndices = idx)
      | none => false) s.chunks < s.chunks.length := by
    apply List.findIdx_lt_length_of_exists
    obtain ⟨ha1, ha2⟩ := List.getElem?_eq_some.1 ha
    exact ⟨some chunk, by rw [← ha2]; exact List.getElem_mem _, by simp [hidx]⟩
  exact ⟨_, if_pos hlt⟩

theorem Live_of_chunks (s s1 : ChunkEntities) (idx : ChunkIndices)
    (hchunks : ∀ (a : Nat) (x0 : Chunk), s.chunks[a]? = some (some x0) →
      ∃ x, s1.chunks[a]? = some (some x) ∧ x.GetIndices = x0.GetIndices)
    (h : s.Live idx) : s1.Live idx := by
  obtain ⟨a, x0, ha, hidx⟩ := h
  obtain ⟨x, hx, hxi⟩ := hchunks a x0 ha
  exact ⟨a, x, hx, by rw [hxi, hidx]⟩

theorem ContainerSound_of_chunks (s s1 : ChunkEntities)
    (he : s1.m_chunkEntities = s.m_chunkEntities)
    (hi : ∀ i ∈ s1.m_invalidatedChunks, i ∈ s.m_invalidatedChunks ∨ s1.Live i)
    (hto : ∀ (a : Nat) (x0 : Chunk), s.chunks[a]? = some (some x0) →
      ∃ x, s1.chunks[a]? = some (some x) ∧ x.GetIndices = x0.GetIndices)
    (hfrom : ∀ (a : Nat) (x : Chunk), s1.chunks[a]? = some (some x) →
      ∃ x0, s.chunks[a]? = some (some x0) ∧ x0.GetIndices = x.GetIndices)
    (h : s.ContainerSound) : s1.ContainerSound := by
  refine ⟨?_, ?_, ?_⟩
  · intro i hmem
    rcases hi i hmem with g | g
    · exact Live_of_chunks s s1 i hto (h.invalidated_live i g)
    · exact g
  · intro a x hx
    obtain ⟨x0, hx0, hxi⟩ := hfrom a x hx
    rw [he, ← hxi]
    exact h.live_proxy a x0 hx0
  · intro a b x y hx hy hxy
    obtain ⟨x0, hx0, hxi⟩ := hfrom a x hx
    obtain ⟨y0, hy0, hyi⟩ := hfrom b y hy
    exact h.live_distinct a b x0 y0 hx0 hy0 (by rw [hxi, hyi, hxy])

theorem ContainerSound_of_eq (s s1 : ChunkEntities)
    (he : s1.m_chunkEntities = s.m_chunkEntities)
    (hi : ∀ i ∈ s1.m_invalidatedChunks, i ∈ s.m_invalidatedChunks)
    (hc : s1.chunks = s.chunks) (h : s.ContainerSound) : s1.ContainerSound :=
  ContainerSound_of_chunks s s1 he (fun i hmem => Or.inl (hi i hmem))
    (fun a x0 hx => ⟨x0, by rw [hc]; exact hx, rfl⟩)
    (fun a x hx => ⟨x, by rw [← hc]; exact hx, rfl⟩) h

theorem AddChunk_fields (s s1 : ChunkEntities) (chunk : Chunk)
    (h : s.AddChunk chunk = some s1) :
    Map.contains s.m_chunkEntities chunk.GetIndices = false ∧
    s1.chunks = s.chunks ++ [some chunk] ∧
    s1.m_chunkEntities =
      Map.insert_or_assign s.m_chunkEntities chunk.GetIndices s.nextEntity ∧
    s1.m_invalidatedChunks = s.m_invalidatedChunks := by
  simp only [ChunkEntities.AddChunk, ChunkEntities.run, ChunkEntities.exec,
    ChunkEntities.CreateChunkEntity] at h
  by_cases hc : Map.contains s.m_chunkEntities chunk.GetIndices = true
  · simp [hc] at h
  · simp only [hc, Bool.false_eq_true, if_false, Option.some.injEq] at h
    subst h
    exact ⟨by simpa using hc, rfl, rfl, rfl⟩

theorem AddChunk_ContainerSound (s s1 : ChunkEntities) (chunk : Chunk)
    (hex : s.AddChunk chunk = some s1) (h : s.ContainerSound) : s1.ContainerSound := by
  obtain ⟨hnc, hch, hent, hinval⟩ := AddChunk_fields s s1 chunk hex
  have hold : ∀ (a : Nat) (x : Chunk), s.chunks[a]? = some (some x) →
      s1.chunks[a]? = some (some x) := by
    intro a x hx
    rw [hch, List.getElem?_append_left (List.getElem?_eq_some.1 hx).1]
    exact hx
  have hcases : ∀ (a : Nat) (x : Chunk), s1.chunks[a]? = some (some x) →
      s.chunks[a]? = some (some x) ∨ (a = s.chunks.length ∧ x = chunk) := by
    intro a x hx
    rw [hch] at hx
    by_cases hlt : a < s.chunks.length
    · rw [List.getElem?_append_left hlt] at hx
      exact Or.inl hx
    · rw [List.getElem?_append_right (Nat.le_of_not_lt hlt)] at hx
      have hlen := (List.getElem?_eq_some.1 hx).1
      simp only [List.length_singleton] at hlen
      have ha : a = s.chunks.length := by omega
      subst ha
      simp at hx
      exact Or.inr ⟨rfl, hx.symm⟩
  have hfresh : ∀ (a : Nat) (x : Chunk), s.chunks[a]? = some (some x) →
      x.GetIndices ≠ chunk.GetIndices := by
    intro a x hx hxi
    have := h.live_proxy a x hx
    rw [hxi, hnc] at this
    exact absurd this (by simp)
  refine ⟨?_, ?_, ?_⟩
  · intro i hmem
    rw [hinval] at hmem
    obtain ⟨a, x, hx, hxi⟩ := h.invalidated_live i hmem
    exact ⟨a, x, hold a x hx, hxi⟩
  · intro a x hx
    rw [hent]
    rcases hcases a x hx with g | ⟨_, g⟩
    · exact Map.contains_insert_or_assign _ _ _ _ (Or.inr (h.live_proxy a x g))
    · rw [g]; exact Map.contains_insert_or_assign _ _ _ _ (Or.inl rfl)
  · intro a b x y hx hy hxy
    rcases hcases a x hx with g | ⟨ga, gx⟩
    · rcases hcases b y hy with g1 | ⟨gb, gy⟩
      · exact h.live_distinct a b x y g g1 hxy
      · exact absurd (by rw [hxy, gy]) (hfresh a x g)
    · rcases hcases b y hy with g1 | ⟨gb, gy⟩
      · exact absurd (by rw [← hxy, gx]) (hfresh b y g1)
      · rw [ga, gb]

theorem DestroyChunkEntity_chunks (s : ChunkEntities) (idx : ChunkIndices) :
    (s.DestroyChunkEntity idx).chunks = s.chunks := by
  unfold ChunkEntities.DestroyChunkEntity
  cases hf : Map.find s.m_updateJobs idx with
  | none => rfl
  | some j0 => rfl

theorem RemoveChunk_ContainerSound (s s1 : ChunkEntities) (idx : ChunkIndices)
    (hex : s.RemoveChunk idx = some s1) (h : s.ContainerSound) : s1.ContainerSound := by
  unfold ChunkEntities.RemoveChunk at hex
  cases hg : s.GetChunk idx with
  | none => simp [hg] at hex
  | some p =>
    simp only [hg, ChunkEntities.run, ChunkEntities.exec, Option.some.injEq] at hex
    subst hex
    obtain ⟨c0, hc0, hc0i⟩ := GetChunk_some s idx p hg
    obtain ⟨hent, hinval⟩ := DestroyChunkEntity_entities s idx
    have hch := DestroyChunkEntity_chunks s idx
    have hfrom : ∀ (a : Nat) (x : Chunk),
        (List.set (s.DestroyChunkEntity idx).chunks p none)[a]? = some (some x) →
        a ≠ p ∧ s.chunks[a]? = some (some x) := by
      intro a x hx
      rw [hch] at hx
      by_cases hap : p = a
      · subst hap
        rw [List.getElem?_set, if_pos rfl] at hx
        split_ifs at hx
        simp at hx
      · rw [List.getElem?_set_ne hap] at hx
        exact ⟨fun g => hap g.symm, hx⟩
    have hne : ∀ (a : Nat) (x : Chunk), a ≠ p → s.chunks[a]? = some (some x) →
        x.GetIndices ≠ idx := by
      intro a x hap hx hxi
      exact hap (h.live_distinct a p x c0 hx hc0 (by rw [hxi, hc0i]))
    refine ⟨?_, ?_, ?_⟩
    · intro i hmem
      have hmem1 : i ∈ (s.DestroyChunkEntity idx).m_invalidatedChunks := hmem
      rw [hinval] at hmem1
      obtain ⟨g1, g2⟩ := List.mem_filter.1 hmem1
      have g3 : i ≠ idx := by simpa using g2
      obtain ⟨a, x, hx, hxi⟩ := h.invalidated_live i g1
      have hap : p ≠ a := by
        intro g
        subst g
        rw [hc0] at hx
        simp only [Option.some.injEq] at hx
        rw [← hx, hc0i] at hxi
        exact g3 hxi.symm
      refine ⟨a, x, ?_, hxi⟩
      show (List.set (s.DestroyChunkEntity idx).chunks p none)[a]? = some (some x)
      rw [hch, List.getElem?_set_ne hap]
      exact hx
    · intro a x hx
      obtain ⟨hap, hx0⟩ := hfrom a x hx
      show Map.contains (s.DestroyChunkEntity idx).m_chunkEntities x.GetIndices = true
      rw [hent]
      exact Map.contains_erase _ _ _ (hne a x hap hx0) (h.live_proxy a x hx0)
    · intro a b x y hx hy hxy
      exact h.live_distinct a b x y (hfrom a x hx).2 (hfrom b y hy).2 hxy

theorem UpdateBlock_GetIndices (c c1 : Chunk) (v : Vector3ui) (b : VoxelBlock)
    (h : c.UpdateBlock v b = some c1) :
    c1.GetIndices = c.GetIndices ∧ c1.GetSize = c.GetSize ∧
    c1.GetBlockSize = c.GetBlockSize ∧ c1.m_cells.length = c.m_cells.length := by
  unfold Chunk.UpdateBlock at h
  simp only at h
  split_ifs at h
  simp only [Option.some.injEq] at h
  subst h
  exact ⟨rfl, rfl, rfl, by simp⟩

theorem UpdateBlock_ContainerSound (s s1 : ChunkEntities) (idx : ChunkIndices)
    (indices : Vector3ui) (newBlock : VoxelBlock)
    (hex : s.UpdateBlock idx indices newBlock = some s1) (h : s.ContainerSound) :
    s1.ContainerSound := by
  unfold ChunkEntities.UpdateBlock at hex
  cases hg : s.GetChunk idx with
  | none => simp [hg] at hex
  | some p =>
    simp only [hg, ChunkEntities.run, ChunkEntities.exec] at hex
    obtain ⟨c0, hc0, hc0i⟩ := GetChunk_some s idx p hg
    have hgetD : s.chunks.getD p none = some c0 := by
      rw [List.getD_eq_getElem?_getD, hc0]
      rfl
    rw [hgetD] at hex
    simp only at hex
    cases hu : c0.UpdateBlock indices newBlock with
    | none => simp [hu] at hex
    | some c1 =>
      simp only [hu, Option.some.injEq] at hex
      have hc1i : c1.GetIndices = idx := by
        rw [(UpdateBlock_GetIndices c0 c1 _ _ hu).1, hc0i]
      have hplt : p < s.chunks.length := (List.getElem?_eq_some.1 hc0).1
      have hch : s1.chunks = s.chunks.set p (some c1) := by
        subst hex
        unfold ChunkEntities.InvalidateChunk
        split_ifs <;> rfl
      have hent : s1.m_chunkEntities = s.m_chunkEntities := by
        subst hex
        unfold ChunkEntities.InvalidateChunk
        split_ifs <;> rfl
      have hinval : ∀ i ∈ s1.m_invalidatedChunks, i ∈ s.m_invalidatedChunks ∨ i = idx := by
        subst hex
        unfold ChunkEntities.InvalidateChunk
        intro i hmem
        split_ifs at hmem
        · exact Or.inl hmem
        · rcases List.mem_append.1 hmem with g | g
          · exact Or.inl g
          · exact Or.inr (by simpa using g)
      have hto : ∀ (a : Nat) (x0 : Chunk), s.chunks[a]? = some (some x0) →
          ∃ x, s1.chunks[a]? = some (some x) ∧ x.GetIndices = x0.GetIndices := by
        intro a x0 hx0
        rw [hch]
        by_cases hap : p = a
        · subst hap
          rw [hc0] at hx0
          simp only [Option.some.injEq] at hx0
          refine ⟨c1, ?_, by rw [hc1i, ← hx0, hc0i]⟩
          rw [List.getElem?_set, if_pos rfl, if_pos hplt]
        · exact ⟨x0, by rw [List.getElem?_set_ne hap]; exact hx0, rfl⟩
      have hfrom : ∀ (a : Nat) (x : Chunk), s1.chunks[a]? = some (some x) →
          ∃ x0, s.chunks[a]? = some (some x0) ∧ x0.GetIndices = x.GetIndices := by
        intro a x hx
        rw [hch] at hx
        by_cases hap : p = a
        · subst hap
          rw [List.getElem?_set, if_pos rfl, if_pos hplt] at hx
          simp only [Option.some.injEq] at hx
          exact ⟨c0, hc0, by rw [← hx, hc1i, hc0i]⟩
        · rw [List.getElem?_set_ne hap] at hx
          exact ⟨x, hx, rfl⟩
      refine ContainerSound_of_chunks s s1 hent ?_ hto hfrom h
      intro i hmem
      rcases hinval i hmem with g | g
      · exact Or.inl g
      · obtain ⟨x, hx, hxi⟩ := hto p c0 hc0
        exact Or.inr ⟨p, x, hx, by rw [hxi, hc0i, g]⟩

theorem run_updates (l : List ChunkIndices) : ∀ (s s1 : ChunkEntities),
    s.run (l.map Op.UpdateChunkEntity ++ [Op.ClearInvalidated]) = some s1 →
    s1.chunks = s.chunks ∧ s1.m_chunkEntities = s.m_chunkEntities ∧
    s1.m_invalidatedChunks = [] := by
  induction l with
  | nil =>
    intro s s1 h
    simp only [List.map_nil, List.nil_append, ChunkEntities.run, ChunkEntities.exec,
      Option.some.injEq] at h
    subst h
    exact ⟨rfl, rfl, rfl⟩
  | cons i l ih =>
    intro s s1 h
    obtain ⟨t, h1, h2⟩ := run_cons s s1 _ _ h
    simp only [ChunkEntities.exec, ChunkEntities.UpdateChunkEntity] at h1
    by_cases hc : Map.contains s.m_chunkEntities i = true
    · simp only [hc, if_true] at h1
      cases hg : s.GetChunk i with
      | none => simp [hg] at h1
      | some p =>
        simp only [hg, Option.some.injEq] at h1
        subst h1
        exact ih (s.HandleChunkUpdate i p) s1 h2
    · simp [hc] at h1

theorem run_updates_isSome (l : List ChunkIndices) : ∀ (s : ChunkEntities),
    (∀ i ∈ l, Map.contains s.m_chunkEntities i = true ∧ ∃ p, s.GetChunk i = some p) →
    ∃ s1, s.run (l.map Op.UpdateChunkEntity ++ [Op.ClearInvalidated]) = some s1 := by
  induction l with
  | nil =>
    intro s _
    exact ⟨_, rfl⟩
  | cons i l ih =>
    intro s h
    obtain ⟨hc, p, hp⟩ := h i (List.mem_cons_self _ _)
    have hstep : s.exec (Op.UpdateChunkEntity i) = some (s.HandleChunkUpdate i p) := by
      simp only [ChunkEntities.exec, ChunkEntities.UpdateChunkEntity, hc, if_true, hp]
    obtain ⟨s1, hs1⟩ := ih (s.HandleChunkUpdate i p) (fun k hk => h k (List.mem_cons_of_mem _ hk))
    refine ⟨s1, ?_⟩
    rw [List.map_cons, List.cons_append, ChunkEntities.run, hstep]
    exact hs1

theorem Update_frame (s s1 : ChunkEntities) (h : s.Update = some s1) :
    s1.chunks = s.chunks ∧ s1.m_chunkEntities = s.m_chunkEntities ∧
    s1.m_invalidatedChunks = [] := by
  unfold ChunkEntities.Update at h
  rw [List.cons_append] at h
  obtain ⟨t, h1, h2⟩ := run_cons s s1 _ _ h
  obtain ⟨g1, g2, _⟩ := applyLoop_frame _ s t h1
  obtain ⟨k1, k2, k3⟩ := run_updates _ t s1 h2
  exact ⟨by rw [k1, g2], by rw [k2, g1], k3⟩

theorem Update_isSome (s : ChunkEntities) (hj : s.JobsSound) (hc : s.ContainerSound) :
    ∃ t s1, ChunkEntities.applyLoop s.m_updateJobs s = some t ∧ s.Update = some s1 := by
  obtain ⟨t, ht⟩ := applyLoop_isSome s.m_updateJobs s hj.registered_proxy
  obtain ⟨g1, g2, g3, _⟩ := applyLoop_frame _ s t ht
  have hall : ∀ i ∈ s.m_invalidatedChunks,
      Map.contains t.m_chunkEntities i = true ∧ ∃ p, t.GetChunk i = some p := by
    intro i hmem
    obtain ⟨p, hp⟩ := GetChunk_of_Live s i (hc.invalidated_live i hmem)
    obtain ⟨x, hx, hxi⟩ := GetChunk_some s i p hp
    refine ⟨?_, p, ?_⟩
    · rw [g1, ← hxi]; exact hc.live_proxy p x hx
    · unfold ChunkEntities.GetChunk
      rw [g2]
      exact hp
  obtain ⟨s1, hs1⟩ := run_updates_isSome _ t hall
  refine ⟨t, s1, ht, ?_⟩
  unfold ChunkEntities.Update
  rw [List.cons_append, ChunkEntities.run]
  show (match ChunkEntities.applyLoop s.m_updateJobs s with
    | none => none
    | some s1 => s1.run (s.m_invalidatedChunks.map Op.UpdateChunkEntity
        ++ [Op.ClearInvalidated])) = some s1
  rw [ht]
  exact hs1

theorem handle_ContainerSound (s s1 : ChunkEntities) (event : Event)
    (hex : s.handle event = some s1) (h : s.ContainerSound) : s1.ContainerSound := by
  cases event with
  | ChunkAdded chunk => exact AddChunk_ContainerSound s s1 chunk hex h
  | ChunkRemoved idx => exact RemoveChunk_ContainerSound s s1 idx hex h
  | ChunkUpdated idx indices newBlock =>
    exact UpdateBlock_ContainerSound s s1 idx indices newBlock hex h
  | Update =>
    obtain ⟨g1, g2, g3⟩ := Update_frame s s1 hex
    exact ContainerSound_of_eq s s1 g2 (fun i hi => by rw [g3] at hi; simp at hi) g1 h
  | TaskBegin j =>
    obtain ⟨g1, g2, g3⟩ := TaskBegin_frame s s1 j hex
    exact ContainerSound_of_eq s s1 g1 (fun i hi => by rw [g3] at hi; exact hi) g2 h
  | TaskEnd j =>
    obtain ⟨g1, g2, g3⟩ := TaskEnd_frame s s1 j hex
    exact ContainerSound_of_eq s s1 g1 (fun i hi => by rw [g3] at hi; exact hi) g2 h

theorem play_Sound (events : List Event) : ∀ (s s1 : ChunkEntities),
    s.play events = some s1 → s.Inv → s.JobsSound → s.ContainerSound →
    s1.Inv ∧ s1.JobsSound ∧ s1.ContainerSound := by
  induction events with
  | nil =>
    intro s s1 h hi hj hc
    simp only [ChunkEntities.play, Option.some.injEq] at h
    subst h
    exact ⟨hi, hj, hc⟩
  | cons event events ih =>
    intro s s1 h hi hj hc
    rw [ChunkEntities.play] at h
    cases he : s.handle event with
    | none => simp [he] at h
    | some t =>
      simp only [he] at h
      obtain ⟨g1, g2⟩ := handle_JobsSound s t event he hi hj
      exact ih t s1 h g1 g2 (handle_ContainerSound s t event he hc)

theorem FillChunks_eq_play (container : List Chunk) : ∀ (s : ChunkEntities),
    ChunkEntities.FillChunks { s with chunks := s.chunks ++ container.map some }
      container s.chunks.length = s.play (container.map Event.ChunkAdded) := by
  induction container with
  | nil =>
    intro s
    simp only [List.map_nil, List.append_nil, ChunkEntities.FillChunks, ChunkEntities.play]
  | cons chunk rest ih =>
    intro s
    simp only [List.map_cons, ChunkEntities.FillChunks, ChunkEntities.play,
      ChunkEntities.handle, ChunkEntities.AddChunk, ChunkEntities.run, ChunkEntities.exec,
      ChunkEntities.CreateChunkEntity]
    by_cases hc : Map.contains s.m_chunkEntities chunk.GetIndices = true
    · simp only [hc, if_true]
    · simp only [hc, Bool.false_eq_true, if_false]
      have h := ih (ChunkEntities.HandleChunkUpdate
        { s with chunks := s.chunks ++ [some chunk], nextEntity := s.nextEntity + 1,
                 m_chunkEntities :=
                   Map.insert_or_assign s.m_chunkEntities chunk.GetIndices s.nextEntity }
        chunk.GetIndices s.chunks.length)
      rw [← h]
      have hlen : (ChunkEntities.HandleChunkUpdate
          { s with chunks := s.chunks ++ [some chunk], nextEntity := s.nextEntity + 1,
                   m_chunkEntities :=
                     Map.insert_or_assign s.m_chunkEntities chunk.GetIndices s.nextEntity }
          chunk.GetIndices s.chunks.length).chunks.length = s.chunks.length + 1 := by
        show (s.chunks ++ [some chunk]).length = s.chunks.length + 1
        simp
      rw [hlen]
      have hst : (ChunkEntities.HandleChunkUpdate
          { s with chunks := s.chunks ++ some chunk :: rest.map some,
                   nextEntity := s.nextEntity + 1,
                   m_chunkEntities :=
                     Map.insert_or_assign s.m_chunkEntities chunk.GetIndices s.nextEntity }
          chunk.GetIndices s.chunks.length) =
          { ChunkEntities.HandleChunkUpdate
            { s with chunks := s.chunks ++ [some chunk], nextEntity := s.nextEntity + 1,
                     m_chunkEntities :=
                       Map.insert_or_assign s.m_chunkEntities chunk.GetIndices s.nextEntity }
            chunk.GetIndices s.chunks.length with
            chunks := (ChunkEntities.HandleChunkUpdate
              { s with chunks := s.chunks ++ [some chunk], nextEntity := s.nextEntity + 1,
                       m_chunkEntities :=
                         Map.insert_or_assign s.m_chunkEntities chunk.GetIndices s.nextEntity }
              chunk.GetIndices s.chunks.length).chunks ++ rest.map some } := by
        show _ = { ChunkEntities.HandleChunkUpdate
            { s with chunks := s.chunks ++ [some chunk], nextEntity := s.nextEntity + 1,
                     m_chunkEntities :=
                       Map.insert_or_assign s.m_chunkEntities chunk.GetIndices s.nextEntity }
            chunk.GetIndices s.chunks.length with
            chunks := (s.chunks ++ [some chunk]) ++ rest.map some }
        rw [List.append_assoc]
        rfl
      rw [hst]

theorem new_eq_play (container : List Chunk) :
    ChunkEntities.new container =
      ChunkEntities.initial.play (container.map Event.ChunkAdded) :=
  FillChunks_eq_play container ChunkEntities.initial

theorem JobsSound_initial : ChunkEntities.initial.JobsSound :=
  ⟨fun e he => by simp [ChunkEntities.initial] at he,
   fun e he => by simp [ChunkEntities.initial] at he,
   fun a ha => by simp [ChunkEntities.initial] at ha⟩

theorem ContainerSound_initial : ChunkEntities.initial.ContainerSound :=
  ⟨fun i hi => by simp [ChunkEntities.initial] at hi,
   fun a x hx => by simp [ChunkEntities.initial] at hx,
   fun a b x y hx _ _ => by simp [ChunkEntities.initial] at hx⟩

theorem new_Sound (container : List Chunk) (s0 : ChunkEntities)
    (h : ChunkEntities.new container = some s0) :
    s0.Inv ∧ s0.JobsSound ∧ s0.ContainerSound := by
  rw [new_eq_play] at h
  exact play_Sound _ _ s0 h Inv_initial JobsSound_initial ContainerSound_initial

/-- C25. For a `ChunkEntities` built with the public constructor over any
container, after any sequence of chunk-added, chunk-removed and chunk-updated
notifications, `Update` calls and background task steps that runs: every index
with a registered job has a proxy entity, every invalidated index has a proxy
entity, the registered jobs have distinct indices, and no registered job is
flagged cancelled. Hence the first loop of `Update` succeeds (every proxy
lookup finds its entity), the whole `Update` succeeds, and every job applied,
before or by this `Update`, was not flagged cancelled before the call and is
not flagged cancelled after it. -/
theorem ChunkEntities.registered_jobs_sound (container : List Chunk) (events : List Event)
    (s0 s : ChunkEntities) (hnew : ChunkEntities.new container = some s0)
    (hplay : s0.play events = some s) :
    (∀ e ∈ s.m_updateJobs, Map.contains s.m_chunkEntities e.1 = true) ∧
    (∀ i ∈ s.m_invalidatedChunks, Map.contains s.m_chunkEntities i = true) ∧
    (s.m_updateJobs.map Prod.fst).Nodup ∧
    (∀ e ∈ s.m_updateJobs, (s.jobs e.2).cancelled = false) ∧
    (∃ t, ChunkEntities.applyLoop s.m_updateJobs s = some t ∧
      ∀ a ∈ t.applied, (s.jobs a.job).cancelled = false) ∧
    (∃ s1, s.Update = some s1 ∧
      ∀ a ∈ s1.applied, (s1.jobs a.job).cancelled = false) := by
  obtain ⟨h1, h2, h3⟩ := new_Sound container s0 hnew
  obtain ⟨hinv, hj, hc⟩ := play_Sound events s0 s hplay h1 h2 h3
  obtain ⟨t, s1, ht, hs1⟩ := Update_isSome s hj hc
  refine ⟨hj.registered_proxy, ?_, hinv.keys_nodup, hj.registered_active,
    ⟨t, ht, (ApplyJobs_JobsSound s t ht hinv hj).2⟩, s1, hs1, ?_⟩
  · intro i hmem
    obtain ⟨a, x, hx, hxi⟩ := hc.invalidated_live i hmem
    rw [← hxi]
    exact hc.live_proxy a x hx
  · exact (run_JobsSound _ s s1 hs1 hinv hj).2.applied_active

/-- Witness of C25: the public constructor over a container of one chunk,
followed by a block write, an `Update`, the tasks of both jobs and a second
block write. -/
theorem ChunkEntities.registered_jobs_sound_witness :
    ∃ s0 s, ChunkEntities.new [unitChunk] = some s0 ∧ s0.play notifiedEvents = some s ∧
      s.m_updateJobs.length = 1 ∧ s.m_invalidatedChunks.length = 1 ∧
      (∀ e ∈ s.m_updateJobs, Map.contains s.m_chunkEntities e.1 = true) ∧
      (∀ e ∈ s.m_updateJobs, (s.jobs e.2).cancelled = false) ∧
      (∃ s1, s.Update = some s1 ∧
        ∀ a ∈ s1.applied, (s1.jobs a.job).cancelled = false) := by
  have hsome : ((ChunkEntities.new [unitChunk]).bind
      (fun s0 => s0.play notifiedEvents)).isSome = true := by decide
  have hlen : ((ChunkEntities.new [unitChunk]).bind
      (fun s0 => s0.play notifiedEvents)).map
        (fun s => (s.m_updateJobs.length, s.m_invalidatedChunks.length)) = some (1, 1) := by
    decide
  cases h0 : ChunkEntities.new [unitChunk] with
  | none => rw [h0] at hsome; exact absurd hsome (by simp)
  | some s0 =>
    rw [h0] at hsome hlen
    simp only [Option.some_bind] at hsome hlen
    cases hp : s0.play notifiedEvents with
    | none => rw [hp] at hsome; exact absurd hsome (by simp)
    | some s =>
      rw [hp] at hlen
      simp only [Option.map_some', Option.some.injEq, Prod.mk.injEq] at hlen
      have h := ChunkEntities.registered_jobs_sound [unitChunk] notifiedEvents s0 s h0 hp
      exact ⟨s0, s, rfl, hp, hlen.1, hlen.2, h.1, h.2.2.2.1, h.2.2.2.2.2⟩

theorem step_live (s s1 : ServerInstance) (op : ServerOp) (h : s.step op = some s1)
    (hl : s.NewPlayersLive) (hi : s.IndexOk) : s1.NewPlayersLive ∧ s1.IndexOk := by
  cases op with
  | CreatePlayer session nickname =>
    simp only [ServerInstance.step, Option.some.injEq] at h
    subst h
    constructor
    · intro i hmem
      rw [CreatePlayer_retrieve]
      by_cases hf : i = MemoryPool.firstFree s.m_players
      · rw [if_pos hf]; rfl
      · rw [if_neg hf]
        apply hl i
        have ht := (mem_IterBits _ i).1 hmem
        have ht1 : Bitset.UnboundedTest
            (Bitset.UnboundedSet s.m_newPlayers (MemoryPool.firstFree s.m_players)) i = true :=
          ht
        rw [UnboundedTest_UnboundedSet, if_neg hf] at ht1
        exact (mem_IterBits _ i).2 ht1
    · intro i player hp
      rw [CreatePlayer_retrieve] at hp
      by_cases hf : i = MemoryPool.firstFree s.m_players
      · rw [if_pos hf, Option.some.injEq] at hp
        rw [← hp, hf]
        rfl
      · rw [if_neg hf] at hp
        exact hi i player hp
  | DestroyPlayer playerIndex =>
    obtain ⟨_, hsd⟩ := DestroyPlayer_eq s s1 playerIndex h
    subst hsd
    constructor
    · intro i hmem
      have ht := (mem_IterBits _ i).1 hmem
      have ht1 : Bitset.UnboundedTest
          (Bitset.UnboundedReset s.m_newPlayers playerIndex) i = true := ht
      rw [UnboundedTest_UnboundedReset] at ht1
      by_cases hf : i = playerIndex
      · rw [if_pos hf] at ht1
        exact absurd ht1 (by simp)
      · rw [if_neg hf] at ht1
        show (MemoryPool.RetrieveFromIndex (MemoryPool.Free s.m_players playerIndex) i).isSome
          = true
        rw [Retrieve_Free, if_neg hf]
        exact hl i ((mem_IterBits _ i).2 ht1)
    · intro i player hp
      have hp1 : MemoryPool.RetrieveFromIndex (MemoryPool.Free s.m_players playerIndex) i
          = some player := hp
      rw [Retrieve_Free] at hp1
      by_cases hf : i = playerIndex
      · rw [if_pos hf] at hp1
        exact absurd hp1 (by simp)
      · rw [if_neg hf] at hp1
        exact hi i player hp1
  | OnNetworkTick =>
    have h1 : s.OnNetworkTick = some s1 := h
    rw [OnNetworkTick_eq s hl, Option.some.injEq] at h1
    subst h1
    exact ⟨NewPlayersLive_of_nil _ rfl, hi⟩

theorem steps_live (ops : List ServerOp) : ∀ (s s1 : ServerInstance),
    s.steps ops = some s1 → s.NewPlayersLive → s.IndexOk →
    s1.NewPlayersLive ∧ s1.IndexOk := by
  induction ops with
  | nil =>
    intro s s1 h hl hi
    simp only [ServerInstance.steps, Option.some.injEq] at h
    subst h
    exact ⟨hl, hi⟩
  | cons op ops ih =>
    intro s s1 h hl hi
    rw [ServerInstance.steps] at h
    cases hs : s.step op with
    | none => simp [hs] at h
    | some t =>
      simp only [hs] at h
      obtain ⟨g1, g2⟩ := step_live s t op hs hl hi
      exact ih t s1 h g1 g2

theorem new_live (tickDuration : Int) (config : ServerInstance.Config) (indeterminate : Bool)
    (ops : List ServerOp) (s : ServerInstance)
    (h : (ServerInstance.new tickDuration config indeterminate).steps ops = some s) :
    s.NewPlayersLive ∧ s.IndexOk := by
  refine steps_live ops _ s h (NewPlayersLive_of_nil _ rfl) ?_
  intro i player hp
  simp [ServerInstance.new, MemoryPool.RetrieveFromIndex] at hp

/-- C26. After any sequence of `CreatePlayer`, `DestroyPlayer` and
network-dispatch phases run from a newly constructed server (a `DestroyPlayer`
being defined exactly when its slot is occupied), every index in the
newly-connected set refers to an occupied pool slot, and the network-dispatch
phase run in that state succeeds: every lookup of its second loop finds a
player. -/
theorem ServerInstance.new_players_live (tickDuration : Int)
    (config : ServerInstance.Config) (indeterminate : Bool) (ops : List ServerOp)
    (s : ServerInstance)
    (hsteps : (ServerInstance.new tickDuration config indeterminate).steps ops = some s) :
    (∀ i, Bitset.UnboundedTest s.m_newPlayers i = true →
      ∃ player, MemoryPool.RetrieveFromIndex s.m_players i = some player) ∧
    (∀ i ∈ Bitset.IterBits s.m_newPlayers,
      ∃ player calls, MemoryPool.RetrieveFromIndex s.m_players i = some player ∧
        s.handleNewPlayer i = some { s with sessionCalls := calls }) ∧
    (∃ s1, s.OnNetworkTick = some s1 ∧ s1.m_newPlayers = [] ∧ s1.m_players = s.m_players) ∧
    (∀ i, (s.step (ServerOp.DestroyPlayer i)).isSome =
      (MemoryPool.RetrieveFromIndex s.m_players i).isSome) := by
  obtain ⟨hl, _⟩ := new_live tickDuration config indeterminate ops s hsteps
  refine ⟨?_, ?_, ⟨_, OnNetworkTick_eq s hl, rfl, rfl⟩, ?_⟩
  · intro i ht
    exact Option.isSome_iff_exists.1 (hl i ((mem_IterBits _ i).2 ht))
  · intro i hmem
    obtain ⟨player, hp⟩ := Option.isSome_iff_exists.1 (hl i hmem)
    obtain ⟨calls, hc⟩ := handleNewPlayer_some s i (hl i hmem)
    exact ⟨player, calls, hp, hc⟩
  · intro i
    simp only [ServerInstance.step, ServerInstance.DestroyPlayer]
    cases MemoryPool.RetrieveFromIndex s.m_players i <;> rfl

/-- Witness of C26: Ann and Bob connect and are announced, Ann leaves, Cid
takes her index 0 and Dan the index 2; the newly-connected set then holds the
indices 0 and 2, both occupied. -/
theorem ServerInstance.new_players_live_witness :
    ∃ s, (ServerInstance.new 10 ⟨true⟩ false).steps lifecycleOps = some s ∧
      Bitset.IterBits s.m_newPlayers = [0, 2] ∧
      (∀ i, Bitset.UnboundedTest s.m_newPlayers i = true →
        ∃ player, MemoryPool.RetrieveFromIndex s.m_players i = some player) ∧
      (∃ s1, s.OnNetworkTick = some s1 ∧ s1.m_newPlayers = [] ∧
        s1.m_players = s.m_players) := by
  have hbits : ((ServerInstance.new 10 ⟨true⟩ false).steps lifecycleOps).map
      (fun s => Bitset.IterBits s.m_newPlayers) = some [0, 2] := by decide
  cases h : (ServerInstance.new 10 ⟨true⟩ false).steps lifecycleOps with
  | none => rw [h] at hbits; exact absurd hbits (by simp)
  | some s =>
    rw [h] at hbits
    have g := ServerInstance.new_players_live 10 ⟨true⟩ false lifecycleOps s h
    exact ⟨s, rfl, by simpa using hbits, g.1, g.2.2.1⟩

theorem mem_entries_retrieve {α : Type} (pool : MemoryPool α) (a : α)
    (h : a ∈ MemoryPool.entries pool) : ∃ i, MemoryPool.RetrieveFromIndex pool i = some a := by
  unfold MemoryPool.entries at h
  obtain ⟨v, hv, hva⟩ := List.mem_filterMap.1 h
  have hva1 : v = some a := hva
  subst hva1
  obtain ⟨i, hlt, hget⟩ := List.getElem_of_mem hv
  refine ⟨i, ?_⟩
  unfold MemoryPool.RetrieveFromIndex
  rw [List.getD_eq_getElem?_getD, List.getElem?_eq_getElem hlt, hget]
  rfl

theorem newPlayerCalls_filter_join (s : ServerInstance) (i : Nat) (player : ServerPlayer) :
    (s.newPlayerCalls i player).filter (fun c => c.2.isPlayerJoin) =
      s.joinRecipients.filterMap (fun q => (q.GetSession).map (fun session =>
        (session, SessionCall.SendPacket (Packet.PlayerJoin i player.GetNickname)))) := by
  unfold ServerInstance.newPlayerCalls
  rw [List.filter_append, broadcast_filter _ _ _ SessionCall.isPlayerJoin]
  cases player.GetSession <;>
    simp [SessionCall.isPlayerJoin, broadcast, ServerInstance.joinRecipients]

theorem newPlayersCalls_filter_join (s : ServerInstance) (l : List Nat) :
    (s.newPlayersCalls l).filter (fun c => c.2.isPlayerJoin) =
      l.flatMap (fun i =>
        match MemoryPool.RetrieveFromIndex s.m_players i with
        | none => []
        | some player =>
          s.joinRecipients.filterMap (fun q => (q.GetSession).map (fun session =>
            (session, SessionCall.SendPacket (Packet.PlayerJoin i player.GetNickname))))) := by
  unfold ServerInstance.newPlayersCalls
  rw [filter_flatMap]
  induction l with
  | nil => rfl
  | cons i l ih =>
    rw [List.flatMap_cons, ih, List.flatMap_cons]
    cases hp : MemoryPool.RetrieveFromIndex s.m_players i with
    | none => rfl
    | some player =>
      simp only
      rw [newPlayerCalls_filter_join]

theorem mem_joinRecipients (s : ServerInstance) (hi : s.IndexOk) (q : ServerPlayer) :
    q ∈ s.joinRecipients ↔
      (MemoryPool.RetrieveFromIndex s.m_players q.GetPlayerIndex = some q ∧
        Bitset.UnboundedTest s.m_newPlayers q.GetPlayerIndex = false) := by
  unfold ServerInstance.joinRecipients
  rw [List.mem_filter]
  constructor
  · intro h
    obtain ⟨h1, h2⟩ := h
    obtain ⟨i, hr⟩ := mem_entries_retrieve _ q h1
    have hq := hi i q hr
    have h3 : Bitset.UnboundedTest s.m_newPlayers q.GetPlayerIndex = false := by
      simpa using h2
    rw [hq] at h3 ⊢
    exact ⟨hr, h3⟩
  · intro h
    obtain ⟨h1, h2⟩ := h
    exact ⟨Retrieve_mem_entries _ _ _ h1, by simp [h2]⟩

/-- C27. In a state reached from a newly constructed server by `CreatePlayer`,
`DestroyPlayer` and network-dispatch phases, the network-dispatch phase
succeeds and the `PlayerJoin` packets it sends are, for each index of the
newly-connected set in increasing order, one packet carrying that index and
the nickname of its player to the session of each live player that has a
session and whose own index is not in the newly-connected set. Those
recipients are exactly the live players outside the newly-connected set, so no
player of the newly-connected set (the announced player itself or a player
that connected during the same tick) is among them. -/
theorem ServerInstance.PlayerJoin_recipients (tickDuration : Int)
    (config : ServerInstance.Config) (indeterminate : Bool) (ops : List ServerOp)
    (s : ServerInstance)
    (hsteps : (ServerInstance.new tickDuration config indeterminate).steps ops = some s) :
    ∃ s1, s.OnNetworkTick = some s1 ∧
      (s1.callsSince s).filter (fun c => c.2.isPlayerJoin) =
        (Bitset.IterBits s.m_newPlayers).flatMap (fun i =>
          match MemoryPool.RetrieveFromIndex s.m_players i with
          | none => []
          | some player =>
            s.joinRecipients.filterMap (fun q => (q.GetSession).map (fun session =>
              (session,
                SessionCall.SendPacket (Packet.PlayerJoin i player.GetNickname))))) ∧
      (∀ q, q ∈ s.joinRecipients ↔
        (MemoryPool.RetrieveFromIndex s.m_players q.GetPlayerIndex = some q ∧
          Bitset.UnboundedTest s.m_newPlayers q.GetPlayerIndex = false)) ∧
      (∀ i ∈ Bitset.IterBits s.m_newPlayers,
        ∃ player, MemoryPool.RetrieveFromIndex s.m_players i = some player ∧
          player.GetPlayerIndex = i ∧ player ∉ s.joinRecipients) := by
  obtain ⟨hl, hi⟩ := new_live tickDuration config indeterminate ops s hsteps
  refine ⟨_, OnNetworkTick_eq s hl, ?_, mem_joinRecipients s hi, ?_⟩
  · rw [callsSince_append s _ _ rfl, List.filter_append,
      leaveCalls_filter s SessionCall.isPlayerJoin, newPlayersCalls_filter_join]
    simp [SessionCall.isPlayerJoin]
  · intro i hmem
    obtain ⟨player, hp⟩ := Option.isSome_iff_exists.1 (hl i hmem)
    have hidx := hi i player hp
    refine ⟨player, hp, hidx, ?_⟩
    intro hq
    have h2 := ((mem_joinRecipients s hi player).1 hq).2
    rw [hidx, (mem_IterBits _ i).1 hmem] at h2
    exact absurd h2 (by simp)

/-- Witness of C27: after Ann and Bob were announced, Ann left, and Cid
(index 0) and Dan (index 2) connected during the same tick, the dispatch phase
sends both `PlayerJoin` packets to the session 11 of Bob only. -/
theorem ServerInstance.PlayerJoin_recipients_witness :
    ∃ s s1, (ServerInstance.new 10 ⟨true⟩ false).steps lifecycleOps = some s ∧
      s.OnNetworkTick = some s1 ∧
      (s1.callsSince s).filter (fun c => c.2.isPlayerJoin) =
        [(11, SessionCall.SendPacket (Packet.PlayerJoin 0 "Cid")),
         (11, SessionCall.SendPacket (Packet.PlayerJoin 2 "Dan"))] := by
  have hcalls : ((ServerInstance.new 10 ⟨true⟩ false).steps lifecycleOps).map
      (fun s => (Bitset.IterBits s.m_newPlayers).flatMap (fun i =>
          match MemoryPool.RetrieveFromIndex s.m_players i with
          | none => []
          | some player =>
            s.joinRecipients.filterMap (fun q => (q.GetSession).map (fun session =>
              (session,
                SessionCall.SendPacket (Packet.PlayerJoin i player.GetNickname)))))) =
      some [(11, SessionCall.SendPacket (Packet.PlayerJoin 0 "Cid")),
         (11, SessionCall.SendPacket (Packet.PlayerJoin 2 "Dan"))] := by decide
  cases h : (ServerInstance.new 10 ⟨true⟩ false).steps lifecycleOps with
  | none => rw [h] at hcalls; exact absurd hcalls (by simp)
  | some s =>
    rw [h] at hcalls
    simp only [Option.map_some', Option.some.injEq] at hcalls
    obtain ⟨s1, g1, g2, _⟩ :=
      ServerInstance.PlayerJoin_recipients 10 ⟨true⟩ false lifecycleOps s h
    exact ⟨s, s1, rfl, g1, g2.trans hcalls⟩

/-- C28 fails as stated: the constructed chunk of size (2^31 + 1) x 2 x 1 holds
2 cells (the 32-bit product of the sizes wraps); the valid coordinates
(2^31 - 1, 1, 0) and (0, 0, 0) are different and both have the linear index 0,
so UpdateBlock at the first changes the content at the second from Empty to
the written block. -/
theorem Chunk.UpdateBlock_alias_counterexample :
    wrappedChunk.ValidCoordinates ⟨2147483647, 1, 0⟩ ∧
    wrappedChunk.ValidCoordinates ⟨0, 0, 0⟩ ∧
    wrappedChunk.GetBlockIndex ⟨2147483647, 1, 0⟩ = 0 ∧
    wrappedChunk.GetBlockIndex ⟨0, 0, 0⟩ = 0 ∧
    wrappedChunk.GetBlockContent ⟨0, 0, 0⟩ = some VoxelBlock.Empty ∧
    (wrappedChunk.UpdateBlock ⟨2147483647, 1, 0⟩ ⟨9⟩).map
      (fun c => c.GetBlockContent ⟨0, 0, 0⟩) = some (some ⟨9⟩) :=
  ⟨⟨by decide, by decide, by decide⟩, ⟨by decide, by decide, by decide⟩, by decide,
    by decide, by decide, by decide⟩

/-- C28, amended. For every chunk whose grid holds one cell per voxel and
whose size product fits 32 bits, every valid coordinate C and every block
value v, UpdateBlock(C, v) succeeds, the content at every valid coordinate
other than C is defined and unchanged, and the size, the chunk indices and the
block size are unchanged. -/
theorem Chunk.UpdateBlock_frame (c : Chunk) (v : Vector3ui) (b : VoxelBlock)
    (hinv : c.GridInvariant)
    (hsize : c.m_size.x * c.m_size.y * c.m_size.z < 4294967296)
    (hv : c.ValidCoordinates v) :
    ∃ c1, c.UpdateBlock v b = some c1 ∧
      (∀ v1, c.ValidCoordinates v1 → v1 ≠ v →
        ∃ b1, c.GetBlockContent v1 = some b1 ∧ c1.GetBlockContent v1 = some b1) ∧
      c1.GetSize = c.GetSize ∧ c1.GetIndices = c.GetIndices ∧
      c1.GetBlockSize = c.GetBlockSize := by
  have hlt : c.GetBlockIndex v < c.m_cells.length := by
    rw [hinv]; exact GetBlockIndex_lt_of_valid c v hv
  have hex : ∀ w, c.ValidCoordinates w →
      c.GetBlockIndex w = w.x + c.m_size.x * (w.y + c.m_size.y * w.z) := fun w hw =>
    GetBlockIndex_exact c w (lt_trans (linear_index_lt hw.1 hw.2.1 hw.2.2) hsize)
  refine ⟨_, UpdateBlock_of_lt c v b hlt, ?_, rfl, rfl, rfl⟩
  intro v1 hv1 hne
  have hlt1 : c.GetBlockIndex v1 < c.m_cells.length := by
    rw [hinv]; exact GetBlockIndex_lt_of_valid c v1 hv1
  have hidx : c.GetBlockIndex v ≠ c.GetBlockIndex v1 := by
    intro e
    rw [hex v hv, hex v1 hv1] at e
    obtain ⟨h1, h2, h3⟩ := linear_index_inj hv.1 hv.2.1 hv1.1 hv1.2.1 e
    apply hne
    cases v; cases v1
    simp only at h1 h2 h3
    subst h1 h2 h3
    rfl
  refine ⟨c.m_cells[c.GetBlockIndex v1], ?_, ?_⟩
  · show c.m_cells[c.GetBlockIndex v1]? = _
    exact List.getElem?_eq_getElem hlt1
  · show (c.m_cells.set (c.GetBlockIndex v) b)[c.GetBlockIndex v1]? = _
    rw [List.getElem?_set_ne hidx]
    exact List.getElem?_eq_getElem hlt1

/-- Witness of the amended C28 on the 2 x 2 x 1 chunk: writing block 9 at (1, 0, 0) leaves
the cell (0, 1, 0) as it was. -/
theorem Chunk.UpdateBlock_frame_witness :
    ∃ c1, exampleChunk.UpdateBlock ⟨1, 0, 0⟩ ⟨9⟩ = some c1 ∧
      c1.GetBlockContent ⟨0, 1, 0⟩ = exampleChunk.GetBlockContent ⟨0, 1, 0⟩ ∧
      c1.GetSize = exampleChunk.GetSize ∧ c1.GetIndices = exampleChunk.GetIndices ∧
      c1.GetBlockSize = exampleChunk.GetBlockSize := by
  obtain ⟨c1, h1, h2, h3, h4, h5⟩ := Chunk.UpdateBlock_frame exampleChunk ⟨1, 0, 0⟩ ⟨9⟩ rfl
    (by decide) ⟨by decide, by decide, by decide⟩
  obtain ⟨b1, g1, g2⟩ := h2 ⟨0, 1, 0⟩ ⟨by decide, by decide, by decide⟩ (by decide)
  exact ⟨c1, h1, by rw [g1, g2], h3, h4, h5⟩

/-- C29 fails as stated in `float` arithmetic: for the center (1, 0, 0), the
position (1.5, 0, 0) and the radius 0.1f (the representable value
13421773 / 2^27), the distance to the center is 0.5, the inner position is
1.4 rounded (11744051 / 2^23), and adding the radius to it rounds to
12582913 / 2^23, one unit in the last place above 1.5: the result is at
distance 4194305 / 2^23 from the center, more than 0.5. -/
theorem DeformedChunk.DeformPosition_cube_counterexample :
    binary32.fl (13421773 / 134217728) = 13421773 / 134217728 ∧
    (0 : ℚ) ≤ 13421773 / 134217728 ∧
    DeformedChunk.distToCenter binary32 ⟨3 / 2, 0, 0⟩ ⟨1, 0, 0⟩ = 1 / 2 ∧
    DeformedChunk.DeformPosition binary32 ⟨3 / 2, 0, 0⟩ ⟨1, 0, 0⟩ (13421773 / 134217728)
      = ⟨12582913 / 8388608, 0, 0⟩ ∧
    ¬ (|(DeformedChunk.DeformPosition binary32 ⟨3 / 2, 0, 0⟩ ⟨1, 0, 0⟩
          (13421773 / 134217728)).x - 1|
        ≤ DeformedChunk.distToCenter binary32 ⟨3 / 2, 0, 0⟩ ⟨1, 0, 0⟩) ∧
    ¬ (|binary32.sub (DeformedChunk.DeformPosition binary32 ⟨3 / 2, 0, 0⟩ ⟨1, 0, 0⟩
          (13421773 / 134217728)).x 1|
        ≤ DeformedChunk.distToCenter binary32 ⟨3 / 2, 0, 0⟩ ⟨1, 0, 0⟩) := by
  decide!

/-- C30, the divergence of the code: the `PlayerLeave` and `ChatMessage`
handlers test the index against the size of the roster only. For every roster
with an empty slot at a position inside its bounds, both handlers dereference
the empty slot (the result is undefined). The server produces such packets:
in the execution `ghostLeaveScenario` the session 11 of Fay receives the
roster, then `PlayerLeave 0` twice; the first is handled and empties the slot
0, the second dereferences it. The same happens for a chat message of a player
that left and for an index skipped when the roster was grown. -/
theorem ClientSessionHandler.empty_slot_dereferenced
    (before after : List (Option PlayerInfo)) (tickIndex : Nat) (signals : List ClientSignal)
    (message : String) :
    ClientSessionHandler.HandlePlayerLeave
      { m_players := before ++ none :: after, m_lastTickIndex := tickIndex, signals := signals }
      before.length = none ∧
    ClientSessionHandler.HandleChatMessage
      { m_players := before ++ none :: after, m_lastTickIndex := tickIndex, signals := signals }
      (some before.length) message = none ∧
    ghostLeaveScenario.map (fun s => rosterPacketsOf 11 s.sessionCalls) =
      some [RosterPacket.GameData 0 [(0, "Ann"), (1, "Fay")], RosterPacket.PlayerLeave 0,
            RosterPacket.PlayerLeave 0] ∧
    ClientSessionHandler.initial.HandlePackets
      [RosterPacket.GameData 0 [(0, "Ann"), (1, "Fay")], RosterPacket.PlayerLeave 0] =
      some { m_players := [none, some { nickname := "Fay" }], m_lastTickIndex := 0,
             signals := [ClientSignal.OnPlayerLeave "Ann"] } ∧
    ClientSessionHandler.initial.HandlePackets
      [RosterPacket.GameData 0 [(0, "Ann"), (1, "Fay")], RosterPacket.PlayerLeave 0,
       RosterPacket.PlayerLeave 0] = none ∧
    ClientSessionHandler.initial.HandlePackets
      [RosterPacket.GameData 0 [(0, "Ann"), (1, "Fay")], RosterPacket.PlayerLeave 0,
       RosterPacket.ChatMessage (some 0) "bye"] = none ∧
    ClientSessionHandler.initial.HandlePackets
      [RosterPacket.PlayerJoin 1 "Fay", RosterPacket.PlayerLeave 0] = none ∧
    ClientSessionHandler.initial.HandlePackets
      [RosterPacket.PlayerJoin 1 "Fay", RosterPacket.ChatMessage (some 0) "hi"] = none := by
  have hlen : ¬ (before.length ≥ (before ++ none :: after).length) := by
    simp
  have hget : (before ++ none :: after).getD before.length none = none := by
    rw [List.getD_eq_getElem?_getD, List.getElem?_append_right (Nat.le_refl _)]
    simp
  refine ⟨?_, ?_, by decide, by decide, by decide, by decide, by decide, by decide⟩
  · unfold ClientSessionHandler.HandlePlayerLeave
    simp only [hlen, if_false, hget]
  · unfold ClientSessionHandler.HandleChatMessage
    simp only [hlen, if_false, hget]

theorem step_DisconnectedLiveAreNew (s s1 : ServerInstance) (op : ServerOp)
    (h : s.step op = some s1) (hl : s.NewPlayersLive) (hinv : s.DisconnectedLiveAreNew) :
    s1.DisconnectedLiveAreNew := by
  cases op with
  | CreatePlayer session nickname =>
    simp only [ServerInstance.step, Option.some.injEq] at h
    subst h
    intro k hk hlivek
    show Bitset.UnboundedTest (Bitset.UnboundedSet s.m_newPlayers
      (MemoryPool.firstFree s.m_players)) k = true
    rw [UnboundedTest_UnboundedSet]
    by_cases hkf : k = MemoryPool.firstFree s.m_players
    · rw [if_pos hkf]
    · rw [if_neg hkf]
      rw [CreatePlayer_retrieve, if_neg hkf] at hlivek
      exact hinv k hk hlivek
  | DestroyPlayer i =>
    obtain ⟨_, hsd⟩ := DestroyPlayer_eq s s1 i h
    subst hsd
    intro k hk hlivek
    have hlive0 : (MemoryPool.RetrieveFromIndex (MemoryPool.Free s.m_players i) k).isSome
        = true := hlivek
    have hk0 : Bitset.UnboundedTest (Bitset.UnboundedSet s.m_disconnectedPlayers i) k
        = true := hk
    rw [Retrieve_Free] at hlive0
    by_cases hki : k = i
    · rw [if_pos hki] at hlive0
      exact absurd hlive0 (by simp)
    · rw [if_neg hki] at hlive0
      rw [UnboundedTest_UnboundedSet, if_neg hki] at hk0
      show Bitset.UnboundedTest (Bitset.UnboundedReset s.m_newPlayers i) k = true
      rw [UnboundedTest_UnboundedReset, if_neg hki]
      exact hinv k hk0 hlive0
  | OnNetworkTick =>
    have h1 : s.OnNetworkTick = some s1 := h
    rw [OnNetworkTick_eq s hl, Option.some.injEq] at h1
    subst h1
    intro k hk
    exact absurd hk (by simp [Bitset.UnboundedTest])

theorem steps_DisconnectedLiveAreNew (ops : List ServerOp) : ∀ (s s1 : ServerInstance),
    s.steps ops = some s1 → s.NewPlayersLive → s.IndexOk → s.DisconnectedLiveAreNew →
    s1.DisconnectedLiveAreNew := by
  induction ops with
  | nil =>
    intro s s1 h _ _ hinv
    simp only [ServerInstance.steps, Option.some.injEq] at h
    subst h
    exact hinv
  | cons op ops ih =>
    intro s s1 h hl hi hinv
    rw [ServerInstance.steps] at h
    cases hs : s.step op with
    | none => simp [hs] at h
    | some t =>
      simp only [hs] at h
      obtain ⟨g1, g2⟩ := step_live s t op hs hl hi
      exact ih t s1 h g1 g2 (step_DisconnectedLiveAreNew s t op hs hl hinv)

theorem firstFree_Free {α : Type} (pool : MemoryPool α) (i : Nat)
    (hocc : (MemoryPool.RetrieveFromIndex pool i).isSome = true) :
    MemoryPool.firstFree (MemoryPool.Free pool i) = min i (MemoryPool.firstFree pool) := by
  have hne : MemoryPool.firstFree pool ≠ i := by
    intro he
    rw [← he, firstFree_free] at hocc
    exact absurd hocc (by simp)
  apply firstFree_eq
  · rw [Retrieve_Free]
    by_cases hm : min i (MemoryPool.firstFree pool) = i
    · rw [if_pos hm]
    · rw [if_neg hm]
      have : min i (MemoryPool.firstFree pool) = MemoryPool.firstFree pool := by omega
      rw [this]
      exact firstFree_free pool
  · intro k hk
    rw [Retrieve_Free, if_neg (by omega)]
    exact firstFree_min pool k (by omega)

/-- C20, amended: in every state reached from a newly constructed server by
`CreatePlayer`, `DestroyPlayer` and network-dispatch phases, a live player
whose index is a member of the just-disconnected set is a newly connected one
(its index is also in the newly-connected set). Such players exist: after the
player of an index i is destroyed, the next `CreatePlayer` hands out the
lowest free slot, the smaller of i and the first slot that was free before;
when every slot below i is occupied that is i again, given to a live player
whose index is then in the just-disconnected set and in the newly-connected
set. -/
theorem ServerInstance.disconnected_live_are_new (tickDuration : Int)
    (config : ServerInstance.Config) (indeterminate : Bool) (ops : List ServerOp)
    (s : ServerInstance)
    (hsteps : (ServerInstance.new tickDuration config indeterminate).steps ops = some s) :
    (∀ i, Bitset.UnboundedTest s.m_disconnectedPlayers i = true →
      (MemoryPool.RetrieveFromIndex s.m_players i).isSome = true →
      Bitset.UnboundedTest s.m_newPlayers i = true) ∧
    (∀ (i : PlayerIndex) (sd : ServerInstance) (session : Option SessionId)
        (nickname : String), s.DestroyPlayer i = some sd →
      (sd.CreatePlayer session nickname).2.GetPlayerIndex =
        min i (MemoryPool.firstFree s.m_players) ∧
      ((∀ k, k < i → (MemoryPool.RetrieveFromIndex s.m_players k).isSome = true) →
        (sd.CreatePlayer session nickname).2.GetPlayerIndex = i ∧
        MemoryPool.RetrieveFromIndex (sd.CreatePlayer session nickname).1.m_players i =
          some (sd.CreatePlayer session nickname).2 ∧
        Bitset.UnboundedTest (sd.CreatePlayer session nickname).1.m_disconnectedPlayers i
          = true ∧
        Bitset.UnboundedTest (sd.CreatePlayer session nickname).1.m_newPlayers i = true)) := by
  have hinit : (ServerInstance.new tickDuration config indeterminate).DisconnectedLiveAreNew := by
    intro k hk
    exact absurd hk (by simp [ServerInstance.new, Bitset.UnboundedTest])
  have hidx0 : (ServerInstance.new tickDuration config indeterminate).IndexOk := by
    intro i player hp
    simp [ServerInstance.new, MemoryPool.RetrieveFromIndex] at hp
  refine ⟨steps_DisconnectedLiveAreNew ops _ s hsteps (NewPlayersLive_of_nil _ rfl) hidx0 hinit,
    ?_⟩
  intro i sd session nickname hdestroy
  obtain ⟨hocc, hsd⟩ := DestroyPlayer_eq s sd i hdestroy
  have hfirst : MemoryPool.firstFree sd.m_players = min i (MemoryPool.firstFree s.m_players) := by
    rw [hsd]
    exact firstFree_Free s.m_players i hocc
  refine ⟨hfirst, ?_⟩
  intro hlow
  have hmin : min i (MemoryPool.firstFree s.m_players) = i := by
    apply Nat.min_eq_left
    by_contra hlt
    have := hlow _ (not_le.1 hlt)
    rw [firstFree_free] at this
    exact absurd this (by simp)
  have hfi : MemoryPool.firstFree sd.m_players = i := hfirst.trans hmin
  refine ⟨hfi, ?_, ?_, ?_⟩
  · rw [CreatePlayer_retrieve, if_pos hfi.symm]
  · show Bitset.UnboundedTest sd.m_disconnectedPlayers i = true
    rw [hsd]
    show Bitset.UnboundedTest (Bitset.UnboundedSet s.m_disconnectedPlayers i) i = true
    rw [UnboundedTest_UnboundedSet, if_pos rfl]
  · show Bitset.UnboundedTest (Bitset.UnboundedSet sd.m_newPlayers
      (MemoryPool.firstFree sd.m_players)) i = true
    rw [UnboundedTest_UnboundedSet, if_pos hfi.symm]

/-- Witness of the amended C20: after Ann (index 0) and Fay (index 1) were
announced, Ann is destroyed and Dan is created: Dan receives the index 0,
which is in the just-disconnected set and in the newly-connected set. -/
theorem ServerInstance.disconnected_live_are_new_witness :
    ∃ s sd, (ServerInstance.new 10 ⟨true⟩ false).steps announcedOps = some s ∧
      s.DestroyPlayer 0 = some sd ∧
      (sd.CreatePlayer (some 13) "Dan").2.GetPlayerIndex = 0 ∧
      Bitset.UnboundedTest (sd.CreatePlayer (some 13) "Dan").1.m_disconnectedPlayers 0 = true ∧
      Bitset.UnboundedTest (sd.CreatePlayer (some 13) "Dan").1.m_newPlayers 0 = true := by
  have hsome : (((ServerInstance.new 10 ⟨true⟩ false).steps announcedOps).bind
      (fun s => s.DestroyPlayer 0)).isSome = true := by decide
  cases h : (ServerInstance.new 10 ⟨true⟩ false).steps announcedOps with
  | none => rw [h] at hsome; exact absurd hsome (by simp)
  | some s =>
    rw [h] at hsome
    simp only [Option.some_bind] at hsome
    cases hd : s.DestroyPlayer 0 with
    | none => rw [hd] at hsome; exact absurd hsome (by simp)
    | some sd =>
      have g := (ServerInstance.disconnected_live_are_new 10 ⟨true⟩ false announcedOps s h).2
        0 sd (some 13) "Dan" hd
      have g2 := g.2 (fun k hk => absurd hk (Nat.not_lt_zero _))
      exact ⟨s, sd, rfl, hd, g2.1, g2.2.2.1, g2.2.2.2⟩

theorem pow2_eq_zpow (e : Int) : pow2 e = (2 : ℚ) ^ e := by
  unfold pow2
  by_cases h : 0 ≤ e
  · rw [if_pos h]
    obtain ⟨n, rfl⟩ := Int.eq_ofNat_of_zero_le h
    simp
  · rw [if_neg h]
    obtain ⟨n, hn⟩ := Int.exists_eq_neg_ofNat (le_of_lt (not_le.1 h))
    subst hn
    simp

theorem log2Loop_spec (fuel : Nat) : ∀ n : Nat, 1 ≤ n → n ≤ fuel →
    2 ^ log2Loop fuel n ≤ n ∧ n < 2 ^ (log2Loop fuel n + 1) := by
  induction fuel with
  | zero => intro n h1 h2; omega
  | succ fuel ih =>
    intro n h1 h2
    rw [log2Loop]
    by_cases hn : n ≤ 1
    · rw [if_pos hn]
      have : n = 1 := by omega
      subst this
      exact ⟨by norm_num, by norm_num⟩
    · rw [if_neg hn]
      obtain ⟨g1, g2⟩ := ih (n / 2) (by omega) (by omega)
      constructor
      · rw [pow_succ]; omega
      · rw [pow_succ]; omega

theorem floorLog2_spec (n : Nat) (h : 1 ≤ n) :
    2 ^ floorLog2 n ≤ n ∧ n < 2 ^ (floorLog2 n + 1) :=
  log2Loop_spec n n h (Nat.le_refl n)

theorem roundHalfEven_error (x : ℚ) : |(roundHalfEven x : ℚ) - x| ≤ 1 / 2 := by
  have h1 : ((Rat.floor x : Int) : ℚ) ≤ x := Rat.le_floor.1 (le_refl _)
  have h2 : x < ((Rat.floor x : Int) : ℚ) + 1 := by
    exact Int.lt_floor_add_one x
  unfold roundHalfEven
  simp only
  rw [abs_le]
  split_ifs with c1 c2 c3
  · constructor <;> linarith
  · push_cast
    constructor <;> linarith
  · have : x - ((Rat.floor x : Int) : ℚ) = 1 / 2 := le_antisymm (not_lt.1 c2) (not_lt.1 c1)
    constructor <;> linarith
  · have : x - ((Rat.floor x : Int) : ℚ) = 1 / 2 := le_antisymm (not_lt.1 c2) (not_lt.1 c1)
    push_cast
    constructor <;> linarith

theorem ilog2_le (q : ℚ) (hq : q ≠ 0) : pow2 (ilog2 q) ≤ |q| := by
  unfold ilog2
  simp only
  split_ifs with h
  · exact h
  · have hn : 1 ≤ q.num.natAbs := by
      have : q.num ≠ 0 := Rat.num_ne_zero.2 hq
      omega
    have hd : 1 ≤ q.den := q.den_pos
    obtain ⟨ha, _⟩ := floorLog2_spec q.num.natAbs hn
    obtain ⟨_, hb⟩ := floorLog2_spec q.den hd
    have habs : |q| = (q.num.natAbs : ℚ) / (q.den : ℚ) := by
      have hden : (0 : ℚ) < q.den := by exact_mod_cast q.den_pos
      conv_lhs => rw [← Rat.num_div_den q]
      rw [abs_div, abs_of_pos hden, Nat.cast_natAbs, Int.cast_abs]
    have he : (floorLog2 q.num.natAbs : Int) - (floorLog2 q.den : Int) - 1 =
        (floorLog2 q.num.natAbs : Int) - ((floorLog2 q.den + 1 : Nat) : Int) := by
      push_cast; ring
    rw [pow2_eq_zpow, he, zpow_sub₀ (two_ne_zero), zpow_natCast, zpow_natCast, habs]
    have hden : (0 : ℚ) < q.den := by exact_mod_cast q.den_pos
    have hp : (0 : ℚ) < 2 ^ (floorLog2 q.den + 1) := by positivity
    rw [div_le_div_iff₀ hp hden]
    have h1 : ((2 ^ floorLog2 q.num.natAbs : Nat) : ℚ) ≤ (q.num.natAbs : ℚ) := by
      exact_mod_cast ha
    have h2 : ((q.den : Nat) : ℚ) ≤ ((2 ^ (floorLog2 q.den + 1) : Nat) : ℚ) := by
      exact_mod_cast hb.le
    push_cast at h1 h2
    have h3 : (0 : ℚ) ≤ 2 ^ floorLog2 q.num.natAbs := by positivity
    have h4 : (0 : ℚ) ≤ (q.num.natAbs : ℚ) := by positivity
    calc (2 : ℚ) ^ floorLog2 q.num.natAbs * (q.den : ℚ)
        ≤ (2 : ℚ) ^ floorLog2 q.num.natAbs * 2 ^ (floorLog2 q.den + 1) :=
          mul_le_mul_of_nonneg_left h2 h3
      _ ≤ (q.num.natAbs : ℚ) * 2 ^ (floorLog2 q.den + 1) :=
          mul_le_mul_of_nonneg_right h1 hp.le

/-- Rounding to binary32 has relative error at most 2^-24. -/
theorem fl32_error (x : ℚ) : |fl32 x - x| ≤ 1 / 16777216 * |x| := by
  unfold fl32
  split_ifs with h
  · rw [h]; simp
  · have hp := pow2_pos (ilog2 x - 23)
    have hr := roundHalfEven_error (x / pow2 (ilog2 x - 23))
    have hlog := ilog2_le x h
    have hpow : pow2 (ilog2 x - 23) * 8388608 = pow2 (ilog2 x) := by
      rw [pow2_eq_zpow, pow2_eq_zpow, zpow_sub₀ (two_ne_zero)]
      norm_num
    have hdiff : (roundHalfEven (x / pow2 (ilog2 x - 23)) : ℚ) * pow2 (ilog2 x - 23) - x =
        ((roundHalfEven (x / pow2 (ilog2 x - 23)) : ℚ) - x / pow2 (ilog2 x - 23)) *
          pow2 (ilog2 x - 23) := by
      field_simp
    rw [hdiff, abs_mul, abs_of_pos hp]
    calc |(roundHalfEven (x / pow2 (ilog2 x - 23)) : ℚ) - x / pow2 (ilog2 x - 23)| *
          pow2 (ilog2 x - 23)
        ≤ 1 / 2 * pow2 (ilog2 x - 23) := mul_le_mul_of_nonneg_right hr hp.le
      _ = 1 / 16777216 * pow2 (ilog2 x) := by rw [← hpow]; ring
      _ ≤ 1 / 16777216 * |x| := mul_le_mul_of_nonneg_left hlog (by norm_num)

theorem fl_bounds (f : ℚ → ℚ) (u : ℚ) (hf : ∀ x, |f x - x| ≤ u * |x|) (hu0 : 0 ≤ u)
    (x k M : ℚ) (hk : |x| ≤ k * M) :
    f x - x ≤ k * (u * M) ∧ -(k * (u * M)) ≤ f x - x := by
  have h1 : |f x - x| ≤ k * (u * M) := by
    calc |f x - x| ≤ u * |x| := hf x
      _ ≤ u * (k * M) := mul_le_mul_of_nonneg_left hk hu0
      _ = k * (u * M) := by ring
  exact ⟨(abs_le.1 h1).2, (abs_le.1 h1).1⟩

theorem Clamp_bounds (p lo hi : ℚ) :
    lo ≤ Nz.Clamp p lo hi ∧ Nz.Clamp p lo hi ≤ max hi lo ∧
    Nz.Clamp p lo hi - p ≤ max (lo - p) 0 ∧ p - Nz.Clamp p lo hi ≤ max (p - hi) 0 := by
  unfold Nz.Clamp
  refine ⟨le_max_right _ _, max_le_max (min_le_right _ _) (le_refl _), ?_, ?_⟩
  · rcases le_total (min p hi) lo with h | h
    · rw [max_eq_right h]; exact le_max_left _ _
    · rw [max_eq_left h]
      exact le_trans (by linarith [min_le_left p hi]) (le_max_right _ _)
  · rcases le_total p hi with h | h
    · rw [min_eq_left h]
      exact le_trans (by linarith [le_max_left p lo]) (le_max_right _ _)
    · rw [min_eq_right h]
      exact le_trans (by linarith [le_max_left hi lo]) (le_max_left _ _)

/-- One axis of `DeformPosition` with radius 0 under a rounding of relative
error at most `u`: the result is within `18 u (|p| + |c| + d)` of the
coordinate `p`. -/
theorem zero_radius_axis (f : ℚ → ℚ) (u p c d s : ℚ) (hu0 : 0 ≤ u) (hu1 : u ≤ 1 / 16)
    (hf : ∀ x, |f x - x| ≤ u * |x|) (hd : |f (p - c)| ≤ d) (hs0 : 0 ≤ s)
    (hs : |s - d| ≤ u * d) :
    |f (Nz.Clamp p (f (c - s)) (f (f (c - s) + f (s * 2)))) - p|
      ≤ 18 * u * (|p| + |c| + d) := by
  have hd0 : 0 ≤ d := le_trans (abs_nonneg _) hd
  have hp0 := abs_nonneg p
  have hc0 := abs_nonneg c
  have hM0 : 0 ≤ |p| + |c| + d := by linarith
  have hE0 : 0 ≤ u * (|p| + |c| + d) := mul_nonneg hu0 hM0
  have hE1 : u * (|p| + |c| + d) ≤ 1 / 16 * (|p| + |c| + d) :=
    mul_le_mul_of_nonneg_right hu1 hM0
  have hud : u * d ≤ u * (|p| + |c| + d) :=
    mul_le_mul_of_nonneg_left (by linarith) hu0
  obtain ⟨hs1, hs2⟩ := abs_le.1 hs
  obtain ⟨hd1, hd2⟩ := abs_le.1 hd
  obtain ⟨hp1, hp2⟩ := abs_le.1 (le_refl |p|)
  obtain ⟨hc1, hc2⟩ := abs_le.1 (le_refl |c|)
  -- the rounded difference
  obtain ⟨a1, a2⟩ := fl_bounds f u hf hu0 (p - c) 1 (|p| + |c| + d)
    (by rw [one_mul]; exact le_trans (abs_sub p c) (by linarith))
  -- lower corner
  obtain ⟨b1, b2⟩ := fl_bounds f u hf hu0 (c - s) 3 (|p| + |c| + d)
    (by rw [abs_le]; constructor <;> linarith)
  -- doubled size
  obtain ⟨w1, w2⟩ := fl_bounds f u hf hu0 (s * 2) 3 (|p| + |c| + d)
    (by rw [abs_le]; constructor <;> linarith)
  -- upper corner
  obtain ⟨g1, g2⟩ := fl_bounds f u hf hu0 (f (c - s) + f (s * 2)) 7 (|p| + |c| + d)
    (by rw [abs_le]; constructor <;> linarith)
  obtain ⟨k1, k2, k3, k4⟩ := Clamp_bounds p (f (c - s)) (f (f (c - s) + f (s * 2)))
  have k3a : Nz.Clamp p (f (c - s)) (f (f (c - s) + f (s * 2))) - p
      ≤ 15 * (u * (|p| + |c| + d)) :=
    le_trans k3 (max_le (by linarith) (by linarith))
  have k4a : p - Nz.Clamp p (f (c - s)) (f (f (c - s) + f (s * 2)))
      ≤ 15 * (u * (|p| + |c| + d)) :=
    le_trans k4 (max_le (by linarith) (by linarith))
  obtain ⟨r1, r2⟩ := fl_bounds f u hf hu0
    (Nz.Clamp p (f (c - s)) (f (f (c - s) + f (s * 2)))) 3 (|p| + |c| + d)
    (by rw [abs_le]; constructor <;> linarith)
  rw [abs_le]
  constructor <;> linarith

theorem innerPos_components (A : FloatArith) (p c : Vector3f) (r : ℚ) :
    DeformedChunk.innerPos A p c r =
      ⟨Nz.Clamp p.x (A.fl (c.x - max (A.fl (DeformedChunk.distToCenter A p c - r)) 0))
          (A.fl (A.fl (c.x - max (A.fl (DeformedChunk.distToCenter A p c - r)) 0)
            + A.fl (max (A.fl (DeformedChunk.distToCenter A p c - r)) 0 * 2))),
        Nz.Clamp p.y (A.fl (c.y - max (A.fl (DeformedChunk.distToCenter A p c - r)) 0))
          (A.fl (A.fl (c.y - max (A.fl (DeformedChunk.distToCenter A p c - r)) 0)
            + A.fl (max (A.fl (DeformedChunk.distToCenter A p c - r)) 0 * 2))),
        Nz.Clamp p.z (A.fl (c.z - max (A.fl (DeformedChunk.distToCenter A p c - r)) 0))
          (A.fl (A.fl (c.z - max (A.fl (DeformedChunk.distToCenter A p c - r)) 0)
            + A.fl (max (A.fl (DeformedChunk.distToCenter A p c - r)) 0 * 2)))⟩ := by
  unfold DeformedChunk.innerPos DeformedChunk.innerBox
  simp only [Boxf.new, Boxf.GetMinimum, Boxf.GetMaximum, Vector3f.sub, Vector3f.add,
    Vector3f.splat, Vector3f.Clamp, FloatArith.sub, FloatArith.add, FloatArith.mul]

theorem distToCenter_axes (A : FloatArith) (p c : Vector3f) :
    |A.fl (p.x - c.x)| ≤ DeformedChunk.distToCenter A p c ∧
    |A.fl (p.y - c.y)| ≤ DeformedChunk.distToCenter A p c ∧
    |A.fl (p.z - c.z)| ≤ DeformedChunk.distToCenter A p c := by
  unfold DeformedChunk.distToCenter
  simp only [FloatArith.sub]
  exact ⟨le_max_of_le_left (le_max_left _ _), le_max_of_le_left (le_max_right _ _),
    le_max_right _ _⟩

/-- C13, amended: in float arithmetic in which every operation returns its
exact result with a relative error of at most u <= 1/16 (for binary32,
u = 2^-24, as long as no operation overflows or underflows), for every
position p and every center c each component of `DeformPosition(p, c, 0)`
differs from the same component of p by at most 18 u (|p_k| + |c_k| + d),
d being the computed maximum per-axis distance of p to c. With u = 0 (exact
arithmetic) the mapping with radius 0 is the identity. -/
theorem DeformedChunk.DeformPosition_zero (A : FloatArith) (u : ℚ) (p c : Vector3f)
    (hu0 : 0 ≤ u) (hu1 : u ≤ 1 / 16) (hfl : ∀ x, |A.fl x - x| ≤ u * |x|) :
    |(DeformedChunk.DeformPosition A p c 0).x - p.x|
      ≤ 18 * u * (|p.x| + |c.x| + DeformedChunk.distToCenter A p c) ∧
    |(DeformedChunk.DeformPosition A p c 0).y - p.y|
      ≤ 18 * u * (|p.y| + |c.y| + DeformedChunk.distToCenter A p c) ∧
    |(DeformedChunk.DeformPosition A p c 0).z - p.z|
      ≤ 18 * u * (|p.z| + |c.z| + DeformedChunk.distToCenter A p c) ∧
    (u = 0 → DeformedChunk.DeformPosition A p c 0 = p) := by
  have h0 : A.fl 0 = 0 := by
    have := hfl 0
    rw [abs_zero, mul_zero, sub_zero] at this
    exact abs_eq_zero.1 (le_antisymm this (abs_nonneg _))
  have hd := distToCenter_nonneg A p c
  have hs0 : 0 ≤ max (A.fl (DeformedChunk.distToCenter A p c - 0)) 0 := le_max_right _ _
  have hs : |max (A.fl (DeformedChunk.distToCenter A p c - 0)) 0
      - DeformedChunk.distToCenter A p c| ≤ u * DeformedChunk.distToCenter A p c := by
    have h1 := hfl (DeformedChunk.distToCenter A p c)
    rw [abs_of_nonneg hd] at h1
    rw [sub_zero]
    have h2 : 0 ≤ A.fl (DeformedChunk.distToCenter A p c) := by
      have := (abs_le.1 h1).1
      nlinarith
    rw [max_eq_left h2]
    exact h1
  obtain ⟨hx, hy, hz⟩ := distToCenter_axes A p c
  have hX := zero_radius_axis A.fl u p.x c.x _ _ hu0 hu1 hfl hx hs0 hs
  have hY := zero_radius_axis A.fl u p.y c.y _ _ hu0 hu1 hfl hy hs0 hs
  have hZ := zero_radius_axis A.fl u p.z c.z _ _ hu0 hu1 hfl hz hs0 hs
  have hres := radius_zero_result A p c h0
  rw [innerPos_components] at hres
  simp only at hres
  rw [hres]
  refine ⟨hX, hY, hZ, ?_⟩
  intro hu
  rw [hu] at hX hY hZ
  simp only [mul_zero, zero_mul] at hX hY hZ
  have ex := sub_eq_zero.1 (abs_eq_zero.1 (le_antisymm hX (abs_nonneg _)))
  have ey := sub_eq_zero.1 (abs_eq_zero.1 (le_antisymm hY (abs_nonneg _)))
  have ez := sub_eq_zero.1 (abs_eq_zero.1 (le_antisymm hZ (abs_nonneg _)))
  rw [ex, ey, ez]

/-- Witness of the amended C13 in binary32 arithmetic, at the position
(0.1f, 0, 0) and the center (1, 0, 0) for which the result is not the
position: the result 838861 / 2^23 is within the bound. -/
theorem DeformedChunk.DeformPosition_zero_witness :
    (DeformedChunk.DeformPosition binary32 ⟨13421773 / 134217728, 0, 0⟩ ⟨1, 0, 0⟩ 0).x
      = 838861 / 8388608 ∧
    |(DeformedChunk.DeformPosition binary32 ⟨13421773 / 134217728, 0, 0⟩ ⟨1, 0, 0⟩ 0).x
        - 13421773 / 134217728|
      ≤ 18 * (1 / 16777216) * (|(13421773 / 134217728 : ℚ)| + |(1 : ℚ)| +
          DeformedChunk.distToCenter binary32 ⟨13421773 / 134217728, 0, 0⟩ ⟨1, 0, 0⟩) :=
  ⟨by decide!,
    (DeformedChunk.DeformPosition_zero binary32 (1 / 16777216)
      ⟨13421773 / 134217728, 0, 0⟩ ⟨1, 0, 0⟩ (by norm_num) (by norm_num) fl32_error).1⟩

/-- Powers of two multiply by adding the exponents. -/
theorem pow2_add (a b : Int) : pow2 (a + b) = pow2 a * pow2 b := by
  rw [pow2_eq_zpow, pow2_eq_zpow, pow2_eq_zpow, zpow_add₀ (two_ne_zero)]

/-- For a natural exponent `pow2` is the plain power. -/
theorem pow2_natCast (n : Nat) : pow2 (n : Int) = (2 : ℚ) ^ n := by
  rw [pow2_eq_zpow, zpow_natCast]

/-- Monotonicity of `pow2`. -/
theorem pow2_mono (a b : Int) (h : a ≤ b) : pow2 a ≤ pow2 b := by
  obtain ⟨n, hn⟩ := Int.eq_ofNat_of_zero_le (sub_nonneg.2 h)
  have hb : b = a + (n : Int) := by omega
  rw [hb, pow2_add, pow2_natCast]
  have h1 : (1 : ℚ) ≤ 2 ^ n := one_le_pow₀ (by norm_num)
  have h2 := pow2_pos a
  nlinarith

/-- The upper bound of the exponent: `|q| < 2^(ilog2 q + 1)`. -/
theorem ilog2_lt (q : ℚ) (hq : q ≠ 0) : |q| < pow2 (ilog2 q + 1) := by
  have hn : 1 ≤ q.num.natAbs := by
    have : q.num ≠ 0 := Rat.num_ne_zero.2 hq
    omega
  have hd : 1 ≤ q.den := q.den_pos
  obtain ⟨_, ha⟩ := floorLog2_spec q.num.natAbs hn
  obtain ⟨hb, _⟩ := floorLog2_spec q.den hd
  have hden : (0 : ℚ) < q.den := by exact_mod_cast q.den_pos
  have habs : |q| = (q.num.natAbs : ℚ) / (q.den : ℚ) := by
    conv_lhs => rw [← Rat.num_div_den q]
    rw [abs_div, abs_of_pos hden, Nat.cast_natAbs, Int.cast_abs]
  have hlt : |q| < pow2 ((floorLog2 q.num.natAbs : Int) - (floorLog2 q.den : Int) + 1) := by
    have he : (floorLog2 q.num.natAbs : Int) - (floorLog2 q.den : Int) + 1 =
        ((floorLog2 q.num.natAbs + 1 : Nat) : Int) - (floorLog2 q.den : Int) := by
      push_cast; ring
    rw [pow2_eq_zpow, he, zpow_sub₀ (two_ne_zero), zpow_natCast, zpow_natCast, habs]
    have hp : (0 : ℚ) < 2 ^ floorLog2 q.den := by positivity
    rw [div_lt_div_iff₀ hden hp]
    have h1 : (q.num.natAbs : ℚ) < ((2 ^ (floorLog2 q.num.natAbs + 1) : Nat) : ℚ) := by
      exact_mod_cast ha
    have h2 : ((2 ^ floorLog2 q.den : Nat) : ℚ) ≤ ((q.den : Nat) : ℚ) := by
      exact_mod_cast hb
    push_cast at h1 h2
    have h4 : (0 : ℚ) ≤ (q.num.natAbs : ℚ) := by positivity
    calc (q.num.natAbs : ℚ) * 2 ^ floorLog2 q.den
        ≤ (q.num.natAbs : ℚ) * (q.den : ℚ) := mul_le_mul_of_nonneg_left h2 h4
      _ < 2 ^ (floorLog2 q.num.natAbs + 1) * (q.den : ℚ) :=
          mul_lt_mul_of_pos_right h1 hden
  unfold ilog2
  simp only
  split_ifs with h
  · exact hlt
  · have he : (floorLog2 q.num.natAbs : Int) - (floorLog2 q.den : Int) - 1 + 1 =
        (floorLog2 q.num.natAbs : Int) - (floorLog2 q.den : Int) := by ring
    rw [he]
    exact not_le.1 h

/-- Invariant of `sqrtLoop`: the root is bracketed bit by bit. -/
theorem sqrtLoop_spec (b : Nat) : ∀ n r : Nat, r * r ≤ n → n < (r + 2 ^ b) * (r + 2 ^ b) →
    sqrtLoop b n r * sqrtLoop b n r ≤ n ∧ n < (sqrtLoop b n r + 1) * (sqrtLoop b n r + 1) := by
  induction b with
  | zero =>
    intro n r h1 h2
    rw [sqrtLoop]
    exact ⟨h1, by simpa using h2⟩
  | succ b ih =>
    intro n r h1 h2
    rw [sqrtLoop]
    split_ifs with h
    · refine ih n (r + 2 ^ b) h ?_
      have : r + 2 ^ b + 2 ^ b = r + 2 ^ (b + 1) := by rw [pow_succ]; ring
      rw [this]
      exact h2
    · exact ih n r h1 (not_le.1 h)

/-- The integer root: `isqrt n ^ 2 ≤ n < (isqrt n + 1) ^ 2`. -/
theorem isqrt_spec (n : Nat) : isqrt n * isqrt n ≤ n ∧ n < (isqrt n + 1) * (isqrt n + 1) := by
  unfold isqrt
  apply sqrtLoop_spec
  · simp
  · rcases Nat.eq_zero_or_pos n with h | h
    · subst h
      have : 0 < 2 ^ (floorLog2 0 / 2 + 1) := by positivity
      simp
    · obtain ⟨_, h2⟩ := floorLog2_spec n h
      have h3 : 2 ^ (floorLog2 n + 1) ≤ 2 ^ (floorLog2 n / 2 + 1) * 2 ^ (floorLog2 n / 2 + 1) := by
        rw [← pow_add]
        exact Nat.pow_le_pow_right (by norm_num) (by omega)
      simp only [zero_add]
      omega

/-- Rounding to binary32 loses at most the factor 1 - 2^-24. -/
theorem fl32_lower (x : ℚ) (hx : 0 ≤ x) : (1 - 1 / 16777216) * x ≤ fl32 x := by
  have h := fl32_error x
  rw [abs_of_nonneg hx, abs_le] at h
  linarith [h.1]

/-- The square root of an exact square: the rounded root. -/
theorem sqrt32_exact_case (q : ℚ) (k : Int) (s : Nat)
    (hex : ((s * s : Nat) : ℚ) = q * pow2 (2 * k)) :
    0 ≤ fl32 ((s : ℚ) / pow2 k) ∧
      q * (1 - 1 / 16777216) ^ 2 ≤ fl32 ((s : ℚ) / pow2 k) * fl32 ((s : ℚ) / pow2 k) := by
  have hk := pow2_pos k
  have hx : (0 : ℚ) ≤ (s : ℚ) / pow2 k := by positivity
  have hl := fl32_lower _ hx
  have h0 : 0 ≤ (1 - 1 / 16777216) * ((s : ℚ) / pow2 k) := by positivity
  refine ⟨le_trans h0 hl, ?_⟩
  have h2 : pow2 (2 * k) = pow2 k * pow2 k := by
    rw [two_mul, pow2_add]
  have hqeq : q = ((s : ℚ) / pow2 k) * ((s : ℚ) / pow2 k) := by
    rw [h2] at hex
    push_cast at hex
    field_simp
    linarith
  calc q * (1 - 1 / 16777216) ^ 2
      = ((1 - 1 / 16777216) * ((s : ℚ) / pow2 k)) * ((1 - 1 / 16777216) * ((s : ℚ) / pow2 k)) := by
        rw [hqeq]; ring
    _ ≤ fl32 ((s : ℚ) / pow2 k) * fl32 ((s : ℚ) / pow2 k) :=
        mul_le_mul hl hl h0 (le_trans h0 hl)

/-- The square root of an inexact square: the midpoint `s + 1/2` of the
bracket of the root, with `s` of at least 31 bits, rounds to a value not below
`(s + 1) (1 - 2^-24)`, because the rounded value is a multiple of a float
spacing that is even in units of the bracket. -/
theorem sqrt32_midpoint_case (k : Int) (s : Nat) (hs : 1073741824 ≤ s) :
    ((s : ℚ) + 1) * (1 - 1 / 16777216) ≤
      fl32 (((2 * s + 1 : Nat) : ℚ) / pow2 (k + 1)) * pow2 k := by
  have hk := pow2_pos k
  have hk1 : pow2 (k + 1) = pow2 k * 2 := by
    rw [pow2_add]; rw [pow2_eq_zpow 1]; norm_num
  set m : ℚ := ((2 * s + 1 : Nat) : ℚ) / pow2 (k + 1) with hm
  have hmpos : 0 < m := by
    have : (0 : ℚ) < ((2 * s + 1 : Nat) : ℚ) := by positivity
    have := pow2_pos (k + 1)
    positivity
  have hmk : m * (pow2 k * 2) = 2 * (s : ℚ) + 1 := by
    rw [hm, hk1]
    push_cast
    field_simp
  have hlo := ilog2_le m hmpos.ne'
  have hhi := ilog2_lt m hmpos.ne'
  rw [abs_of_pos hmpos] at hlo hhi
  -- the exponent of the midpoint is at least 30 - k
  have ht : 30 ≤ ilog2 m + k := by
    by_contra hcon
    have h1 : ilog2 m + 1 + (k + 1) ≤ 31 := by omega
    have h2 := pow2_mono _ _ h1
    rw [pow2_add, hk1] at h2
    have h3 : pow2 31 = 2147483648 := by rw [pow2_eq_zpow]; norm_num
    have h4 : m * (pow2 k * 2) < pow2 (ilog2 m + 1) * (pow2 k * 2) :=
      mul_lt_mul_of_pos_right hhi (by positivity)
    have h5 : (1073741824 : ℚ) ≤ (s : ℚ) := by exact_mod_cast hs
    linarith
  obtain ⟨j, hj⟩ := Int.eq_ofNat_of_zero_le (show 0 ≤ ilog2 m + k - 24 by omega)
  -- the spacing of the floats around the midpoint, scaled: 2 * 2^j
  have hsp : pow2 (ilog2 m - 23) * pow2 k = 2 * 2 ^ j := by
    rw [← pow2_add]
    have : ilog2 m - 23 + k = (j : Int) + 1 := by omega
    rw [this, pow2_add, pow2_natCast, pow2_eq_zpow 1]
    norm_num
    ring
  have hsp0 : 0 < pow2 (ilog2 m - 23) := pow2_pos _
  -- 2^j * 2^24 ≤ s
  have hG : 2 ^ j * 16777216 ≤ s := by
    have h1 : pow2 (ilog2 m) = pow2 (ilog2 m - 23) * 8388608 := by
      have : ilog2 m = ilog2 m - 23 + 23 := by ring
      conv_lhs => rw [this]
      rw [pow2_add, pow2_eq_zpow 23]
      norm_num
    have h2 : pow2 (ilog2 m) * (pow2 k * 2) ≤ m * (pow2 k * 2) :=
      mul_le_mul_of_nonneg_right hlo (by positivity)
    rw [hmk, h1] at h2
    have h3 : pow2 (ilog2 m - 23) * 8388608 * (pow2 k * 2) =
        (pow2 (ilog2 m - 23) * pow2 k) * 16777216 := by ring
    rw [h3, hsp] at h2
    have h4 : ((2 * 2 ^ j * 16777216 : Nat) : ℚ) ≤ ((2 * s + 1 : Nat) : ℚ) := by
      push_cast
      linarith
    have h5 : 2 * 2 ^ j * 16777216 ≤ 2 * s + 1 := by exact_mod_cast h4
    omega
  -- the rounded significand
  have hr := roundHalfEven_error (m / pow2 (ilog2 m - 23))
  have hdiv : m / pow2 (ilog2 m - 23) = (2 * (s : ℚ) + 1) / (4 * 2 ^ j) := by
    rw [div_eq_div_iff hsp0.ne' (by positivity)]
    have : m * (4 * 2 ^ j) = m * (pow2 k * 2) * (2 * 2 ^ j) / pow2 k := by
      field_simp
      ring
    rw [this, hmk, ← hsp]
    field_simp
    ring
  rw [hdiv, abs_le] at hr
  have hpj : (0 : ℚ) < 2 ^ j := by positivity
  have hR : (2 * (s : ℚ) + 1) - 2 * 2 ^ j ≤
      (roundHalfEven ((2 * (s : ℚ) + 1) / (4 * 2 ^ j)) : ℚ) * (4 * 2 ^ j) := by
    have h1 := hr.1
    have h2 : (2 * (s : ℚ) + 1) / (4 * 2 ^ j) * (4 * 2 ^ j) = 2 * (s : ℚ) + 1 := by
      field_simp
    have h3 : (-(1 / 2) + (2 * (s : ℚ) + 1) / (4 * 2 ^ j)) * (4 * 2 ^ j) ≤
        (roundHalfEven ((2 * (s : ℚ) + 1) / (4 * 2 ^ j)) : ℚ) * (4 * 2 ^ j) :=
      mul_le_mul_of_nonneg_right (by linarith) (by positivity)
    have h4 : (-(1 / 2) + (2 * (s : ℚ) + 1) / (4 * 2 ^ j)) * (4 * 2 ^ j) =
        (2 * (s : ℚ) + 1) - 2 * 2 ^ j := by
      rw [add_mul, h2]; ring
    linarith
  -- integrality: the rounded value is a multiple of the spacing
  have hI : ((s : Int) + 1) - 2 ^ j ≤
      roundHalfEven ((2 * (s : ℚ) + 1) / (4 * 2 ^ j)) * (2 * 2 ^ j) := by
    have h1 : (((2 * (s : Int) + 1) - 2 * 2 ^ j : Int) : ℚ) ≤
        ((roundHalfEven ((2 * (s : ℚ) + 1) / (4 * 2 ^ j)) * (4 * 2 ^ j) : Int) : ℚ) := by
      push_cast
      exact hR
    have h2 : (2 * (s : Int) + 1) - 2 * 2 ^ j ≤
        roundHalfEven ((2 * (s : ℚ) + 1) / (4 * 2 ^ j)) * (4 * 2 ^ j) := by
      exact_mod_cast h1
    have h3 : roundHalfEven ((2 * (s : ℚ) + 1) / (4 * 2 ^ j)) * (4 * 2 ^ j) =
        4 * (roundHalfEven ((2 * (s : ℚ) + 1) / (4 * 2 ^ j)) * (2 : Int) ^ j) := by ring
    have h4 : roundHalfEven ((2 * (s : ℚ) + 1) / (4 * 2 ^ j)) * (2 * 2 ^ j) =
        2 * (roundHalfEven ((2 * (s : ℚ) + 1) / (4 * 2 ^ j)) * (2 : Int) ^ j) := by ring
    rw [h3] at h2
    rw [h4]
    generalize roundHalfEven ((2 * (s : ℚ) + 1) / (4 * 2 ^ j)) * (2 : Int) ^ j = X at h2 ⊢
    generalize (2 : Int) ^ j = P at h2 ⊢
    omega
  have hIq : ((s : ℚ) + 1) - 2 ^ j ≤
      (roundHalfEven ((2 * (s : ℚ) + 1) / (4 * 2 ^ j)) : ℚ) * (2 * 2 ^ j) := by
    have h1 : ((((s : Int) + 1) - 2 ^ j : Int) : ℚ) ≤
        ((roundHalfEven ((2 * (s : ℚ) + 1) / (4 * 2 ^ j)) * (2 * 2 ^ j) : Int) : ℚ) := by
      exact_mod_cast hI
    push_cast at h1
    exact h1
  have hGq : (2 : ℚ) ^ j * 16777216 ≤ (s : ℚ) := by exact_mod_cast hG
  have hfl : fl32 m * pow2 k =
      (roundHalfEven ((2 * (s : ℚ) + 1) / (4 * 2 ^ j)) : ℚ) * (2 * 2 ^ j) := by
    unfold fl32
    rw [if_neg hmpos.ne', mul_assoc, hsp, hdiv]
  rw [hfl]
  linarith

/-- The binary32 square root of the model is never negative and is at least
(1 - 2^-24) times the exact root, for every argument. -/
theorem sqrt32_lower (q : ℚ) :
    0 ≤ sqrt32 q ∧ q * (1 - 1 / 16777216) ^ 2 ≤ sqrt32 q * sqrt32 q := by
  unfold sqrt32
  by_cases hq : q ≤ 0
  · rw [if_pos hq]
    refine ⟨le_refl _, ?_⟩
    have : (0 : ℚ) ≤ (1 - 1 / 16777216) ^ 2 := by positivity
    nlinarith
  · rw [if_neg hq]
    have hq0 : 0 < q := not_le.1 hq
    simp only
    split_ifs with hex
    · exact sqrt32_exact_case q _ _ hex
    · set k : Int := 30 - ilog2 q / 2 with hk
      set Q : ℚ := q * pow2 (2 * k) with hQ
      set n : Nat := (Rat.floor Q).toNat with hn
      have hpk := pow2_pos k
      have h2k : pow2 (2 * k) = pow2 k * pow2 k := by rw [two_mul, pow2_add]
      -- the scaled argument is at least 2^60
      have hQ60 : (1152921504606846976 : ℚ) ≤ Q := by
        have h1 := ilog2_le q hq0.ne'
        rw [abs_of_pos hq0] at h1
        have h2 : pow2 60 ≤ pow2 (ilog2 q + 2 * k) := pow2_mono _ _ (by omega)
        rw [pow2_add] at h2
        have h3 : pow2 60 = 1152921504606846976 := by rw [pow2_eq_zpow]; norm_num
        have h4 : pow2 (ilog2 q) * pow2 (2 * k) ≤ q * pow2 (2 * k) :=
          mul_le_mul_of_nonneg_right h1 (pow2_pos _).le
        linarith
      have hfl0 : (1152921504606846976 : Int) ≤ Rat.floor Q := by
        rw [Rat.le_floor]
        exact_mod_cast hQ60
      have hnZ : ((n : Nat) : Int) = Rat.floor Q := by
        rw [hn]
        exact Int.toNat_of_nonneg (by omega)
      have hn60 : 1152921504606846976 ≤ n := by omega
      obtain ⟨_, hup⟩ := isqrt_spec n
      have hs : 1073741824 ≤ isqrt n := by
        by_contra hcon
        have h1 : isqrt n + 1 ≤ 1073741824 := by omega
        have h2 : (isqrt n + 1) * (isqrt n + 1) ≤ 1073741824 * 1073741824 :=
          Nat.mul_le_mul h1 h1
        omega
      have hQlt : Q < ((isqrt n : ℚ) + 1) * ((isqrt n : ℚ) + 1) := by
        have h1 : Q < ((Rat.floor Q : Int) : ℚ) + 1 := Int.lt_floor_add_one Q
        have h2 : ((n + 1 : Nat) : ℚ) ≤ (((isqrt n + 1) * (isqrt n + 1) : Nat) : ℚ) := by
          exact_mod_cast hup
        have h3 : ((n : Nat) : ℚ) = ((Rat.floor Q : Int) : ℚ) := by exact_mod_cast hnZ
        push_cast at h2
        linarith
      have hmid := sqrt32_midpoint_case k (isqrt n) hs
      set y : ℚ := fl32 (((2 * isqrt n + 1 : Nat) : ℚ) / pow2 (k + 1)) with hy
      have hs0 : (0 : ℚ) ≤ (isqrt n : ℚ) := by positivity
      have hb0 : (0 : ℚ) ≤ ((isqrt n : ℚ) + 1) * (1 - 1 / 16777216) := by positivity
      have hy0 : 0 ≤ y := by
        have : 0 ≤ y * pow2 k := le_trans hb0 hmid
        exact nonneg_of_mul_nonneg_left this hpk
      refine ⟨hy0, ?_⟩
      have hsq : (((isqrt n : ℚ) + 1) * (1 - 1 / 16777216)) *
          (((isqrt n : ℚ) + 1) * (1 - 1 / 16777216)) ≤ (y * pow2 k) * (y * pow2 k) :=
        mul_le_mul hmid hmid hb0 (le_trans hb0 hmid)
      have hqQ : q * (pow2 k * pow2 k) = Q := by rw [hQ, h2k]
      have hfin : q * (1 - 1 / 16777216) ^ 2 * (pow2 k * pow2 k) ≤ y * y * (pow2 k * pow2 k) := by
        have h1 : q * (1 - 1 / 16777216) ^ 2 * (pow2 k * pow2 k) = Q * (1 - 1 / 16777216) ^ 2 := by
          rw [← hqQ]; ring
        have h2 : Q * (1 - 1 / 16777216) ^ 2 ≤
            (((isqrt n : ℚ) + 1) * ((isqrt n : ℚ) + 1)) * (1 - 1 / 16777216) ^ 2 :=
          mul_le_mul_of_nonneg_right hQlt.le (by positivity)
        rw [h1]
        nlinarith
      exact le_of_mul_le_mul_right hfin (by positivity)

theorem pow_five_mul (a b : ℚ) : a ^ 5 * b = a ^ 2 * (a ^ 3 * b) := by ring

theorem normal_poly (u : ℚ) (hu0 : 0 ≤ u) (hu1 : u ≤ 1 / 16) :
    (1 + u) ^ 4 ≤ (1 + 8 * u) ^ 2 * (1 - u) ^ 5 := by
  have h1 : (1 + u) ^ 4 ≤ 1 + 4 * u + 7 * u ^ 2 := by
    have e : (1 + u) ^ 4 = 1 + 4 * u + 6 * u ^ 2 + u ^ 2 * (4 * u + u ^ 2) := by ring
    rw [e]
    have h3 : 4 * u + u ^ 2 ≤ 1 := by nlinarith
    have h4 : u ^ 2 * (4 * u + u ^ 2) ≤ u ^ 2 * 1 :=
      mul_le_mul_of_nonneg_left h3 (by positivity)
    linarith
  have h2 : 1 - 5 * u ≤ (1 - u) ^ 5 := by
    have := one_add_mul_le_pow (show (-2 : ℚ) ≤ -u by linarith) 5
    have e : (1 : ℚ) + ((5 : ℕ) : ℚ) * -u = 1 - 5 * u := by push_cast; ring
    have e2 : (1 : ℚ) + -u = 1 - u := by ring
    rw [e, e2] at this
    exact this
  have h3 : (1 + 16 * u) ≤ (1 + 8 * u) ^ 2 := by nlinarith [sq_nonneg u]
  have h4 : (1 + 16 * u) * (1 - 5 * u) ≤ (1 + 8 * u) ^ 2 * (1 - u) ^ 5 :=
    mul_le_mul h3 h2 (by linarith) (by positivity)
  nlinarith

/-- A component of the normal computed by `Normalize` under a rounding of
relative error at most `u`: its absolute value is at most `1 + 8 u`. -/
theorem normal_axis (f : ℚ → ℚ) (u w q L : ℚ) (hu0 : 0 ≤ u) (hu1 : u ≤ 1 / 16)
    (hf : ∀ x, |f x - x| ≤ u * |x|) (hL0 : 0 ≤ L)
    (hw : (1 - u) ^ 3 * (w * w) ≤ q) (hq : q * (1 - u) ^ 2 ≤ L * L) :
    |if 0 < L then f (w * f (1 / L)) else w| ≤ 1 + 8 * u := by
  have h1u : 0 < 1 - u := by linarith
  have hw5 : (1 - u) ^ 5 * (w * w) ≤ L * L := by
    rw [pow_five_mul]
    calc (1 - u) ^ 2 * ((1 - u) ^ 3 * (w * w)) ≤ (1 - u) ^ 2 * q :=
          mul_le_mul_of_nonneg_left hw (by positivity)
      _ = q * (1 - u) ^ 2 := by ring
      _ ≤ L * L := hq
  split_ifs with hL
  · -- the reciprocal and the product
    have hL1 : |(1 : ℚ) / L| = 1 / L := abs_of_pos (one_div_pos.2 hL)
    have ht := hf (1 / L)
    rw [hL1] at ht
    have ht2 : |f (1 / L)| ≤ (1 + u) * (1 / L) := by
      have := abs_le.1 ht
      rw [abs_le]
      have hpos : 0 ≤ 1 / L := (one_div_pos.2 hL).le
      constructor <;> nlinarith
    have hy : |w * f (1 / L)| ≤ (1 + u) * (|w| * (1 / L)) := by
      rw [abs_mul]
      calc |w| * |f (1 / L)| ≤ |w| * ((1 + u) * (1 / L)) :=
            mul_le_mul_of_nonneg_left ht2 (abs_nonneg _)
        _ = (1 + u) * (|w| * (1 / L)) := by ring
    have hn : |f (w * f (1 / L))| ≤ (1 + u) * |w * f (1 / L)| := by
      have := abs_le.1 (hf (w * f (1 / L)))
      have h0 := abs_nonneg (w * f (1 / L))
      rw [abs_le]
      obtain ⟨g1, g2⟩ := abs_le.1 (le_refl |w * f (1 / L)|)
      constructor <;> nlinarith
    have hrho0 : 0 ≤ |w| * (1 / L) := mul_nonneg (abs_nonneg _) (one_div_pos.2 hL).le
    have hrho : (1 - u) ^ 5 * (|w| * (1 / L)) ^ 2 ≤ 1 := by
      have e : (1 - u) ^ 5 * (|w| * (1 / L)) ^ 2 = (1 - u) ^ 5 * (w * w) / (L * L) := by
        rw [mul_pow, sq_abs]
        field_simp
        ring
      rw [e, div_le_one (mul_pos hL hL)]
      exact hw5
    have hgoal : (1 + u) ^ 2 * (|w| * (1 / L)) ≤ 1 + 8 * u := by
      by_contra hcon
      have hgt : 1 + 8 * u < (1 + u) ^ 2 * (|w| * (1 / L)) := not_le.1 hcon
      have hsq : (1 + 8 * u) ^ 2 < ((1 + u) ^ 2 * (|w| * (1 / L))) ^ 2 :=
        pow_lt_pow_left₀ hgt (by linarith) (by norm_num)
      have hp5 : 0 < (1 - u) ^ 5 := by positivity
      have hpoly := normal_poly u hu0 hu1
      have h4 : 0 ≤ (1 + u) ^ 4 := by positivity
      have hlt : (1 + 8 * u) ^ 2 * (1 - u) ^ 5 <
          ((1 + u) ^ 2 * (|w| * (1 / L))) ^ 2 * (1 - u) ^ 5 :=
        mul_lt_mul_of_pos_right hsq hp5
      have hle : ((1 + u) ^ 2 * (|w| * (1 / L))) ^ 2 * (1 - u) ^ 5 ≤ (1 + u) ^ 4 := by
        have e : ((1 + u) ^ 2 * (|w| * (1 / L))) ^ 2 * (1 - u) ^ 5 =
            (1 + u) ^ 4 * ((1 - u) ^ 5 * (|w| * (1 / L)) ^ 2) := by ring
        rw [e]
        calc (1 + u) ^ 4 * ((1 - u) ^ 5 * (|w| * (1 / L)) ^ 2) ≤ (1 + u) ^ 4 * 1 :=
              mul_le_mul_of_nonneg_left hrho h4
          _ = (1 + u) ^ 4 := mul_one _
      linarith
    calc |f (w * f (1 / L))| ≤ (1 + u) * |w * f (1 / L)| := hn
      _ ≤ (1 + u) * ((1 + u) * (|w| * (1 / L))) :=
          mul_le_mul_of_nonneg_left hy (by linarith)
      _ = (1 + u) ^ 2 * (|w| * (1 / L)) := by ring
      _ ≤ 1 + 8 * u := hgoal
  · have hL00 : L = 0 := le_antisymm (not_lt.1 hL) hL0
    rw [hL00, mul_zero] at hw5
    have hp5 : 0 < (1 - u) ^ 5 := by positivity
    have hww : w * w ≤ 0 := by
      by_contra hcon
      have := mul_pos hp5 (not_le.1 hcon)
      linarith
    have hw0 : w = 0 := mul_self_eq_zero.1 (le_antisymm hww (mul_self_nonneg w))
    rw [hw0, abs_zero]
    linarith

theorem fl_lower (f : ℚ → ℚ) (u : ℚ) (hf : ∀ x, |f x - x| ≤ u * |x|) (x : ℚ) (hx : 0 ≤ x) :
    (1 - u) * x ≤ f x := by
  have h := hf x
  rw [abs_of_nonneg hx] at h
  have := (abs_le.1 h).1
  linarith

/-- The squared length computed by `GetSquaredLength` is at least
`(1 - u)^3` times the square of each component. -/
theorem sqlen_lower (f : ℚ → ℚ) (u vx vy vz : ℚ) (hu0 : 0 ≤ u) (hu1 : u ≤ 1 / 16)
    (hf : ∀ x, |f x - x| ≤ u * |x|) :
    (1 - u) ^ 3 * (vx * vx) ≤ f (f (f (vx * vx) + f (vy * vy)) + f (vz * vz)) ∧
    (1 - u) ^ 3 * (vy * vy) ≤ f (f (f (vx * vx) + f (vy * vy)) + f (vz * vz)) ∧
    (1 - u) ^ 3 * (vz * vz) ≤ f (f (f (vx * vx) + f (vy * vy)) + f (vz * vz)) := by
  have h1u : 0 ≤ 1 - u := by linarith
  have hu1' : 1 - u ≤ 1 := by linarith
  have ax := fl_lower f u hf (vx * vx) (mul_self_nonneg vx)
  have ay := fl_lower f u hf (vy * vy) (mul_self_nonneg vy)
  have az := fl_lower f u hf (vz * vz) (mul_self_nonneg vz)
  have ax0 : 0 ≤ f (vx * vx) := le_trans (mul_nonneg h1u (mul_self_nonneg vx)) ax
  have ay0 : 0 ≤ f (vy * vy) := le_trans (mul_nonneg h1u (mul_self_nonneg vy)) ay
  have az0 : 0 ≤ f (vz * vz) := le_trans (mul_nonneg h1u (mul_self_nonneg vz)) az
  have hb := fl_lower f u hf (f (vx * vx) + f (vy * vy)) (add_nonneg ax0 ay0)
  have hb0 : 0 ≤ f (f (vx * vx) + f (vy * vy)) :=
    le_trans (mul_nonneg h1u (add_nonneg ax0 ay0)) hb
  have hq := fl_lower f u hf (f (f (vx * vx) + f (vy * vy)) + f (vz * vz))
    (add_nonneg hb0 az0)
  have sx : (1 - u) ^ 3 * (vx * vx) ≤ (1 - u) * ((1 - u) * f (vx * vx)) := by
    have : (1 - u) ^ 3 * (vx * vx) = (1 - u) * ((1 - u) * ((1 - u) * (vx * vx))) := by ring
    rw [this]
    exact mul_le_mul_of_nonneg_left (mul_le_mul_of_nonneg_left ax h1u) h1u
  have sy : (1 - u) ^ 3 * (vy * vy) ≤ (1 - u) * ((1 - u) * f (vy * vy)) := by
    have : (1 - u) ^ 3 * (vy * vy) = (1 - u) * ((1 - u) * ((1 - u) * (vy * vy))) := by ring
    rw [this]
    exact mul_le_mul_of_nonneg_left (mul_le_mul_of_nonneg_left ay h1u) h1u
  have sz : (1 - u) ^ 3 * (vz * vz) ≤ (1 - u) * f (vz * vz) := by
    have : (1 - u) ^ 3 * (vz * vz) = (1 - u) * ((1 - u) * ((1 - u) * (vz * vz))) := by ring
    rw [this]
    have h2 : (1 - u) * ((1 - u) * (vz * vz)) ≤ (1 - u) * (vz * vz) := by
      have := mul_le_mul_of_nonneg_right hu1' (mul_nonneg h1u (mul_self_nonneg vz))
      linarith
    exact mul_le_mul_of_nonneg_left (le_trans h2 az) h1u
  have hb2 : (1 - u) * ((1 - u) * (f (vx * vx) + f (vy * vy))) ≤
      (1 - u) * f (f (vx * vx) + f (vy * vy)) := mul_le_mul_of_nonneg_left hb h1u
  have e1 : (1 - u) * ((1 - u) * (f (vx * vx) + f (vy * vy))) =
      (1 - u) * ((1 - u) * f (vx * vx)) + (1 - u) * ((1 - u) * f (vy * vy)) := by ring
  have n1 : 0 ≤ (1 - u) * ((1 - u) * f (vx * vx)) := mul_nonneg h1u (mul_nonneg h1u ax0)
  have n2 : 0 ≤ (1 - u) * ((1 - u) * f (vy * vy)) := mul_nonneg h1u (mul_nonneg h1u ay0)
  have n3 : 0 ≤ (1 - u) * f (vz * vz) := mul_nonneg h1u az0
  have n4 : 0 ≤ (1 - u) * f (f (vx * vx) + f (vy * vy)) := mul_nonneg h1u hb0
  have e2 : (1 - u) * (f (f (vx * vx) + f (vy * vy)) + f (vz * vz)) =
      (1 - u) * f (f (vx * vx) + f (vy * vy)) + (1 - u) * f (vz * vz) := by ring
  refine ⟨by linarith, by linarith, by linarith⟩

/-- The inner reduction `s = max (fl (d - r), 0)` and the displacement
`min (r, d)` add up to at most `d + u d`. -/
theorem reduction_bounds (f : ℚ → ℚ) (u d r : ℚ) (hu0 : 0 ≤ u) (hu1 : u ≤ 1 / 16)
    (hf : ∀ x, |f x - x| ≤ u * |x|) (hd0 : 0 ≤ d) (hr : 0 ≤ r) :
    0 ≤ max (f (d - r)) 0 ∧ 0 ≤ min r d ∧ min r d ≤ d ∧
    max (f (d - r)) 0 + min r d ≤ d + u * d := by
  have hud : 0 ≤ u * d := mul_nonneg hu0 hd0
  refine ⟨le_max_right _ _, le_min hr hd0, min_le_right _ _, ?_⟩
  have h := hf (d - r)
  rcases le_total r d with hrd | hrd
  · rw [abs_of_nonneg (by linarith : 0 ≤ d - r)] at h
    have h2 := (abs_le.1 h).2
    have h3 : u * (d - r) ≤ u * d := mul_le_mul_of_nonneg_left (by linarith) hu0
    have h4 : 0 ≤ u * (d - r) := mul_nonneg hu0 (by linarith)
    rw [min_eq_left hrd]
    have : max (f (d - r)) 0 ≤ d - r + u * (d - r) := max_le (by linarith) (by linarith)
    linarith
  · rw [abs_of_nonpos (by linarith : d - r ≤ 0)] at h
    have h2 := (abs_le.1 h).2
    have h4 : u * -(d - r) ≤ 1 * -(d - r) :=
      mul_le_mul_of_nonneg_right (by linarith) (by linarith)
    rw [min_eq_right hrd, max_eq_right (by linarith)]
    linarith

/-- One axis of `DeformPosition` under a rounding of relative error at most
`u`, for a normal component of absolute value at most `1 + 8 u`: the result
is within `d + 28 u (|c| + d)` of the coordinate `c` of the center. -/
theorem cube_axis (f : ℚ → ℚ) (u p c d r n : ℚ) (hu0 : 0 ≤ u) (hu1 : u ≤ 1 / 16)
    (hf : ∀ x, |f x - x| ≤ u * |x|) (hd0 : 0 ≤ d) (hr : 0 ≤ r) (hn : |n| ≤ 1 + 8 * u) :
    |f (Nz.Clamp p (f (c - max (f (d - r)) 0))
          (f (f (c - max (f (d - r)) 0) + f (max (f (d - r)) 0 * 2)))
        + f (n * min r d)) - c|
      ≤ d + 28 * u * (|c| + d) := by
  obtain ⟨hs0, hm0, hmd, hsm⟩ := reduction_bounds f u d r hu0 hu1 hf hd0 hr
  have hc0 := abs_nonneg c
  have hM0 : 0 ≤ |c| + d := by linarith
  have hE0 : 0 ≤ u * (|c| + d) := mul_nonneg hu0 hM0
  have hE1 : u * (|c| + d) ≤ 1 / 16 * (|c| + d) := mul_le_mul_of_nonneg_right hu1 hM0
  have hud : u * d ≤ u * (|c| + d) := mul_le_mul_of_nonneg_left (by linarith) hu0
  have hud0 : 0 ≤ u * d := mul_nonneg hu0 hd0
  have hum : u * min r d ≤ u * d := mul_le_mul_of_nonneg_left hmd hu0
  have hum0 : 0 ≤ u * min r d := mul_nonneg hu0 hm0
  obtain ⟨hc1, hc2⟩ := abs_le.1 (le_refl |c|)
  -- lower corner, doubled size, upper corner
  obtain ⟨b1, b2⟩ := fl_bounds f u hf hu0 (c - max (f (d - r)) 0) 3 (|c| + d)
    (by rw [abs_le]; constructor <;> linarith)
  obtain ⟨w1, w2⟩ := fl_bounds f u hf hu0 (max (f (d - r)) 0 * 2) 3 (|c| + d)
    (by rw [abs_le]; constructor <;> linarith)
  obtain ⟨g1, g2⟩ := fl_bounds f u hf hu0
    (f (c - max (f (d - r)) 0) + f (max (f (d - r)) 0 * 2)) 7 (|c| + d)
    (by rw [abs_le]; constructor <;> linarith)
  obtain ⟨k1, k2, _, _⟩ := Clamp_bounds p (f (c - max (f (d - r)) 0))
    (f (f (c - max (f (d - r)) 0) + f (max (f (d - r)) 0 * 2)))
  have k2a : Nz.Clamp p (f (c - max (f (d - r)) 0))
      (f (f (c - max (f (d - r)) 0) + f (max (f (d - r)) 0 * 2)))
      ≤ c + max (f (d - r)) 0 + 13 * (u * (|c| + d)) :=
    le_trans k2 (max_le (by linarith) (by linarith))
  -- the displacement along the normal
  have hnm : |n * min r d| ≤ min r d + 8 * (u * min r d) := by
    rw [abs_mul, abs_of_nonneg hm0]
    calc |n| * min r d ≤ (1 + 8 * u) * min r d := mul_le_mul_of_nonneg_right hn hm0
      _ = min r d + 8 * (u * min r d) := by ring
  obtain ⟨n1, n2⟩ := abs_le.1 hnm
  obtain ⟨t1, t2⟩ := fl_bounds f u hf hu0 (n * min r d) 2 (|c| + d)
    (le_trans hnm (by linarith))
  obtain ⟨r1, r2⟩ := fl_bounds f u hf hu0
    (Nz.Clamp p (f (c - max (f (d - r)) 0))
        (f (f (c - max (f (d - r)) 0) + f (max (f (d - r)) 0 * 2)))
      + f (n * min r d)) 3 (|c| + d)
    (by rw [abs_le]; constructor <;> linarith)
  rw [abs_le]
  constructor <;> linarith

theorem DeformPosition_components (A : FloatArith) (p c : Vector3f) (r : ℚ) :
    DeformedChunk.DeformPosition A p c r =
      ⟨A.fl ((DeformedChunk.innerPos A p c r).x +
          A.fl ((if 0 < A.sqrt (Vector3f.GetSquaredLength A
                (Vector3f.sub A p (DeformedChunk.innerPos A p c r)))
            then A.fl ((Vector3f.sub A p (DeformedChunk.innerPos A p c r)).x *
              A.fl (1 / A.sqrt (Vector3f.GetSquaredLength A
                (Vector3f.sub A p (DeformedChunk.innerPos A p c r)))))
            else (Vector3f.sub A p (DeformedChunk.innerPos A p c r)).x) *
            min r (DeformedChunk.distToCenter A p c))),
        A.fl ((DeformedChunk.innerPos A p c r).y +
          A.fl ((if 0 < A.sqrt (Vector3f.GetSquaredLength A
                (Vector3f.sub A p (DeformedChunk.innerPos A p c r)))
            then A.fl ((Vector3f.sub A p (DeformedChunk.innerPos A p c r)).y *
              A.fl (1 / A.sqrt (Vector3f.GetSquaredLength A
                (Vector3f.sub A p (DeformedChunk.innerPos A p c r)))))
            else (Vector3f.sub A p (DeformedChunk.innerPos A p c r)).y) *
            min r (DeformedChunk.distToCenter A p c))),
        A.fl ((DeformedChunk.innerPos A p c r).z +
          A.fl ((if 0 < A.sqrt (Vector3f.GetSquaredLength A
                (Vector3f.sub A p (DeformedChunk.innerPos A p c r)))
            then A.fl ((Vector3f.sub A p (DeformedChunk.innerPos A p c r)).z *
              A.fl (1 / A.sqrt (Vector3f.GetSquaredLength A
                (Vector3f.sub A p (DeformedChunk.innerPos A p c r)))))
            else (Vector3f.sub A p (DeformedChunk.innerPos A p c r)).z) *
            min r (DeformedChunk.distToCenter A p c)))⟩ := by
  unfold DeformedChunk.DeformPosition Vector3f.Normalize Vector3f.GetLength
  split_ifs <;>
    simp only [Vector3f.add, Vector3f.scale, FloatArith.add, FloatArith.mul,
      FloatArith.div]

/-- C29, amended: in float arithmetic in which every operation returns its
exact result with a relative error of at most u <= 1/16 (for binary32,
u = 2^-24, as long as no operation overflows or underflows), and in which the
square root taken by `Normalize` is not negative and not below (1 - u) times
the exact root, for every center c, every radius r >= 0 and every position p
each component of `DeformPosition(p, c, r)` differs from the same component of
c by at most d + 28 u (|c_k| + d), d being the computed maximum per-axis
distance of p to c: the result lies in the cube of half-extent d around c up
to that rounding tolerance. With u = 0 (exact arithmetic) it lies in the
cube. -/
theorem DeformedChunk.DeformPosition_cube (A : FloatArith) (u : ℚ) (p c : Vector3f) (r : ℚ)
    (hu0 : 0 ≤ u) (hu1 : u ≤ 1 / 16) (hfl : ∀ x, |A.fl x - x| ≤ u * |x|) (hr : 0 ≤ r)
    (hsqrt : 0 ≤ A.sqrt (Vector3f.GetSquaredLength A
        (Vector3f.sub A p (DeformedChunk.innerPos A p c r))) ∧
      Vector3f.GetSquaredLength A (Vector3f.sub A p (DeformedChunk.innerPos A p c r))
          * (1 - u) ^ 2 ≤
        A.sqrt (Vector3f.GetSquaredLength A
          (Vector3f.sub A p (DeformedChunk.innerPos A p c r))) *
        A.sqrt (Vector3f.GetSquaredLength A
          (Vector3f.sub A p (DeformedChunk.innerPos A p c r)))) :
    |(DeformedChunk.DeformPosition A p c r).x - c.x|
      ≤ DeformedChunk.distToCenter A p c
        + 28 * u * (|c.x| + DeformedChunk.distToCenter A p c) ∧
    |(DeformedChunk.DeformPosition A p c r).y - c.y|
      ≤ DeformedChunk.distToCenter A p c
        + 28 * u * (|c.y| + DeformedChunk.distToCenter A p c) ∧
    |(DeformedChunk.DeformPosition A p c r).z - c.z|
      ≤ DeformedChunk.distToCenter A p c
        + 28 * u * (|c.z| + DeformedChunk.distToCenter A p c) := by
  have hd := distToCenter_nonneg A p c
  obtain ⟨hL0, hq⟩ := hsqrt
  obtain ⟨sx, sy, sz⟩ := sqlen_lower A.fl u
    (Vector3f.sub A p (DeformedChunk.innerPos A p c r)).x
    (Vector3f.sub A p (DeformedChunk.innerPos A p c r)).y
    (Vector3f.sub A p (DeformedChunk.innerPos A p c r)).z hu0 hu1 hfl
  have hsq : Vector3f.GetSquaredLength A (Vector3f.sub A p (DeformedChunk.innerPos A p c r))
      = A.fl (A.fl (A.fl ((Vector3f.sub A p (DeformedChunk.innerPos A p c r)).x *
            (Vector3f.sub A p (DeformedChunk.innerPos A p c r)).x) +
          A.fl ((Vector3f.sub A p (DeformedChunk.innerPos A p c r)).y *
            (Vector3f.sub A p (DeformedChunk.innerPos A p c r)).y)) +
        A.fl ((Vector3f.sub A p (DeformedChunk.innerPos A p c r)).z *
          (Vector3f.sub A p (DeformedChunk.innerPos A p c r)).z)) := rfl
  rw [← hsq] at sx sy sz
  have hnx := normal_axis A.fl u _ _ _ hu0 hu1 hfl hL0 sx hq
  have hny := normal_axis A.fl u _ _ _ hu0 hu1 hfl hL0 sy hq
  have hnz := normal_axis A.fl u _ _ _ hu0 hu1 hfl hL0 sz hq
  have hX := cube_axis A.fl u p.x c.x _ r _ hu0 hu1 hfl hd hr hnx
  have hY := cube_axis A.fl u p.y c.y _ r _ hu0 hu1 hfl hd hr hny
  have hZ := cube_axis A.fl u p.z c.z _ r _ hu0 hu1 hfl hd hr hnz
  have hip := innerPos_components A p c r
  have hipx : (DeformedChunk.innerPos A p c r).x = _ := congrArg Vector3f.x hip
  have hipy : (DeformedChunk.innerPos A p c r).y = _ := congrArg Vector3f.y hip
  have hipz : (DeformedChunk.innerPos A p c r).z = _ := congrArg Vector3f.z hip
  simp only at hipx hipy hipz
  rw [DeformPosition_components]
  simp only
  rw [← hipx] at hX
  rw [← hipy] at hY
  rw [← hipz] at hZ
  exact ⟨hX, hY, hZ⟩

/-- Witness of the amended C29 in binary32 arithmetic, at the center
(1, 0, 0), the position (1.5, 0, 0) and the radius 0.1f for which the result
leaves the cube: the result 12582913 / 2^23 is within the tolerance. -/
theorem DeformedChunk.DeformPosition_cube_witness :
    (DeformedChunk.DeformPosition binary32 ⟨3 / 2, 0, 0⟩ ⟨1, 0, 0⟩ (13421773 / 134217728)).x
      = 12582913 / 8388608 ∧
    |(DeformedChunk.DeformPosition binary32 ⟨3 / 2, 0, 0⟩ ⟨1, 0, 0⟩
        (13421773 / 134217728)).x - 1|
      ≤ DeformedChunk.distToCenter binary32 ⟨3 / 2, 0, 0⟩ ⟨1, 0, 0⟩
        + 28 * (1 / 16777216) *
          (|(1 : ℚ)| + DeformedChunk.distToCenter binary32 ⟨3 / 2, 0, 0⟩ ⟨1, 0, 0⟩) :=
  ⟨by decide!,
    (DeformedChunk.DeformPosition_cube binary32 (1 / 16777216) ⟨3 / 2, 0, 0⟩ ⟨1, 0, 0⟩
      (13421773 / 134217728) (by norm_num) (by norm_num) fl32_error (by norm_num)
      (sqrt32_lower _)).1⟩

end tsom
